import Mathlib

/-!
# Mini-Compiler: lexer, parser and interpreter

A shallow embedding of `Lexer.h`, `Parser.h`, `Interpreter.h` and the driver in
`main.cpp`, followed by theorems about them.

Conventions of the embedding.

* A `std::string` source is a `List Char`; a character outside ASCII stands for
  bytes that no `<cctype>` class of the "C" locale accepts.
* The lexer's pair `(input, pos)` is kept as the unread suffix `input[pos..]`;
  `currentChar` is the head of that suffix, or NUL when the suffix is empty.
* A `Queue<Token>` is the list of its elements, front first; the storage of the
  queue and of the tree (allocation, copies, destructors) is not represented.
* `int` is a 32 bit two's complement integer: values are `Int`s and every
  arithmetic result is brought back into range by `wrapInt`.  The division of
  `INT_MIN` by -1, with `/` or `%`, has no value on the usual targets (it traps):
  it is a result of its own (`undefined`), never confused with a value or a C++
  exception.  Line counters are natural numbers.
* Loops and recursive procedures take a `fuel` argument, one unit for each call
  or turn of a loop; running out of fuel is a result of its own (`timeout`),
  never confused with a C++ exception.  The relations `Runs`, `Parses`,
  `Parser.Runs` and `Interpreter.Visits` say what a computation ends in once
  it is given enough fuel.
* A C++ exception is a value of an error type with one constructor per `throw`
  site; `what` renders the text of the exception and `line` the line it cites.
-/

namespace MiniCompiler

/-! ## Lexer.h -/

/-- Token types (`enum TokenType`). -/
inductive TokenType
  | T_IDENTIFIER
  | T_NUMBER
  | T_OPERATOR
  | T_ASSIGN
  | T_SEMICOLON
  | T_LPAREN
  | T_RPAREN
  | T_LBRACE
  | T_RBRACE
  | T_IF
  | T_ELSE
  | T_WHILE
  | T_PRINT
  | T_EOF
  | T_UNKNOWN
  deriving DecidableEq, Repr

open TokenType

/-- Token structure (`struct Token`). -/
structure Token where
  type : TokenType
  value : String
  lineNumber : Nat
  deriving DecidableEq, Repr

/-- The `isspace` of the "C" locale: space, `\t`, `\n`, `\v`, `\f`, `\r`. -/
def isspace (c : Char) : Bool :=
  c.toNat = 32 || (9 ≤ c.toNat && c.toNat ≤ 13)

/-- The `isdigit` of the "C" locale. -/
def isdigit (c : Char) : Bool :=
  48 ≤ c.toNat && c.toNat ≤ 57

/-- The `isalpha` of the "C" locale. -/
def isalpha (c : Char) : Bool :=
  (65 ≤ c.toNat && c.toNat ≤ 90) || (97 ≤ c.toNat && c.toNat ≤ 122)

/-- The `isalnum` of the "C" locale. -/
def isalnum (c : Char) : Bool :=
  isalpha c || isdigit c

/-- The exception thrown by the lexer: `"Unknown character 'c' at line n"`. -/
inductive LexError
  | unknownCharacter (c : Char) (line : Nat)
  deriving DecidableEq, Repr

/-- The line number cited by a lexer exception. -/
def LexError.line : LexError → Option Nat
  | .unknownCharacter _ line => some line

/-- The text of a lexer exception. -/
def LexError.what : LexError → String
  | .unknownCharacter c line =>
    "Unknown character '" ++ String.singleton c ++ "' at line " ++ toString line

/-- State of a `Lexer` object: `rest` is `input[pos..]`. -/
structure Lexer where
  rest : List Char
  lineNumber : Nat
  deriving DecidableEq, Repr

/-- The member `currentChar`: `input[pos]`, or NUL once `pos` is past the end. -/
def Lexer.currentChar (s : Lexer) : Char :=
  s.rest.headD '\x00'

/-- The constructor `Lexer(input)`: position 0, line 1. -/
def Lexer.new (input : List Char) : Lexer :=
  ⟨input, 1⟩

/-- The method `Lexer::advance`: count the line when leaving a newline, then step. -/
def Lexer.advance (s : Lexer) : Lexer :=
  ⟨s.rest.tail, if s.currentChar = '\n' then s.lineNumber + 1 else s.lineNumber⟩

/-- The loop of `Lexer::skipWhitespace`. -/
def Lexer.skipWhitespaceLoop : Nat → Lexer → Option Lexer
  | 0, _ => none
  | fuel + 1, s =>
    if s.currentChar ≠ '\x00' ∧ isspace s.currentChar then
      skipWhitespaceLoop fuel s.advance
    else some s

/-- The method `Lexer::skipWhitespace`. -/
def Lexer.skipWhitespace (s : Lexer) : Option Lexer :=
  Lexer.skipWhitespaceLoop (s.rest.length + 1) s

/-- The loop of `Lexer::identifier`, collecting `result`. -/
def Lexer.identifierLoop : Nat → Lexer → String → Option (String × Lexer)
  | 0, _, _ => none
  | fuel + 1, s, result =>
    if s.currentChar ≠ '\x00' ∧ (isalnum s.currentChar ∨ s.currentChar = '_') then
      identifierLoop fuel s.advance (result.push s.currentChar)
    else some (result, s)

/-- The method `Lexer::identifier`: scan a word and classify it. -/
def Lexer.identifier (s : Lexer) : Option (Token × Lexer) :=
  match Lexer.identifierLoop (s.rest.length + 1) s "" with
  | none => none
  | some (result, s1) =>
    if result = "if" then some (⟨T_IF, result, s1.lineNumber⟩, s1)
    else if result = "else" then some (⟨T_ELSE, result, s1.lineNumber⟩, s1)
    else if result = "while" then some (⟨T_WHILE, result, s1.lineNumber⟩, s1)
    else if result = "print" then some (⟨T_PRINT, result, s1.lineNumber⟩, s1)
    else some (⟨T_IDENTIFIER, result, s1.lineNumber⟩, s1)

/-- The loop of `Lexer::number`, collecting `result`. -/
def Lexer.numberLoop : Nat → Lexer → String → Option (String × Lexer)
  | 0, _, _ => none
  | fuel + 1, s, result =>
    if s.currentChar ≠ '\x00' ∧ isdigit s.currentChar then
      numberLoop fuel s.advance (result.push s.currentChar)
    else some (result, s)

/-- The method `Lexer::number`. -/
def Lexer.number (s : Lexer) : Option (Token × Lexer) :=
  match Lexer.numberLoop (s.rest.length + 1) s "" with
  | none => none
  | some (result, s1) => some (⟨T_NUMBER, result, s1.lineNumber⟩, s1)

/-- Result of the lexer: the token queue, an exception, or fuel exhausted. -/
inductive LexResult
  | ok (tokens : List Token)
  | error (e : LexError)
  | timeout
  deriving DecidableEq, Repr

/-- The main loop of `Lexer::generateTokens`; `tokens` is the queue so far,
front first. -/
def Lexer.generateTokensLoop : Nat → Lexer → List Token → LexResult
  | 0, _, _ => .timeout
  | fuel + 1, s, tokens =>
    if s.currentChar = '\x00' then
      .ok (tokens ++ [⟨T_EOF, "", s.lineNumber⟩])
    else if isspace s.currentChar then
      match s.skipWhitespace with
      | none => .timeout
      | some s1 => generateTokensLoop fuel s1 tokens
    else if isalpha s.currentChar then
      match s.identifier with
      | none => .timeout
      | some (t, s1) => generateTokensLoop fuel s1 (tokens ++ [t])
    else if isdigit s.currentChar then
      match s.number with
      | none => .timeout
      | some (t, s1) => generateTokensLoop fuel s1 (tokens ++ [t])
    else if s.currentChar = '+' then
      generateTokensLoop fuel s.advance (tokens ++ [⟨T_OPERATOR, "+", s.lineNumber⟩])
    else if s.currentChar = '-' then
      generateTokensLoop fuel s.advance (tokens ++ [⟨T_OPERATOR, "-", s.lineNumber⟩])
    else if s.currentChar = '*' then
      generateTokensLoop fuel s.advance (tokens ++ [⟨T_OPERATOR, "*", s.lineNumber⟩])
    else if s.currentChar = '/' then
      generateTokensLoop fuel s.advance (tokens ++ [⟨T_OPERATOR, "/", s.lineNumber⟩])
    else if s.currentChar = '%' then
      generateTokensLoop fuel s.advance (tokens ++ [⟨T_OPERATOR, "%", s.lineNumber⟩])
    else if s.currentChar = '=' then
      let s1 := s.advance
      if s1.currentChar = '=' then
        generateTokensLoop fuel s1.advance (tokens ++ [⟨T_OPERATOR, "==", s1.lineNumber⟩])
      else
        generateTokensLoop fuel s1 (tokens ++ [⟨T_ASSIGN, "=", s1.lineNumber⟩])
    else if s.currentChar = '!' then
      let s1 := s.advance
      if s1.currentChar = '=' then
        generateTokensLoop fuel s1.advance (tokens ++ [⟨T_OPERATOR, "!=", s1.lineNumber⟩])
      else
        generateTokensLoop fuel s1 (tokens ++ [⟨T_OPERATOR, "!", s1.lineNumber⟩])
    else if s.currentChar = '<' ∨ s.currentChar = '>' then
      let prevChar := s.currentChar
      let s1 := s.advance
      if s1.currentChar = '=' then
        generateTokensLoop fuel s1.advance
          (tokens ++ [⟨T_OPERATOR, String.singleton prevChar ++ "=", s1.lineNumber⟩])
      else
        generateTokensLoop fuel s1
          (tokens ++ [⟨T_OPERATOR, String.singleton prevChar, s1.lineNumber⟩])
    else if s.currentChar = ';' then
      generateTokensLoop fuel s.advance (tokens ++ [⟨T_SEMICOLON, ";", s.lineNumber⟩])
    else if s.currentChar = '(' then
      generateTokensLoop fuel s.advance (tokens ++ [⟨T_LPAREN, "(", s.lineNumber⟩])
    else if s.currentChar = ')' then
      generateTokensLoop fuel s.advance (tokens ++ [⟨T_RPAREN, ")", s.lineNumber⟩])
    else if s.currentChar = '{' then
      generateTokensLoop fuel s.advance (tokens ++ [⟨T_LBRACE, "\x7b", s.lineNumber⟩])
    else if s.currentChar = '}' then
      generateTokensLoop fuel s.advance (tokens ++ [⟨T_RBRACE, "\x7d", s.lineNumber⟩])
    else
      .error (.unknownCharacter s.currentChar s.lineNumber)

/-- The method `Lexer::generateTokens`, run on a freshly constructed lexer.  A
turn of the main loop reads at least one character, so `length + 1` turns are
enough (`generateTokens_ne_timeout`). -/
def generateTokens (input : List Char) : LexResult :=
  Lexer.generateTokensLoop (input.length + 1) (Lexer.new input) []

/-! ## Parser.h -/

/-- AST nodes (`class ASTNode` and its subclasses; `NodeType` is the constructor).
Every node carries its `lineNumber` last. -/
inductive ASTNode
  | NumberNode (value : Int) (lineNumber : Nat)
  | VariableNode (name : String) (lineNumber : Nat)
  | BinOpNode (left : ASTNode) (op : String) (right : ASTNode) (lineNumber : Nat)
  | AssignNode (name : String) (value : ASTNode) (lineNumber : Nat)
  | PrintNode (expression : ASTNode) (lineNumber : Nat)
  | IfNode (condition : ASTNode) (trueBlock : ASTNode) (falseBlock : Option ASTNode)
      (lineNumber : Nat)
  | WhileNode (condition : ASTNode) (block : ASTNode) (lineNumber : Nat)
  | BlockNode (statements : List ASTNode) (lineNumber : Nat)
  deriving Repr

open ASTNode

/-- The field `lineNumber` of the base class. -/
def ASTNode.line : ASTNode → Nat
  | NumberNode _ l => l
  | VariableNode _ l => l
  | BinOpNode _ _ _ l => l
  | AssignNode _ _ l => l
  | PrintNode _ l => l
  | IfNode _ _ _ l => l
  | WhileNode _ _ l => l
  | BlockNode _ l => l

/-- Largest value of `int`. -/
def INT_MAX : Int := 2147483647

/-- Smallest value of `int`. -/
def INT_MIN : Int := -2147483648

/-- Base 10 value of a sequence of digit characters. -/
def decimalValue (digits : List Char) : Nat :=
  digits.foldl (fun acc c => 10 * acc + (c.toNat - 48)) 0

/-- Outcome of `std::stoi`: the value, or one of its two exceptions. -/
inductive StoiResult
  | value (v : Int)
  | invalid_argument
  | out_of_range
  deriving DecidableEq, Repr

/-- The library function `std::stoi(str)` (base 10), as the C++ standard
defines it through `strtol`: leading white space is skipped, one sign is
accepted, the longest run of digits is converted and what follows is ignored;
no digit at all is `std::invalid_argument`, a value outside `int` is
`std::out_of_range`. -/
def stoi (str : String) : StoiResult :=
  let body := str.toList.dropWhile isspace
  let negative := body.head? = some '-'
  let unsigned := if body.head? = some '-' ∨ body.head? = some '+' then body.tail else body
  let digits := unsigned.takeWhile isdigit
  if digits = [] then .invalid_argument
  else
    let v : Int := if negative then -(decimalValue digits : Int) else (decimalValue digits : Int)
    if v < INT_MIN ∨ INT_MAX < v then .out_of_range else .value v

/-- The exceptions that leave the parser: the two `std::runtime_error`s it
throws itself and the two exceptions of `std::stoi`, which it does not catch. -/
inductive ParseError
  | expectedToken (type : TokenType) (line : Nat)
  | unexpectedToken (value : String) (line : Nat)
  | stoiInvalidArgument
  | stoiOutOfRange
  deriving DecidableEq, Repr

/-- The line number cited by a parser exception, when it cites one. -/
def ParseError.line : ParseError → Option Nat
  | .expectedToken _ line => some line
  | .unexpectedToken _ line => some line
  | .stoiInvalidArgument => none
  | .stoiOutOfRange => none

/-- The method `Parser::tokenTypeToString`. -/
def tokenTypeToString : TokenType → String
  | T_IDENTIFIER => "identifier"
  | T_NUMBER => "number"
  | T_OPERATOR => "operator"
  | T_ASSIGN => "="
  | T_SEMICOLON => ";"
  | T_LPAREN => "("
  | T_RPAREN => ")"
  | T_LBRACE => "\x7b"
  | T_RBRACE => "\x7d"
  | T_PRINT => "print"
  | T_IF => "if"
  | T_ELSE => "else"
  | T_WHILE => "while"
  | _ => "unknown"

/-- The text of a parser exception (`what()`); libstdc++ names the function
in the exceptions of `std::stoi`. -/
def ParseError.what : ParseError → String
  | .expectedToken type line =>
    "Expected token '" ++ tokenTypeToString type ++ "' at line " ++ toString line
  | .unexpectedToken value line =>
    "Unexpected token '" ++ value ++ "' at line " ++ toString line
  | .stoiInvalidArgument => "stoi"
  | .stoiOutOfRange => "stoi"

/-- State of a `Parser` object: the queue and the lookahead.  The member
`prevToken` is written by `advance` and read nowhere; it is left out. -/
structure Parser where
  tokens : List Token
  currentToken : Token
  deriving DecidableEq, Repr

/-- Result of a parsing procedure: a value and the state after it, an
exception, or fuel exhausted. -/
inductive ParseResult (α : Type)
  | ok (a : α) (s : Parser)
  | error (e : ParseError)
  | timeout
  deriving Repr

/-- Sequencing: an exception or a timeout of the first step is the result. -/
def ParseResult.bind {α β : Type} (r : ParseResult α) (k : α → Parser → ParseResult β) :
    ParseResult β :=
  match r with
  | .ok a s => k a s
  | .error e => .error e
  | .timeout => .timeout

/-- The method `Parser::advance`: take the next token off the queue, if any. -/
def Parser.advance (s : Parser) : Parser :=
  match s.tokens with
  | [] => s
  | t :: rest => ⟨rest, t⟩

/-- The method `Parser::expect`. -/
def Parser.expect (s : Parser) (type : TokenType) : ParseResult Unit :=
  if s.currentToken.type = type then .ok () s.advance
  else .error (.expectedToken type s.currentToken.lineNumber)

mutual

/-- The method `Parser::statement`. -/
def Parser.statement : Nat → Parser → ParseResult ASTNode
  | 0, _ => .timeout
  | fuel + 1, s =>
    if s.currentToken.type = T_IDENTIFIER then Parser.assignmentStatement fuel s
    else if s.currentToken.type = T_PRINT then Parser.printStatement fuel s
    else if s.currentToken.type = T_IF then Parser.ifStatement fuel s
    else if s.currentToken.type = T_WHILE then Parser.whileStatement fuel s
    else if s.currentToken.type = T_LBRACE then Parser.block fuel s
    else .error (.unexpectedToken s.currentToken.value s.currentToken.lineNumber)

/-- The method `Parser::assignmentStatement`. -/
def Parser.assignmentStatement : Nat → Parser → ParseResult ASTNode
  | 0, _ => .timeout
  | fuel + 1, s =>
    let varName := s.currentToken.value
    let lineNumber := s.currentToken.lineNumber
    (s.advance.expect T_ASSIGN).bind fun _ s1 =>
    (Parser.expression fuel s1).bind fun expr s2 =>
    (s2.expect T_SEMICOLON).bind fun _ s3 =>
    .ok (AssignNode varName expr lineNumber) s3

/-- The method `Parser::printStatement`. -/
def Parser.printStatement : Nat → Parser → ParseResult ASTNode
  | 0, _ => .timeout
  | fuel + 1, s =>
    let lineNumber := s.currentToken.lineNumber
    (s.expect T_PRINT).bind fun _ s1 =>
    (s1.expect T_LPAREN).bind fun _ s2 =>
    (Parser.expression fuel s2).bind fun expr s3 =>
    (s3.expect T_RPAREN).bind fun _ s4 =>
    (s4.expect T_SEMICOLON).bind fun _ s5 =>
    .ok (PrintNode expr lineNumber) s5

/-- The method `Parser::ifStatement`. -/
def Parser.ifStatement : Nat → Parser → ParseResult ASTNode
  | 0, _ => .timeout
  | fuel + 1, s =>
    let lineNumber := s.currentToken.lineNumber
    (s.expect T_IF).bind fun _ s1 =>
    (s1.expect T_LPAREN).bind fun _ s2 =>
    (Parser.expression fuel s2).bind fun condition s3 =>
    (s3.expect T_RPAREN).bind fun _ s4 =>
    (Parser.statement fuel s4).bind fun trueBlock s5 =>
    if s5.currentToken.type = T_ELSE then
      (Parser.statement fuel s5.advance).bind fun falseBlock s6 =>
      .ok (IfNode condition trueBlock (some falseBlock) lineNumber) s6
    else .ok (IfNode condition trueBlock none lineNumber) s5

/-- The method `Parser::whileStatement`. -/
def Parser.whileStatement : Nat → Parser → ParseResult ASTNode
  | 0, _ => .timeout
  | fuel + 1, s =>
    let lineNumber := s.currentToken.lineNumber
    (s.expect T_WHILE).bind fun _ s1 =>
    (s1.expect T_LPAREN).bind fun _ s2 =>
    (Parser.expression fuel s2).bind fun condition s3 =>
    (s3.expect T_RPAREN).bind fun _ s4 =>
    (Parser.statement fuel s4).bind fun loopBlock s5 =>
    .ok (WhileNode condition loopBlock lineNumber) s5

/-- The `while` loop of `Parser::block`, collecting `statements`. -/
def Parser.blockLoop : Nat → List ASTNode → Parser → ParseResult (List ASTNode)
  | 0, _, _ => .timeout
  | fuel + 1, statements, s =>
    if s.currentToken.type ≠ T_RBRACE ∧ s.currentToken.type ≠ T_EOF then
      (Parser.statement fuel s).bind fun stmt s1 =>
      Parser.blockLoop fuel (statements ++ [stmt]) s1
    else .ok statements s

/-- The method `Parser::block`. -/
def Parser.block : Nat → Parser → ParseResult ASTNode
  | 0, _ => .timeout
  | fuel + 1, s =>
    let lineNumber := s.currentToken.lineNumber
    (s.expect T_LBRACE).bind fun _ s1 =>
    (Parser.blockLoop fuel [] s1).bind fun statements s2 =>
    (s2.expect T_RBRACE).bind fun _ s3 =>
    .ok (BlockNode statements lineNumber) s3

/-- The method `Parser::expression`. -/
def Parser.expression : Nat → Parser → ParseResult ASTNode
  | 0, _ => .timeout
  | fuel + 1, s => Parser.equality fuel s

/-- The `while` loop of `Parser::equality`; `node` is the left operand so far. -/
def Parser.equalityLoop : Nat → ASTNode → Parser → ParseResult ASTNode
  | 0, _, _ => .timeout
  | fuel + 1, node, s =>
    if s.currentToken.type = T_OPERATOR ∧
        (s.currentToken.value = "==" ∨ s.currentToken.value = "!=") then
      let op := s.currentToken.value
      let lineNumber := s.currentToken.lineNumber
      (Parser.comparison fuel s.advance).bind fun right s1 =>
      Parser.equalityLoop fuel (BinOpNode node op right lineNumber) s1
    else .ok node s

/-- The method `Parser::equality`. -/
def Parser.equality : Nat → Parser → ParseResult ASTNode
  | 0, _ => .timeout
  | fuel + 1, s =>
    (Parser.comparison fuel s).bind fun node s1 => Parser.equalityLoop fuel node s1

/-- The `while` loop of `Parser::comparison`. -/
def Parser.comparisonLoop : Nat → ASTNode → Parser → ParseResult ASTNode
  | 0, _, _ => .timeout
  | fuel + 1, node, s =>
    if s.currentToken.type = T_OPERATOR ∧
        (s.currentToken.value = "<" ∨ s.currentToken.value = "<=" ∨ s.currentToken.value = ">" ∨ s.currentToken.value = ">=") then
      let op := s.currentToken.value
      let lineNumber := s.currentToken.lineNumber
      (Parser.term fuel s.advance).bind fun right s1 =>
      Parser.comparisonLoop fuel (BinOpNode node op right lineNumber) s1
    else .ok node s

/-- The method `Parser::comparison`. -/
def Parser.comparison : Nat → Parser → ParseResult ASTNode
  | 0, _ => .timeout
  | fuel + 1, s =>
    (Parser.term fuel s).bind fun node s1 => Parser.comparisonLoop fuel node s1

/-- The `while` loop of `Parser::term`. -/
def Parser.termLoop : Nat → ASTNode → Parser → ParseResult ASTNode
  | 0, _, _ => .timeout
  | fuel + 1, node, s =>
    if s.currentToken.type = T_OPERATOR ∧
        (s.currentToken.value = "+" ∨ s.currentToken.value = "-") then
      let op := s.currentToken.value
      let lineNumber := s.currentToken.lineNumber
      (Parser.factor fuel s.advance).bind fun right s1 =>
      Parser.termLoop fuel (BinOpNode node op right lineNumber) s1
    else .ok node s

/-- The method `Parser::term`. -/
def Parser.term : Nat → Parser → ParseResult ASTNode
  | 0, _ => .timeout
  | fuel + 1, s =>
    (Parser.factor fuel s).bind fun node s1 => Parser.termLoop fuel node s1

/-- The `while` loop of `Parser::factor`. -/
def Parser.factorLoop : Nat → ASTNode → Parser → ParseResult ASTNode
  | 0, _, _ => .timeout
  | fuel + 1, node, s =>
    if s.currentToken.type = T_OPERATOR ∧
        (s.currentToken.value = "*" ∨ s.currentToken.value = "/" ∨ s.currentToken.value = "%") then
      let op := s.currentToken.value
      let lineNumber := s.currentToken.lineNumber
      (Parser.unary fuel s.advance).bind fun right s1 =>
      Parser.factorLoop fuel (BinOpNode node op right lineNumber) s1
    else .ok node s

/-- The method `Parser::factor`. -/
def Parser.factor : Nat → Parser → ParseResult ASTNode
  | 0, _ => .timeout
  | fuel + 1, s =>
    (Parser.unary fuel s).bind fun node s1 => Parser.factorLoop fuel node s1

/-- The method `Parser::unary`. -/
def Parser.unary : Nat → Parser → ParseResult ASTNode
  | 0, _ => .timeout
  | fuel + 1, s =>
    if s.currentToken.type = T_OPERATOR ∧
        (s.currentToken.value = "+" ∨ s.currentToken.value = "-" ∨ s.currentToken.value = "!") then
      let op := s.currentToken.value
      let lineNumber := s.currentToken.lineNumber
      (Parser.unary fuel s.advance).bind fun operand s1 =>
      .ok (BinOpNode (NumberNode 0 lineNumber) op operand lineNumber) s1
    else Parser.primary fuel s

/-- The method `Parser::primary`. -/
def Parser.primary : Nat → Parser → ParseResult ASTNode
  | 0, _ => .timeout
  | fuel + 1, s =>
    let token := s.currentToken
    if token.type = T_NUMBER then
      match stoi token.value with
      | .value v => .ok (NumberNode v token.lineNumber) s.advance
      | .invalid_argument => .error .stoiInvalidArgument
      | .out_of_range => .error .stoiOutOfRange
    else if token.type = T_IDENTIFIER then .ok (VariableNode token.value token.lineNumber) s.advance
    else if token.type = T_LPAREN then
      (Parser.expression fuel s.advance).bind fun node s1 =>
      (s1.expect T_RPAREN).bind fun _ s2 => .ok node s2
    else .error (.unexpectedToken token.value token.lineNumber)

end

/-- The loop of `Parser::program`, collecting the statements of the root. -/
def Parser.programLoop : Nat → List ASTNode → Parser → ParseResult (List ASTNode)
  | 0, _, _ => .timeout
  | fuel + 1, statements, s =>
    if s.currentToken.type ≠ T_EOF then
      (Parser.statement fuel s).bind fun stmt s1 =>
      Parser.programLoop fuel (statements ++ [stmt]) s1
    else .ok statements s

/-- The method `Parser::program`. -/
def Parser.program (fuel : Nat) (s : Parser) : ParseResult ASTNode :=
  let lineNumber := s.currentToken.lineNumber
  (Parser.programLoop fuel [] s).bind fun statements s1 =>
  .ok (BlockNode statements lineNumber) s1

/-- A default-initialised `Token`, as `currentToken` is before the constructor
calls `advance`.  Its `type` and `lineNumber` are indeterminate in C++; they are
seen only when the queue handed to the parser is empty, which the lexer never
returns. -/
def Token.uninitialised : Token :=
  ⟨T_UNKNOWN, "", 0⟩

/-- The constructor `Parser(tokens)`: copy the queue and `advance` once. -/
def Parser.new (tokens : List Token) : Parser :=
  Parser.advance ⟨tokens, Token.uninitialised⟩

/-- The method `Parser::parse`, on the parser constructed from `tokens`. -/
def parse (fuel : Nat) (tokens : List Token) : ParseResult ASTNode :=
  Parser.program fuel (Parser.new tokens)

/-! ## Interpreter.h -/

/-- Bring an integer into the range of `int` (two's complement wrap-around).
Signed overflow is undefined in C++; for `+`, `-` and `*` the embedding takes the
value the usual targets compute. -/
def wrapInt (v : Int) : Int :=
  (v + 2147483648) % 4294967296 - 2147483648

/-- A `bool` converted to `int`. -/
def boolToInt (b : Bool) : Int :=
  if b then 1 else 0

/-- The exceptions thrown by the interpreter, each with the line it cites. -/
inductive RuntimeError
  | undefinedVariable (name : String) (line : Nat)
  | divisionByZero (line : Nat)
  | moduloByZero (line : Nat)
  | unknownOperator (op : String) (line : Nat)
  deriving DecidableEq, Repr

/-- The line number cited by an interpreter exception. -/
def RuntimeError.line : RuntimeError → Option Nat
  | .undefinedVariable _ line => some line
  | .divisionByZero line => some line
  | .moduloByZero line => some line
  | .unknownOperator _ line => some line

/-- The text of an interpreter exception. -/
def RuntimeError.what : RuntimeError → String
  | .undefinedVariable name line =>
    "Undefined variable '" ++ name ++ "' at line " ++ toString line
  | .divisionByZero line => "Division by zero at line " ++ toString line
  | .moduloByZero line => "Modulo by zero at line " ++ toString line
  | .unknownOperator op line => "Unknown operator '" ++ op ++ "' at line " ++ toString line

/-- State of an `Interpreter` object and of the standard output: `vars` is the
`unordered_map` named `variables`, as an association list with one entry per key, `output`
the integers written to `cout`, one per line, oldest first. -/
structure Interpreter where
  vars : List (String × Int)
  output : List Int
  deriving DecidableEq, Repr

/-- The lookup `variables.find(name)`. -/
def Interpreter.find (s : Interpreter) (name : String) : Option Int :=
  s.vars.lookup name

/-- Overwrite the entry of `name`, or append one when there is none. -/
def assignEntry (name : String) (value : Int) : List (String × Int) → List (String × Int)
  | [] => [(name, value)]
  | (k, v) :: rest =>
    if k = name then (k, value) :: rest else (k, v) :: assignEntry name value rest

/-- The assignment `variables[name] = value`. -/
def Interpreter.assign (s : Interpreter) (name : String) (value : Int) : Interpreter :=
  ⟨assignEntry name value s.vars, s.output⟩

/-- The statement `cout << value << endl`. -/
def Interpreter.print (s : Interpreter) (value : Int) : Interpreter :=
  ⟨s.vars, s.output ++ [value]⟩

/-- Result of a visit: the returned `int` and the state after it, an exception
and the state when it was thrown, fuel exhausted, or `undefined`: the visit has
divided `INT_MIN` by -1, an `int` overflow for which C++ defines no behaviour and
the usual targets compute no value (the division traps). -/
inductive EvalResult
  | value (v : Int) (s : Interpreter)
  | error (e : RuntimeError) (s : Interpreter)
  | timeout
  | undefined
  deriving DecidableEq, Repr

/-- Sequencing: an exception, a timeout or an undefined step is the result. -/
def EvalResult.bind (r : EvalResult) (k : Int → Interpreter → EvalResult) : EvalResult :=
  match r with
  | .value v s => k v s
  | .error e s => .error e s
  | .timeout => .timeout
  | .undefined => .undefined

/-- The method `Interpreter::visitVariableNode`. -/
def Interpreter.visitVariableNode (name : String) (lineNumber : Nat) (s : Interpreter) :
    EvalResult :=
  match s.find name with
  | none => .error (.undefinedVariable name lineNumber) s
  | some v => .value v s

/-- The part of `Interpreter::visitBinOpNode` after both operands are known.
The source guards `/` and `%` against a right operand 0 only: `INT_MIN / -1` and
`INT_MIN % -1` are computed unguarded, and their result is `undefined`. -/
def Interpreter.applyOperator (left : Int) (op : String) (right : Int) (lineNumber : Nat)
    (s : Interpreter) : EvalResult :=
  if op = "+" then .value (wrapInt (left + right)) s
  else if op = "-" then .value (wrapInt (left - right)) s
  else if op = "*" then .value (wrapInt (left * right)) s
  else if op = "/" then
    if right = 0 then .error (.divisionByZero lineNumber) s
    else if left = INT_MIN ∧ right = -1 then .undefined
    else .value (wrapInt (left.tdiv right)) s
  else if op = "%" then
    if right = 0 then .error (.moduloByZero lineNumber) s
    else if left = INT_MIN ∧ right = -1 then .undefined
    else .value (wrapInt (left.tmod right)) s
  else if op = "==" then .value (boolToInt (left = right)) s
  else if op = "!=" then .value (boolToInt (left ≠ right)) s
  else if op = "<" then .value (boolToInt (left < right)) s
  else if op = "<=" then .value (boolToInt (left ≤ right)) s
  else if op = ">" then .value (boolToInt (left > right)) s
  else if op = ">=" then .value (boolToInt (left ≥ right)) s
  else if op = "!" then .value (boolToInt (right = 0)) s
  else .error (.unknownOperator op lineNumber) s

mutual

/-- The method `Interpreter::visit`.  The `default` branch of its `switch` has no
counterpart: `ASTNode` has no other constructor. -/
def Interpreter.visit : Nat → ASTNode → Interpreter → EvalResult
  | 0, _, _ => .timeout
  | _ + 1, NumberNode value _, s => .value value s
  | _ + 1, VariableNode name lineNumber, s => Interpreter.visitVariableNode name lineNumber s
  | fuel + 1, BinOpNode left op right lineNumber, s =>
    Interpreter.visitBinOpNode fuel left op right lineNumber s
  | fuel + 1, AssignNode name value _, s => Interpreter.visitAssignNode fuel name value s
  | fuel + 1, PrintNode expression _, s => Interpreter.visitPrintNode fuel expression s
  | fuel + 1, IfNode condition trueBlock falseBlock _, s =>
    Interpreter.visitIfNode fuel condition trueBlock falseBlock s
  | fuel + 1, WhileNode condition block _, s => Interpreter.visitWhileNode fuel condition block s
  | fuel + 1, BlockNode statements _, s => Interpreter.visitBlockNode fuel statements s

/-- The method `Interpreter::visitBinOpNode`: both operands, then the operator. -/
def Interpreter.visitBinOpNode :
    Nat → ASTNode → String → ASTNode → Nat → Interpreter → EvalResult
  | 0, _, _, _, _, _ => .timeout
  | fuel + 1, left, op, right, lineNumber, s =>
    (Interpreter.visit fuel left s).bind fun l s1 =>
    (Interpreter.visit fuel right s1).bind fun r s2 =>
    Interpreter.applyOperator l op r lineNumber s2

/-- The method `Interpreter::visitAssignNode`. -/
def Interpreter.visitAssignNode : Nat → String → ASTNode → Interpreter → EvalResult
  | 0, _, _, _ => .timeout
  | fuel + 1, name, value, s =>
    (Interpreter.visit fuel value s).bind fun v s1 => .value v (s1.assign name v)

/-- The method `Interpreter::visitPrintNode`. -/
def Interpreter.visitPrintNode : Nat → ASTNode → Interpreter → EvalResult
  | 0, _, _ => .timeout
  | fuel + 1, expression, s =>
    (Interpreter.visit fuel expression s).bind fun v s1 => .value v (s1.print v)

/-- The method `Interpreter::visitIfNode`. -/
def Interpreter.visitIfNode :
    Nat → ASTNode → ASTNode → Option ASTNode → Interpreter → EvalResult
  | 0, _, _, _, _ => .timeout
  | fuel + 1, condition, trueBlock, falseBlock, s =>
    (Interpreter.visit fuel condition s).bind fun c s1 =>
    if c ≠ 0 then
      (Interpreter.visit fuel trueBlock s1).bind fun _ s2 => .value 0 s2
    else
      match falseBlock with
      | some node => (Interpreter.visit fuel node s1).bind fun _ s2 => .value 0 s2
      | none => .value 0 s1

/-- The method `Interpreter::visitWhileNode`; a call is one test of the condition. -/
def Interpreter.visitWhileNode : Nat → ASTNode → ASTNode → Interpreter → EvalResult
  | 0, _, _, _ => .timeout
  | fuel + 1, condition, block, s =>
    (Interpreter.visit fuel condition s).bind fun c s1 =>
    if c ≠ 0 then
      (Interpreter.visit fuel block s1).bind fun _ s2 =>
      Interpreter.visitWhileNode fuel condition block s2
    else .value 0 s1

/-- The method `Interpreter::visitBlockNode`; a call is one turn of its `for`. -/
def Interpreter.visitBlockNode : Nat → List ASTNode → Interpreter → EvalResult
  | 0, _, _ => .timeout
  | _ + 1, [], s => .value 0 s
  | fuel + 1, stmt :: rest, s =>
    (Interpreter.visit fuel stmt s).bind fun _ s1 => Interpreter.visitBlockNode fuel rest s1

end

/-- The method `Interpreter::interpret` on a fresh interpreter: no variable, and
nothing written yet. -/
def interpret (fuel : Nat) (root : ASTNode) : EvalResult :=
  Interpreter.visit fuel root ⟨[], []⟩

/-! ## main.cpp -/

/-- What a run of the driver ends in: normal termination with the lines
written, or the exception that reached `catch` (for the interpreter, with the
lines written before it), fuel exhausted, or `undefined` when the interpreter
has divided `INT_MIN` by -1. -/
inductive RunResult
  | success (output : List Int)
  | lexError (e : LexError)
  | parseError (e : ParseError)
  | runtimeError (e : RuntimeError) (output : List Int)
  | timeout
  | undefined
  deriving DecidableEq, Repr

/-- The `try` block of `main`: lexical analysis, parsing, interpretation. -/
def main (fuel : Nat) (code : String) : RunResult :=
  match generateTokens code.toList with
  | .error e => .lexError e
  | .timeout => .timeout
  | .ok tokens =>
    match parse fuel tokens with
    | .error e => .parseError e
    | .timeout => .timeout
    | .ok root _ =>
      match interpret fuel root with
      | .error e s => .runtimeError e s.output
      | .timeout => .timeout
      | .undefined => .undefined
      | .value _ s => .success s.output

/-! ## Notions used in the statements -/

/-- More fuel can only turn a timeout into a result: `r` is a timeout or is `r'`. -/
def EvalResult.le (r r' : EvalResult) : Prop :=
  r = .timeout ∨ r = r'

/-- More fuel can only turn a timeout into a result: `r` is a timeout or is `r'`. -/
def ParseResult.le {α : Type} (r r' : ParseResult α) : Prop :=
  r = .timeout ∨ r = r'

/-- With enough fuel, the visit of `node` from state `s` ends in `r`. -/
def Interpreter.Visits (node : ASTNode) (s : Interpreter) (r : EvalResult) : Prop :=
  ∃ fuel0, ∀ fuel, fuel0 ≤ fuel → Interpreter.visit fuel node s = r

/-- With enough fuel, the parsing procedure `p` started in state `s` ends in `r`. -/
def Parser.Runs {α : Type} (p : Nat → Parser → ParseResult α) (s : Parser)
    (r : ParseResult α) : Prop :=
  ∃ fuel0, ∀ fuel, fuel0 ≤ fuel → p fuel s = r

/-- With enough fuel, parsing the queue `tokens` ends in `r`. -/
def Parses (tokens : List Token) (r : ParseResult ASTNode) : Prop :=
  ∃ fuel0, ∀ fuel, fuel0 ≤ fuel → parse fuel tokens = r

/-- With enough fuel, the driver run on `code` ends in `r`. -/
def Runs (code : String) (r : RunResult) : Prop :=
  ∃ fuel0, ∀ fuel, fuel0 ≤ fuel → main fuel code = r

/-- The source `code` is tokenized and, with enough fuel, parsed to the tree `root`. -/
def ParsesTo (code : String) (root : ASTNode) : Prop :=
  ∃ tokens s, generateTokens code.toList = .ok tokens ∧ Parses tokens (.ok root s)

/-- Binding strength of the text of a binary operator: 1 for `==` and `!=`, 2 for
the four comparisons, 3 for `+` and `-`, 4 for `*`, `/` and `%`. -/
def precedence (op : String) : Option Nat :=
  if op = "==" ∨ op = "!=" then some 1
  else if op = "<" ∨ op = "<=" ∨ op = ">" ∨ op = ">=" then some 2
  else if op = "+" ∨ op = "-" then some 3
  else if op = "*" ∨ op = "/" ∨ op = "%" then some 4
  else none

/-- The token is a binary operator of binding strength `k`. -/
def Token.isOperatorOfLevel (t : Token) (k : Nat) : Prop :=
  t.type = T_OPERATOR ∧ precedence t.value = some k

/-- The procedure that parses the operands of the operators of strength `k - 1`:
`equality`, `comparison`, `term`, `factor`, and `unary` above them. -/
def Parser.atLevel : Nat → Nat → Parser → ParseResult ASTNode
  | 0 => Parser.expression
  | 1 => Parser.equality
  | 2 => Parser.comparison
  | 3 => Parser.term
  | 4 => Parser.factor
  | _ => Parser.unary

/-- The character test of the loop of `Lexer::identifier`. -/
def isIdentifierChar (c : Char) : Bool :=
  isalnum c || c = '_'

/-- The classification at the end of `Lexer::identifier`. -/
def keywordType (word : String) : TokenType :=
  if word = "if" then T_IF
  else if word = "else" then T_ELSE
  else if word = "while" then T_WHILE
  else if word = "print" then T_PRINT
  else T_IDENTIFIER

/-- The token of a character that is a token by itself. -/
def singleCharToken (c : Char) : Option (TokenType × String) :=
  if c = '+' then some (T_OPERATOR, "+")
  else if c = '-' then some (T_OPERATOR, "-")
  else if c = '*' then some (T_OPERATOR, "*")
  else if c = '/' then some (T_OPERATOR, "/")
  else if c = '%' then some (T_OPERATOR, "%")
  else if c = ';' then some (T_SEMICOLON, ";")
  else if c = '(' then some (T_LPAREN, "(")
  else if c = ')' then some (T_RPAREN, ")")
  else if c = '\x7b' then some (T_LBRACE, "\x7b")
  else if c = '\x7d' then some (T_RBRACE, "\x7d")
  else none

/-- The tokens of a character that may be followed by `=`: the token it makes
with a following `=`, and the token it makes alone. -/
def compoundToken (c : Char) : Option ((TokenType × String) × (TokenType × String)) :=
  if c = '=' then some ((T_OPERATOR, "=="), (T_ASSIGN, "="))
  else if c = '!' then some ((T_OPERATOR, "!="), (T_OPERATOR, "!"))
  else if c = '<' then some ((T_OPERATOR, "<="), (T_OPERATOR, "<"))
  else if c = '>' then some ((T_OPERATOR, ">="), (T_OPERATOR, ">"))
  else none

/-- What the lexer guarantees of every token it enqueues before the last one:
its kind is neither end-of-input nor unknown, and a number token is a non-empty
run of digits. -/
def Token.Lexed (t : Token) : Prop :=
  t.type ≠ T_EOF ∧ t.type ≠ T_UNKNOWN ∧
    (t.type = T_NUMBER → t.value.data ≠ [] ∧ ∀ c ∈ t.value.data, isdigit c = true)

/-- The token is not a number token, or `std::stoi` converts its text. -/
def Token.Convertible (t : Token) : Prop :=
  t.type = T_NUMBER → ∃ v, stoi t.value = .value v

/-- The tokens the parser has not consumed: the lookahead, then the queue. -/
def Parser.stream (s : Parser) : List Token :=
  s.currentToken :: s.tokens

/-- The unconsumed tokens end with an end-of-input token, as those of a parser
constructed on a queue of the lexer do. -/
def Parser.WellFormed (s : Parser) : Prop :=
  ∃ pre eof, s.stream = pre ++ [eof] ∧ eof.type = T_EOF

/-- State `s'` is reached from `s` by consuming tokens in order, and every number
token consumed on the way was converted by `std::stoi`. -/
def Parser.Advances (s s' : Parser) : Prop :=
  ∃ consumed, s.stream = consumed ++ s'.stream ∧ ∀ t ∈ consumed, t.Convertible

/-- The number of newline characters in a piece of source. -/
def newlines (cs : List Char) : Nat :=
  cs.count '\n'

/-- The program of the loop-correctness property, with `bound` the text of the
integer literal that bounds the loop. -/
def loopSource (bound : String) : String :=
  "x = 0; while (x < " ++ bound ++ ") \x7b x = x + 1; \x7d print(x);"

/-- The token queue of `loopSource`, with `bound` the text of the bound. -/
def loopTokens (bound : String) : List Token :=
  [⟨T_IDENTIFIER, "x", 1⟩, ⟨T_ASSIGN, "=", 1⟩, ⟨T_NUMBER, "0", 1⟩, ⟨T_SEMICOLON, ";", 1⟩,
    ⟨T_WHILE, "while", 1⟩, ⟨T_LPAREN, "(", 1⟩, ⟨T_IDENTIFIER, "x", 1⟩, ⟨T_OPERATOR, "<", 1⟩,
    ⟨T_NUMBER, bound, 1⟩, ⟨T_RPAREN, ")", 1⟩, ⟨T_LBRACE, "\x7b", 1⟩, ⟨T_IDENTIFIER, "x", 1⟩,
    ⟨T_ASSIGN, "=", 1⟩, ⟨T_IDENTIFIER, "x", 1⟩, ⟨T_OPERATOR, "+", 1⟩, ⟨T_NUMBER, "1", 1⟩,
    ⟨T_SEMICOLON, ";", 1⟩, ⟨T_RBRACE, "\x7d", 1⟩, ⟨T_PRINT, "print", 1⟩, ⟨T_LPAREN, "(", 1⟩,
    ⟨T_IDENTIFIER, "x", 1⟩, ⟨T_RPAREN, ")", 1⟩, ⟨T_SEMICOLON, ";", 1⟩, ⟨T_EOF, "", 1⟩]

/-- The tree of `loopSource`, with `bound` the value of the bound. -/
def loopTree (bound : Int) : ASTNode :=
  BlockNode
    [AssignNode "x" (NumberNode 0 1) 1,
      WhileNode (BinOpNode (VariableNode "x" 1) "<" (NumberNode bound 1) 1)
        (BlockNode
          [AssignNode "x" (BinOpNode (VariableNode "x" 1) "+" (NumberNode 1 1) 1) 1] 1) 1,
      PrintNode (VariableNode "x" 1) 1] 1

/-- A procedure with fuel that keeps every result it has when given more fuel. -/
def Parser.FuelMono {α : Type} (p : Nat → Parser → ParseResult α) : Prop :=
  ∀ fuel s, (p fuel s).le (p (fuel + 1) s)

/-- The nodes the expression procedures of the parser build: numbers, variables,
and binary operations of such nodes. -/
inductive ASTNode.IsExpression : ASTNode → Prop
  | ofNumber (value : Int) (line : Nat) : ASTNode.IsExpression (NumberNode value line)
  | ofVariable (name : String) (line : Nat) : ASTNode.IsExpression (VariableNode name line)
  | ofBinOp {left right : ASTNode} (op : String) (line : Nat) :
    ASTNode.IsExpression left → ASTNode.IsExpression right →
    ASTNode.IsExpression (BinOpNode left op right line)

/-- Evaluating statements one after another from state `s`: each one in the state
the one before it left, up to the first that throws or is undefined; the value
of each is dropped. -/
inductive Interpreter.Sequence : List ASTNode → Interpreter → EvalResult → Prop
  | nil (s : Interpreter) : Interpreter.Sequence [] s (.value 0 s)
  | step {stmt : ASTNode} {rest : List ASTNode} {s s1 : Interpreter} {v : Int}
    {r : EvalResult} : Interpreter.Visits stmt s (.value v s1) →
    Interpreter.Sequence rest s1 r → Interpreter.Sequence (stmt :: rest) s r
  | fail {stmt : ASTNode} {rest : List ASTNode} {s s1 : Interpreter} {e : RuntimeError} :
    Interpreter.Visits stmt s (.error e s1) →
    Interpreter.Sequence (stmt :: rest) s (.error e s1)
  | undef {stmt : ASTNode} {rest : List ASTNode} {s : Interpreter} :
    Interpreter.Visits stmt s .undefined → Interpreter.Sequence (stmt :: rest) s .undefined

/-- The main loop of the lexer started on the unread source `cs`, on line `line`,
with the queue `acc`, and with the fuel `generateTokens` gives it: `generateTokens`
is `lexFrom` at line 1 with the empty queue. -/
def lexFrom (cs : List Char) (line : Nat) (acc : List Token) : LexResult :=
  Lexer.generateTokensLoop (cs.length + 1) ⟨cs, line⟩ acc

/-- Where a scan of the source stands: where a token would start, inside an
identifier, inside a number, or just after one of `=`, `!`, `<`, `>`. -/
inductive ScanMode
  | start
  | identifier
  | number
  | compound
  deriving DecidableEq, Repr

/-- The characters accepted where a token would start: white space, a letter, a
digit, or one of `+ - * / % = ! < > ; ( ) { }`. -/
def acceptedAtStart (c : Char) : Bool :=
  isspace c || isalpha c || isdigit c ||
    ['+', '-', '*', '/', '%', '=', '!', '<', '>', ';', '(', ')', '\x7b', '\x7d'].contains c

/-- The token the scan is in goes on with `c`: an identifier with a letter, a
digit or an underscore, a number with a digit, one of `=`, `!`, `<`, `>` with `=`. -/
def ScanMode.continues : ScanMode → Char → Bool
  | .start, _ => false
  | .identifier, c => isIdentifierChar c
  | .number, c => isdigit c
  | .compound, c => c = '='

/-- Where the scan stands after a character that continued its token: a
two-character operator is complete. -/
def ScanMode.afterContinue : ScanMode → ScanMode
  | .compound => .start
  | mode => mode

/-- Where the scan stands after a character accepted where a token would start. -/
def ScanMode.enter (c : Char) : ScanMode :=
  if isalpha c then .identifier
  else if isdigit c then .number
  else if c = '=' ∨ c = '!' ∨ c = '<' ∨ c = '>' then .compound
  else .start

/-- The first character, with its offset in the source, that a scan from the
offset `i` in the mode `mode` reaches where a token would start and that is not
accepted there; the scan ends at a NUL, as at the end of the source. -/
def firstRejected : ScanMode → Nat → List Char → Option (Char × Nat)
  | _, _, [] => none
  | mode, i, c :: cs =>
    if c = '\x00' then none
    else if mode.continues c then firstRejected mode.afterContinue (i + 1) cs
    else if acceptedAtStart c then firstRejected (ScanMode.enter c) (i + 1) cs
    else some (c, i)

/-- The main loop of the lexer started on the unread source `cs` after having
read `pre` agrees with the scan for the first rejected character: it returns a
queue when there is none, and raises the exception of that character, with the
line its offset is on, when there is one. -/
def ScanAgrees (pre cs : List Char) (line : Nat) (acc : List Token) : Prop :=
  (firstRejected .start pre.length cs = none → ∃ tokens, lexFrom cs line acc = .ok tokens) ∧
    ∀ c i, firstRejected .start pre.length cs = some (c, i) →
      lexFrom cs line acc = .error (.unknownCharacter c (1 + newlines ((pre ++ cs).take i)))

/-- One turn of the main loop of the lexer on the unread source `cs`, with what it
means for the scan for the first rejected character: the loop ends at the end of
the source or at a NUL; or it skips a run of white space; or it enqueues a token
whose text it has read; or it raises the exception of a character that is not
accepted. -/
inductive LexTurn (cs : List Char) (line : Nat) (acc : List Token) : Prop
  | done : (cs = [] ∨ cs.head? = some '\x00') →
    lexFrom cs line acc = .ok (acc ++ [⟨T_EOF, "", line⟩]) → LexTurn cs line acc
  | space (seg rest : List Char) : seg ++ rest = cs → seg ≠ [] →
    (∀ c ∈ seg, isspace c = true) →
    lexFrom cs line acc = lexFrom rest (line + newlines seg) acc →
    (∀ i, firstRejected .start i cs = firstRejected .start (i + seg.length) rest) →
    LexTurn cs line acc
  | token (tok : Token) (rest : List Char) : tok.value.data ++ rest = cs →
    tok.value.data ≠ [] → (∀ c ∈ tok.value.data, isspace c = false ∧ c ≠ '\x00') →
    tok.lineNumber = line → tok.type ≠ T_EOF → tok.type ≠ T_UNKNOWN →
    lexFrom cs line acc = lexFrom rest line (acc ++ [tok]) →
    (∀ i, firstRejected .start i cs =
      firstRejected .start (i + tok.value.data.length) rest) →
    LexTurn cs line acc
  | unknown (c : Char) (rest : List Char) : cs = c :: rest → c ≠ '\x00' →
    acceptedAtStart c = false → lexFrom cs line acc = .error (.unknownCharacter c line) →
    LexTurn cs line acc

/-- The tokens lie in the source `rest`, which follows `before`, in their order:
before each token there is only white space `ws`, then comes its text, which is
not empty and holds neither white space nor NUL, and its line is 1 plus the
number of newlines before its first character; the last token is the
end-of-input token, with the line of the place where the source ends or has a
NUL. -/
inductive Layout : List Char → List Char → List Token → Prop
  | eof {before rest ws after : List Char} {line : Nat} : rest = ws ++ after →
    (∀ c ∈ ws, isspace c = true) → (after = [] ∨ after.head? = some '\x00') →
    line = 1 + newlines (before ++ ws) → Layout before rest [⟨T_EOF, "", line⟩]
  | token {before rest ws after : List Char} {t : Token} {ts : List Token} :
    rest = ws ++ t.value.data ++ after → (∀ c ∈ ws, isspace c = true) →
    t.value.data ≠ [] → (∀ c ∈ t.value.data, isspace c = false ∧ c ≠ '\x00') →
    t.type ≠ T_EOF → t.lineNumber = 1 + newlines (before ++ ws) →
    Layout (before ++ ws ++ t.value.data) after ts → Layout before rest (t :: ts)

/-- The part of a source that the lexer scans: the characters before its first
NUL, all of them when it has none. -/
def scanned (source : List Char) : List Char :=
  source.takeWhile fun c => c ≠ '\x00'

/-- The texts of the tokens, one after the other in their order. -/
def concatTexts : List Token → List Char
  | [] => []
  | t :: ts => t.value.data ++ concatTexts ts

/-- A source with every white space character removed. -/
def withoutSpace (source : List Char) : List Char :=
  source.filter fun c => !isspace c

/-- The statement ends in an `if` that has no `else`: it is such an `if`, or an
`if` whose `else` branch ends in one, or a `while` whose body ends in one. -/
inductive ASTNode.EndsInOpenIf : ASTNode → Prop
  | openIf (condition trueBlock : ASTNode) (line : Nat) :
    ASTNode.EndsInOpenIf (IfNode condition trueBlock none line)
  | inElse (condition trueBlock : ASTNode) {falseBlock : ASTNode} (line : Nat) :
    ASTNode.EndsInOpenIf falseBlock →
    ASTNode.EndsInOpenIf (IfNode condition trueBlock (some falseBlock) line)
  | inWhile (condition : ASTNode) {block : ASTNode} (line : Nat) :
    ASTNode.EndsInOpenIf block → ASTNode.EndsInOpenIf (WhileNode condition block line)

/-- The nodes the statement procedures of the parser build: an assignment or a
print of an expression node, an `if` or a `while` whose condition is an expression
node and whose branches or body are such statements, a block of such statements. -/
inductive ASTNode.IsStatement : ASTNode → Prop
  | ofAssign (name : String) {value : ASTNode} (line : Nat) :
    value.IsExpression → ASTNode.IsStatement (AssignNode name value line)
  | ofPrint {expression : ASTNode} (line : Nat) :
    expression.IsExpression → ASTNode.IsStatement (PrintNode expression line)
  | ofIf {condition trueBlock : ASTNode} (line : Nat) :
    condition.IsExpression → ASTNode.IsStatement trueBlock →
    ASTNode.IsStatement (IfNode condition trueBlock none line)
  | ofIfElse {condition trueBlock falseBlock : ASTNode} (line : Nat) :
    condition.IsExpression → ASTNode.IsStatement trueBlock →
    ASTNode.IsStatement falseBlock →
    ASTNode.IsStatement (IfNode condition trueBlock (some falseBlock) line)
  | ofWhile {condition block : ASTNode} (line : Nat) :
    condition.IsExpression → ASTNode.IsStatement block →
    ASTNode.IsStatement (WhileNode condition block line)
  | ofBlock {statements : List ASTNode} (line : Nat) :
    (∀ stmt ∈ statements, ASTNode.IsStatement stmt) →
    ASTNode.IsStatement (BlockNode statements line)

/-- Result of a procedure of the checked parser: a call of `advance` was made
while the lookahead was the end-of-input token or the queue was empty, or the
procedure ran without such a call and ended in `r`. -/
inductive Checked (α : Type)
  | violation
  | done (r : ParseResult α)

/-- Sequencing in the checked parser: a violation, an exception or a timeout of
the first step is the result. -/
def Checked.bind {α β : Type} (c : Checked α) (k : α → Parser → Checked β) : Checked β :=
  match c with
  | .violation => .violation
  | .done (.ok a s) => k a s
  | .done (.error e) => .done (.error e)
  | .done .timeout => .done .timeout

/-- The method `Parser::advance` with the check: a call while the lookahead is
the end-of-input token, or while the queue is empty, is a violation. -/
def Checked.advance (s : Parser) : Checked Unit :=
  if s.currentToken.type = T_EOF ∨ s.tokens = [] then .violation
  else .done (.ok () s.advance)

/-- The method `Parser::expect`, calling the checked `advance`. -/
def Checked.expect (s : Parser) (type : TokenType) : Checked Unit :=
  if s.currentToken.type = type then Checked.advance s
  else .done (.error (.expectedToken type s.currentToken.lineNumber))

mutual

/-- The method `Parser::statement`, in the checked parser. -/
def Checked.statement : Nat → Parser → Checked ASTNode
  | 0, _ => .done .timeout
  | fuel + 1, s =>
    if s.currentToken.type = T_IDENTIFIER then Checked.assignmentStatement fuel s
    else if s.currentToken.type = T_PRINT then Checked.printStatement fuel s
    else if s.currentToken.type = T_IF then Checked.ifStatement fuel s
    else if s.currentToken.type = T_WHILE then Checked.whileStatement fuel s
    else if s.currentToken.type = T_LBRACE then Checked.block fuel s
    else .done (.error (.unexpectedToken s.currentToken.value s.currentToken.lineNumber))

/-- The method `Parser::assignmentStatement`, in the checked parser. -/
def Checked.assignmentStatement : Nat → Parser → Checked ASTNode
  | 0, _ => .done .timeout
  | fuel + 1, s =>
    let varName := s.currentToken.value
    let lineNumber := s.currentToken.lineNumber
    (Checked.advance s).bind fun _ s0 =>
    (Checked.expect s0 T_ASSIGN).bind fun _ s1 =>
    (Checked.expression fuel s1).bind fun expr s2 =>
    (Checked.expect s2 T_SEMICOLON).bind fun _ s3 =>
    .done (.ok (AssignNode varName expr lineNumber) s3)

/-- The method `Parser::printStatement`, in the checked parser. -/
def Checked.printStatement : Nat → Parser → Checked ASTNode
  | 0, _ => .done .timeout
  | fuel + 1, s =>
    let lineNumber := s.currentToken.lineNumber
    (Checked.expect s T_PRINT).bind fun _ s1 =>
    (Checked.expect s1 T_LPAREN).bind fun _ s2 =>
    (Checked.expression fuel s2).bind fun expr s3 =>
    (Checked.expect s3 T_RPAREN).bind fun _ s4 =>
    (Checked.expect s4 T_SEMICOLON).bind fun _ s5 =>
    .done (.ok (PrintNode expr lineNumber) s5)

/-- The method `Parser::ifStatement`, in the checked parser. -/
def Checked.ifStatement : Nat → Parser → Checked ASTNode
  | 0, _ => .done .timeout
  | fuel + 1, s =>
    let lineNumber := s.currentToken.lineNumber
    (Checked.expect s T_IF).bind fun _ s1 =>
    (Checked.expect s1 T_LPAREN).bind fun _ s2 =>
    (Checked.expression fuel s2).bind fun condition s3 =>
    (Checked.expect s3 T_RPAREN).bind fun _ s4 =>
    (Checked.statement fuel s4).bind fun trueBlock s5 =>
    if s5.currentToken.type = T_ELSE then
      (Checked.advance s5).bind fun _ s50 =>
      (Checked.statement fuel s50).bind fun falseBlock s6 =>
      .done (.ok (IfNode condition trueBlock (some falseBlock) lineNumber) s6)
    else .done (.ok (IfNode condition trueBlock none lineNumber) s5)

/-- The method `Parser::whileStatement`, in the checked parser. -/
def Checked.whileStatement : Nat → Parser → Checked ASTNode
  | 0, _ => .done .timeout
  | fuel + 1, s =>
    let lineNumber := s.currentToken.lineNumber
    (Checked.expect s T_WHILE).bind fun _ s1 =>
    (Checked.expect s1 T_LPAREN).bind fun _ s2 =>
    (Checked.expression fuel s2).bind fun condition s3 =>
    (Checked.expect s3 T_RPAREN).bind fun _ s4 =>
    (Checked.statement fuel s4).bind fun loopBlock s5 =>
    .done (.ok (WhileNode condition loopBlock lineNumber) s5)

/-- The `while` loop of `Parser::block`, in the checked parser. -/
def Checked.blockLoop : Nat → List ASTNode → Parser → Checked (List ASTNode)
  | 0, _, _ => .done .timeout
  | fuel + 1, statements, s =>
    if s.currentToken.type ≠ T_RBRACE ∧ s.currentToken.type ≠ T_EOF then
      (Checked.statement fuel s).bind fun stmt s1 =>
      Checked.blockLoop fuel (statements ++ [stmt]) s1
    else .done (.ok statements s)

/-- The method `Parser::block`, in the checked parser. -/
def Checked.block : Nat → Parser → Checked ASTNode
  | 0, _ => .done .timeout
  | fuel + 1, s =>
    let lineNumber := s.currentToken.lineNumber
    (Checked.expect s T_LBRACE).bind fun _ s1 =>
    (Checked.blockLoop fuel [] s1).bind fun statements s2 =>
    (Checked.expect s2 T_RBRACE).bind fun _ s3 =>
    .done (.ok (BlockNode statements lineNumber) s3)

/-- The method `Parser::expression`, in the checked parser. -/
def Checked.expression : Nat → Parser → Checked ASTNode
  | 0, _ => .done .timeout
  | fuel + 1, s => Checked.equality fuel s

/-- The `while` loop of `Parser::equality`, in the checked parser. -/
def Checked.equalityLoop : Nat → ASTNode → Parser → Checked ASTNode
  | 0, _, _ => .done .timeout
  | fuel + 1, node, s =>
    if s.currentToken.type = T_OPERATOR ∧
        (s.currentToken.value = "==" ∨ s.currentToken.value = "!=") then
      let op := s.currentToken.value
      let lineNumber := s.currentToken.lineNumber
      (Checked.advance s).bind fun _ s0 =>
      (Checked.comparison fuel s0).bind fun right s1 =>
      Checked.equalityLoop fuel (BinOpNode node op right lineNumber) s1
    else .done (.ok node s)

/-- The method `Parser::equality`, in the checked parser. -/
def Checked.equality : Nat → Parser → Checked ASTNode
  | 0, _ => .done .timeout
  | fuel + 1, s =>
    (Checked.comparison fuel s).bind fun node s1 => Checked.equalityLoop fuel node s1

/-- The `while` loop of `Parser::comparison`, in the checked parser. -/
def Checked.comparisonLoop : Nat → ASTNode → Parser → Checked ASTNode
  | 0, _, _ => .done .timeout
  | fuel + 1, node, s =>
    if s.currentToken.type = T_OPERATOR ∧
        (s.currentToken.value = "<" ∨ s.currentToken.value = "<=" ∨ s.currentToken.value = ">" ∨ s.currentToken.value = ">=") then
      let op := s.currentToken.value
      let lineNumber := s.currentToken.lineNumber
      (Checked.advance s).bind fun _ s0 =>
      (Checked.term fuel s0).bind fun right s1 =>
      Checked.comparisonLoop fuel (BinOpNode node op right lineNumber) s1
    else .done (.ok node s)

/-- The method `Parser::comparison`, in the checked parser. -/
def Checked.comparison : Nat → Parser → Checked ASTNode
  | 0, _ => .done .timeout
  | fuel + 1, s =>
    (Checked.term fuel s).bind fun node s1 => Checked.comparisonLoop fuel node s1

/-- The `while` loop of `Parser::term`, in the checked parser. -/
def Checked.termLoop : Nat → ASTNode → Parser → Checked ASTNode
  | 0, _, _ => .done .timeout
  | fuel + 1, node, s =>
    if s.currentToken.type = T_OPERATOR ∧
        (s.currentToken.value = "+" ∨ s.currentToken.value = "-") then
      let op := s.currentToken.value
      let lineNumber := s.currentToken.lineNumber
      (Checked.advance s).bind fun _ s0 =>
      (Checked.factor fuel s0).bind fun right s1 =>
      Checked.termLoop fuel (BinOpNode node op right lineNumber) s1
    else .done (.ok node s)

/-- The method `Parser::term`, in the checked parser. -/
def Checked.term : Nat → Parser → Checked ASTNode
  | 0, _ => .done .timeout
  | fuel + 1, s =>
    (Checked.factor fuel s).bind fun node s1 => Checked.termLoop fuel node s1

/-- The `while` loop of `Parser::factor`, in the checked parser. -/
def Checked.factorLoop : Nat → ASTNode → Parser → Checked ASTNode
  | 0, _, _ => .done .timeout
  | fuel + 1, node, s =>
    if s.currentToken.type = T_OPERATOR ∧
        (s.currentToken.value = "*" ∨ s.currentToken.value = "/" ∨ s.currentToken.value = "%") then
      let op := s.currentToken.value
      let lineNumber := s.currentToken.lineNumber
      (Checked.advance s).bind fun _ s0 =>
      (Checked.unary fuel s0).bind fun right s1 =>
      Checked.factorLoop fuel (BinOpNode node op right lineNumber) s1
    else .done (.ok node s)

/-- The method `Parser::factor`, in the checked parser. -/
def Checked.factor : Nat → Parser → Checked ASTNode
  | 0, _ => .done .timeout
  | fuel + 1, s =>
    (Checked.unary fuel s).bind fun node s1 => Checked.factorLoop fuel node s1

/-- The method `Parser::unary`, in the checked parser. -/
def Checked.unary : Nat → Parser → Checked ASTNode
  | 0, _ => .done .timeout
  | fuel + 1, s =>
    if s.currentToken.type = T_OPERATOR ∧
        (s.currentToken.value = "+" ∨ s.currentToken.value = "-" ∨ s.currentToken.value = "!") then
      let op := s.currentToken.value
      let lineNumber := s.currentToken.lineNumber
      (Checked.advance s).bind fun _ s0 =>
      (Checked.unary fuel s0).bind fun operand s1 =>
      .done (.ok (BinOpNode (NumberNode 0 lineNumber) op operand lineNumber) s1)
    else Checked.primary fuel s

/-- The method `Parser::primary`, in the checked parser: `advance` is called
before `std::stoi` converts the text. -/
def Checked.primary : Nat → Parser → Checked ASTNode
  | 0, _ => .done .timeout
  | fuel + 1, s =>
    let token := s.currentToken
    if token.type = T_NUMBER then
      (Checked.advance s).bind fun _ s1 =>
      match stoi token.value with
      | .value v => .done (.ok (NumberNode v token.lineNumber) s1)
      | .invalid_argument => .done (.error .stoiInvalidArgument)
      | .out_of_range => .done (.error .stoiOutOfRange)
    else if token.type = T_IDENTIFIER then
      (Checked.advance s).bind fun _ s1 =>
      .done (.ok (VariableNode token.value token.lineNumber) s1)
    else if token.type = T_LPAREN then
      (Checked.advance s).bind fun _ s0 =>
      (Checked.expression fuel s0).bind fun node s1 =>
      (Checked.expect s1 T_RPAREN).bind fun _ s2 => .done (.ok node s2)
    else .done (.error (.unexpectedToken token.value token.lineNumber))

end

/-- The loop of `Parser::program`, in the checked parser. -/
def Checked.programLoop : Nat → List ASTNode → Parser → Checked (List ASTNode)
  | 0, _, _ => .done .timeout
  | fuel + 1, statements, s =>
    if s.currentToken.type ≠ T_EOF then
      (Checked.statement fuel s).bind fun stmt s1 =>
      Checked.programLoop fuel (statements ++ [stmt]) s1
    else .done (.ok statements s)

/-- The method `Parser::program`, in the checked parser. -/
def Checked.program (fuel : Nat) (s : Parser) : Checked ASTNode :=
  let lineNumber := s.currentToken.lineNumber
  (Checked.programLoop fuel [] s).bind fun statements s1 =>
  .done (.ok (BlockNode statements lineNumber) s1)

/-- The method `Parser::parse` in the checked parser, on the parser constructed
from `tokens`; the call of `advance` in the constructor is not checked. -/
def Checked.parse (fuel : Nat) (tokens : List Token) : Checked ASTNode :=
  Checked.program fuel (Parser.new tokens)

/-! ## Theorems -/

/-! ### Fuel -/

theorem EvalResult.eval_le_refl (r : EvalResult) : r.le r := Or.inr rfl

theorem EvalResult.eval_timeout_le (r : EvalResult) : EvalResult.le .timeout r := Or.inl rfl

theorem EvalResult.eval_bind_le {r r' : EvalResult} {k k' : Int → Interpreter → EvalResult}
    (h : r.le r') (hk : ∀ v s, (k v s).le (k' v s)) : (r.bind k).le (r'.bind k') := by
  rcases h with h | h
  · left; simp [h, EvalResult.bind]
  · subst h
    cases r with
    | value v s => simpa [EvalResult.bind] using hk v s
    | error e s => right; rfl
    | timeout => left; rfl
    | undefined => right; rfl

theorem Interpreter.visit_fuel_succ (fuel : Nat) :
    (∀ node s, (Interpreter.visit fuel node s).le (Interpreter.visit (fuel + 1) node s)) ∧
    (∀ l op r line s, (Interpreter.visitBinOpNode fuel l op r line s).le
      (Interpreter.visitBinOpNode (fuel + 1) l op r line s)) ∧
    (∀ name v s, (Interpreter.visitAssignNode fuel name v s).le
      (Interpreter.visitAssignNode (fuel + 1) name v s)) ∧
    (∀ e s, (Interpreter.visitPrintNode fuel e s).le (Interpreter.visitPrintNode (fuel + 1) e s)) ∧
    (∀ c t f s, (Interpreter.visitIfNode fuel c t f s).le
      (Interpreter.visitIfNode (fuel + 1) c t f s)) ∧
    (∀ c b s, (Interpreter.visitWhileNode fuel c b s).le
      (Interpreter.visitWhileNode (fuel + 1) c b s)) ∧
    (∀ stmts s, (Interpreter.visitBlockNode fuel stmts s).le
      (Interpreter.visitBlockNode (fuel + 1) stmts s)) := by
  induction fuel with
  | zero =>
    refine ⟨?_, ?_, ?_, ?_, ?_, ?_, ?_⟩ <;> intros <;> left <;>
      simp [Interpreter.visit, Interpreter.visitBinOpNode, Interpreter.visitAssignNode,
        Interpreter.visitPrintNode, Interpreter.visitIfNode, Interpreter.visitWhileNode,
        Interpreter.visitBlockNode]
  | succ fuel ih =>
    obtain ⟨hv, hb, ha, hp, hi, hw, hk⟩ := ih
    refine ⟨?_, ?_, ?_, ?_, ?_, ?_, ?_⟩
    · intro node s
      cases node <;> simp only [Interpreter.visit] <;>
        first | exact EvalResult.eval_le_refl _ | apply hb | apply ha | apply hp | apply hi
              | apply hw | apply hk
    · intro l op r line s
      simp only [Interpreter.visitBinOpNode]
      exact EvalResult.eval_bind_le (hv _ _) fun _ _ =>
        EvalResult.eval_bind_le (hv _ _) fun _ _ => EvalResult.eval_le_refl _
    · intro name v s
      simp only [Interpreter.visitAssignNode]
      exact EvalResult.eval_bind_le (hv _ _) fun _ _ => EvalResult.eval_le_refl _
    · intro e s
      simp only [Interpreter.visitPrintNode]
      exact EvalResult.eval_bind_le (hv _ _) fun _ _ => EvalResult.eval_le_refl _
    · intro c t f s
      simp only [Interpreter.visitIfNode]
      refine EvalResult.eval_bind_le (hv _ _) fun v s1 => ?_
      split
      · exact EvalResult.eval_bind_le (hv _ _) fun _ _ => EvalResult.eval_le_refl _
      · cases f with
        | none => exact EvalResult.eval_le_refl _
        | some node => exact EvalResult.eval_bind_le (hv _ _) fun _ _ => EvalResult.eval_le_refl _
    · intro c b s
      simp only [Interpreter.visitWhileNode]
      refine EvalResult.eval_bind_le (hv _ _) fun v s1 => ?_
      split
      · exact EvalResult.eval_bind_le (hv _ _) fun _ _ => hw _ _ _
      · exact EvalResult.eval_le_refl _
    · intro stmts s
      cases stmts with
      | nil => simp only [Interpreter.visitBlockNode]; exact EvalResult.eval_le_refl _
      | cons stmt rest =>
        simp only [Interpreter.visitBlockNode]
        exact EvalResult.eval_bind_le (hv _ _) fun _ _ => hk _ _

/-- A visit that has a result keeps it with any larger fuel. -/
theorem Interpreter.visit_mono {fuel fuel' : Nat} {node : ASTNode} {s : Interpreter}
    {r : EvalResult} (h : Interpreter.visit fuel node s = r) (hr : r ≠ .timeout)
    (hle : fuel ≤ fuel') : Interpreter.visit fuel' node s = r := by
  induction hle with
  | refl => exact h
  | step _ ih =>
    rcases (Interpreter.visit_fuel_succ _).1 node s with h' | h'
    · exact absurd (ih ▸ h') hr
    · rw [← h', ih]

theorem ParseResult.parse_le_refl {α : Type} (r : ParseResult α) : r.le r := Or.inr rfl

theorem ParseResult.parse_bind_le {α β : Type} {r r' : ParseResult α}
    {k k' : α → Parser → ParseResult β}
    (h : r.le r') (hk : ∀ a s, (k a s).le (k' a s)) : (r.bind k).le (r'.bind k') := by
  rcases h with h | h
  · left; simp [h, ParseResult.bind]
  · subst h
    cases r with
    | ok a s => simpa [ParseResult.bind] using hk a s
    | error e => right; rfl
    | timeout => left; rfl

theorem Parser.parse_fuel_succ (fuel : Nat) :
    (∀ s, (Parser.statement fuel s).le (Parser.statement (fuel + 1) s)) ∧
    (∀ s, (Parser.assignmentStatement fuel s).le (Parser.assignmentStatement (fuel + 1) s)) ∧
    (∀ s, (Parser.printStatement fuel s).le (Parser.printStatement (fuel + 1) s)) ∧
    (∀ s, (Parser.ifStatement fuel s).le (Parser.ifStatement (fuel + 1) s)) ∧
    (∀ s, (Parser.whileStatement fuel s).le (Parser.whileStatement (fuel + 1) s)) ∧
    (∀ acc s, (Parser.blockLoop fuel acc s).le (Parser.blockLoop (fuel + 1) acc s)) ∧
    (∀ s, (Parser.block fuel s).le (Parser.block (fuel + 1) s)) ∧
    (∀ s, (Parser.expression fuel s).le (Parser.expression (fuel + 1) s)) ∧
    (∀ n s, (Parser.equalityLoop fuel n s).le (Parser.equalityLoop (fuel + 1) n s)) ∧
    (∀ s, (Parser.equality fuel s).le (Parser.equality (fuel + 1) s)) ∧
    (∀ n s, (Parser.comparisonLoop fuel n s).le (Parser.comparisonLoop (fuel + 1) n s)) ∧
    (∀ s, (Parser.comparison fuel s).le (Parser.comparison (fuel + 1) s)) ∧
    (∀ n s, (Parser.termLoop fuel n s).le (Parser.termLoop (fuel + 1) n s)) ∧
    (∀ s, (Parser.term fuel s).le (Parser.term (fuel + 1) s)) ∧
    (∀ n s, (Parser.factorLoop fuel n s).le (Parser.factorLoop (fuel + 1) n s)) ∧
    (∀ s, (Parser.factor fuel s).le (Parser.factor (fuel + 1) s)) ∧
    (∀ s, (Parser.unary fuel s).le (Parser.unary (fuel + 1) s)) ∧
    (∀ s, (Parser.primary fuel s).le (Parser.primary (fuel + 1) s)) := by
  induction fuel with
  | zero =>
    refine ⟨?_, ?_, ?_, ?_, ?_, ?_, ?_, ?_, ?_, ?_, ?_, ?_, ?_, ?_, ?_, ?_, ?_, ?_⟩ <;>
      intros <;> left <;> simp [Parser.statement, Parser.assignmentStatement, Parser.printStatement, Parser.ifStatement, Parser.whileStatement, Parser.blockLoop, Parser.block, Parser.expression, Parser.equalityLoop, Parser.equality, Parser.comparisonLoop, Parser.comparison, Parser.termLoop, Parser.term, Parser.factorLoop, Parser.factor, Parser.unary, Parser.primary]
  | succ fuel ih =>
    obtain ⟨hst, has, hpr, hif, hwh, hbl, hb, hex, heql, heq, hcml, hcm, htl, ht, hfl, hf,
      hu, hp⟩ := ih
    refine ⟨?_, ?_, ?_, ?_, ?_, ?_, ?_, ?_, ?_, ?_, ?_, ?_, ?_, ?_, ?_, ?_, ?_, ?_⟩
    · intro s
      simp only [Parser.statement]
      repeat' split
      all_goals first | exact ParseResult.parse_le_refl _ | apply has | apply hpr | apply hif
                      | apply hwh | apply hb
    · intro s
      simp only [Parser.assignmentStatement]
      exact ParseResult.parse_bind_le (ParseResult.parse_le_refl _) fun _ _ =>
        ParseResult.parse_bind_le (hex _) fun _ _ => ParseResult.parse_le_refl _
    · intro s
      simp only [Parser.printStatement]
      exact ParseResult.parse_bind_le (ParseResult.parse_le_refl _) fun _ _ =>
        ParseResult.parse_bind_le (ParseResult.parse_le_refl _) fun _ _ =>
        ParseResult.parse_bind_le (hex _) fun _ _ => ParseResult.parse_le_refl _
    · intro s
      simp only [Parser.ifStatement]
      refine ParseResult.parse_bind_le (ParseResult.parse_le_refl _) fun _ _ =>
        ParseResult.parse_bind_le (ParseResult.parse_le_refl _) fun _ _ =>
        ParseResult.parse_bind_le (hex _) fun _ _ =>
        ParseResult.parse_bind_le (ParseResult.parse_le_refl _) fun _ _ =>
        ParseResult.parse_bind_le (hst _) fun _ s5 => ?_
      split
      · exact ParseResult.parse_bind_le (hst _) fun _ _ => ParseResult.parse_le_refl _
      · exact ParseResult.parse_le_refl _
    · intro s
      simp only [Parser.whileStatement]
      exact ParseResult.parse_bind_le (ParseResult.parse_le_refl _) fun _ _ =>
        ParseResult.parse_bind_le (ParseResult.parse_le_refl _) fun _ _ =>
        ParseResult.parse_bind_le (hex _) fun _ _ =>
        ParseResult.parse_bind_le (ParseResult.parse_le_refl _) fun _ _ =>
        ParseResult.parse_bind_le (hst _) fun _ _ => ParseResult.parse_le_refl _
    · intro acc s
      simp only [Parser.blockLoop]
      split
      · exact ParseResult.parse_bind_le (hst _) fun _ _ => hbl _ _
      · exact ParseResult.parse_le_refl _
    · intro s
      simp only [Parser.block]
      exact ParseResult.parse_bind_le (ParseResult.parse_le_refl _) fun _ _ =>
        ParseResult.parse_bind_le (hbl _ _) fun _ _ => ParseResult.parse_le_refl _
    · intro s
      simp only [Parser.expression]
      exact heq _
    · intro n s
      simp only [Parser.equalityLoop]
      split
      · exact ParseResult.parse_bind_le (hcm _) fun _ _ => heql _ _
      · exact ParseResult.parse_le_refl _
    · intro s
      simp only [Parser.equality]
      exact ParseResult.parse_bind_le (hcm _) fun _ _ => heql _ _
    · intro n s
      simp only [Parser.comparisonLoop]
      split
      · exact ParseResult.parse_bind_le (ht _) fun _ _ => hcml _ _
      · exact ParseResult.parse_le_refl _
    · intro s
      simp only [Parser.comparison]
      exact ParseResult.parse_bind_le (ht _) fun _ _ => hcml _ _
    · intro n s
      simp only [Parser.termLoop]
      split
      · exact ParseResult.parse_bind_le (hf _) fun _ _ => htl _ _
      · exact ParseResult.parse_le_refl _
    · intro s
      simp only [Parser.term]
      exact ParseResult.parse_bind_le (hf _) fun _ _ => htl _ _
    · intro n s
      simp only [Parser.factorLoop]
      split
      · exact ParseResult.parse_bind_le (hu _) fun _ _ => hfl _ _
      · exact ParseResult.parse_le_refl _
    · intro s
      simp only [Parser.factor]
      exact ParseResult.parse_bind_le (hu _) fun _ _ => hfl _ _
    · intro s
      simp only [Parser.unary]
      split
      · exact ParseResult.parse_bind_le (hu _) fun _ _ => ParseResult.parse_le_refl _
      · exact hp _
    · intro s
      simp only [Parser.primary]
      repeat' split
      all_goals first
        | exact ParseResult.parse_le_refl _
        | exact ParseResult.parse_bind_le (hex _) fun _ _ => ParseResult.parse_le_refl _

theorem Parser.statement_fuelMono : Parser.FuelMono Parser.statement :=
  fun fuel s => (Parser.parse_fuel_succ fuel).1 s

theorem Parser.assignmentStatement_fuelMono : Parser.FuelMono Parser.assignmentStatement :=
  fun fuel s => (Parser.parse_fuel_succ fuel).2.1 s

theorem Parser.printStatement_fuelMono : Parser.FuelMono Parser.printStatement :=
  fun fuel s => (Parser.parse_fuel_succ fuel).2.2.1 s

theorem Parser.ifStatement_fuelMono : Parser.FuelMono Parser.ifStatement :=
  fun fuel s => (Parser.parse_fuel_succ fuel).2.2.2.1 s

theorem Parser.whileStatement_fuelMono : Parser.FuelMono Parser.whileStatement :=
  fun fuel s => (Parser.parse_fuel_succ fuel).2.2.2.2.1 s

theorem Parser.blockLoop_fuelMono (n : List ASTNode) :
    Parser.FuelMono (fun fuel s => Parser.blockLoop fuel n s) :=
  fun fuel s => (Parser.parse_fuel_succ fuel).2.2.2.2.2.1 n s

theorem Parser.block_fuelMono : Parser.FuelMono Parser.block :=
  fun fuel s => (Parser.parse_fuel_succ fuel).2.2.2.2.2.2.1 s

theorem Parser.expression_fuelMono : Parser.FuelMono Parser.expression :=
  fun fuel s => (Parser.parse_fuel_succ fuel).2.2.2.2.2.2.2.1 s

theorem Parser.equalityLoop_fuelMono (n : ASTNode) :
    Parser.FuelMono (fun fuel s => Parser.equalityLoop fuel n s) :=
  fun fuel s => (Parser.parse_fuel_succ fuel).2.2.2.2.2.2.2.2.1 n s

theorem Parser.equality_fuelMono : Parser.FuelMono Parser.equality :=
  fun fuel s => (Parser.parse_fuel_succ fuel).2.2.2.2.2.2.2.2.2.1 s

theorem Parser.comparisonLoop_fuelMono (n : ASTNode) :
    Parser.FuelMono (fun fuel s => Parser.comparisonLoop fuel n s) :=
  fun fuel s => (Parser.parse_fuel_succ fuel).2.2.2.2.2.2.2.2.2.2.1 n s

theorem Parser.comparison_fuelMono : Parser.FuelMono Parser.comparison :=
  fun fuel s => (Parser.parse_fuel_succ fuel).2.2.2.2.2.2.2.2.2.2.2.1 s

theorem Parser.termLoop_fuelMono (n : ASTNode) :
    Parser.FuelMono (fun fuel s => Parser.termLoop fuel n s) :=
  fun fuel s => (Parser.parse_fuel_succ fuel).2.2.2.2.2.2.2.2.2.2.2.2.1 n s

theorem Parser.term_fuelMono : Parser.FuelMono Parser.term :=
  fun fuel s => (Parser.parse_fuel_succ fuel).2.2.2.2.2.2.2.2.2.2.2.2.2.1 s

theorem Parser.factorLoop_fuelMono (n : ASTNode) :
    Parser.FuelMono (fun fuel s => Parser.factorLoop fuel n s) :=
  fun fuel s => (Parser.parse_fuel_succ fuel).2.2.2.2.2.2.2.2.2.2.2.2.2.2.1 n s

theorem Parser.factor_fuelMono : Parser.FuelMono Parser.factor :=
  fun fuel s => (Parser.parse_fuel_succ fuel).2.2.2.2.2.2.2.2.2.2.2.2.2.2.2.1 s

theorem Parser.unary_fuelMono : Parser.FuelMono Parser.unary :=
  fun fuel s => (Parser.parse_fuel_succ fuel).2.2.2.2.2.2.2.2.2.2.2.2.2.2.2.2.1 s

theorem Parser.primary_fuelMono : Parser.FuelMono Parser.primary :=
  fun fuel s => (Parser.parse_fuel_succ fuel).2.2.2.2.2.2.2.2.2.2.2.2.2.2.2.2.2 s

theorem Parser.programLoop_fuelMono (acc : List ASTNode) :
    Parser.FuelMono (fun fuel s => Parser.programLoop fuel acc s) := by
  intro fuel
  induction fuel generalizing acc with
  | zero => intro s; left; rfl
  | succ fuel ih =>
    intro s
    simp only [Parser.programLoop]
    split
    · exact ParseResult.parse_bind_le (Parser.statement_fuelMono _ _) fun _ _ => ih _ _
    · exact ParseResult.parse_le_refl _

theorem Parser.program_fuelMono : Parser.FuelMono Parser.program := by
  intro fuel s
  simp only [Parser.program]
  exact ParseResult.parse_bind_le (Parser.programLoop_fuelMono _ _ _) fun _ _ => ParseResult.parse_le_refl _

/-- A parsing procedure that has a result keeps it with any larger fuel. -/
theorem Parser.FuelMono.mono {α : Type} {p : Nat → Parser → ParseResult α}
    (hp : Parser.FuelMono p) {fuel fuel' : Nat} {s : Parser} {r : ParseResult α}
    (h : p fuel s = r) (hr : r ≠ .timeout) (hle : fuel ≤ fuel') : p fuel' s = r := by
  induction hle with
  | refl => exact h
  | step _ ih =>
    rcases hp _ s with h' | h'
    · exact absurd (ih ▸ h') hr
    · rw [← h', ih]

theorem Parser.FuelMono.runs {α : Type} {p : Nat → Parser → ParseResult α}
    (hp : Parser.FuelMono p) {fuel : Nat} {s : Parser} {r : ParseResult α}
    (h : p fuel s = r) (hr : r ≠ .timeout) : Parser.Runs p s r :=
  ⟨fuel, fun _ hle => hp.mono h hr hle⟩

theorem Parser.Runs.runs_unique {α : Type} {p : Nat → Parser → ParseResult α} {s : Parser}
    {r r' : ParseResult α} (h : Parser.Runs p s r) (h' : Parser.Runs p s r') : r = r' := by
  obtain ⟨f, hf⟩ := h
  obtain ⟨f', hf'⟩ := h'
  rw [← hf (max f f') (le_max_left _ _), ← hf' (max f f') (le_max_right _ _)]

theorem parse_mono {fuel fuel' : Nat} {tokens : List Token} {r : ParseResult ASTNode}
    (h : parse fuel tokens = r) (hr : r ≠ .timeout) (hle : fuel ≤ fuel') :
    parse fuel' tokens = r :=
  Parser.program_fuelMono.mono h hr hle

theorem Parses.parses_of_eq {fuel : Nat} {tokens : List Token} {r : ParseResult ASTNode}
    (h : parse fuel tokens = r) (hr : r ≠ .timeout) : Parses tokens r :=
  ⟨fuel, fun _ hle => parse_mono h hr hle⟩

theorem Interpreter.Visits.visits_of_eq {fuel : Nat} {node : ASTNode} {s : Interpreter}
    {r : EvalResult} (h : Interpreter.visit fuel node s = r) (hr : r ≠ .timeout) :
    Interpreter.Visits node s r :=
  ⟨fuel, fun _ hle => Interpreter.visit_mono h hr hle⟩

theorem Interpreter.Visits.visits_unique {node : ASTNode} {s : Interpreter} {r r' : EvalResult}
    (h : Interpreter.Visits node s r) (h' : Interpreter.Visits node s r') : r = r' := by
  obtain ⟨f, hf⟩ := h
  obtain ⟨f', hf'⟩ := h'
  rw [← hf (max f f') (le_max_left _ _), ← hf' (max f f') (le_max_right _ _)]

/-- A run of the driver that has a result keeps it with any larger fuel. -/
theorem main_mono {fuel fuel' : Nat} {code : String} {r : RunResult}
    (h : main fuel code = r) (hr : r ≠ .timeout) (hle : fuel ≤ fuel') :
    main fuel' code = r := by
  unfold main at h ⊢
  cases hl : generateTokens code.toList with
  | error e => rw [hl] at h; exact h
  | timeout => rw [hl] at h; exact h
  | ok tokens =>
    rw [hl] at h
    simp only at h ⊢
    cases hp : parse fuel tokens with
    | timeout => rw [hp] at h; exact absurd h.symm hr
    | error e =>
      rw [parse_mono hp (by simp) hle]
      rw [hp] at h
      exact h
    | ok root s =>
      rw [parse_mono hp (by simp) hle]
      rw [hp] at h
      simp only at h ⊢
      cases hi : interpret fuel root with
      | timeout => rw [hi] at h; exact absurd h.symm hr
      | error e s =>
        have := Interpreter.visit_mono hi (by simp) hle
        unfold interpret at *
        rw [this]; rw [hi] at h; exact h
      | undefined =>
        have := Interpreter.visit_mono hi (by simp) hle
        unfold interpret at *
        rw [this]; rw [hi] at h; exact h
      | value v s =>
        have := Interpreter.visit_mono hi (by simp) hle
        unfold interpret at *
        rw [this]; rw [hi] at h; exact h

theorem Runs.runs_of_eq {fuel : Nat} {code : String} {r : RunResult}
    (h : main fuel code = r) (hr : r ≠ .timeout) : Runs code r :=
  ⟨fuel, fun _ hle => main_mono h hr hle⟩

theorem precedence_eq_one {op : String} :
    precedence op = some 1 ↔ (op = "==" ∨ op = "!=") := by
  constructor
  · intro h
    unfold precedence at h
    split_ifs at h
    all_goals first | assumption | simp at h
  · intro h
    rcases h with rfl | rfl <;> decide

theorem precedence_eq_two {op : String} :
    precedence op = some 2 ↔ (op = "<" ∨ op = "<=" ∨ op = ">" ∨ op = ">=") := by
  constructor
  · intro h
    unfold precedence at h
    split_ifs at h
    all_goals first | assumption | simp at h
  · intro h
    rcases h with rfl | rfl | rfl | rfl <;> decide

theorem precedence_eq_three {op : String} :
    precedence op = some 3 ↔ (op = "+" ∨ op = "-") := by
  constructor
  · intro h
    unfold precedence at h
    split_ifs at h
    all_goals first | assumption | simp at h
  · intro h
    rcases h with rfl | rfl <;> decide

theorem precedence_eq_four {op : String} :
    precedence op = some 4 ↔ (op = "*" ∨ op = "/" ∨ op = "%") := by
  constructor
  · intro h
    unfold precedence at h
    split_ifs at h
    all_goals first | assumption | simp at h
  · intro h
    rcases h with rfl | rfl | rfl <;> decide

/-! ### Derived rules for the expression levels -/

theorem Parser.Runs.equality_of {s s1 : Parser} {n : ASTNode} {r : ParseResult ASTNode}
    (h1 : Parser.Runs Parser.comparison s (.ok n s1))
    (h2 : Parser.Runs (fun fuel s => Parser.equalityLoop fuel n s) s1 r) :
    Parser.Runs Parser.equality s r := by
  obtain ⟨f1, h1⟩ := h1
  obtain ⟨f2, h2⟩ := h2
  refine ⟨max f1 f2 + 1, fun fuel hle => ?_⟩
  obtain ⟨k, rfl⟩ := Nat.exists_eq_add_of_le hle
  have e : max f1 f2 + 1 + k = (max f1 f2 + k) + 1 := by omega
  rw [e]
  simp only [Parser.equality]
  rw [h1 _ (by omega)]
  exact h2 _ (by omega)

theorem Parser.Runs.equalityLoop_done {s : Parser} {n : ASTNode}
    (h : ¬ s.currentToken.isOperatorOfLevel 1) :
    Parser.Runs (fun fuel s => Parser.equalityLoop fuel n s) s (.ok n s) := by
  refine ⟨1, fun fuel hle => ?_⟩
  obtain ⟨k, rfl⟩ := Nat.exists_eq_add_of_le hle
  have e : 1 + k = k + 1 := by omega
  rw [e]
  simp only [Parser.equalityLoop]
  rw [if_neg]
  intro hc
  exact h ⟨hc.1, precedence_eq_one.2 hc.2⟩

theorem Parser.Runs.equalityLoop_step {s s1 : Parser} {n m : ASTNode} {r : ParseResult ASTNode}
    (h : s.currentToken.isOperatorOfLevel 1)
    (h1 : Parser.Runs Parser.comparison s.advance (.ok m s1))
    (h2 : Parser.Runs (fun fuel s' => Parser.equalityLoop fuel
      (BinOpNode n s.currentToken.value m s.currentToken.lineNumber) s') s1 r) :
    Parser.Runs (fun fuel s => Parser.equalityLoop fuel n s) s r := by
  obtain ⟨f1, h1⟩ := h1
  obtain ⟨f2, h2⟩ := h2
  refine ⟨max f1 f2 + 1, fun fuel hle => ?_⟩
  obtain ⟨k, rfl⟩ := Nat.exists_eq_add_of_le hle
  have e : max f1 f2 + 1 + k = (max f1 f2 + k) + 1 := by omega
  rw [e]
  simp only [Parser.equalityLoop]
  rw [if_pos, h1 _ (by omega)]
  · exact h2 _ (by omega)
  · exact ⟨h.1, precedence_eq_one.1 h.2⟩

theorem Parser.Runs.comparison_of {s s1 : Parser} {n : ASTNode} {r : ParseResult ASTNode}
    (h1 : Parser.Runs Parser.term s (.ok n s1))
    (h2 : Parser.Runs (fun fuel s => Parser.comparisonLoop fuel n s) s1 r) :
    Parser.Runs Parser.comparison s r := by
  obtain ⟨f1, h1⟩ := h1
  obtain ⟨f2, h2⟩ := h2
  refine ⟨max f1 f2 + 1, fun fuel hle => ?_⟩
  obtain ⟨k, rfl⟩ := Nat.exists_eq_add_of_le hle
  have e : max f1 f2 + 1 + k = (max f1 f2 + k) + 1 := by omega
  rw [e]
  simp only [Parser.comparison]
  rw [h1 _ (by omega)]
  exact h2 _ (by omega)

theorem Parser.Runs.comparisonLoop_done {s : Parser} {n : ASTNode}
    (h : ¬ s.currentToken.isOperatorOfLevel 2) :
    Parser.Runs (fun fuel s => Parser.comparisonLoop fuel n s) s (.ok n s) := by
  refine ⟨1, fun fuel hle => ?_⟩
  obtain ⟨k, rfl⟩ := Nat.exists_eq_add_of_le hle
  have e : 1 + k = k + 1 := by omega
  rw [e]
  simp only [Parser.comparisonLoop]
  rw [if_neg]
  intro hc
  exact h ⟨hc.1, precedence_eq_two.2 hc.2⟩

theorem Parser.Runs.comparisonLoop_step {s s1 : Parser} {n m : ASTNode} {r : ParseResult ASTNode}
    (h : s.currentToken.isOperatorOfLevel 2)
    (h1 : Parser.Runs Parser.term s.advance (.ok m s1))
    (h2 : Parser.Runs (fun fuel s' => Parser.comparisonLoop fuel
      (BinOpNode n s.currentToken.value m s.currentToken.lineNumber) s') s1 r) :
    Parser.Runs (fun fuel s => Parser.comparisonLoop fuel n s) s r := by
  obtain ⟨f1, h1⟩ := h1
  obtain ⟨f2, h2⟩ := h2
  refine ⟨max f1 f2 + 1, fun fuel hle => ?_⟩
  obtain ⟨k, rfl⟩ := Nat.exists_eq_add_of_le hle
  have e : max f1 f2 + 1 + k = (max f1 f2 + k) + 1 := by omega
  rw [e]
  simp only [Parser.comparisonLoop]
  rw [if_pos, h1 _ (by omega)]
  · exact h2 _ (by omega)
  · exact ⟨h.1, precedence_eq_two.1 h.2⟩

theorem Parser.Runs.term_of {s s1 : Parser} {n : ASTNode} {r : ParseResult ASTNode}
    (h1 : Parser.Runs Parser.factor s (.ok n s1))
    (h2 : Parser.Runs (fun fuel s => Parser.termLoop fuel n s) s1 r) :
    Parser.Runs Parser.term s r := by
  obtain ⟨f1, h1⟩ := h1
  obtain ⟨f2, h2⟩ := h2
  refine ⟨max f1 f2 + 1, fun fuel hle => ?_⟩
  obtain ⟨k, rfl⟩ := Nat.exists_eq_add_of_le hle
  have e : max f1 f2 + 1 + k = (max f1 f2 + k) + 1 := by omega
  rw [e]
  simp only [Parser.term]
  rw [h1 _ (by omega)]
  exact h2 _ (by omega)

theorem Parser.Runs.termLoop_done {s : Parser} {n : ASTNode}
    (h : ¬ s.currentToken.isOperatorOfLevel 3) :
    Parser.Runs (fun fuel s => Parser.termLoop fuel n s) s (.ok n s) := by
  refine ⟨1, fun fuel hle => ?_⟩
  obtain ⟨k, rfl⟩ := Nat.exists_eq_add_of_le hle
  have e : 1 + k = k + 1 := by omega
  rw [e]
  simp only [Parser.termLoop]
  rw [if_neg]
  intro hc
  exact h ⟨hc.1, precedence_eq_three.2 hc.2⟩

theorem Parser.Runs.termLoop_step {s s1 : Parser} {n m : ASTNode} {r : ParseResult ASTNode}
    (h : s.currentToken.isOperatorOfLevel 3)
    (h1 : Parser.Runs Parser.factor s.advance (.ok m s1))
    (h2 : Parser.Runs (fun fuel s' => Parser.termLoop fuel
      (BinOpNode n s.currentToken.value m s.currentToken.lineNumber) s') s1 r) :
    Parser.Runs (fun fuel s => Parser.termLoop fuel n s) s r := by
  obtain ⟨f1, h1⟩ := h1
  obtain ⟨f2, h2⟩ := h2
  refine ⟨max f1 f2 + 1, fun fuel hle => ?_⟩
  obtain ⟨k, rfl⟩ := Nat.exists_eq_add_of_le hle
  have e : max f1 f2 + 1 + k = (max f1 f2 + k) + 1 := by omega
  rw [e]
  simp only [Parser.termLoop]
  rw [if_pos, h1 _ (by omega)]
  · exact h2 _ (by omega)
  · exact ⟨h.1, precedence_eq_three.1 h.2⟩

theorem Parser.Runs.factor_of {s s1 : Parser} {n : ASTNode} {r : ParseResult ASTNode}
    (h1 : Parser.Runs Parser.unary s (.ok n s1))
    (h2 : Parser.Runs (fun fuel s => Parser.factorLoop fuel n s) s1 r) :
    Parser.Runs Parser.factor s r := by
  obtain ⟨f1, h1⟩ := h1
  obtain ⟨f2, h2⟩ := h2
  refine ⟨max f1 f2 + 1, fun fuel hle => ?_⟩
  obtain ⟨k, rfl⟩ := Nat.exists_eq_add_of_le hle
  have e : max f1 f2 + 1 + k = (max f1 f2 + k) + 1 := by omega
  rw [e]
  simp only [Parser.factor]
  rw [h1 _ (by omega)]
  exact h2 _ (by omega)

theorem Parser.Runs.factorLoop_done {s : Parser} {n : ASTNode}
    (h : ¬ s.currentToken.isOperatorOfLevel 4) :
    Parser.Runs (fun fuel s => Parser.factorLoop fuel n s) s (.ok n s) := by
  refine ⟨1, fun fuel hle => ?_⟩
  obtain ⟨k, rfl⟩ := Nat.exists_eq_add_of_le hle
  have e : 1 + k = k + 1 := by omega
  rw [e]
  simp only [Parser.factorLoop]
  rw [if_neg]
  intro hc
  exact h ⟨hc.1, precedence_eq_four.2 hc.2⟩

theorem Parser.Runs.factorLoop_step {s s1 : Parser} {n m : ASTNode} {r : ParseResult ASTNode}
    (h : s.currentToken.isOperatorOfLevel 4)
    (h1 : Parser.Runs Parser.unary s.advance (.ok m s1))
    (h2 : Parser.Runs (fun fuel s' => Parser.factorLoop fuel
      (BinOpNode n s.currentToken.value m s.currentToken.lineNumber) s') s1 r) :
    Parser.Runs (fun fuel s => Parser.factorLoop fuel n s) s r := by
  obtain ⟨f1, h1⟩ := h1
  obtain ⟨f2, h2⟩ := h2
  refine ⟨max f1 f2 + 1, fun fuel hle => ?_⟩
  obtain ⟨k, rfl⟩ := Nat.exists_eq_add_of_le hle
  have e : max f1 f2 + 1 + k = (max f1 f2 + k) + 1 := by omega
  rw [e]
  simp only [Parser.factorLoop]
  rw [if_pos, h1 _ (by omega)]
  · exact h2 _ (by omega)
  · exact ⟨h.1, precedence_eq_four.1 h.2⟩

theorem Parser.Runs.expression_of {s : Parser} {r : ParseResult ASTNode}
    (h : Parser.Runs Parser.equality s r) : Parser.Runs Parser.expression s r := by
  obtain ⟨f, hf⟩ := h
  refine ⟨f + 1, fun fuel hle => ?_⟩
  obtain ⟨k, rfl⟩ := Nat.exists_eq_add_of_le hle
  have e : f + 1 + k = (f + k) + 1 := by omega
  rw [e]
  simp only [Parser.expression]
  exact hf _ (by omega)

theorem precedence_range {op : String} {k : Nat} (h : precedence op = some k) :
    1 ≤ k ∧ k ≤ 4 := by
  unfold precedence at h
  split_ifs at h <;> simp at h <;> omega

/-- An operand of the level above is an operand of level `k` when no operator of
strength `k` follows it. -/
theorem Parser.Runs.lift_one {k : Nat} {s s' : Parser} {n : ASTNode} (hk1 : 1 ≤ k)
    (hk4 : k ≤ 4) (h : Parser.Runs (Parser.atLevel (k + 1)) s (.ok n s'))
    (hnot : ¬ s'.currentToken.isOperatorOfLevel k) :
    Parser.Runs (Parser.atLevel k) s (.ok n s') := by
  interval_cases k
  · exact Parser.Runs.equality_of h (Parser.Runs.equalityLoop_done hnot)
  · exact Parser.Runs.comparison_of h (Parser.Runs.comparisonLoop_done hnot)
  · exact Parser.Runs.term_of h (Parser.Runs.termLoop_done hnot)
  · exact Parser.Runs.factor_of h (Parser.Runs.factorLoop_done hnot)

/-- Two operands of the level above with one operator of strength `k` between
them, and no such operator after them, make one binary operation at level `k`. -/
theorem Parser.Runs.binOp_at {k : Nat} {s s1 s2 : Parser} {n m : ASTNode} (hk1 : 1 ≤ k)
    (hk4 : k ≤ 4) (h1 : Parser.Runs (Parser.atLevel (k + 1)) s (.ok n s1))
    (hop : s1.currentToken.isOperatorOfLevel k)
    (h2 : Parser.Runs (Parser.atLevel (k + 1)) s1.advance (.ok m s2))
    (hnot : ¬ s2.currentToken.isOperatorOfLevel k) :
    Parser.Runs (Parser.atLevel k) s
      (.ok (BinOpNode n s1.currentToken.value m s1.currentToken.lineNumber) s2) := by
  interval_cases k
  · exact Parser.Runs.equality_of h1
      (Parser.Runs.equalityLoop_step hop h2 (Parser.Runs.equalityLoop_done hnot))
  · exact Parser.Runs.comparison_of h1
      (Parser.Runs.comparisonLoop_step hop h2 (Parser.Runs.comparisonLoop_done hnot))
  · exact Parser.Runs.term_of h1
      (Parser.Runs.termLoop_step hop h2 (Parser.Runs.termLoop_done hnot))
  · exact Parser.Runs.factor_of h1
      (Parser.Runs.factorLoop_step hop h2 (Parser.Runs.factorLoop_done hnot))

/-- An operand of level `k` is an operand of every lower level `j` when no
operator of a strength from `j` up to `k - 1` follows it. -/
theorem Parser.Runs.lift {j k : Nat} {s s' : Parser} {n : ASTNode} (hjk : j ≤ k) (hk : k ≤ 5)
    (hnot : ∀ i, j ≤ i → i < k → ¬ s'.currentToken.isOperatorOfLevel i)
    (h : Parser.Runs (Parser.atLevel k) s (.ok n s')) :
    Parser.Runs (Parser.atLevel j) s (.ok n s') := by
  induction k, hjk using Nat.le_induction with
  | base => exact h
  | succ k hjk ih =>
    refine ih (by omega) (fun i hi hik => hnot i hi (by omega)) ?_
    rcases Nat.eq_zero_or_pos k with rfl | hpos
    · exact Parser.Runs.expression_of h
    · exact Parser.Runs.lift_one hpos (by omega) h (hnot k hjk (by omega))

theorem Token.not_isOperatorOfLevel_of_type {t : Token} (h : t.type ≠ T_OPERATOR) (k : Nat) :
    ¬ t.isOperatorOfLevel k :=
  fun hc => h hc.1

theorem Token.not_isOperatorOfLevel_of_ne {t : Token} {p k : Nat}
    (h : precedence t.value = some p) (hne : k ≠ p) : ¬ t.isOperatorOfLevel k :=
  fun hc => hne (by have := hc.2; rw [h] at this; exact (Option.some.inj this).symm)

/-- The looser operator first: `u1 lo u2 hi u3` groups as `u1 lo (u2 hi u3)`. -/
theorem Parser.Runs.tighter_right {s0 s1 s2 s3 : Parser} {n1 n2 n3 : ASTNode}
    {lo hi : String} {l1 l2 p q : Nat}
    (h1 : Parser.Runs Parser.unary s0 (.ok n1 s1))
    (hlo : s1.currentToken = ⟨T_OPERATOR, lo, l1⟩)
    (h2 : Parser.Runs Parser.unary s1.advance (.ok n2 s2))
    (hhi : s2.currentToken = ⟨T_OPERATOR, hi, l2⟩)
    (h3 : Parser.Runs Parser.unary s2.advance (.ok n3 s3))
    (hend : s3.currentToken.type ≠ T_OPERATOR)
    (hp : precedence lo = some p) (hq : precedence hi = some q) (hpq : p < q) :
    Parser.Runs Parser.expression s0
      (.ok (BinOpNode n1 lo (BinOpNode n2 hi n3 l2) l1) s3) := by
  have hpr := precedence_range hp
  have hqr := precedence_range hq
  have hlo' : precedence s1.currentToken.value = some p := by rw [hlo]; exact hp
  have hhi' : precedence s2.currentToken.value = some q := by rw [hhi]; exact hq
  have a1 : Parser.Runs (Parser.atLevel (p + 1)) s0 (.ok n1 s1) :=
    Parser.Runs.lift (k := 5) (by omega) le_rfl
      (fun i hi _ => Token.not_isOperatorOfLevel_of_ne hlo' (by omega)) h1
  have a2 : Parser.Runs (Parser.atLevel (q + 1)) s1.advance (.ok n2 s2) :=
    Parser.Runs.lift (k := 5) (by omega) le_rfl
      (fun i hi _ => Token.not_isOperatorOfLevel_of_ne hhi' (by omega)) h2
  have a3 : Parser.Runs (Parser.atLevel (q + 1)) s2.advance (.ok n3 s3) :=
    Parser.Runs.lift (k := 5) (by omega) le_rfl
      (fun i _ _ => Token.not_isOperatorOfLevel_of_type hend i) h3
  have b := Parser.Runs.binOp_at hqr.1 hqr.2 a2 ⟨by rw [hhi], hhi'⟩ a3
    (Token.not_isOperatorOfLevel_of_type hend q)
  have b' := Parser.Runs.lift (j := p + 1) (by omega) (by omega)
    (fun i _ _ => Token.not_isOperatorOfLevel_of_type hend i) b
  have c := Parser.Runs.binOp_at hpr.1 hpr.2 a1 ⟨by rw [hlo], hlo'⟩ b'
    (Token.not_isOperatorOfLevel_of_type hend p)
  have d := Parser.Runs.lift (j := 0) (by omega) (by omega)
    (fun i _ _ => Token.not_isOperatorOfLevel_of_type hend i) c
  rw [hlo, hhi] at d
  exact d

/-- The tighter operator first: `u1 hi u2 lo u3` groups as `(u1 hi u2) lo u3`. -/
theorem Parser.Runs.tighter_left {s0 s1 s2 s3 : Parser} {n1 n2 n3 : ASTNode}
    {lo hi : String} {l1 l2 p q : Nat}
    (h1 : Parser.Runs Parser.unary s0 (.ok n1 s1))
    (hhi : s1.currentToken = ⟨T_OPERATOR, hi, l1⟩)
    (h2 : Parser.Runs Parser.unary s1.advance (.ok n2 s2))
    (hlo : s2.currentToken = ⟨T_OPERATOR, lo, l2⟩)
    (h3 : Parser.Runs Parser.unary s2.advance (.ok n3 s3))
    (hend : s3.currentToken.type ≠ T_OPERATOR)
    (hp : precedence lo = some p) (hq : precedence hi = some q) (hpq : p < q) :
    Parser.Runs Parser.expression s0
      (.ok (BinOpNode (BinOpNode n1 hi n2 l1) lo n3 l2) s3) := by
  have hpr := precedence_range hp
  have hqr := precedence_range hq
  have hhi' : precedence s1.currentToken.value = some q := by rw [hhi]; exact hq
  have hlo' : precedence s2.currentToken.value = some p := by rw [hlo]; exact hp
  have a1 : Parser.Runs (Parser.atLevel (q + 1)) s0 (.ok n1 s1) :=
    Parser.Runs.lift (k := 5) (by omega) le_rfl
      (fun i hi _ => Token.not_isOperatorOfLevel_of_ne hhi' (by omega)) h1
  have a2 : Parser.Runs (Parser.atLevel (q + 1)) s1.advance (.ok n2 s2) :=
    Parser.Runs.lift (k := 5) (by omega) le_rfl
      (fun i hi _ => Token.not_isOperatorOfLevel_of_ne hlo' (by omega)) h2
  have a3 : Parser.Runs (Parser.atLevel (p + 1)) s2.advance (.ok n3 s3) :=
    Parser.Runs.lift (k := 5) (by omega) le_rfl
      (fun i _ _ => Token.not_isOperatorOfLevel_of_type hend i) h3
  have b := Parser.Runs.binOp_at hqr.1 hqr.2 a1 ⟨by rw [hhi], hhi'⟩ a2
    (Token.not_isOperatorOfLevel_of_ne hlo' (by omega))
  have b' := Parser.Runs.lift (j := p + 1) (by omega) (by omega)
    (fun i hi _ => Token.not_isOperatorOfLevel_of_ne hlo' (by omega)) b
  have c := Parser.Runs.binOp_at hpr.1 hpr.2 b' ⟨by rw [hlo], hlo'⟩ a3
    (Token.not_isOperatorOfLevel_of_type hend p)
  have d := Parser.Runs.lift (j := 0) (by omega) (by omega)
    (fun i _ _ => Token.not_isOperatorOfLevel_of_type hend i) c
  rw [hlo, hhi] at d
  exact d

/-- A unary whose lookahead is not an operator token is a primary. -/
theorem Parser.Runs.unary_of_primary {s : Parser} {r : ParseResult ASTNode}
    (hc : s.currentToken.type ≠ T_OPERATOR) (h : Parser.Runs Parser.primary s r) :
    Parser.Runs Parser.unary s r := by
  obtain ⟨f, hf⟩ := h
  refine ⟨f + 1, fun fuel hle => ?_⟩
  obtain ⟨k, rfl⟩ := Nat.exists_eq_add_of_le hle
  have e : f + 1 + k = (f + k) + 1 := by omega
  rw [e]
  simp only [Parser.unary]
  rw [if_neg (fun hcond => hc hcond.1)]
  exact hf _ (by omega)

/-- A primary that opens a parenthesis is the expression inside it. -/
theorem Parser.Runs.primary_paren {s s1 : Parser} {n : ASTNode}
    (hc : s.currentToken.type = T_LPAREN)
    (h : Parser.Runs Parser.expression s.advance (.ok n s1))
    (hclose : s1.currentToken.type = T_RPAREN) :
    Parser.Runs Parser.primary s (.ok n s1.advance) := by
  obtain ⟨f, hf⟩ := h
  refine ⟨f + 1, fun fuel hle => ?_⟩
  obtain ⟨k, rfl⟩ := Nat.exists_eq_add_of_le hle
  have e : f + 1 + k = (f + k) + 1 := by omega
  rw [e]
  simp only [Parser.primary]
  rw [if_neg (by rw [hc]; decide), if_neg (by rw [hc]; decide), if_pos hc, hf _ (by omega)]
  simp [ParseResult.bind, Parser.expect, hclose]

/-- Parentheses group first: `( u1 op1 u2 ) op2 u3` is `(u1 op1 u2) op2 u3`,
whatever the strengths of the two operators. -/
theorem Parser.Runs.parenthesised {s0 s1 s2 s3 : Parser} {n1 n2 n3 : ASTNode}
    {op1 op2 : String} {l1 l2 p q : Nat}
    (hopen : s0.currentToken.type = T_LPAREN)
    (h1 : Parser.Runs Parser.unary s0.advance (.ok n1 s1))
    (hop1 : s1.currentToken = ⟨T_OPERATOR, op1, l1⟩)
    (h2 : Parser.Runs Parser.unary s1.advance (.ok n2 s2))
    (hclose : s2.currentToken.type = T_RPAREN)
    (hop2 : s2.advance.currentToken = ⟨T_OPERATOR, op2, l2⟩)
    (h3 : Parser.Runs Parser.unary s2.advance.advance (.ok n3 s3))
    (hend : s3.currentToken.type ≠ T_OPERATOR)
    (hp : precedence op1 = some p) (hq : precedence op2 = some q) :
    Parser.Runs Parser.expression s0
      (.ok (BinOpNode (BinOpNode n1 op1 n2 l1) op2 n3 l2) s3) := by
  have hpr := precedence_range hp
  have hqr := precedence_range hq
  have hop1' : precedence s1.currentToken.value = some p := by rw [hop1]; exact hp
  have hop2' : precedence s2.advance.currentToken.value = some q := by rw [hop2]; exact hq
  have hclose' : s2.currentToken.type ≠ T_OPERATOR := by rw [hclose]; decide
  have a1 : Parser.Runs (Parser.atLevel (p + 1)) s0.advance (.ok n1 s1) :=
    Parser.Runs.lift (k := 5) (by omega) le_rfl
      (fun i hi _ => Token.not_isOperatorOfLevel_of_ne hop1' (by omega)) h1
  have a2 : Parser.Runs (Parser.atLevel (p + 1)) s1.advance (.ok n2 s2) :=
    Parser.Runs.lift (k := 5) (by omega) le_rfl
      (fun i _ _ => Token.not_isOperatorOfLevel_of_type hclose' i) h2
  have b := Parser.Runs.binOp_at hpr.1 hpr.2 a1 ⟨by rw [hop1], hop1'⟩ a2
    (Token.not_isOperatorOfLevel_of_type hclose' p)
  have b' : Parser.Runs Parser.expression s0.advance _ := Parser.Runs.lift (j := 0) (by omega)
    (by omega) (fun i _ _ => Token.not_isOperatorOfLevel_of_type hclose' i) b
  have u : Parser.Runs Parser.unary s0 _ :=
    Parser.Runs.unary_of_primary (by rw [hopen]; decide)
      (Parser.Runs.primary_paren hopen b' hclose)
  have c1 : Parser.Runs (Parser.atLevel (q + 1)) s0 _ :=
    Parser.Runs.lift (k := 5) (by omega) le_rfl
      (fun i hi _ => Token.not_isOperatorOfLevel_of_ne hop2' (by omega)) u
  have c3 : Parser.Runs (Parser.atLevel (q + 1)) s2.advance.advance (.ok n3 s3) :=
    Parser.Runs.lift (k := 5) (by omega) le_rfl
      (fun i _ _ => Token.not_isOperatorOfLevel_of_type hend i) h3
  have c := Parser.Runs.binOp_at hqr.1 hqr.2 c1 ⟨by rw [hop2], hop2'⟩ c3
    (Token.not_isOperatorOfLevel_of_type hend q)
  have d := Parser.Runs.lift (j := 0) (by omega) (by omega)
    (fun i _ _ => Token.not_isOperatorOfLevel_of_type hend i) c
  rw [hop1, hop2] at d
  exact d

/-! ### The lexer's inner loops -/

theorem Lexer.currentChar_cons (c : Char) (cs : List Char) (line : Nat) :
    (Lexer.mk (c :: cs) line).currentChar = c := rfl

theorem Lexer.currentChar_nil (line : Nat) : (Lexer.mk [] line).currentChar = '\x00' := rfl

theorem Lexer.lexer_advance_cons (c : Char) (cs : List Char) (line : Nat) :
    (Lexer.mk (c :: cs) line).advance = ⟨cs, if c = '\n' then line + 1 else line⟩ := rfl

theorem isdigit_ne_nul {c : Char} (h : isdigit c = true) : c ≠ '\x00' := by
  rintro rfl
  revert h
  decide

theorem isdigit_ne_newline {c : Char} (h : isdigit c = true) : c ≠ '\n' := by
  rintro rfl
  revert h
  decide

/-- The loop of `number` reads the longest run of digits and stays on its line. -/
theorem Lexer.numberLoop_eq (cs : List Char) :
    ∀ (fuel line : Nat) (result : String), cs.length < fuel →
      Lexer.numberLoop fuel ⟨cs, line⟩ result =
        some (⟨result.data ++ cs.takeWhile isdigit⟩, ⟨cs.dropWhile isdigit, line⟩) := by
  induction cs with
  | nil =>
    intro fuel line result h
    obtain ⟨f, rfl⟩ := Nat.exists_eq_succ_of_ne_zero (Nat.ne_of_gt h)
    simp [Lexer.numberLoop, Lexer.currentChar_nil]
  | cons c cs ih =>
    intro fuel line result h
    obtain ⟨f, rfl⟩ := Nat.exists_eq_succ_of_ne_zero (Nat.ne_of_gt (Nat.zero_lt_of_lt h))
    have hf : cs.length < f := by simpa using h
    rw [Lexer.numberLoop, Lexer.currentChar_cons]
    by_cases hd : isdigit c = true
    · rw [if_pos ⟨isdigit_ne_nul hd, hd⟩, Lexer.lexer_advance_cons, if_neg (isdigit_ne_newline hd),
        ih f line _ hf]
      simp [List.takeWhile_cons, List.dropWhile_cons, hd, String.push]
    · rw [if_neg (fun hc => hd hc.2)]
      simp [List.takeWhile_cons, List.dropWhile_cons, hd]

/-- The method `number` returns the longest run of digits as a number token. -/
theorem Lexer.number_eq (s : Lexer) :
    s.number = some (⟨T_NUMBER, ⟨s.rest.takeWhile isdigit⟩, s.lineNumber⟩,
      ⟨s.rest.dropWhile isdigit, s.lineNumber⟩) := by
  unfold Lexer.number
  rw [show s = ⟨s.rest, s.lineNumber⟩ from rfl, Lexer.numberLoop_eq _ _ _ _ (Nat.lt_succ_self _)]
  simp

theorem isIdentifierChar_ne_nul {c : Char} (h : isIdentifierChar c = true) : c ≠ '\x00' := by
  rintro rfl
  revert h
  decide

theorem isIdentifierChar_ne_newline {c : Char} (h : isIdentifierChar c = true) : c ≠ '\n' := by
  rintro rfl
  revert h
  decide

/-- The loop of `identifier` reads the longest run of letters, digits and
underscores and stays on its line. -/
theorem Lexer.identifierLoop_eq (cs : List Char) :
    ∀ (fuel line : Nat) (result : String), cs.length < fuel →
      Lexer.identifierLoop fuel ⟨cs, line⟩ result =
        some (⟨result.data ++ cs.takeWhile isIdentifierChar⟩,
          ⟨cs.dropWhile isIdentifierChar, line⟩) := by
  induction cs with
  | nil =>
    intro fuel line result h
    obtain ⟨f, rfl⟩ := Nat.exists_eq_succ_of_ne_zero (Nat.ne_of_gt h)
    simp [Lexer.identifierLoop, Lexer.currentChar_nil]
  | cons c cs ih =>
    intro fuel line result h
    obtain ⟨f, rfl⟩ := Nat.exists_eq_succ_of_ne_zero (Nat.ne_of_gt (Nat.zero_lt_of_lt h))
    have hf : cs.length < f := by simpa using h
    rw [Lexer.identifierLoop, Lexer.currentChar_cons]
    by_cases hd : isIdentifierChar c = true
    · have hd' : isalnum c = true ∨ c = '_' := by
        simpa [isIdentifierChar] using hd
      rw [if_pos ⟨isIdentifierChar_ne_nul hd, hd'⟩, Lexer.lexer_advance_cons,
        if_neg (isIdentifierChar_ne_newline hd), ih f line _ hf]
      simp [List.takeWhile_cons, List.dropWhile_cons, hd, String.push]
    · have hd' : ¬ (isalnum c = true ∨ c = '_') := by
        simpa [isIdentifierChar] using hd
      rw [if_neg (fun hc => hd' hc.2)]
      simp [List.takeWhile_cons, List.dropWhile_cons, hd]

/-- The method `identifier` returns the longest run of letters, digits and
underscores, classified as a keyword or an identifier. -/
theorem Lexer.identifier_eq (s : Lexer) :
    s.identifier =
      some (⟨keywordType ⟨s.rest.takeWhile isIdentifierChar⟩,
          ⟨s.rest.takeWhile isIdentifierChar⟩, s.lineNumber⟩,
        ⟨s.rest.dropWhile isIdentifierChar, s.lineNumber⟩) := by
  unfold Lexer.identifier
  rw [show s = ⟨s.rest, s.lineNumber⟩ from rfl,
    Lexer.identifierLoop_eq _ _ _ _ (Nat.lt_succ_self _)]
  simp only [String.data, List.nil_append, keywordType]
  split_ifs <;> rfl

theorem isspace_ne_nul {c : Char} (h : isspace c = true) : c ≠ '\x00' := by
  rintro rfl
  revert h
  decide

/-- The loop of `skipWhitespace` drops the longest run of white space and counts
its newlines. -/
theorem Lexer.skipWhitespaceLoop_eq (cs : List Char) :
    ∀ (fuel line : Nat), cs.length < fuel →
      Lexer.skipWhitespaceLoop fuel ⟨cs, line⟩ =
        some ⟨cs.dropWhile isspace, line + newlines (cs.takeWhile isspace)⟩ := by
  induction cs with
  | nil =>
    intro fuel line h
    obtain ⟨f, rfl⟩ := Nat.exists_eq_succ_of_ne_zero (Nat.ne_of_gt h)
    simp [Lexer.skipWhitespaceLoop, Lexer.currentChar_nil, newlines]
  | cons c cs ih =>
    intro fuel line h
    obtain ⟨f, rfl⟩ := Nat.exists_eq_succ_of_ne_zero (Nat.ne_of_gt (Nat.zero_lt_of_lt h))
    have hf : cs.length < f := by simpa using h
    rw [Lexer.skipWhitespaceLoop, Lexer.currentChar_cons]
    by_cases hd : isspace c = true
    · rw [if_pos ⟨isspace_ne_nul hd, hd⟩, Lexer.lexer_advance_cons, ih f _ hf]
      by_cases hn : c = '\n'
      · subst hn
        simp [List.takeWhile_cons, List.dropWhile_cons, hd, newlines]
        omega
      · have hn' : ¬ ('\n' = c) := fun h => hn h.symm
        simp [List.takeWhile_cons, List.dropWhile_cons, hd, hn, hn', newlines, List.count_cons]
    · rw [if_neg (fun hc => hd hc.2)]
      simp [List.takeWhile_cons, List.dropWhile_cons, hd, newlines]

theorem Lexer.skipWhitespace_eq (s : Lexer) :
    s.skipWhitespace =
      some ⟨s.rest.dropWhile isspace, s.lineNumber + newlines (s.rest.takeWhile isspace)⟩ := by
  unfold Lexer.skipWhitespace
  rw [show s = ⟨s.rest, s.lineNumber⟩ from rfl,
    Lexer.skipWhitespaceLoop_eq _ _ _ (Nat.lt_succ_self _)]

/-! ### One turn of the lexer's main loop -/

theorem Lexer.loop_end (fuel line : Nat) (tokens : List Token) :
    Lexer.generateTokensLoop (fuel + 1) ⟨[], line⟩ tokens =
      .ok (tokens ++ [⟨T_EOF, "", line⟩]) := by
  rw [Lexer.generateTokensLoop, Lexer.currentChar_nil, if_pos rfl]

theorem Lexer.loop_space {c : Char} (h : isspace c = true) (cs : List Char)
    (fuel line : Nat) (tokens : List Token) :
    Lexer.generateTokensLoop (fuel + 1) ⟨c :: cs, line⟩ tokens =
      Lexer.generateTokensLoop fuel
        ⟨(c :: cs).dropWhile isspace, line + newlines ((c :: cs).takeWhile isspace)⟩ tokens := by
  rw [Lexer.generateTokensLoop, Lexer.currentChar_cons, if_neg (isspace_ne_nul h), if_pos h,
    Lexer.skipWhitespace_eq]

theorem isdigit_not_isspace {c : Char} (h : isdigit c = true) : isspace c = false := by
  simp only [isdigit, isspace, Bool.and_eq_true, Bool.or_eq_false_iff, Bool.and_eq_false_imp,
    decide_eq_true_eq, decide_eq_false_iff_not] at *
  omega

theorem isalpha_isIdentifierChar {c : Char} (h : isalpha c = true) :
    isIdentifierChar c = true := by
  simp [isIdentifierChar, isalnum, h]

theorem isalpha_not_isspace {c : Char} (h : isalpha c = true) : isspace c = false := by
  simp only [isalpha, isspace, Bool.and_eq_true, Bool.or_eq_true, Bool.or_eq_false_iff,
    Bool.and_eq_false_imp, decide_eq_true_eq, decide_eq_false_iff_not] at *
  omega

theorem isdigit_not_isalpha {c : Char} (h : isdigit c = true) : isalpha c = false := by
  simp only [isalpha, isdigit, Bool.and_eq_true, Bool.or_eq_false_iff,
    Bool.and_eq_false_imp, decide_eq_true_eq, decide_eq_false_iff_not] at *
  omega

theorem Lexer.loop_alpha {c : Char} (h : isalpha c = true) (cs : List Char)
    (fuel line : Nat) (tokens : List Token) :
    Lexer.generateTokensLoop (fuel + 1) ⟨c :: cs, line⟩ tokens =
      Lexer.generateTokensLoop fuel ⟨(c :: cs).dropWhile isIdentifierChar, line⟩
        (tokens ++ [⟨keywordType ⟨(c :: cs).takeWhile isIdentifierChar⟩,
          ⟨(c :: cs).takeWhile isIdentifierChar⟩, line⟩]) := by
  rw [Lexer.generateTokensLoop, Lexer.currentChar_cons,
    if_neg (isIdentifierChar_ne_nul (isalpha_isIdentifierChar h)),
    if_neg (by rw [isalpha_not_isspace h]; decide), if_pos h, Lexer.identifier_eq]

theorem Lexer.loop_digit {c : Char} (h : isdigit c = true) (cs : List Char)
    (fuel line : Nat) (tokens : List Token) :
    Lexer.generateTokensLoop (fuel + 1) ⟨c :: cs, line⟩ tokens =
      Lexer.generateTokensLoop fuel ⟨(c :: cs).dropWhile isdigit, line⟩
        (tokens ++ [⟨T_NUMBER, ⟨(c :: cs).takeWhile isdigit⟩, line⟩]) := by
  rw [Lexer.generateTokensLoop, Lexer.currentChar_cons, if_neg (isdigit_ne_nul h),
    if_neg (by rw [isdigit_not_isspace h]; decide),
    if_neg (by rw [isdigit_not_isalpha h]; decide), if_pos h, Lexer.number_eq]

set_option maxHeartbeats 2000000 in
theorem Lexer.loop_single {c : Char} {type : TokenType} {text : String}
    (h : singleCharToken c = some (type, text)) (cs : List Char) (fuel line : Nat)
    (tokens : List Token) :
    Lexer.generateTokensLoop (fuel + 1) ⟨c :: cs, line⟩ tokens =
      Lexer.generateTokensLoop fuel ⟨cs, line⟩ (tokens ++ [⟨type, text, line⟩]) := by
  unfold singleCharToken at h
  split_ifs at h <;> simp only [Option.some.injEq, Prod.mk.injEq] at h <;>
    obtain ⟨rfl, rfl⟩ := h <;> subst c <;> rw [Lexer.generateTokensLoop] <;>
    simp [Lexer.currentChar_cons, Lexer.lexer_advance_cons, isspace, isalpha, isdigit]

set_option maxHeartbeats 2000000 in
theorem Lexer.loop_compound {c : Char} {two one : TokenType × String}
    (h : compoundToken c = some (two, one)) (cs : List Char) (fuel line : Nat)
    (tokens : List Token) :
    Lexer.generateTokensLoop (fuel + 1) ⟨c :: cs, line⟩ tokens =
      if cs.head? = some '=' then
        Lexer.generateTokensLoop fuel ⟨cs.tail, line⟩ (tokens ++ [⟨two.1, two.2, line⟩])
      else Lexer.generateTokensLoop fuel ⟨cs, line⟩ (tokens ++ [⟨one.1, one.2, line⟩]) := by
  have hsing : ∀ c : Char, String.singleton c = ⟨[c]⟩ := fun _ => rfl
  unfold compoundToken at h
  split_ifs at h <;> simp only [Option.some.injEq, Prod.mk.injEq] at h <;>
    obtain ⟨rfl, rfl⟩ := h <;> subst c <;> rw [Lexer.generateTokensLoop] <;>
    (cases cs with
      | nil =>
        simp [Lexer.currentChar_cons, Lexer.currentChar_nil, Lexer.lexer_advance_cons, isspace,
          isalpha, isdigit, hsing]
      | cons d ds =>
        by_cases hd : d = '='
        · subst hd
          simp [Lexer.currentChar_cons, Lexer.lexer_advance_cons, isspace, isalpha, isdigit, hsing]
        · simp [Lexer.currentChar_cons, Lexer.lexer_advance_cons, hd, isspace, isalpha, isdigit,
            hsing])

/-! ### The shape of the token queue -/

theorem Token.lexed_of_type {t : Token} (h1 : t.type ≠ T_EOF) (h2 : t.type ≠ T_UNKNOWN)
    (h3 : t.type ≠ T_NUMBER) : t.Lexed :=
  ⟨h1, h2, fun h => absurd h h3⟩

theorem keywordType_ne (word : String) :
    keywordType word ≠ T_EOF ∧ keywordType word ≠ T_UNKNOWN ∧ keywordType word ≠ T_NUMBER := by
  unfold keywordType
  split_ifs <;> decide

theorem Token.lexed_mk (type : TokenType) (text : String) (line : Nat) (h1 : type ≠ T_EOF)
    (h2 : type ≠ T_UNKNOWN) (h3 : type ≠ T_NUMBER) : (Token.mk type text line).Lexed :=
  ⟨h1, h2, fun h => absurd h h3⟩

theorem Token.lexed_number {c : Char} {cs : List Char} (h : isdigit c = true) (line : Nat) :
    (Token.mk T_NUMBER ⟨(c :: cs).takeWhile isdigit⟩ line).Lexed := by
  refine ⟨fun h => TokenType.noConfusion h, fun h => TokenType.noConfusion h,
    fun _ => ⟨?_, fun d hd => ?_⟩⟩
  · simp [List.takeWhile_cons, h]
  · exact (List.mem_takeWhile_imp hd)

theorem Lexer.rest_of_currentChar {s : Lexer} (h : s.currentChar ≠ '\x00') :
    s.rest = s.currentChar :: s.rest.tail := by
  obtain ⟨rest, line⟩ := s
  cases rest with
  | nil => exact absurd rfl h
  | cons c cs => rfl

/-- Every queue the main loop returns is the tokens enqueued before, then
tokens that are neither end-of-input nor unknown, then one end-of-input token
with an empty text. -/
theorem Lexer.generateTokensLoop_lexed (fuel : Nat) :
    ∀ (s : Lexer) (acc tokens : List Token), (∀ t ∈ acc, t.Lexed) →
      Lexer.generateTokensLoop fuel s acc = .ok tokens →
      ∃ body line, tokens = body ++ [⟨T_EOF, "", line⟩] ∧ ∀ t ∈ body, t.Lexed := by
  induction fuel with
  | zero =>
    intro s acc tokens _ h
    simp [Lexer.generateTokensLoop] at h
  | succ fuel ih =>
    intro s acc tokens hacc h
    have hext : ∀ tok : Token, tok.Lexed → ∀ t ∈ acc ++ [tok], t.Lexed := by
      intro tok htok t ht
      rw [List.mem_append, List.mem_singleton] at ht
      rcases ht with ht | rfl
      · exact hacc t ht
      · exact htok
    rw [Lexer.generateTokensLoop] at h
    simp only [Lexer.skipWhitespace_eq, Lexer.identifier_eq, Lexer.number_eq] at h
    by_cases h0 : s.currentChar = '\x00'
    · rw [if_pos h0] at h
      simp only [LexResult.ok.injEq] at h
      exact ⟨acc, s.lineNumber, h.symm, hacc⟩
    rw [if_neg h0] at h
    by_cases h1 : isspace s.currentChar = true
    · rw [if_pos h1] at h
      exact ih _ _ _ hacc h
    rw [if_neg h1] at h
    by_cases h2 : isalpha s.currentChar = true
    · rw [if_pos h2] at h
      exact ih _ _ _ (hext _ (Token.lexed_mk _ _ _ (keywordType_ne _).1 (keywordType_ne _).2.1
        (keywordType_ne _).2.2)) h
    rw [if_neg h2] at h
    by_cases h3 : isdigit s.currentChar = true
    · rw [if_pos h3] at h
      refine ih _ _ _ (hext _ ?_) h
      rw [Lexer.rest_of_currentChar h0]
      exact Token.lexed_number h3 _
    rw [if_neg h3] at h
    by_cases hc : s.currentChar = '+'
    · rw [if_pos hc] at h
      exact ih _ _ _ (hext _ (Token.lexed_mk T_OPERATOR _ _ (by decide) (by decide) (by decide))) h
    rw [if_neg hc] at h
    clear hc
    by_cases hc : s.currentChar = '-'
    · rw [if_pos hc] at h
      exact ih _ _ _ (hext _ (Token.lexed_mk T_OPERATOR _ _ (by decide) (by decide) (by decide))) h
    rw [if_neg hc] at h
    clear hc
    by_cases hc : s.currentChar = '*'
    · rw [if_pos hc] at h
      exact ih _ _ _ (hext _ (Token.lexed_mk T_OPERATOR _ _ (by decide) (by decide) (by decide))) h
    rw [if_neg hc] at h
    clear hc
    by_cases hc : s.currentChar = '/'
    · rw [if_pos hc] at h
      exact ih _ _ _ (hext _ (Token.lexed_mk T_OPERATOR _ _ (by decide) (by decide) (by decide))) h
    rw [if_neg hc] at h
    clear hc
    by_cases hc : s.currentChar = '%'
    · rw [if_pos hc] at h
      exact ih _ _ _ (hext _ (Token.lexed_mk T_OPERATOR _ _ (by decide) (by decide) (by decide))) h
    rw [if_neg hc] at h
    clear hc
    by_cases hc : s.currentChar = '='
    · rw [if_pos hc] at h
      by_cases hn : s.advance.currentChar = '='
      · rw [if_pos hn] at h
        exact ih _ _ _ (hext _ (Token.lexed_mk T_OPERATOR _ _ (by decide) (by decide) (by decide))) h
      · rw [if_neg hn] at h
        exact ih _ _ _ (hext _ (Token.lexed_mk T_ASSIGN _ _ (by decide) (by decide) (by decide))) h
    rw [if_neg hc] at h
    clear hc
    by_cases hc : s.currentChar = '!'
    · rw [if_pos hc] at h
      by_cases hn : s.advance.currentChar = '='
      · rw [if_pos hn] at h
        exact ih _ _ _ (hext _ (Token.lexed_mk T_OPERATOR _ _ (by decide) (by decide) (by decide))) h
      · rw [if_neg hn] at h
        exact ih _ _ _ (hext _ (Token.lexed_mk T_OPERATOR _ _ (by decide) (by decide) (by decide))) h
    rw [if_neg hc] at h
    clear hc
    by_cases hc : s.currentChar = '<' ∨ s.currentChar = '>'
    · rw [if_pos hc] at h
      by_cases hn : s.advance.currentChar = '='
      · rw [if_pos hn] at h
        exact ih _ _ _ (hext _ (Token.lexed_mk T_OPERATOR _ _ (by decide) (by decide) (by decide))) h
      · rw [if_neg hn] at h
        exact ih _ _ _ (hext _ (Token.lexed_mk T_OPERATOR _ _ (by decide) (by decide) (by decide))) h
    rw [if_neg hc] at h
    clear hc
    by_cases hc : s.currentChar = ';'
    · rw [if_pos hc] at h
      exact ih _ _ _ (hext _ (Token.lexed_mk T_SEMICOLON _ _ (by decide) (by decide) (by decide))) h
    rw [if_neg hc] at h
    clear hc
    by_cases hc : s.currentChar = '('
    · rw [if_pos hc] at h
      exact ih _ _ _ (hext _ (Token.lexed_mk T_LPAREN _ _ (by decide) (by decide) (by decide))) h
    rw [if_neg hc] at h
    clear hc
    by_cases hc : s.currentChar = ')'
    · rw [if_pos hc] at h
      exact ih _ _ _ (hext _ (Token.lexed_mk T_RPAREN _ _ (by decide) (by decide) (by decide))) h
    rw [if_neg hc] at h
    clear hc
    by_cases hc : s.currentChar = '\x7b'
    · rw [if_pos hc] at h
      exact ih _ _ _ (hext _ (Token.lexed_mk T_LBRACE _ _ (by decide) (by decide) (by decide))) h
    rw [if_neg hc] at h
    clear hc
    by_cases hc : s.currentChar = '\x7d'
    · rw [if_pos hc] at h
      exact ih _ _ _ (hext _ (Token.lexed_mk T_RBRACE _ _ (by decide) (by decide) (by decide))) h
    rw [if_neg hc] at h
    clear hc
    exact absurd h (by simp)

theorem length_dropWhile_lt {p : Char → Bool} {c : Char} {cs : List Char}
    (h : p c = true) : ((c :: cs).dropWhile p).length < (c :: cs).length := by
  rw [List.dropWhile_cons, if_pos h]
  exact Nat.lt_succ_of_le (List.Sublist.length_le (List.dropWhile_sublist p))

/-- The main loop of the lexer does not run out of fuel when it has more units
than there are unread characters: every turn reads at least one. -/
theorem Lexer.generateTokensLoop_ne_timeout (fuel : Nat) :
    ∀ (s : Lexer) (acc : List Token), s.rest.length < fuel →
      Lexer.generateTokensLoop fuel s acc ≠ .timeout := by
  induction fuel with
  | zero => intro s acc h; omega
  | succ fuel ih =>
    intro s acc hlen
    rw [Lexer.generateTokensLoop]
    simp only [Lexer.skipWhitespace_eq, Lexer.identifier_eq, Lexer.number_eq]
    by_cases h0 : s.currentChar = '\x00'
    · rw [if_pos h0]
      exact fun h => LexResult.noConfusion h
    rw [if_neg h0]
    have hrest := Lexer.rest_of_currentChar h0
    have hadv : s.advance.rest.length < s.rest.length := by
      show s.rest.tail.length < s.rest.length
      rw [hrest]
      exact Nat.lt_succ_self _
    have hadv2 : s.advance.advance.rest.length ≤ s.advance.rest.length := by
      show s.advance.rest.tail.length ≤ s.advance.rest.length
      rw [List.length_tail]
      exact Nat.sub_le _ _
    by_cases h1 : isspace s.currentChar = true
    · rw [if_pos h1]
      refine ih _ _ ?_
      have := @length_dropWhile_lt isspace _ s.rest.tail h1
      rw [← hrest] at this
      exact lt_of_lt_of_le this (Nat.le_of_lt_succ hlen)
    rw [if_neg h1]
    by_cases h2 : isalpha s.currentChar = true
    · rw [if_pos h2]
      refine ih _ _ ?_
      have := @length_dropWhile_lt isIdentifierChar _ s.rest.tail
        (isalpha_isIdentifierChar h2)
      rw [← hrest] at this
      exact lt_of_lt_of_le this (Nat.le_of_lt_succ hlen)
    rw [if_neg h2]
    by_cases h3 : isdigit s.currentChar = true
    · rw [if_pos h3]
      refine ih _ _ ?_
      have := @length_dropWhile_lt isdigit _ s.rest.tail h3
      rw [← hrest] at this
      exact lt_of_lt_of_le this (Nat.le_of_lt_succ hlen)
    rw [if_neg h3]
    by_cases hc : s.currentChar = '+'
    · rw [if_pos hc]
      exact ih _ _ (by omega)
    rw [if_neg hc]
    clear hc
    by_cases hc : s.currentChar = '-'
    · rw [if_pos hc]
      exact ih _ _ (by omega)
    rw [if_neg hc]
    clear hc
    by_cases hc : s.currentChar = '*'
    · rw [if_pos hc]
      exact ih _ _ (by omega)
    rw [if_neg hc]
    clear hc
    by_cases hc : s.currentChar = '/'
    · rw [if_pos hc]
      exact ih _ _ (by omega)
    rw [if_neg hc]
    clear hc
    by_cases hc : s.currentChar = '%'
    · rw [if_pos hc]
      exact ih _ _ (by omega)
    rw [if_neg hc]
    clear hc
    by_cases hc : s.currentChar = '='
    · rw [if_pos hc]
      by_cases hn : s.advance.currentChar = '='
      · rw [if_pos hn]
        exact ih _ _ (by omega)
      · rw [if_neg hn]
        exact ih _ _ (by omega)
    rw [if_neg hc]
    clear hc
    by_cases hc : s.currentChar = '!'
    · rw [if_pos hc]
      by_cases hn : s.advance.currentChar = '='
      · rw [if_pos hn]
        exact ih _ _ (by omega)
      · rw [if_neg hn]
        exact ih _ _ (by omega)
    rw [if_neg hc]
    clear hc
    by_cases hc : s.currentChar = '<' ∨ s.currentChar = '>'
    · rw [if_pos hc]
      by_cases hn : s.advance.currentChar = '='
      · rw [if_pos hn]
        exact ih _ _ (by omega)
      · rw [if_neg hn]
        exact ih _ _ (by omega)
    rw [if_neg hc]
    clear hc
    by_cases hc : s.currentChar = ';'
    · rw [if_pos hc]
      exact ih _ _ (by omega)
    rw [if_neg hc]
    clear hc
    by_cases hc : s.currentChar = '('
    · rw [if_pos hc]
      exact ih _ _ (by omega)
    rw [if_neg hc]
    clear hc
    by_cases hc : s.currentChar = ')'
    · rw [if_pos hc]
      exact ih _ _ (by omega)
    rw [if_neg hc]
    clear hc
    by_cases hc : s.currentChar = '\x7b'
    · rw [if_pos hc]
      exact ih _ _ (by omega)
    rw [if_neg hc]
    clear hc
    by_cases hc : s.currentChar = '\x7d'
    · rw [if_pos hc]
      exact ih _ _ (by omega)
    rw [if_neg hc]
    clear hc
    exact fun h => LexResult.noConfusion h

/-- The lexer terminates on every source: it returns a queue or throws. -/
theorem generateTokens_ne_timeout (input : List Char) : generateTokens input ≠ .timeout :=
  Lexer.generateTokensLoop_ne_timeout _ _ _ (Nat.lt_succ_self _)


/-! ### Decimal numerals -/

theorem digitChar_toNat {m : Nat} (h : m < 10) : (Nat.digitChar m).toNat = 48 + m := by
  interval_cases m <;> rfl

theorem isdigit_digitChar {m : Nat} (h : m < 10) : isdigit (Nat.digitChar m) = true := by
  interval_cases m <;> rfl

theorem toDigitsCore_append (fuel : Nat) :
    ∀ (n : Nat) (ds : List Char),
      Nat.toDigitsCore 10 fuel n ds = Nat.toDigitsCore 10 fuel n [] ++ ds := by
  induction fuel with
  | zero => intro n ds; simp [Nat.toDigitsCore]
  | succ fuel ih =>
    intro n ds
    simp only [Nat.toDigitsCore]
    split
    · simp
    · rw [ih (n / 10) (Nat.digitChar (n % 10) :: ds), ih (n / 10) [Nat.digitChar (n % 10)]]
      simp

theorem decimalValue_append_singleton (ds : List Char) (c : Char) :
    decimalValue (ds ++ [c]) = 10 * decimalValue ds + (c.toNat - 48) := by
  simp [decimalValue, List.foldl_append]

/-- The digits that `Nat.toDigits` writes are decimal digits with the value written. -/
theorem toDigitsCore_spec (fuel : Nat) :
    ∀ n, n < fuel →
      Nat.toDigitsCore 10 fuel n [] ≠ [] ∧
      (∀ c ∈ Nat.toDigitsCore 10 fuel n [], isdigit c = true) ∧
      decimalValue (Nat.toDigitsCore 10 fuel n []) = n := by
  induction fuel with
  | zero => intro n h; omega
  | succ fuel ih =>
    intro n h
    have hm : n % 10 < 10 := Nat.mod_lt _ (by decide)
    simp only [Nat.toDigitsCore]
    split
    · rename_i h0
      refine ⟨by simp, ?_, ?_⟩
      · intro c hc
        rw [List.mem_singleton] at hc
        rw [hc]
        exact isdigit_digitChar hm
      · have := decimalValue_append_singleton [] (Nat.digitChar (n % 10))
        simp only [List.nil_append] at this
        rw [this, digitChar_toNat hm]
        simp only [decimalValue, List.foldl_nil]
        omega
    · rename_i h0
      have hlt : n / 10 < fuel := by omega
      obtain ⟨_, hd, hv⟩ := ih (n / 10) hlt
      rw [toDigitsCore_append]
      refine ⟨by simp, ?_, ?_⟩
      · intro c hc
        rw [List.mem_append, List.mem_singleton] at hc
        rcases hc with hc | hc
        · exact hd c hc
        · rw [hc]; exact isdigit_digitChar hm
      · rw [decimalValue_append_singleton, hv, digitChar_toNat hm]
        omega

theorem toString_nat_spec (n : Nat) :
    (toString n).data ≠ [] ∧ (∀ c ∈ (toString n).data, isdigit c = true) ∧
      decimalValue (toString n).data = n :=
  toDigitsCore_spec (n + 1) n (Nat.lt_succ_self n)

theorem isdigit_not_sign {c : Char} (h : isdigit c = true) : c ≠ '-' ∧ c ≠ '+' := by
  constructor <;> (rintro rfl; revert h; decide)

/-- On a non-empty run of digits `std::stoi` returns its value, or throws
`std::out_of_range` when the value is above `INT_MAX`. -/
theorem stoi_digits {ds : List Char} (hne : ds ≠ []) (hd : ∀ c ∈ ds, isdigit c = true) :
    stoi ⟨ds⟩ =
      if INT_MAX < (decimalValue ds : Int) then .out_of_range
      else .value (decimalValue ds : Int) := by
  obtain ⟨c, cs, rfl⟩ := List.exists_cons_of_ne_nil hne
  have hc := hd c (List.mem_cons_self _ _)
  have hdrop : List.dropWhile isspace (c :: cs) = c :: cs := by
    simp [List.dropWhile_cons, isdigit_not_isspace hc]
  have htake : List.takeWhile isdigit (c :: cs) = c :: cs :=
    List.takeWhile_eq_self_iff.2 hd
  have hsign := isdigit_not_sign hc
  have hmin : ¬ ((decimalValue (c :: cs) : Int) < INT_MIN) := by
    unfold INT_MIN
    omega
  unfold stoi
  simp only [String.toList, hdrop, List.head?_cons, Option.some.injEq, hsign.1, hsign.2,
    or_self, if_false, htake, decide_False]
  rw [if_neg (by simp)]
  simp only [Bool.false_eq_true, if_false, hmin, false_or]

/-! ### Derived rules for statements -/

theorem Parser.parser_advance_cons (t c : Token) (rest : List Token) :
    Parser.advance ⟨t :: rest, c⟩ = ⟨rest, t⟩ := rfl

theorem ParseResult.bind_ok {α β : Type} (a : α) (s : Parser)
    (k : α → Parser → ParseResult β) : (ParseResult.ok a s).bind k = k a s := rfl

/-- A primary at a number token whose text `std::stoi` converts is a literal. -/
theorem Parser.Runs.primary_number {s : Parser} {v : Int}
    (hc : s.currentToken.type = T_NUMBER) (hv : stoi s.currentToken.value = .value v) :
    Parser.Runs Parser.primary s (.ok (NumberNode v s.currentToken.lineNumber) s.advance) := by
  refine ⟨1, fun fuel hle => ?_⟩
  obtain ⟨k, rfl⟩ := Nat.exists_eq_add_of_le hle
  have e : 1 + k = k + 1 := by omega
  rw [e]
  simp only [Parser.primary]
  rw [if_pos hc, hv]

/-- A statement that starts with `while` is a while statement. -/
theorem Parser.Runs.statement_while {s : Parser} {r : ParseResult ASTNode}
    (hc : s.currentToken.type = T_WHILE) (h : Parser.Runs Parser.whileStatement s r) :
    Parser.Runs Parser.statement s r := by
  obtain ⟨f, hf⟩ := h
  refine ⟨f + 1, fun fuel hle => ?_⟩
  obtain ⟨k, rfl⟩ := Nat.exists_eq_add_of_le hle
  have e : f + 1 + k = (f + k) + 1 := by omega
  rw [e]
  simp only [Parser.statement]
  rw [if_neg (by rw [hc]; decide), if_neg (by rw [hc]; decide), if_neg (by rw [hc]; decide),
    if_pos hc]
  exact hf _ (by omega)

/-- The while statement: `while`, `(`, a condition, `)`, a body. -/
theorem Parser.Runs.whileStatement_of {s s3 s5 : Parser} {condition body : ASTNode}
    (h0 : s.currentToken.type = T_WHILE) (h1 : s.advance.currentToken.type = T_LPAREN)
    (h2 : Parser.Runs Parser.expression s.advance.advance (.ok condition s3))
    (h3 : s3.currentToken.type = T_RPAREN)
    (h4 : Parser.Runs Parser.statement s3.advance (.ok body s5)) :
    Parser.Runs Parser.whileStatement s
      (.ok (WhileNode condition body s.currentToken.lineNumber) s5) := by
  obtain ⟨f2, h2⟩ := h2
  obtain ⟨f4, h4⟩ := h4
  refine ⟨max f2 f4 + 1, fun fuel hle => ?_⟩
  obtain ⟨k, rfl⟩ := Nat.exists_eq_add_of_le hle
  have e : max f2 f4 + 1 + k = (max f2 f4 + k) + 1 := by omega
  rw [e]
  simp only [Parser.whileStatement, Parser.expect]
  rw [if_pos h0, ParseResult.bind_ok, if_pos h1, ParseResult.bind_ok, h2 _ (by omega),
    ParseResult.bind_ok, if_pos h3, ParseResult.bind_ok, h4 _ (by omega), ParseResult.bind_ok]

/-- One turn of the loop of `program`: a statement, then the rest. -/
theorem Parser.Runs.programLoop_step {s s1 : Parser} {acc : List ASTNode} {stmt : ASTNode}
    {r : ParseResult (List ASTNode)} (hc : s.currentToken.type ≠ T_EOF)
    (h1 : Parser.Runs Parser.statement s (.ok stmt s1))
    (h2 : Parser.Runs (fun fuel s' => Parser.programLoop fuel (acc ++ [stmt]) s') s1 r) :
    Parser.Runs (fun fuel s' => Parser.programLoop fuel acc s') s r := by
  obtain ⟨f1, h1⟩ := h1
  obtain ⟨f2, h2⟩ := h2
  refine ⟨max f1 f2 + 1, fun fuel hle => ?_⟩
  obtain ⟨k, rfl⟩ := Nat.exists_eq_add_of_le hle
  have e : max f1 f2 + 1 + k = (max f1 f2 + k) + 1 := by omega
  rw [e]
  simp only [Parser.programLoop]
  rw [if_pos hc, h1 _ (by omega), ParseResult.bind_ok]
  exact h2 _ (by omega)

/-- The loop of `program` stops at the end-of-input token. -/
theorem Parser.Runs.programLoop_done {s : Parser} {acc : List ASTNode}
    (hc : s.currentToken.type = T_EOF) :
    Parser.Runs (fun fuel s' => Parser.programLoop fuel acc s') s (.ok acc s) := by
  refine ⟨1, fun fuel hle => ?_⟩
  obtain ⟨k, rfl⟩ := Nat.exists_eq_add_of_le hle
  have e : 1 + k = k + 1 := by omega
  rw [e]
  simp only [Parser.programLoop]
  rw [if_neg (fun h => h hc)]

/-- The root block is made of the statements the loop of `program` collects. -/
theorem Parses.of_programLoop {tokens : List Token} {statements : List ASTNode} {s : Parser}
    (h : Parser.Runs (fun fuel s' => Parser.programLoop fuel [] s') (Parser.new tokens)
      (.ok statements s)) :
    Parses tokens (.ok (BlockNode statements (Parser.new tokens).currentToken.lineNumber) s) := by
  obtain ⟨f, hf⟩ := h
  refine ⟨f, fun fuel hle => ?_⟩
  have h' := hf _ hle
  simp only [] at h'
  unfold parse Parser.program
  simp only []
  rw [h', ParseResult.bind_ok]

/-! ### The program of the loop-correctness property -/

theorem generateTokens_loopSource {ds : List Char} (hne : ds ≠ [])
    (hd : ∀ c ∈ ds, isdigit c = true) :
    generateTokens (loopSource ⟨ds⟩).toList = .ok (loopTokens ⟨ds⟩) := by
  have hsrc : (loopSource ⟨ds⟩).toList =
      "x = 0; while (x < ".data ++ (ds ++ ") \x7b x = x + 1; \x7d print(x);".data) := by
    simp [loopSource, String.toList, List.append_assoc]
  obtain ⟨c, cs, hcs⟩ := List.exists_cons_of_ne_nil hne
  have hc : isdigit c = true := hd c (by rw [hcs]; exact List.mem_cons_self _ _)
  have htake : ∀ rest, List.takeWhile isdigit (c :: (cs ++ ')' :: rest)) = c :: cs := by
    intro rest
    have := @List.takeWhile_append_of_pos _ isdigit (c :: cs) (')' :: rest)
      (by rw [← hcs]; exact hd)
    simpa [List.takeWhile_cons, show isdigit ')' = false from rfl, hc] using this
  have hdrop : ∀ rest, List.dropWhile isdigit (c :: (cs ++ ')' :: rest)) = ')' :: rest := by
    intro rest
    have := @List.dropWhile_append_of_pos _ isdigit (c :: cs) (')' :: rest)
      (by rw [← hcs]; exact hd)
    simpa [List.dropWhile_cons, show isdigit ')' = false from rfl, hc] using this
  unfold generateTokens Lexer.new
  rw [hsrc, hcs]
  simp only [String.data, List.cons_append, List.nil_append, List.length_cons,
    List.length_append, List.length_nil]
  simp +decide only [Lexer.loop_alpha, Lexer.loop_space, Lexer.loop_digit, Lexer.loop_end,
    Lexer.loop_single (show singleCharToken ';' = some (T_SEMICOLON, ";") from rfl),
    Lexer.loop_single (show singleCharToken '(' = some (T_LPAREN, "(") from rfl),
    Lexer.loop_single (show singleCharToken ')' = some (T_RPAREN, ")") from rfl),
    Lexer.loop_single (show singleCharToken '\x7b' = some (T_LBRACE, "\x7b") from rfl),
    Lexer.loop_single (show singleCharToken '\x7d' = some (T_RBRACE, "\x7d") from rfl),
    Lexer.loop_single (show singleCharToken '+' = some (T_OPERATOR, "+") from rfl),
    Lexer.loop_compound
      (show compoundToken '=' = some ((T_OPERATOR, "=="), (T_ASSIGN, "=")) from rfl),
    Lexer.loop_compound
      (show compoundToken '<' = some ((T_OPERATOR, "<="), (T_OPERATOR, "<")) from rfl),
    List.takeWhile_cons, List.dropWhile_cons, ite_true, ite_false, hc, htake, hdrop,
    List.head?_cons, List.tail_cons, List.takeWhile_nil, List.dropWhile_nil,
    isdigit_not_isspace hc, show newlines [' '] = 0 from rfl, show newlines [] = 0 from rfl,
    keywordType, Nat.add_zero, List.nil_append, List.append_assoc, List.cons_append,
    loopTokens]

theorem ParseResult.ok_ne_timeout {α : Type} {a : α} {s : Parser} :
    ParseResult.ok a s ≠ ParseResult.timeout :=
  fun h => ParseResult.noConfusion h

/-- The queue of the loop program parses to its tree when `std::stoi` converts
the text of the bound. -/
theorem parses_loopTokens (v : String) (n : Int) (h : stoi v = .value n) :
    Parses (loopTokens v) (.ok (loopTree n) ⟨[], ⟨T_EOF, "", 1⟩⟩) := by
  have hnot : ∀ i, ¬ (Token.mk T_RPAREN ")" 1).isOperatorOfLevel i :=
    fun i => Token.not_isOperatorOfLevel_of_type (by decide) i
  have hx : Parser.Runs (Parser.atLevel 3) (Parser.mk ((loopTokens v).drop 7) ⟨T_IDENTIFIER, "x", 1⟩)
      (.ok (VariableNode "x" 1) (Parser.mk ((loopTokens v).drop 8) ⟨T_OPERATOR, "<", 1⟩)) :=
    Parser.term_fuelMono.runs (rfl : Parser.term 5 _ = _) ParseResult.ok_ne_timeout
  have hn : Parser.Runs (Parser.atLevel 3)
      (Parser.mk ((loopTokens v).drop 9) ⟨T_NUMBER, v, 1⟩)
      (.ok (NumberNode n 1) (Parser.mk ((loopTokens v).drop 10) ⟨T_RPAREN, ")", 1⟩)) :=
    Parser.Runs.lift (k := 5) (by omega) le_rfl (fun i _ _ => hnot i)
      (Parser.Runs.unary_of_primary (by show T_NUMBER ≠ T_OPERATOR; decide)
        (Parser.Runs.primary_number rfl h))
  have hcond : Parser.Runs Parser.expression
      (Parser.mk ((loopTokens v).drop 7) ⟨T_IDENTIFIER, "x", 1⟩)
      (.ok (BinOpNode (VariableNode "x" 1) "<" (NumberNode n 1) 1)
        (Parser.mk ((loopTokens v).drop 10) ⟨T_RPAREN, ")", 1⟩)) :=
    Parser.Runs.lift (j := 0) (k := 2) (by omega) (by omega) (fun i _ _ => hnot i)
      (Parser.Runs.binOp_at (k := 2) (by omega) (by omega) hx
        ⟨rfl, by show precedence "<" = some 2; decide⟩ hn (hnot 2))
  have hbody : Parser.Runs Parser.statement
      (Parser.mk ((loopTokens v).drop 11) ⟨T_LBRACE, "\x7b", 1⟩)
      (.ok (BlockNode
          [AssignNode "x" (BinOpNode (VariableNode "x" 1) "+" (NumberNode 1 1) 1) 1] 1)
        (Parser.mk ((loopTokens v).drop 19) ⟨T_PRINT, "print", 1⟩)) :=
    Parser.statement_fuelMono.runs (rfl : Parser.statement 20 _ = _) ParseResult.ok_ne_timeout
  have hwhile : Parser.Runs Parser.statement
      (Parser.mk ((loopTokens v).drop 5) ⟨T_WHILE, "while", 1⟩)
      (.ok (WhileNode (BinOpNode (VariableNode "x" 1) "<" (NumberNode n 1) 1)
          (BlockNode
            [AssignNode "x" (BinOpNode (VariableNode "x" 1) "+" (NumberNode 1 1) 1) 1] 1) 1)
        (Parser.mk ((loopTokens v).drop 19) ⟨T_PRINT, "print", 1⟩)) :=
    Parser.Runs.statement_while rfl (Parser.Runs.whileStatement_of rfl rfl hcond rfl hbody)
  have hassign : Parser.Runs Parser.statement (Parser.new (loopTokens v))
      (.ok (AssignNode "x" (NumberNode 0 1) 1)
        (Parser.mk ((loopTokens v).drop 5) ⟨T_WHILE, "while", 1⟩)) :=
    Parser.statement_fuelMono.runs (rfl : Parser.statement 20 _ = _) ParseResult.ok_ne_timeout
  have hprint : Parser.Runs Parser.statement
      (Parser.mk ((loopTokens v).drop 19) ⟨T_PRINT, "print", 1⟩)
      (.ok (PrintNode (VariableNode "x" 1) 1) (Parser.mk [] ⟨T_EOF, "", 1⟩)) :=
    Parser.statement_fuelMono.runs (rfl : Parser.statement 20 _ = _) ParseResult.ok_ne_timeout
  exact Parses.of_programLoop
    (Parser.Runs.programLoop_step (by show T_IDENTIFIER ≠ T_EOF; decide) hassign
      (Parser.Runs.programLoop_step (by show T_WHILE ≠ T_EOF; decide) hwhile
        (Parser.Runs.programLoop_step (by show T_PRINT ≠ T_EOF; decide) hprint
          (Parser.Runs.programLoop_done rfl))))

/-! ### What the parser consumes -/

theorem Parser.Advances.refl (s : Parser) : Parser.Advances s s :=
  ⟨[], rfl, fun _ h => absurd h (List.not_mem_nil _)⟩

theorem Parser.Advances.trans {s s1 s2 : Parser} (h1 : Parser.Advances s s1)
    (h2 : Parser.Advances s1 s2) : Parser.Advances s s2 := by
  obtain ⟨c1, e1, g1⟩ := h1
  obtain ⟨c2, e2, g2⟩ := h2
  refine ⟨c1 ++ c2, by rw [e1, e2, List.append_assoc], fun t ht => ?_⟩
  rcases List.mem_append.1 ht with h | h
  · exact g1 t h
  · exact g2 t h

theorem Parser.Advances.length_le {s s' : Parser} (h : Parser.Advances s s') :
    s'.tokens.length ≤ s.tokens.length := by
  obtain ⟨c, e, _⟩ := h
  have := congrArg List.length e
  simp only [Parser.stream, List.length_cons, List.length_append] at this
  omega

theorem Parser.WellFormed.of_suffix {s s' : Parser} {consumed : List Token}
    (hw : s.WellFormed) (e : s.stream = consumed ++ s'.stream) : s'.WellFormed := by
  obtain ⟨pre, eof, e', heof⟩ := hw
  have hne : s'.stream ≠ [] := by simp [Parser.stream]
  obtain ⟨pre', last, hl⟩ : ∃ pre' last, s'.stream = pre' ++ [last] :=
    ⟨s'.stream.dropLast, s'.stream.getLast hne, (List.dropLast_append_getLast hne).symm⟩
  refine ⟨pre', last, hl, ?_⟩
  rw [e', hl, ← List.append_assoc] at e
  have := List.append_inj_right' e rfl
  simp only [List.cons.injEq, and_true] at this
  rw [← this]
  exact heof

theorem Parser.Advances.wellFormed {s s' : Parser} (h : Parser.Advances s s')
    (hw : s.WellFormed) : s'.WellFormed := by
  obtain ⟨c, e, _⟩ := h
  exact hw.of_suffix e

theorem Parser.WellFormed.wf_advance {s : Parser} (hw : s.WellFormed) : s.advance.WellFormed := by
  obtain ⟨tokens, cur⟩ := s
  cases tokens with
  | nil => exact hw
  | cons t rest => exact @Parser.WellFormed.of_suffix _ _ [cur] hw rfl

/-- In a well formed state whose lookahead is not the end-of-input token the
queue is not empty: `advance` takes a token off it. -/
theorem Parser.WellFormed.tokens_ne_nil {s : Parser} (hw : s.WellFormed)
    (hc : s.currentToken.type ≠ T_EOF) : ∃ t rest, s.tokens = t :: rest := by
  obtain ⟨pre, eof, e, heof⟩ := hw
  cases hs : s.tokens with
  | cons t rest => exact ⟨t, rest, rfl⟩
  | nil =>
    exfalso
    simp only [Parser.stream, hs] at e
    cases pre with
    | nil =>
      simp only [List.nil_append, List.cons.injEq, and_true] at e
      exact hc (e ▸ heof)
    | cons p pre =>
      have := congrArg List.length e
      simp at this

theorem Parser.Advances.adv_advance {s : Parser} (hc : s.currentToken.Convertible) :
    Parser.Advances s s.advance := by
  obtain ⟨tokens, cur⟩ := s
  cases tokens with
  | nil => exact Parser.Advances.refl _
  | cons t rest => exact ⟨[cur], rfl, fun x hx => by rw [List.mem_singleton.1 hx]; exact hc⟩

theorem Token.convertible_of_type {t : Token} (h : t.type ≠ T_NUMBER) : t.Convertible :=
  fun h' => absurd h' h

theorem Parser.advance_length_le (s : Parser) : s.advance.tokens.length ≤ s.tokens.length := by
  obtain ⟨tokens, cur⟩ := s
  cases tokens with
  | nil => exact le_rfl
  | cons t rest => exact Nat.le_succ _

theorem Parser.WellFormed.advance_length {s : Parser} (hw : s.WellFormed)
    (hc : s.currentToken.type ≠ T_EOF) : s.advance.tokens.length < s.tokens.length := by
  obtain ⟨t, rest, e⟩ := hw.tokens_ne_nil hc
  obtain ⟨tokens, cur⟩ := s
  simp only at e
  subst e
  exact Nat.lt_succ_self _

theorem Parser.expect_ok {s s1 : Parser} {type : TokenType} {u : Unit}
    (h : s.expect type = .ok u s1) : s.currentToken.type = type ∧ s1 = s.advance := by
  unfold Parser.expect at h
  split_ifs at h with hc
  exact ⟨hc, (ParseResult.ok.inj h).2.symm⟩

theorem Parser.Advances.adv_expect {s s1 : Parser} {type : TokenType} {u : Unit}
    (h : s.expect type = .ok u s1) (ht : type ≠ T_NUMBER) : Parser.Advances s s1 := by
  obtain ⟨hc, rfl⟩ := Parser.expect_ok h
  exact Parser.Advances.adv_advance (Token.convertible_of_type (by rw [hc]; exact ht))

theorem Parser.WellFormed.expect_length {s s1 : Parser} {type : TokenType} {u : Unit}
    (hw : s.WellFormed) (h : s.expect type = .ok u s1) (ht : type ≠ T_EOF) :
    s1.tokens.length < s.tokens.length := by
  obtain ⟨hc, rfl⟩ := Parser.expect_ok h
  exact hw.advance_length (by rw [hc]; exact ht)

theorem ParseResult.bind_eq_ok {α β : Type} {r : ParseResult α}
    {k : α → Parser → ParseResult β} {b : β} {s' : Parser} (h : r.bind k = .ok b s') :
    ∃ a s1, r = .ok a s1 ∧ k a s1 = .ok b s' := by
  cases r with
  | ok a s1 => exact ⟨a, s1, rfl, h⟩
  | error e => cases h
  | timeout => cases h

/-- Whatever a parsing procedure returns, it has consumed tokens in order and
`std::stoi` has converted every number token among them; a statement consumes at
least one token of a well formed state. -/
theorem Parser.advances_of_ok (fuel : Nat) :
    (∀ s a s', Parser.statement fuel s = .ok a s' →
      Parser.Advances s s' ∧ (s.WellFormed → s'.tokens.length < s.tokens.length)) ∧
    (∀ s a s', s.currentToken.type = T_IDENTIFIER →
      Parser.assignmentStatement fuel s = .ok a s' →
      Parser.Advances s s' ∧ (s.WellFormed → s'.tokens.length < s.tokens.length)) ∧
    (∀ s a s', Parser.printStatement fuel s = .ok a s' →
      Parser.Advances s s' ∧ (s.WellFormed → s'.tokens.length < s.tokens.length)) ∧
    (∀ s a s', Parser.ifStatement fuel s = .ok a s' →
      Parser.Advances s s' ∧ (s.WellFormed → s'.tokens.length < s.tokens.length)) ∧
    (∀ s a s', Parser.whileStatement fuel s = .ok a s' →
      Parser.Advances s s' ∧ (s.WellFormed → s'.tokens.length < s.tokens.length)) ∧
    (∀ acc s a s', Parser.blockLoop fuel acc s = .ok a s' → Parser.Advances s s') ∧
    (∀ s a s', Parser.block fuel s = .ok a s' →
      Parser.Advances s s' ∧ (s.WellFormed → s'.tokens.length < s.tokens.length)) ∧
    (∀ s a s', Parser.expression fuel s = .ok a s' → Parser.Advances s s') ∧
    (∀ acc s a s', Parser.equalityLoop fuel acc s = .ok a s' → Parser.Advances s s') ∧
    (∀ s a s', Parser.equality fuel s = .ok a s' → Parser.Advances s s') ∧
    (∀ acc s a s', Parser.comparisonLoop fuel acc s = .ok a s' → Parser.Advances s s') ∧
    (∀ s a s', Parser.comparison fuel s = .ok a s' → Parser.Advances s s') ∧
    (∀ acc s a s', Parser.termLoop fuel acc s = .ok a s' → Parser.Advances s s') ∧
    (∀ s a s', Parser.term fuel s = .ok a s' → Parser.Advances s s') ∧
    (∀ acc s a s', Parser.factorLoop fuel acc s = .ok a s' → Parser.Advances s s') ∧
    (∀ s a s', Parser.factor fuel s = .ok a s' → Parser.Advances s s') ∧
    (∀ s a s', Parser.unary fuel s = .ok a s' → Parser.Advances s s') ∧
    (∀ s a s', Parser.primary fuel s = .ok a s' → Parser.Advances s s') := by
  induction fuel with
  | zero =>
    refine ⟨?_, ?_, ?_, ?_, ?_, ?_, ?_, ?_, ?_, ?_, ?_, ?_, ?_, ?_, ?_, ?_, ?_, ?_⟩ <;>
      intros <;> simp_all [Parser.statement, Parser.assignmentStatement, Parser.printStatement, Parser.ifStatement, Parser.whileStatement, Parser.blockLoop, Parser.block, Parser.expression, Parser.equalityLoop, Parser.equality, Parser.comparisonLoop, Parser.comparison, Parser.termLoop, Parser.term, Parser.factorLoop, Parser.factor, Parser.unary, Parser.primary]
  | succ fuel ih =>
    obtain ⟨hst, has, hpr, hif, hwh, hbl, hb, hex, heql, heq, hcml, hcm, htl, ht, hfl, hf,
      hu, hp⟩ := ih
    refine ⟨?_, ?_, ?_, ?_, ?_, ?_, ?_, ?_, ?_, ?_, ?_, ?_, ?_, ?_, ?_, ?_, ?_, ?_⟩
    · intro s a s' h
      rw [Parser.statement] at h
      split_ifs at h with c1 c2 c3 c4 c5
      · exact has s a s' c1 h
      · exact hpr s a s' h
      · exact hif s a s' h
      · exact hwh s a s' h
      · exact hb s a s' h
    · intro s a s' hid h
      rw [Parser.assignmentStatement] at h
      obtain ⟨u1, s1, h1, h⟩ := ParseResult.bind_eq_ok h
      obtain ⟨expr, s2, h2, h⟩ := ParseResult.bind_eq_ok h
      obtain ⟨u3, s3, h3, h⟩ := ParseResult.bind_eq_ok h
      simp only [ParseResult.ok.injEq] at h
      obtain ⟨-, rfl⟩ := h
      have a0 : Parser.Advances s s.advance :=
        Parser.Advances.adv_advance (Token.convertible_of_type (by rw [hid]; decide))
      have arest : Parser.Advances s.advance s3 :=
        (Parser.Advances.adv_expect h1 (by decide)).trans
          ((hex _ _ _ h2).trans (Parser.Advances.adv_expect h3 (by decide)))
      exact ⟨a0.trans arest, fun hw =>
        lt_of_le_of_lt arest.length_le (hw.advance_length (by rw [hid]; decide))⟩
    · intro s a s' h
      rw [Parser.printStatement] at h
      obtain ⟨u1, s1, h1, h⟩ := ParseResult.bind_eq_ok h
      obtain ⟨u2, s2, h2, h⟩ := ParseResult.bind_eq_ok h
      obtain ⟨expr, s3, h3, h⟩ := ParseResult.bind_eq_ok h
      obtain ⟨u4, s4, h4, h⟩ := ParseResult.bind_eq_ok h
      obtain ⟨u5, s5, h5, h⟩ := ParseResult.bind_eq_ok h
      simp only [ParseResult.ok.injEq] at h
      obtain ⟨-, rfl⟩ := h
      have arest : Parser.Advances s1 s5 :=
        (Parser.Advances.adv_expect h2 (by decide)).trans
          ((hex _ _ _ h3).trans ((Parser.Advances.adv_expect h4 (by decide)).trans
            (Parser.Advances.adv_expect h5 (by decide))))
      exact ⟨(Parser.Advances.adv_expect h1 (by decide)).trans arest, fun hw =>
        lt_of_le_of_lt arest.length_le (hw.expect_length h1 (by decide))⟩
    · intro s a s' h
      rw [Parser.ifStatement] at h
      obtain ⟨u1, s1, h1, h⟩ := ParseResult.bind_eq_ok h
      obtain ⟨u2, s2, h2, h⟩ := ParseResult.bind_eq_ok h
      obtain ⟨cond, s3, h3, h⟩ := ParseResult.bind_eq_ok h
      obtain ⟨u4, s4, h4, h⟩ := ParseResult.bind_eq_ok h
      obtain ⟨tb, s5, h5, h⟩ := ParseResult.bind_eq_ok h
      have a5 : Parser.Advances s1 s5 :=
        (Parser.Advances.adv_expect h2 (by decide)).trans
          ((hex _ _ _ h3).trans ((Parser.Advances.adv_expect h4 (by decide)).trans
            (hst _ _ _ h5).1))
      have arest : Parser.Advances s1 s' := by
        split_ifs at h with hE
        · obtain ⟨fb, s6, h6, h⟩ := ParseResult.bind_eq_ok h
          simp only [ParseResult.ok.injEq] at h
          obtain ⟨-, rfl⟩ := h
          exact a5.trans ((Parser.Advances.adv_advance
            (Token.convertible_of_type (by rw [hE]; decide))).trans (hst _ _ _ h6).1)
        · simp only [ParseResult.ok.injEq] at h
          obtain ⟨-, rfl⟩ := h
          exact a5
      exact ⟨(Parser.Advances.adv_expect h1 (by decide)).trans arest, fun hw =>
        lt_of_le_of_lt arest.length_le (hw.expect_length h1 (by decide))⟩
    · intro s a s' h
      rw [Parser.whileStatement] at h
      obtain ⟨u1, s1, h1, h⟩ := ParseResult.bind_eq_ok h
      obtain ⟨u2, s2, h2, h⟩ := ParseResult.bind_eq_ok h
      obtain ⟨cond, s3, h3, h⟩ := ParseResult.bind_eq_ok h
      obtain ⟨u4, s4, h4, h⟩ := ParseResult.bind_eq_ok h
      obtain ⟨body, s5, h5, h⟩ := ParseResult.bind_eq_ok h
      simp only [ParseResult.ok.injEq] at h
      obtain ⟨-, rfl⟩ := h
      have arest : Parser.Advances s1 s5 :=
        (Parser.Advances.adv_expect h2 (by decide)).trans
          ((hex _ _ _ h3).trans ((Parser.Advances.adv_expect h4 (by decide)).trans
            (hst _ _ _ h5).1))
      exact ⟨(Parser.Advances.adv_expect h1 (by decide)).trans arest, fun hw =>
        lt_of_le_of_lt arest.length_le (hw.expect_length h1 (by decide))⟩
    · intro acc s a s' h
      rw [Parser.blockLoop] at h
      split_ifs at h with hc
      · obtain ⟨stmt, s1, h1, h⟩ := ParseResult.bind_eq_ok h
        exact (hst _ _ _ h1).1.trans (hbl _ _ _ _ h)
      · simp only [ParseResult.ok.injEq] at h
        obtain ⟨-, rfl⟩ := h
        exact Parser.Advances.refl _
    · intro s a s' h
      rw [Parser.block] at h
      obtain ⟨u1, s1, h1, h⟩ := ParseResult.bind_eq_ok h
      obtain ⟨stmts, s2, h2, h⟩ := ParseResult.bind_eq_ok h
      obtain ⟨u3, s3, h3, h⟩ := ParseResult.bind_eq_ok h
      simp only [ParseResult.ok.injEq] at h
      obtain ⟨-, rfl⟩ := h
      have arest : Parser.Advances s1 s3 :=
        (hbl _ _ _ _ h2).trans (Parser.Advances.adv_expect h3 (by decide))
      exact ⟨(Parser.Advances.adv_expect h1 (by decide)).trans arest, fun hw =>
        lt_of_le_of_lt arest.length_le (hw.expect_length h1 (by decide))⟩
    · intro s a s' h
      rw [Parser.expression] at h
      exact heq _ _ _ h
    · intro acc s a s' h
      rw [Parser.equalityLoop] at h
      split_ifs at h with hc
      · obtain ⟨right, s1, h1, h⟩ := ParseResult.bind_eq_ok h
        exact (Parser.Advances.adv_advance
          (Token.convertible_of_type (by rw [hc.1]; decide))).trans
          ((hcm _ _ _ h1).trans (heql _ _ _ _ h))
      · simp only [ParseResult.ok.injEq] at h
        obtain ⟨-, rfl⟩ := h
        exact Parser.Advances.refl _
    · intro s a s' h
      rw [Parser.equality] at h
      obtain ⟨node, s1, h1, h⟩ := ParseResult.bind_eq_ok h
      exact (hcm _ _ _ h1).trans (heql _ _ _ _ h)
    · intro acc s a s' h
      rw [Parser.comparisonLoop] at h
      split_ifs at h with hc
      · obtain ⟨right, s1, h1, h⟩ := ParseResult.bind_eq_ok h
        exact (Parser.Advances.adv_advance
          (Token.convertible_of_type (by rw [hc.1]; decide))).trans
          ((ht _ _ _ h1).trans (hcml _ _ _ _ h))
      · simp only [ParseResult.ok.injEq] at h
        obtain ⟨-, rfl⟩ := h
        exact Parser.Advances.refl _
    · intro s a s' h
      rw [Parser.comparison] at h
      obtain ⟨node, s1, h1, h⟩ := ParseResult.bind_eq_ok h
      exact (ht _ _ _ h1).trans (hcml _ _ _ _ h)
    · intro acc s a s' h
      rw [Parser.termLoop] at h
      split_ifs at h with hc
      · obtain ⟨right, s1, h1, h⟩ := ParseResult.bind_eq_ok h
        exact (Parser.Advances.adv_advance
          (Token.convertible_of_type (by rw [hc.1]; decide))).trans
          ((hf _ _ _ h1).trans (htl _ _ _ _ h))
      · simp only [ParseResult.ok.injEq] at h
        obtain ⟨-, rfl⟩ := h
        exact Parser.Advances.refl _
    · intro s a s' h
      rw [Parser.term] at h
      obtain ⟨node, s1, h1, h⟩ := ParseResult.bind_eq_ok h
      exact (hf _ _ _ h1).trans (htl _ _ _ _ h)
    · intro acc s a s' h
      rw [Parser.factorLoop] at h
      split_ifs at h with hc
      · obtain ⟨right, s1, h1, h⟩ := ParseResult.bind_eq_ok h
        exact (Parser.Advances.adv_advance
          (Token.convertible_of_type (by rw [hc.1]; decide))).trans
          ((hu _ _ _ h1).trans (hfl _ _ _ _ h))
      · simp only [ParseResult.ok.injEq] at h
        obtain ⟨-, rfl⟩ := h
        exact Parser.Advances.refl _
    · intro s a s' h
      rw [Parser.factor] at h
      obtain ⟨node, s1, h1, h⟩ := ParseResult.bind_eq_ok h
      exact (hu _ _ _ h1).trans (hfl _ _ _ _ h)
    · intro s a s' h
      rw [Parser.unary] at h
      split_ifs at h with hc
      · obtain ⟨operand, s1, h1, h⟩ := ParseResult.bind_eq_ok h
        simp only [ParseResult.ok.injEq] at h
        obtain ⟨-, rfl⟩ := h
        exact (Parser.Advances.adv_advance
          (Token.convertible_of_type (by rw [hc.1]; decide))).trans (hu _ _ _ h1)
      · exact hp _ _ _ h
    · intro s a s' h
      rw [Parser.primary] at h
      split_ifs at h with c1 c2 c3
      · cases hs : stoi s.currentToken.value with
        | value v =>
          rw [hs] at h
          simp only [ParseResult.ok.injEq] at h
          obtain ⟨-, rfl⟩ := h
          exact Parser.Advances.adv_advance (fun _ => ⟨v, hs⟩)
        | invalid_argument => rw [hs] at h; cases h
        | out_of_range => rw [hs] at h; cases h
      · simp only [ParseResult.ok.injEq] at h
        obtain ⟨-, rfl⟩ := h
        exact Parser.Advances.adv_advance (Token.convertible_of_type (by rw [c2]; decide))
      · obtain ⟨node, s1, h1, h⟩ := ParseResult.bind_eq_ok h
        obtain ⟨u2, s2, h2, h⟩ := ParseResult.bind_eq_ok h
        simp only [ParseResult.ok.injEq] at h
        obtain ⟨-, rfl⟩ := h
        exact (Parser.Advances.adv_advance (Token.convertible_of_type (by rw [c3]; decide))).trans
          ((hex _ _ _ h1).trans (Parser.Advances.adv_expect h2 (by decide)))

/-! ### Termination of the parser -/

theorem ParseResult.error_ne_timeout {α : Type} {e : ParseError} :
    (ParseResult.error e : ParseResult α) ≠ ParseResult.timeout :=
  fun h => ParseResult.noConfusion h

theorem ParseResult.bind_ne_timeout {α β : Type} {r : ParseResult α}
    {k : α → Parser → ParseResult β} (h1 : r ≠ .timeout)
    (h2 : ∀ a s1, r = .ok a s1 → k a s1 ≠ .timeout) : r.bind k ≠ .timeout := by
  cases r with
  | ok a s1 => exact h2 a s1 rfl
  | error e => exact ParseResult.error_ne_timeout
  | timeout => exact absurd rfl h1

theorem Parser.expect_ne_timeout (s : Parser) (type : TokenType) :
    s.expect type ≠ .timeout := by
  unfold Parser.expect
  split_ifs
  · exact ParseResult.ok_ne_timeout
  · exact ParseResult.error_ne_timeout

theorem Parser.WellFormed.wf_expect {s s1 : Parser} {type : TokenType} {u : Unit}
    (hw : s.WellFormed) (h : s.expect type = .ok u s1) : s1.WellFormed := by
  obtain ⟨-, rfl⟩ := Parser.expect_ok h
  exact hw.wf_advance

theorem Parser.expect_length_le {s s1 : Parser} {type : TokenType} {u : Unit}
    (h : s.expect type = .ok u s1) : s1.tokens.length ≤ s.tokens.length := by
  obtain ⟨-, rfl⟩ := Parser.expect_ok h
  exact s.advance_length_le

/-- On a well formed state no parsing procedure runs out of fuel once the fuel
exceeds 14 units for each token of the queue plus the rank of the procedure. -/
theorem Parser.ne_timeout_of_fuel (fuel : Nat) :
    (∀ s, s.WellFormed → 14 * s.tokens.length + 12 < fuel →
      Parser.statement fuel s ≠ .timeout) ∧
    (∀ s, s.WellFormed → 14 * s.tokens.length + 11 < fuel →
      Parser.assignmentStatement fuel s ≠ .timeout) ∧
    (∀ s, s.WellFormed → 14 * s.tokens.length + 11 < fuel →
      Parser.printStatement fuel s ≠ .timeout) ∧
    (∀ s, s.WellFormed → 14 * s.tokens.length + 11 < fuel →
      Parser.ifStatement fuel s ≠ .timeout) ∧
    (∀ s, s.WellFormed → 14 * s.tokens.length + 11 < fuel →
      Parser.whileStatement fuel s ≠ .timeout) ∧
    (∀ acc s, s.WellFormed → 14 * s.tokens.length + 13 < fuel →
      Parser.blockLoop fuel acc s ≠ .timeout) ∧
    (∀ s, s.WellFormed → 14 * s.tokens.length + 11 < fuel →
      Parser.block fuel s ≠ .timeout) ∧
    (∀ s, s.WellFormed → 14 * s.tokens.length + 10 < fuel →
      Parser.expression fuel s ≠ .timeout) ∧
    (∀ acc s, s.WellFormed → 14 * s.tokens.length + 8 < fuel →
      Parser.equalityLoop fuel acc s ≠ .timeout) ∧
    (∀ s, s.WellFormed → 14 * s.tokens.length + 9 < fuel →
      Parser.equality fuel s ≠ .timeout) ∧
    (∀ acc s, s.WellFormed → 14 * s.tokens.length + 6 < fuel →
      Parser.comparisonLoop fuel acc s ≠ .timeout) ∧
    (∀ s, s.WellFormed → 14 * s.tokens.length + 7 < fuel →
      Parser.comparison fuel s ≠ .timeout) ∧
    (∀ acc s, s.WellFormed → 14 * s.tokens.length + 4 < fuel →
      Parser.termLoop fuel acc s ≠ .timeout) ∧
    (∀ s, s.WellFormed → 14 * s.tokens.length + 5 < fuel →
      Parser.term fuel s ≠ .timeout) ∧
    (∀ acc s, s.WellFormed → 14 * s.tokens.length + 2 < fuel →
      Parser.factorLoop fuel acc s ≠ .timeout) ∧
    (∀ s, s.WellFormed → 14 * s.tokens.length + 3 < fuel →
      Parser.factor fuel s ≠ .timeout) ∧
    (∀ s, s.WellFormed → 14 * s.tokens.length + 1 < fuel →
      Parser.unary fuel s ≠ .timeout) ∧
    (∀ s, s.WellFormed → 14 * s.tokens.length + 0 < fuel →
      Parser.primary fuel s ≠ .timeout) := by
  induction fuel with
  | zero =>
    refine ⟨?_, ?_, ?_, ?_, ?_, ?_, ?_, ?_, ?_, ?_, ?_, ?_, ?_, ?_, ?_, ?_, ?_, ?_⟩ <;>
      intros <;> omega
  | succ fuel ih =>
    obtain ⟨hst, has, hpr, hif, hwh, hbl, hb, hex, heql, heq, hcml, hcm, htl, ht, hfl, hf,
      hu, hp⟩ := ih
    obtain ⟨Ast, -, -, -, -, -, -, Aex, -, -, -, Acm, -, At, -, Af, Au, -⟩ :=
      Parser.advances_of_ok fuel
    refine ⟨?_, ?_, ?_, ?_, ?_, ?_, ?_, ?_, ?_, ?_, ?_, ?_, ?_, ?_, ?_, ?_, ?_, ?_⟩
    · intro s hw hr
      rw [Parser.statement]
      split_ifs
      · exact has _ hw (by omega)
      · exact hpr _ hw (by omega)
      · exact hif _ hw (by omega)
      · exact hwh _ hw (by omega)
      · exact hb _ hw (by omega)
      · exact ParseResult.error_ne_timeout
    · intro s hw hr
      rw [Parser.assignmentStatement]
      refine ParseResult.bind_ne_timeout (Parser.expect_ne_timeout _ _) fun u1 s1 h1 => ?_
      have l0 := s.advance_length_le
      have l1 := Parser.expect_length_le h1
      refine ParseResult.bind_ne_timeout (hex _ (hw.wf_advance.wf_expect h1) (by omega))
        fun expr s2 h2 => ?_
      exact ParseResult.bind_ne_timeout (Parser.expect_ne_timeout _ _)
        fun _ _ _ => ParseResult.ok_ne_timeout
    · intro s hw hr
      rw [Parser.printStatement]
      refine ParseResult.bind_ne_timeout (Parser.expect_ne_timeout _ _) fun u1 s1 h1 => ?_
      refine ParseResult.bind_ne_timeout (Parser.expect_ne_timeout _ _) fun u2 s2 h2 => ?_
      have l1 := Parser.expect_length_le h1
      have l2 := Parser.expect_length_le h2
      refine ParseResult.bind_ne_timeout (hex _ ((hw.wf_expect h1).wf_expect h2) (by omega))
        fun expr s3 h3 => ?_
      refine ParseResult.bind_ne_timeout (Parser.expect_ne_timeout _ _) fun u4 s4 h4 => ?_
      exact ParseResult.bind_ne_timeout (Parser.expect_ne_timeout _ _)
        fun _ _ _ => ParseResult.ok_ne_timeout
    · intro s hw hr
      rw [Parser.ifStatement]
      refine ParseResult.bind_ne_timeout (Parser.expect_ne_timeout _ _) fun u1 s1 h1 => ?_
      refine ParseResult.bind_ne_timeout (Parser.expect_ne_timeout _ _) fun u2 s2 h2 => ?_
      have l1 := hw.expect_length h1 (by decide)
      have l2 := Parser.expect_length_le h2
      have w2 := (hw.wf_expect h1).wf_expect h2
      refine ParseResult.bind_ne_timeout (hex _ w2 (by omega)) fun cond s3 h3 => ?_
      have a3 := Aex _ _ _ h3
      have l3 := a3.length_le
      have w3 := a3.wellFormed w2
      refine ParseResult.bind_ne_timeout (Parser.expect_ne_timeout _ _) fun u4 s4 h4 => ?_
      have l4 := Parser.expect_length_le h4
      have w4 := w3.wf_expect h4
      refine ParseResult.bind_ne_timeout (hst _ w4 (by omega)) fun tb s5 h5 => ?_
      have a5 := (Ast _ _ _ h5).1
      have l5 := a5.length_le
      have w5 := a5.wellFormed w4
      split_ifs
      · have l6 := s5.advance_length_le
        exact ParseResult.bind_ne_timeout (hst _ w5.wf_advance (by omega))
          fun _ _ _ => ParseResult.ok_ne_timeout
      · exact ParseResult.ok_ne_timeout
    · intro s hw hr
      rw [Parser.whileStatement]
      refine ParseResult.bind_ne_timeout (Parser.expect_ne_timeout _ _) fun u1 s1 h1 => ?_
      refine ParseResult.bind_ne_timeout (Parser.expect_ne_timeout _ _) fun u2 s2 h2 => ?_
      have l1 := hw.expect_length h1 (by decide)
      have l2 := Parser.expect_length_le h2
      have w2 := (hw.wf_expect h1).wf_expect h2
      refine ParseResult.bind_ne_timeout (hex _ w2 (by omega)) fun cond s3 h3 => ?_
      have a3 := Aex _ _ _ h3
      have l3 := a3.length_le
      have w3 := a3.wellFormed w2
      refine ParseResult.bind_ne_timeout (Parser.expect_ne_timeout _ _) fun u4 s4 h4 => ?_
      have l4 := Parser.expect_length_le h4
      have w4 := w3.wf_expect h4
      exact ParseResult.bind_ne_timeout (hst _ w4 (by omega))
        fun _ _ _ => ParseResult.ok_ne_timeout
    · intro acc s hw hr
      rw [Parser.blockLoop]
      split_ifs with hc
      · refine ParseResult.bind_ne_timeout (hst _ hw (by omega)) fun stmt s1 h1 => ?_
        have a1 := Ast _ _ _ h1
        have l1 := a1.2 hw
        exact hbl _ _ (a1.1.wellFormed hw) (by omega)
      · exact ParseResult.ok_ne_timeout
    · intro s hw hr
      rw [Parser.block]
      refine ParseResult.bind_ne_timeout (Parser.expect_ne_timeout _ _) fun u1 s1 h1 => ?_
      have l1 := hw.expect_length h1 (by decide)
      refine ParseResult.bind_ne_timeout (hbl _ _ (hw.wf_expect h1) (by omega))
        fun stmts s2 h2 => ?_
      exact ParseResult.bind_ne_timeout (Parser.expect_ne_timeout _ _)
        fun _ _ _ => ParseResult.ok_ne_timeout
    · intro s hw hr
      rw [Parser.expression]
      exact heq _ hw (by omega)
    · intro acc s hw hr
      rw [Parser.equalityLoop]
      split_ifs with hc
      · have hlt := hw.advance_length (by rw [hc.1]; decide)
        refine ParseResult.bind_ne_timeout (hcm _ hw.wf_advance (by omega)) fun right s1 h1 => ?_
        have a1 := Acm _ _ _ h1
        have := a1.length_le
        exact heql _ _ (a1.wellFormed hw.wf_advance) (by omega)
      · exact ParseResult.ok_ne_timeout
    · intro s hw hr
      rw [Parser.equality]
      refine ParseResult.bind_ne_timeout (hcm _ hw (by omega)) fun node s1 h1 => ?_
      have a1 := Acm _ _ _ h1
      have := a1.length_le
      exact heql _ _ (a1.wellFormed hw) (by omega)
    · intro acc s hw hr
      rw [Parser.comparisonLoop]
      split_ifs with hc
      · have hlt := hw.advance_length (by rw [hc.1]; decide)
        refine ParseResult.bind_ne_timeout (ht _ hw.wf_advance (by omega)) fun right s1 h1 => ?_
        have a1 := At _ _ _ h1
        have := a1.length_le
        exact hcml _ _ (a1.wellFormed hw.wf_advance) (by omega)
      · exact ParseResult.ok_ne_timeout
    · intro s hw hr
      rw [Parser.comparison]
      refine ParseResult.bind_ne_timeout (ht _ hw (by omega)) fun node s1 h1 => ?_
      have a1 := At _ _ _ h1
      have := a1.length_le
      exact hcml _ _ (a1.wellFormed hw) (by omega)
    · intro acc s hw hr
      rw [Parser.termLoop]
      split_ifs with hc
      · have hlt := hw.advance_length (by rw [hc.1]; decide)
        refine ParseResult.bind_ne_timeout (hf _ hw.wf_advance (by omega)) fun right s1 h1 => ?_
        have a1 := Af _ _ _ h1
        have := a1.length_le
        exact htl _ _ (a1.wellFormed hw.wf_advance) (by omega)
      · exact ParseResult.ok_ne_timeout
    · intro s hw hr
      rw [Parser.term]
      refine ParseResult.bind_ne_timeout (hf _ hw (by omega)) fun node s1 h1 => ?_
      have a1 := Af _ _ _ h1
      have := a1.length_le
      exact htl _ _ (a1.wellFormed hw) (by omega)
    · intro acc s hw hr
      rw [Parser.factorLoop]
      split_ifs with hc
      · have hlt := hw.advance_length (by rw [hc.1]; decide)
        refine ParseResult.bind_ne_timeout (hu _ hw.wf_advance (by omega)) fun right s1 h1 => ?_
        have a1 := Au _ _ _ h1
        have := a1.length_le
        exact hfl _ _ (a1.wellFormed hw.wf_advance) (by omega)
      · exact ParseResult.ok_ne_timeout
    · intro s hw hr
      rw [Parser.factor]
      refine ParseResult.bind_ne_timeout (hu _ hw (by omega)) fun node s1 h1 => ?_
      have a1 := Au _ _ _ h1
      have := a1.length_le
      exact hfl _ _ (a1.wellFormed hw) (by omega)
    · intro s hw hr
      rw [Parser.unary]
      split_ifs with hc
      · have hlt := hw.advance_length (by rw [hc.1]; decide)
        exact ParseResult.bind_ne_timeout (hu _ hw.wf_advance (by omega))
          fun _ _ _ => ParseResult.ok_ne_timeout
      · exact hp _ hw (by omega)
    · intro s hw hr
      rw [Parser.primary]
      split_ifs with c1 c2 c3
      · cases stoi s.currentToken.value with
        | value v => exact ParseResult.ok_ne_timeout
        | invalid_argument => exact ParseResult.error_ne_timeout
        | out_of_range => exact ParseResult.error_ne_timeout
      · exact ParseResult.ok_ne_timeout
      · have hlt := hw.advance_length (by rw [c3]; decide)
        refine ParseResult.bind_ne_timeout (hex _ hw.wf_advance (by omega)) fun node s1 h1 => ?_
        exact ParseResult.bind_ne_timeout (Parser.expect_ne_timeout _ _)
          fun _ _ _ => ParseResult.ok_ne_timeout
      · exact ParseResult.error_ne_timeout

theorem Parser.new_stream {tokens : List Token} (h : tokens ≠ []) :
    (Parser.new tokens).stream = tokens := by
  cases tokens with
  | nil => exact absurd rfl h
  | cons t rest => rfl

theorem Parser.new_wellFormed {body : List Token} {eof : Token} (h : eof.type = T_EOF) :
    (Parser.new (body ++ [eof])).WellFormed :=
  ⟨body, eof, Parser.new_stream (by simp), h⟩

/-- When the loop of `program` returns, the lookahead is the end-of-input token. -/
theorem Parser.programLoop_ok (fuel : Nat) :
    ∀ acc s a s', Parser.programLoop fuel acc s = .ok a s' →
      Parser.Advances s s' ∧ s'.currentToken.type = T_EOF := by
  induction fuel with
  | zero => intro acc s a s' h; simp [Parser.programLoop] at h
  | succ fuel ih =>
    intro acc s a s' h
    rw [Parser.programLoop] at h
    split_ifs at h with hc
    · obtain ⟨stmt, s1, h1, h⟩ := ParseResult.bind_eq_ok h
      obtain ⟨a2, he⟩ := ih _ _ _ _ h
      exact ⟨((Parser.advances_of_ok fuel).1 _ _ _ h1).1.trans a2, he⟩
    · simp only [ParseResult.ok.injEq] at h
      obtain ⟨-, rfl⟩ := h
      exact ⟨Parser.Advances.refl _, not_not.1 hc⟩

theorem Parser.programLoop_ne_timeout (fuel : Nat) :
    ∀ acc s, s.WellFormed → 14 * s.tokens.length + 13 < fuel →
      Parser.programLoop fuel acc s ≠ .timeout := by
  induction fuel with
  | zero => intro acc s _ hr; omega
  | succ fuel ih =>
    intro acc s hw hr
    rw [Parser.programLoop]
    split_ifs with hc
    · refine ParseResult.bind_ne_timeout ((Parser.ne_timeout_of_fuel fuel).1 _ hw (by omega))
        fun stmt s1 h1 => ?_
      have a1 := (Parser.advances_of_ok fuel).1 _ _ _ h1
      have l1 := a1.2 hw
      exact ih _ _ (a1.1.wellFormed hw) (by omega)
    · exact ParseResult.ok_ne_timeout

/-- Parsing a queue that ends with an end-of-input token does not run out of
fuel once the fuel exceeds 14 units for each token. -/
theorem parse_ne_timeout {body : List Token} {eof : Token} (h : eof.type = T_EOF)
    {fuel : Nat} (hf : 14 * (body.length + 1) < fuel) :
    parse fuel (body ++ [eof]) ≠ .timeout := by
  have hw := @Parser.new_wellFormed body eof h
  have hlen : (Parser.new (body ++ [eof])).tokens.length + 1 = body.length + 1 := by
    have := congrArg List.length (@Parser.new_stream (body ++ [eof]) (by simp))
    simpa [Parser.stream] using this
  unfold parse Parser.program
  exact ParseResult.bind_ne_timeout (Parser.programLoop_ne_timeout _ _ _ hw (by omega))
    fun _ _ _ => ParseResult.ok_ne_timeout

/-- A parse that returns a tree has consumed every token before the first
end-of-input token, so `std::stoi` has converted every number token there. -/
theorem parse_ok_convertible {body : List Token} {eof : Token}
    (hbody : ∀ x ∈ body, x.type ≠ T_EOF) {fuel : Nat} {root : ASTNode} {s : Parser}
    (h : parse fuel (body ++ [eof]) = .ok root s) : ∀ t ∈ body, t.Convertible := by
  unfold parse Parser.program at h
  obtain ⟨stmts, s1, h1, -⟩ := ParseResult.bind_eq_ok h
  obtain ⟨⟨c, e, g⟩, hE⟩ := Parser.programLoop_ok _ _ _ _ _ h1
  rw [Parser.new_stream (by simp)] at e
  have hc : c = body := by
    rcases List.append_eq_append_iff.1 e with ⟨a', e1, e2⟩ | ⟨c', e1, e2⟩
    · cases a' with
      | nil => simpa using e1
      | cons x a' =>
        have := congrArg List.length e2
        simp [Parser.stream] at this
    · cases c' with
      | nil => exact (by simpa using e1 : body = c).symm
      | cons x c' =>
        exfalso
        simp only [Parser.stream, List.cons_append, List.cons.injEq] at e2
        exact hbody x (by rw [e1]; simp) (e2.1 ▸ hE)
  intro t ht
  exact g t (hc ▸ ht)

theorem generateTokens_lexed {input : List Char} {tokens : List Token}
    (h : generateTokens input = .ok tokens) :
    ∃ body line, tokens = body ++ [⟨T_EOF, "", line⟩] ∧ ∀ t ∈ body, t.Lexed :=
  Lexer.generateTokensLoop_lexed _ _ _ _ (fun _ h => absurd h (List.not_mem_nil _)) h

/-- A source whose token queue holds a number token above `INT_MAX` is rejected
by the parser: with enough fuel the parse ends in an exception, and it returns a
tree with no fuel at all. -/
theorem parse_rejects_overflow {code : String} {tokens : List Token} {t : Token}
    (hlex : generateTokens code.toList = .ok tokens) (ht : t ∈ tokens)
    (hnum : t.type = T_NUMBER) (hbig : INT_MAX < (decimalValue t.value.toList : Int)) :
    (∃ e, Runs code (.parseError e)) ∧ ∀ fuel root s, parse fuel tokens ≠ .ok root s := by
  obtain ⟨body, line, rfl, hbody⟩ := generateTokens_lexed hlex
  have htb : t ∈ body := by
    rcases List.mem_append.1 ht with h | h
    · exact h
    · rw [List.mem_singleton.1 h] at hnum
      cases hnum
  obtain ⟨hne, hd⟩ := (hbody t htb).2.2 hnum
  have hstoi : stoi t.value = .out_of_range := by
    have := stoi_digits hne hd
    rw [if_pos (show INT_MAX < (decimalValue t.value.data : Int) from hbig)] at this
    exact this
  have hbad : ¬ t.Convertible := fun hc => by
    obtain ⟨v, hv⟩ := hc hnum
    rw [hstoi] at hv
    cases hv
  have hnok : ∀ fuel root s, parse fuel (body ++ [⟨T_EOF, "", line⟩]) ≠ .ok root s :=
    fun fuel root s h =>
      hbad (parse_ok_convertible (fun x hx => (hbody x hx).1) h t htb)
  refine ⟨?_, hnok⟩
  have hnt := @parse_ne_timeout body ⟨T_EOF, "", line⟩ rfl _
    (Nat.lt_succ_self (14 * (body.length + 1)))
  cases hr : parse (14 * (body.length + 1) + 1) (body ++ [⟨T_EOF, "", line⟩]) with
  | timeout => exact absurd hr hnt
  | ok root s => exact absurd hr (hnok _ _ _)
  | error e =>
    refine ⟨e, 14 * (body.length + 1) + 1, fun fuel hle => ?_⟩
    unfold main
    rw [hlex]
    simp only []
    rw [parse_mono hr ParseResult.error_ne_timeout hle]


/-! ### The interpreter on one node -/

/-- A binary operation whose operands have values applies its operator to them,
in the state left by the right operand. -/
theorem Interpreter.Visits.binOp {left right : ASTNode} {op : String} {line : Nat}
    {s s1 s2 : Interpreter} {l r : Int}
    (hl : Interpreter.Visits left s (.value l s1))
    (hr : Interpreter.Visits right s1 (.value r s2)) :
    Interpreter.Visits (BinOpNode left op right line) s
      (Interpreter.applyOperator l op r line s2) := by
  obtain ⟨f1, h1⟩ := hl
  obtain ⟨f2, h2⟩ := hr
  refine ⟨max f1 f2 + 2, fun fuel hle => ?_⟩
  obtain ⟨k, rfl⟩ := Nat.exists_eq_add_of_le hle
  have e : max f1 f2 + 2 + k = (max f1 f2 + k) + 1 + 1 := by omega
  rw [e]
  simp only [Interpreter.visit, Interpreter.visitBinOpNode]
  rw [h1 _ (by omega)]
  simp only [EvalResult.bind]
  rw [h2 _ (by omega)]

/-- A binary operation whose left operand throws, throws the same. -/
theorem Interpreter.Visits.binOp_left {left right : ASTNode} {op : String} {line : Nat}
    {s s1 : Interpreter} {e : RuntimeError}
    (hl : Interpreter.Visits left s (.error e s1)) :
    Interpreter.Visits (BinOpNode left op right line) s (.error e s1) := by
  obtain ⟨f1, h1⟩ := hl
  refine ⟨f1 + 2, fun fuel hle => ?_⟩
  obtain ⟨k, rfl⟩ := Nat.exists_eq_add_of_le hle
  have e : f1 + 2 + k = (f1 + k) + 1 + 1 := by omega
  rw [e]
  simp only [Interpreter.visit, Interpreter.visitBinOpNode]
  rw [h1 _ (by omega)]
  simp only [EvalResult.bind]

/-- A binary operation whose right operand throws, throws the same. -/
theorem Interpreter.Visits.binOp_right {left right : ASTNode} {op : String} {line : Nat}
    {s s1 s2 : Interpreter} {l : Int} {e : RuntimeError}
    (hl : Interpreter.Visits left s (.value l s1))
    (hr : Interpreter.Visits right s1 (.error e s2)) :
    Interpreter.Visits (BinOpNode left op right line) s (.error e s2) := by
  obtain ⟨f1, h1⟩ := hl
  obtain ⟨f2, h2⟩ := hr
  refine ⟨max f1 f2 + 2, fun fuel hle => ?_⟩
  obtain ⟨k, rfl⟩ := Nat.exists_eq_add_of_le hle
  have e : max f1 f2 + 2 + k = (max f1 f2 + k) + 1 + 1 := by omega
  rw [e]
  simp only [Interpreter.visit, Interpreter.visitBinOpNode]
  rw [h1 _ (by omega)]
  simp only [EvalResult.bind]
  rw [h2 _ (by omega)]

theorem EvalResult.bind_value (v : Int) (s : Interpreter)
    (k : Int → Interpreter → EvalResult) : (EvalResult.value v s).bind k = k v s := rfl

theorem wrapInt_of_range {v : Int} (h1 : INT_MIN ≤ v) (h2 : v ≤ INT_MAX) : wrapInt v = v := by
  unfold wrapInt
  unfold INT_MIN at h1
  unfold INT_MAX at h2
  omega

/-- The condition `x < n` of the loop program, when `x` holds `k`. -/
theorem visit_loop_condition (n k : Int) (out : List Int) (fuel : Nat) :
    Interpreter.visit (fuel + 3) (BinOpNode (VariableNode "x" 1) "<" (NumberNode n 1) 1)
        ⟨[("x", k)], out⟩ =
      .value (boolToInt (k < n)) ⟨[("x", k)], out⟩ := by
  simp [Interpreter.visit, Interpreter.visitBinOpNode, Interpreter.visitVariableNode,
    Interpreter.find, List.lookup, EvalResult.bind, Interpreter.applyOperator]

/-- The body `x = x + 1;` of the loop program, when `x` holds `k`. -/
theorem visit_loop_body (k : Int) (out : List Int) (fuel : Nat) :
    Interpreter.visit (fuel + 7)
        (BlockNode [AssignNode "x" (BinOpNode (VariableNode "x" 1) "+" (NumberNode 1 1) 1) 1] 1)
        ⟨[("x", k)], out⟩ =
      .value 0 ⟨[("x", wrapInt (k + 1))], out⟩ := by
  simp [Interpreter.visit, Interpreter.visitBinOpNode, Interpreter.visitVariableNode,
    Interpreter.visitBlockNode, Interpreter.visitAssignNode, Interpreter.assign, assignEntry,
    Interpreter.find, List.lookup, EvalResult.bind, Interpreter.applyOperator]

/-- The loop of the loop program counts `x` from `k` up to the bound `n` and
stops, when it is given `n - k` units of fuel above a constant. -/
theorem visitWhileNode_loop (n : Nat) (hn : (n : Int) ≤ INT_MAX) (out : List Int) :
    ∀ (j k fuel : Nat), k + j = n →
      Interpreter.visitWhileNode (fuel + j + 8)
          (BinOpNode (VariableNode "x" 1) "<" (NumberNode n 1) 1)
          (BlockNode
            [AssignNode "x" (BinOpNode (VariableNode "x" 1) "+" (NumberNode 1 1) 1) 1] 1)
          ⟨[("x", (k : Int))], out⟩ =
        .value 0 ⟨[("x", (n : Int))], out⟩ := by
  intro j
  induction j with
  | zero =>
    intro k fuel hk
    have hkn : k = n := by omega
    subst hkn
    rw [show fuel + 0 + 8 = (fuel + 4 + 3) + 1 by omega, Interpreter.visitWhileNode,
      visit_loop_condition, EvalResult.bind_value]
    simp [boolToInt]
  | succ j ih =>
    intro k fuel hk
    have hlt : (k : Int) < (n : Int) := by omega
    have hw : wrapInt ((k : Int) + 1) = ((k + 1 : Nat) : Int) := by
      rw [wrapInt_of_range (by unfold INT_MIN; omega) (by omega)]
      rfl
    rw [show fuel + (j + 1) + 8 = (fuel + j + 5 + 3) + 1 by omega, Interpreter.visitWhileNode,
      visit_loop_condition, EvalResult.bind_value]
    simp only [boolToInt, hlt, decide_True, if_true]
    rw [if_pos (by decide), show fuel + j + 5 + 3 = (fuel + j + 1) + 7 by omega, visit_loop_body,
      EvalResult.bind_value, hw, show fuel + j + 1 + 7 = fuel + j + 8 by omega]
    exact ih (k + 1) fuel (by omega)

/-- The tree of the loop program runs to the end and prints the bound. -/
theorem interpret_loopTree (n : Nat) (hn : (n : Int) ≤ INT_MAX) (fuel : Nat) :
    interpret (fuel + n + 12) (loopTree n) = .value 0 ⟨[("x", (n : Int))], [(n : Int)]⟩ := by
  have hloop := visitWhileNode_loop n hn [] n 0 fuel (by omega)
  generalize fuel + n = m at hloop ⊢
  simp only [Nat.cast_zero] at hloop
  simp [interpret, loopTree, Interpreter.visit, Interpreter.visitBlockNode,
    Interpreter.visitAssignNode, Interpreter.visitPrintNode, Interpreter.visitVariableNode,
    Interpreter.assign, assignEntry, Interpreter.print, Interpreter.find, List.lookup,
    EvalResult.bind, hloop]

/-! ### Integer arithmetic of the interpreter -/

theorem Runs.run_unique {code : String} {r r' : RunResult} (h : Runs code r)
    (h' : Runs code r') : r = r' := by
  obtain ⟨f, hf⟩ := h
  obtain ⟨f', hf'⟩ := h'
  rw [← hf (max f f') (le_max_left _ _), ← hf' (max f f') (le_max_right _ _)]

/-- The quotient and the remainder of C++ for a divisor that is not 0: they
recompose the dividend, the remainder is smaller in magnitude than the divisor
and has the sign of the dividend (or is 0). -/
theorem tdiv_tmod_spec (l r : Int) (hr : r ≠ 0) :
    l.tdiv r * r + l.tmod r = l ∧ (l.tmod r).natAbs < r.natAbs ∧
      (0 ≤ l → 0 ≤ l.tmod r) ∧ (l ≤ 0 → l.tmod r ≤ 0) := by
  refine ⟨Int.tdiv_add_tmod' l r, ?_, fun h => Int.tmod_nonneg r h, ?_⟩
  · have hpos : 0 < r.natAbs := Int.natAbs_pos.2 hr
    cases l with
    | ofNat m =>
      cases r with
      | ofNat n =>
        show (Int.ofNat (m % n)).natAbs < n
        exact Nat.mod_lt _ hpos
      | negSucc n =>
        show (Int.ofNat (m % (n + 1))).natAbs < n + 1
        exact Nat.mod_lt _ (Nat.succ_pos n)
    | negSucc m =>
      cases r with
      | ofNat n =>
        show (-Int.ofNat ((m + 1) % n)).natAbs < n
        rw [Int.natAbs_neg]
        exact Nat.mod_lt _ hpos
      | negSucc n =>
        show (-Int.ofNat ((m + 1) % (n + 1))).natAbs < n + 1
        rw [Int.natAbs_neg]
        exact Nat.mod_lt _ (Nat.succ_pos n)
  · intro h
    cases l with
    | ofNat m =>
      have hm : m = 0 := by
        have : (m : Int) ≤ 0 := h
        omega
      subst hm
      show Int.tmod 0 r ≤ 0
      simp
    | negSucc m =>
      cases r with
      | ofNat n =>
        show -Int.ofNat ((m + 1) % n) ≤ 0
        have : (0 : Int) ≤ Int.ofNat ((m + 1) % n) := Int.ofNat_nonneg _
        omega
      | negSucc n =>
        show -Int.ofNat ((m + 1) % (n + 1)) ≤ 0
        have : (0 : Int) ≤ Int.ofNat ((m + 1) % (n + 1)) := Int.ofNat_nonneg _
        omega

/-- The quotient of two values of `int` is a value of `int`, but for `INT_MIN / -1`. -/
theorem tdiv_range {l r : Int} (hl1 : INT_MIN ≤ l) (hl2 : l ≤ INT_MAX)
    (hne : ¬ (l = INT_MIN ∧ r = -1)) : INT_MIN ≤ l.tdiv r ∧ l.tdiv r ≤ INT_MAX := by
  unfold INT_MIN at hl1 hne ⊢
  unfold INT_MAX at hl2 ⊢
  by_cases h1 : r = 1
  · subst h1
    rw [Int.tdiv_one]
    exact ⟨hl1, hl2⟩
  by_cases h2 : r = -1
  · subst h2
    rw [Int.tdiv_neg, Int.tdiv_one]
    have : l ≠ -2147483648 := fun h => hne ⟨h, rfl⟩
    omega
  have habs : (l.tdiv r).natAbs ≤ l.natAbs / 2 := by
    rw [Int.natAbs_tdiv]
    by_cases h0 : r = 0
    · subst h0
      show l.natAbs / 0 ≤ _
      simp
    · have h2le : 2 ≤ r.natAbs := by omega
      exact Nat.div_le_div_left h2le (by decide)
  omega

/-- The remainder of two values of `int`, the divisor not 0, is a value of `int`. -/
theorem tmod_range {l r : Int} (hr1 : INT_MIN ≤ r) (hr2 : r ≤ INT_MAX) (hr : r ≠ 0) :
    INT_MIN ≤ l.tmod r ∧ l.tmod r ≤ INT_MAX := by
  unfold INT_MIN at hr1 ⊢
  unfold INT_MAX at hr2 ⊢
  have h := (tdiv_tmod_spec l r hr).2.1
  omega

theorem lookup_assignEntry_self (name : String) (v : Int) (env : List (String × Int)) :
    (assignEntry name v env).lookup name = some v := by
  induction env with
  | nil => simp [assignEntry, List.lookup]
  | cons kv rest ih =>
    obtain ⟨k, w⟩ := kv
    unfold assignEntry
    by_cases hk : k = name
    · subst hk
      simp [List.lookup]
    · have hk' : (name == k) = false := by simpa using fun h => hk h.symm
      rw [if_neg hk]
      simp only [List.lookup, hk']
      exact ih

theorem lookup_assignEntry_other {name other : String} (h : other ≠ name) (v : Int)
    (env : List (String × Int)) :
    (assignEntry name v env).lookup other = env.lookup other := by
  induction env with
  | nil =>
    have : (other == name) = false := by simpa using h
    simp [assignEntry, List.lookup, this]
  | cons kv rest ih =>
    obtain ⟨k, w⟩ := kv
    unfold assignEntry
    by_cases hk : k = name
    · subst hk
      have : (other == k) = false := by simpa using h
      simp [List.lookup, this]
    · rw [if_neg hk]
      by_cases ho : other = k
      · subst ho
        simp [List.lookup]
      · have : (other == k) = false := by simpa using ho
        simp only [List.lookup, this]
        exact ih

/-- An assignment whose value expression has a value stores it and yields it. -/
theorem Interpreter.Visits.assign {value : ASTNode} {name : String} {line : Nat}
    {s s1 : Interpreter} {v : Int} (h : Interpreter.Visits value s (.value v s1)) :
    Interpreter.Visits (AssignNode name value line) s (.value v (s1.assign name v)) := by
  obtain ⟨f1, h1⟩ := h
  refine ⟨f1 + 2, fun fuel hle => ?_⟩
  obtain ⟨k, rfl⟩ := Nat.exists_eq_add_of_le hle
  rw [show f1 + 2 + k = (f1 + k) + 1 + 1 by omega]
  simp only [Interpreter.visit, Interpreter.visitAssignNode]
  rw [h1 _ (by omega)]
  rfl

/-- An assignment whose value expression throws, throws the same and stores nothing. -/
theorem Interpreter.Visits.assign_error {value : ASTNode} {name : String} {line : Nat}
    {s s1 : Interpreter} {e : RuntimeError} (h : Interpreter.Visits value s (.error e s1)) :
    Interpreter.Visits (AssignNode name value line) s (.error e s1) := by
  obtain ⟨f1, h1⟩ := h
  refine ⟨f1 + 2, fun fuel hle => ?_⟩
  obtain ⟨k, rfl⟩ := Nat.exists_eq_add_of_le hle
  rw [show f1 + 2 + k = (f1 + k) + 1 + 1 by omega]
  simp only [Interpreter.visit, Interpreter.visitAssignNode]
  rw [h1 _ (by omega)]
  rfl

theorem Interpreter.applyOperator_add (l r : Int) (line : Nat) (s : Interpreter)
    (h1 : INT_MIN ≤ l + r) (h2 : l + r ≤ INT_MAX) :
    Interpreter.applyOperator l "+" r line s = .value (l + r) s := by
  simp [Interpreter.applyOperator, wrapInt_of_range h1 h2]

theorem Interpreter.applyOperator_sub (l r : Int) (line : Nat) (s : Interpreter)
    (h1 : INT_MIN ≤ l - r) (h2 : l - r ≤ INT_MAX) :
    Interpreter.applyOperator l "-" r line s = .value (l - r) s := by
  simp [Interpreter.applyOperator, wrapInt_of_range h1 h2]

theorem Interpreter.applyOperator_mul (l r : Int) (line : Nat) (s : Interpreter)
    (h1 : INT_MIN ≤ l * r) (h2 : l * r ≤ INT_MAX) :
    Interpreter.applyOperator l "*" r line s = .value (l * r) s := by
  simp [Interpreter.applyOperator, wrapInt_of_range h1 h2]

theorem Interpreter.applyOperator_div (l r : Int) (line : Nat) (s : Interpreter)
    (hl1 : INT_MIN ≤ l) (hl2 : l ≤ INT_MAX) (hr : r ≠ 0) (hne : ¬ (l = INT_MIN ∧ r = -1)) :
    Interpreter.applyOperator l "/" r line s = .value (l.tdiv r) s := by
  have h := tdiv_range hl1 hl2 hne
  simp only [Interpreter.applyOperator, if_neg hr, if_neg hne, wrapInt_of_range h.1 h.2]
  simp

theorem Interpreter.applyOperator_mod (l r : Int) (line : Nat) (s : Interpreter)
    (hr1 : INT_MIN ≤ r) (hr2 : r ≤ INT_MAX) (hr : r ≠ 0) (hne : ¬ (l = INT_MIN ∧ r = -1)) :
    Interpreter.applyOperator l "%" r line s = .value (l.tmod r) s := by
  have h := @tmod_range l r hr1 hr2 hr
  simp only [Interpreter.applyOperator, if_neg hr, if_neg hne, wrapInt_of_range h.1 h.2]
  simp

/-! ### Expressions, blocks and branches in the interpreter -/

/-- Applying an operator leaves the state as it is. -/
theorem Interpreter.applyOperator_state (l : Int) (op : String) (r : Int) (line : Nat)
    (s : Interpreter) :
    (∃ v, Interpreter.applyOperator l op r line s = .value v s) ∨
      (∃ e, Interpreter.applyOperator l op r line s = .error e s) ∨
      Interpreter.applyOperator l op r line s = .undefined := by
  have key : ∀ res, Interpreter.applyOperator l op r line s = res →
      (∃ v, res = .value v s) ∨ (∃ e, res = .error e s) ∨ res = .undefined := by
    intro res h
    unfold Interpreter.applyOperator at h
    by_cases c0 : op = "+"
    · rw [if_pos c0] at h
      exact Or.inl ⟨_, h.symm⟩
    rw [if_neg c0] at h
    by_cases c1 : op = "-"
    · rw [if_pos c1] at h
      exact Or.inl ⟨_, h.symm⟩
    rw [if_neg c1] at h
    by_cases c2 : op = "*"
    · rw [if_pos c2] at h
      exact Or.inl ⟨_, h.symm⟩
    rw [if_neg c2] at h
    by_cases c3 : op = "/"
    · rw [if_pos c3] at h
      by_cases c : r = 0
      · rw [if_pos c] at h
        exact Or.inr (Or.inl ⟨_, h.symm⟩)
      · rw [if_neg c] at h
        by_cases c' : l = INT_MIN ∧ r = -1
        · rw [if_pos c'] at h
          exact Or.inr (Or.inr h.symm)
        · rw [if_neg c'] at h
          exact Or.inl ⟨_, h.symm⟩
    rw [if_neg c3] at h
    by_cases c4 : op = "%"
    · rw [if_pos c4] at h
      by_cases c : r = 0
      · rw [if_pos c] at h
        exact Or.inr (Or.inl ⟨_, h.symm⟩)
      · rw [if_neg c] at h
        by_cases c' : l = INT_MIN ∧ r = -1
        · rw [if_pos c'] at h
          exact Or.inr (Or.inr h.symm)
        · rw [if_neg c'] at h
          exact Or.inl ⟨_, h.symm⟩
    rw [if_neg c4] at h
    by_cases c5 : op = "=="
    · rw [if_pos c5] at h
      exact Or.inl ⟨_, h.symm⟩
    rw [if_neg c5] at h
    by_cases c6 : op = "!="
    · rw [if_pos c6] at h
      exact Or.inl ⟨_, h.symm⟩
    rw [if_neg c6] at h
    by_cases c7 : op = "<"
    · rw [if_pos c7] at h
      exact Or.inl ⟨_, h.symm⟩
    rw [if_neg c7] at h
    by_cases c8 : op = "<="
    · rw [if_pos c8] at h
      exact Or.inl ⟨_, h.symm⟩
    rw [if_neg c8] at h
    by_cases c9 : op = ">"
    · rw [if_pos c9] at h
      exact Or.inl ⟨_, h.symm⟩
    rw [if_neg c9] at h
    by_cases c10 : op = ">="
    · rw [if_pos c10] at h
      exact Or.inl ⟨_, h.symm⟩
    rw [if_neg c10] at h
    by_cases c11 : op = "!"
    · rw [if_pos c11] at h
      exact Or.inl ⟨_, h.symm⟩
    rw [if_neg c11] at h
    exact Or.inr (Or.inl ⟨_, h.symm⟩)
  exact key _ rfl

/-- The visit of an expression node changes neither the variables nor the output. -/
theorem Interpreter.visit_expression {node : ASTNode} (h : node.IsExpression) :
    ∀ (fuel : Nat) (s : Interpreter),
      (∀ v s1, Interpreter.visit fuel node s = .value v s1 → s1 = s) ∧
      (∀ e s1, Interpreter.visit fuel node s = .error e s1 → s1 = s) := by
  induction h with
  | ofNumber value line =>
    intro fuel s
    cases fuel with
    | zero => simp [Interpreter.visit]
    | succ f =>
      simp only [Interpreter.visit]
      exact ⟨fun v s1 h => (by cases h; rfl), fun e s1 h => by cases h⟩
  | ofVariable name line =>
    intro fuel s
    cases fuel with
    | zero => simp [Interpreter.visit]
    | succ f =>
      simp only [Interpreter.visit, Interpreter.visitVariableNode]
      cases s.find name with
      | none => exact ⟨fun v s1 h => (by cases h), fun e s1 h => by cases h; rfl⟩
      | some w => exact ⟨fun v s1 h => (by cases h; rfl), fun e s1 h => by cases h⟩
  | @ofBinOp left right op line _ _ ihl ihr =>
    intro fuel s
    cases fuel with
    | zero => simp [Interpreter.visit]
    | succ f =>
      cases f with
      | zero => simp [Interpreter.visit, Interpreter.visitBinOpNode]
      | succ f =>
        simp only [Interpreter.visit, Interpreter.visitBinOpNode]
        cases hl : Interpreter.visit f left s with
        | timeout => simp [EvalResult.bind]
        | undefined => simp [EvalResult.bind]
        | error e s1 =>
          have := (ihl f s).2 e s1 hl
          subst this
          simp only [EvalResult.bind]
          exact ⟨fun v s1 h => (by cases h), fun e s1 h => by cases h; rfl⟩
        | value l s1 =>
          have := (ihl f s).1 l s1 hl
          subst this
          simp only [EvalResult.bind]
          cases hr : Interpreter.visit f right s1 with
          | timeout => simp
          | undefined => simp
          | error e s2 =>
            have := (ihr f s1).2 e s2 hr
            subst this
            exact ⟨fun v s1 h => (by cases h), fun e s1 h => by cases h; rfl⟩
          | value r s2 =>
            have := (ihr f s1).1 r s2 hr
            subst this
            simp only []
            rcases Interpreter.applyOperator_state l op r line s2 with ⟨v, hv⟩ | ⟨e, he⟩ | hu
            · rw [hv]
              exact ⟨fun v s1 h => (by cases h; rfl), fun e s1 h => by cases h⟩
            · rw [he]
              exact ⟨fun v s1 h => (by cases h), fun e s1 h => by cases h; rfl⟩
            · rw [hu]
              exact ⟨fun v s1 h => (by cases h), fun e s1 h => by cases h⟩

/-- An expression node that has a value or throws leaves the state as it was. -/
theorem Interpreter.Visits.expression_state {node : ASTNode} (h : node.IsExpression)
    {s s1 : Interpreter} :
    (∀ v, Interpreter.Visits node s (.value v s1) → s1 = s) ∧
      (∀ e, Interpreter.Visits node s (.error e s1) → s1 = s) :=
  ⟨fun v ⟨f, hf⟩ => (Interpreter.visit_expression h f s).1 v s1 (hf f (le_refl f)),
    fun e ⟨f, hf⟩ => (Interpreter.visit_expression h f s).2 e s1 (hf f (le_refl f))⟩

theorem Interpreter.Sequence.ne_timeout {stmts : List ASTNode} {s : Interpreter}
    {r : EvalResult} (h : Interpreter.Sequence stmts s r) : r ≠ .timeout := by
  induction h with
  | nil s => simp
  | step _ _ ih => exact ih
  | fail _ => simp
  | undef _ => simp

/-- The loop of `visitBlockNode` evaluates the statements one after another. -/
theorem Interpreter.visitBlockNode_sequence :
    ∀ (stmts : List ASTNode) (fuel : Nat) (s : Interpreter) (r : EvalResult),
      Interpreter.visitBlockNode fuel stmts s = r → r ≠ .timeout →
      Interpreter.Sequence stmts s r := by
  intro stmts
  induction stmts with
  | nil =>
    intro fuel s r h hr
    cases fuel with
    | zero => exact absurd h.symm hr
    | succ f =>
      rw [Interpreter.visitBlockNode] at h
      subst h
      exact .nil s
  | cons stmt rest ih =>
    intro fuel s r h hr
    cases fuel with
    | zero => exact absurd h.symm hr
    | succ f =>
      rw [Interpreter.visitBlockNode] at h
      cases hv : Interpreter.visit f stmt s with
      | timeout =>
        rw [hv] at h
        exact absurd h.symm hr
      | error e s1 =>
        rw [hv] at h
        subst h
        exact .fail (Interpreter.Visits.visits_of_eq hv (by simp))
      | undefined =>
        rw [hv] at h
        subst h
        exact .undef (Interpreter.Visits.visits_of_eq hv (by simp))
      | value v s1 =>
        rw [hv] at h
        exact .step (Interpreter.Visits.visits_of_eq hv (by simp)) (ih f s1 r h hr)

/-- Statements evaluated one after another are what the block of them does. -/
theorem Interpreter.Sequence.visits_block {stmts : List ASTNode} {s : Interpreter}
    {r : EvalResult} (h : Interpreter.Sequence stmts s r) (line : Nat) :
    Interpreter.Visits (BlockNode stmts line) s r := by
  induction h with
  | nil s =>
    exact @Interpreter.Visits.visits_of_eq 2 _ _ _ rfl (by simp)
  | @step stmt rest s s1 v r hv _ ih =>
    obtain ⟨f1, h1⟩ := hv
    obtain ⟨f2, h2⟩ := ih
    refine ⟨max f1 f2 + 2, fun fuel hle => ?_⟩
    obtain ⟨k, rfl⟩ := Nat.exists_eq_add_of_le hle
    rw [show max f1 f2 + 2 + k = (max f1 f2 + k) + 1 + 1 by omega]
    have h2' := h2 (max f1 f2 + k + 1) (by omega)
    rw [Interpreter.visit] at h2' ⊢
    rw [Interpreter.visitBlockNode, h1 _ (by omega), EvalResult.bind_value]
    exact h2'
  | @fail stmt rest s s1 e hv =>
    obtain ⟨f1, h1⟩ := hv
    refine ⟨f1 + 2, fun fuel hle => ?_⟩
    obtain ⟨k, rfl⟩ := Nat.exists_eq_add_of_le hle
    rw [show f1 + 2 + k = (f1 + k) + 1 + 1 by omega]
    rw [Interpreter.visit, Interpreter.visitBlockNode, h1 _ (by omega)]
    rfl
  | @undef stmt rest s hv =>
    obtain ⟨f1, h1⟩ := hv
    refine ⟨f1 + 2, fun fuel hle => ?_⟩
    obtain ⟨k, rfl⟩ := Nat.exists_eq_add_of_le hle
    rw [show f1 + 2 + k = (f1 + k) + 1 + 1 by omega]
    rw [Interpreter.visit, Interpreter.visitBlockNode, h1 _ (by omega)]
    rfl

/-- What a block does is its statements evaluated one after another. -/
theorem Interpreter.Visits.sequence_of_block {stmts : List ASTNode} {line : Nat}
    {s : Interpreter} {r : EvalResult} (h : Interpreter.Visits (BlockNode stmts line) s r)
    (hr : r ≠ .timeout) : Interpreter.Sequence stmts s r := by
  obtain ⟨f, hf⟩ := h
  have h1 := hf (f + 1) (by omega)
  rw [Interpreter.visit] at h1
  exact Interpreter.visitBlockNode_sequence stmts f s r h1 hr

/-- An `if` whose condition is not 0 leaves the state its first branch leaves. -/
theorem Interpreter.Visits.if_true {condition trueBlock : ASTNode}
    {falseBlock : Option ASTNode} {line : Nat} {s s1 s2 : Interpreter} {c v : Int}
    (hc : Interpreter.Visits condition s (.value c s1)) (hne : c ≠ 0)
    (hb : Interpreter.Visits trueBlock s1 (.value v s2)) :
    Interpreter.Visits (IfNode condition trueBlock falseBlock line) s (.value 0 s2) := by
  obtain ⟨f1, h1⟩ := hc
  obtain ⟨f2, h2⟩ := hb
  refine ⟨max f1 f2 + 2, fun fuel hle => ?_⟩
  obtain ⟨k, rfl⟩ := Nat.exists_eq_add_of_le hle
  rw [show max f1 f2 + 2 + k = (max f1 f2 + k) + 1 + 1 by omega]
  rw [Interpreter.visit, Interpreter.visitIfNode, h1 _ (by omega), EvalResult.bind_value,
    if_pos hne, h2 _ (by omega), EvalResult.bind_value]

/-- An `if` whose condition is 0 leaves the state its `else` branch leaves. -/
theorem Interpreter.Visits.if_false {condition trueBlock node : ASTNode}
    {line : Nat} {s s1 s2 : Interpreter} {v : Int}
    (hc : Interpreter.Visits condition s (.value 0 s1))
    (hb : Interpreter.Visits node s1 (.value v s2)) :
    Interpreter.Visits (IfNode condition trueBlock (some node) line) s (.value 0 s2) := by
  obtain ⟨f1, h1⟩ := hc
  obtain ⟨f2, h2⟩ := hb
  refine ⟨max f1 f2 + 2, fun fuel hle => ?_⟩
  obtain ⟨k, rfl⟩ := Nat.exists_eq_add_of_le hle
  rw [show max f1 f2 + 2 + k = (max f1 f2 + k) + 1 + 1 by omega]
  rw [Interpreter.visit, Interpreter.visitIfNode, h1 _ (by omega), EvalResult.bind_value,
    if_neg (by simp)]
  simp only []
  rw [h2 _ (by omega), EvalResult.bind_value]

/-- A `while` whose condition is not 0 evaluates its body and starts again in
the state the body left. -/
theorem Interpreter.Visits.while_step {condition block : ASTNode} {line : Nat}
    {s s1 s2 : Interpreter} {c v : Int} {r : EvalResult}
    (hc : Interpreter.Visits condition s (.value c s1)) (hne : c ≠ 0)
    (hb : Interpreter.Visits block s1 (.value v s2))
    (hw : Interpreter.Visits (WhileNode condition block line) s2 r) :
    Interpreter.Visits (WhileNode condition block line) s r := by
  obtain ⟨f1, h1⟩ := hc
  obtain ⟨f2, h2⟩ := hb
  obtain ⟨f3, h3⟩ := hw
  refine ⟨max (max f1 f2) f3 + 2, fun fuel hle => ?_⟩
  obtain ⟨k, rfl⟩ := Nat.exists_eq_add_of_le hle
  rw [show max (max f1 f2) f3 + 2 + k = (max (max f1 f2) f3 + k) + 1 + 1 by omega]
  have h3' := h3 (max (max f1 f2) f3 + k + 1) (by omega)
  rw [Interpreter.visit] at h3' ⊢
  rw [Interpreter.visitWhileNode, h1 _ (by omega), EvalResult.bind_value,
    if_pos hne, h2 _ (by omega), EvalResult.bind_value]
  exact h3'

/-- A `while` whose condition is 0 stops in the state the condition left. -/
theorem Interpreter.Visits.while_done {condition block : ASTNode} {line : Nat}
    {s s1 : Interpreter} (hc : Interpreter.Visits condition s (.value 0 s1)) :
    Interpreter.Visits (WhileNode condition block line) s (.value 0 s1) := by
  obtain ⟨f1, h1⟩ := hc
  refine ⟨f1 + 2, fun fuel hle => ?_⟩
  obtain ⟨k, rfl⟩ := Nat.exists_eq_add_of_le hle
  rw [show f1 + 2 + k = (f1 + k) + 1 + 1 by omega]
  rw [Interpreter.visit, Interpreter.visitWhileNode, h1 _ (by omega), EvalResult.bind_value,
    if_neg (by simp)]

/-! ### Chains of operators of one strength -/

/-- Three operands of the level above with two operators of strength `k` between
them, and no such operator after them: the first two operands are grouped first. -/
theorem Parser.Runs.chain_at {k : Nat} {s s1 s2 s3 : Parser} {n1 n2 n3 : ASTNode}
    (hk1 : 1 ≤ k) (hk4 : k ≤ 4)
    (h1 : Parser.Runs (Parser.atLevel (k + 1)) s (.ok n1 s1))
    (hop1 : s1.currentToken.isOperatorOfLevel k)
    (h2 : Parser.Runs (Parser.atLevel (k + 1)) s1.advance (.ok n2 s2))
    (hop2 : s2.currentToken.isOperatorOfLevel k)
    (h3 : Parser.Runs (Parser.atLevel (k + 1)) s2.advance (.ok n3 s3))
    (hnot : ¬ s3.currentToken.isOperatorOfLevel k) :
    Parser.Runs (Parser.atLevel k) s
      (.ok (BinOpNode
        (BinOpNode n1 s1.currentToken.value n2 s1.currentToken.lineNumber)
        s2.currentToken.value n3 s2.currentToken.lineNumber) s3) := by
  interval_cases k
  · exact Parser.Runs.equality_of h1 (Parser.Runs.equalityLoop_step hop1 h2
      (Parser.Runs.equalityLoop_step hop2 h3 (Parser.Runs.equalityLoop_done hnot)))
  · exact Parser.Runs.comparison_of h1 (Parser.Runs.comparisonLoop_step hop1 h2
      (Parser.Runs.comparisonLoop_step hop2 h3 (Parser.Runs.comparisonLoop_done hnot)))
  · exact Parser.Runs.term_of h1 (Parser.Runs.termLoop_step hop1 h2
      (Parser.Runs.termLoop_step hop2 h3 (Parser.Runs.termLoop_done hnot)))
  · exact Parser.Runs.factor_of h1 (Parser.Runs.factorLoop_step hop1 h2
      (Parser.Runs.factorLoop_step hop2 h3 (Parser.Runs.factorLoop_done hnot)))

/-! ### The main loop of the lexer without fuel -/

theorem Lexer.loop_nul (cs : List Char) (fuel line : Nat) (tokens : List Token) :
    Lexer.generateTokensLoop (fuel + 1) ⟨'\x00' :: cs, line⟩ tokens =
      .ok (tokens ++ [⟨T_EOF, "", line⟩]) := by
  rw [Lexer.generateTokensLoop, Lexer.currentChar_cons, if_pos rfl]

theorem singleCharToken_eq_none {c : Char} (h : singleCharToken c = none) :
    c ≠ '+' ∧ c ≠ '-' ∧ c ≠ '*' ∧ c ≠ '/' ∧ c ≠ '%' ∧ c ≠ ';' ∧ c ≠ '(' ∧ c ≠ ')' ∧
      c ≠ '\x7b' ∧ c ≠ '\x7d' := by
  refine ⟨?_, ?_, ?_, ?_, ?_, ?_, ?_, ?_, ?_, ?_⟩ <;>
    (rintro rfl
     revert h
     decide)

theorem compoundToken_eq_none {c : Char} (h : compoundToken c = none) :
    c ≠ '=' ∧ c ≠ '!' ∧ c ≠ '<' ∧ c ≠ '>' := by
  refine ⟨?_, ?_, ?_, ?_⟩ <;>
    (rintro rfl
     revert h
     decide)

/-- A character that starts no token and is not white space raises the exception. -/
theorem Lexer.loop_unknown {c : Char} (h0 : c ≠ '\x00') (h1 : isspace c = false)
    (h2 : isalpha c = false) (h3 : isdigit c = false) (h4 : singleCharToken c = none)
    (h5 : compoundToken c = none) (cs : List Char) (fuel line : Nat) (tokens : List Token) :
    Lexer.generateTokensLoop (fuel + 1) ⟨c :: cs, line⟩ tokens =
      .error (.unknownCharacter c line) := by
  obtain ⟨a1, a2, a3, a4, a5, a6, a7, a8, a9, a10⟩ := singleCharToken_eq_none h4
  obtain ⟨b1, b2, b3, b4⟩ := compoundToken_eq_none h5
  have h1' : ¬ isspace c = true := by rw [h1]; decide
  have h2' : ¬ isalpha c = true := by rw [h2]; decide
  have h3' : ¬ isdigit c = true := by rw [h3]; decide
  have b34 : ¬ (c = '<' ∨ c = '>') := fun h => h.elim b3 b4
  rw [Lexer.generateTokensLoop, Lexer.currentChar_cons, if_neg h0, if_neg h1', if_neg h2',
    if_neg h3', if_neg a1, if_neg a2, if_neg a3, if_neg a4, if_neg a5, if_neg b1, if_neg b2,
    if_neg b34, if_neg a6, if_neg a7, if_neg a8, if_neg a9, if_neg a10]

theorem length_dropWhile_le (p : Char → Bool) (cs : List Char) :
    (cs.dropWhile p).length ≤ cs.length :=
  List.Sublist.length_le (List.dropWhile_sublist p)

/-- The main loop gives the same result with any fuel above the number of unread
characters. -/
theorem Lexer.loop_eq_lexFrom (n : Nat) :
    ∀ (cs : List Char), cs.length ≤ n → ∀ (fuel line : Nat) (acc : List Token),
      cs.length < fuel → Lexer.generateTokensLoop fuel ⟨cs, line⟩ acc = lexFrom cs line acc := by
  induction n with
  | zero =>
    intro cs hn fuel line acc hf
    have hcs : cs = [] := List.length_eq_zero.1 (Nat.le_zero.1 hn)
    subst hcs
    obtain ⟨f, rfl⟩ := Nat.exists_eq_succ_of_ne_zero (Nat.ne_of_gt hf)
    rw [lexFrom, Lexer.loop_end, Lexer.loop_end]
  | succ n ih =>
    intro cs hn fuel line acc hf
    obtain ⟨f, rfl⟩ := Nat.exists_eq_succ_of_ne_zero (Nat.ne_of_gt (Nat.zero_lt_of_lt hf))
    cases cs with
    | nil => rw [lexFrom, Lexer.loop_end, Lexer.loop_end]
    | cons c cs =>
      have hlen : cs.length ≤ n := by simpa using hn
      have hlf : cs.length < f := by simpa using hf
      have both : ∀ (rest : List Char) (line1 : Nat) (acc1 : List Token),
          rest.length ≤ cs.length →
          Lexer.generateTokensLoop f ⟨rest, line1⟩ acc1 =
            Lexer.generateTokensLoop (cs.length + 1) ⟨rest, line1⟩ acc1 := by
        intro rest line1 acc1 hr
        rw [ih rest (by omega) f line1 acc1 (by omega),
          ih rest (by omega) (cs.length + 1) line1 acc1 (by omega)]
      unfold lexFrom
      rw [show (c :: cs).length + 1 = (cs.length + 1) + 1 from rfl]
      by_cases h0 : c = '\x00'
      · subst h0
        rw [Lexer.loop_nul, Lexer.loop_nul]
      by_cases h1 : isspace c = true
      · rw [Lexer.loop_space h1, Lexer.loop_space h1]
        exact both _ _ _ (Nat.le_of_lt_succ (length_dropWhile_lt h1))
      by_cases h2 : isalpha c = true
      · rw [Lexer.loop_alpha h2, Lexer.loop_alpha h2]
        exact both _ _ _
          (Nat.le_of_lt_succ (length_dropWhile_lt (isalpha_isIdentifierChar h2)))
      by_cases h3 : isdigit c = true
      · rw [Lexer.loop_digit h3, Lexer.loop_digit h3]
        exact both _ _ _ (Nat.le_of_lt_succ (length_dropWhile_lt h3))
      cases h4 : singleCharToken c with
      | some p =>
        obtain ⟨type, text⟩ := p
        rw [Lexer.loop_single h4, Lexer.loop_single h4]
        exact both _ _ _ (le_refl _)
      | none =>
        cases h5 : compoundToken c with
        | some p =>
          obtain ⟨two, one⟩ := p
          rw [Lexer.loop_compound h5, Lexer.loop_compound h5]
          by_cases he : cs.head? = some '='
          · rw [if_pos he, if_pos he]
            exact both _ _ _ (by simp)
          · rw [if_neg he, if_neg he]
            exact both _ _ _ (le_refl _)
        | none =>
          rw [Lexer.loop_unknown h0 (by simpa using h1) (by simpa using h2)
            (by simpa using h3) h4 h5,
            Lexer.loop_unknown h0 (by simpa using h1) (by simpa using h2)
            (by simpa using h3) h4 h5]

theorem generateTokens_eq_lexFrom (input : List Char) :
    generateTokens input = lexFrom input 1 [] := rfl

theorem lexFrom_nil (line : Nat) (acc : List Token) :
    lexFrom [] line acc = .ok (acc ++ [⟨T_EOF, "", line⟩]) :=
  Lexer.loop_end _ _ _

theorem lexFrom_nul (cs : List Char) (line : Nat) (acc : List Token) :
    lexFrom ('\x00' :: cs) line acc = .ok (acc ++ [⟨T_EOF, "", line⟩]) :=
  Lexer.loop_nul _ _ _ _

theorem lexFrom_space {c : Char} (h : isspace c = true) (cs : List Char) (line : Nat)
    (acc : List Token) :
    lexFrom (c :: cs) line acc =
      lexFrom ((c :: cs).dropWhile isspace)
        (line + newlines ((c :: cs).takeWhile isspace)) acc := by
  rw [lexFrom, show (c :: cs).length + 1 = (cs.length + 1) + 1 from rfl, Lexer.loop_space h]
  exact Lexer.loop_eq_lexFrom _ _ (le_refl _) _ _ _
    (Nat.lt_succ_of_le (Nat.le_of_lt_succ (length_dropWhile_lt h)))

theorem lexFrom_alpha {c : Char} (h : isalpha c = true) (cs : List Char) (line : Nat)
    (acc : List Token) :
    lexFrom (c :: cs) line acc =
      lexFrom ((c :: cs).dropWhile isIdentifierChar) line
        (acc ++ [⟨keywordType ⟨(c :: cs).takeWhile isIdentifierChar⟩,
          ⟨(c :: cs).takeWhile isIdentifierChar⟩, line⟩]) := by
  rw [lexFrom, show (c :: cs).length + 1 = (cs.length + 1) + 1 from rfl, Lexer.loop_alpha h]
  exact Lexer.loop_eq_lexFrom _ _ (le_refl _) _ _ _
    (Nat.lt_succ_of_le (Nat.le_of_lt_succ (length_dropWhile_lt (isalpha_isIdentifierChar h))))

theorem lexFrom_digit {c : Char} (h : isdigit c = true) (cs : List Char) (line : Nat)
    (acc : List Token) :
    lexFrom (c :: cs) line acc =
      lexFrom ((c :: cs).dropWhile isdigit) line
        (acc ++ [⟨T_NUMBER, ⟨(c :: cs).takeWhile isdigit⟩, line⟩]) := by
  rw [lexFrom, show (c :: cs).length + 1 = (cs.length + 1) + 1 from rfl, Lexer.loop_digit h]
  exact Lexer.loop_eq_lexFrom _ _ (le_refl _) _ _ _
    (Nat.lt_succ_of_le (Nat.le_of_lt_succ (length_dropWhile_lt h)))

theorem lexFrom_single {c : Char} {type : TokenType} {text : String}
    (h : singleCharToken c = some (type, text)) (cs : List Char) (line : Nat)
    (acc : List Token) :
    lexFrom (c :: cs) line acc = lexFrom cs line (acc ++ [⟨type, text, line⟩]) := by
  rw [lexFrom, show (c :: cs).length + 1 = (cs.length + 1) + 1 from rfl, Lexer.loop_single h]
  rfl

theorem lexFrom_two {c : Char} {two one : TokenType × String}
    (h : compoundToken c = some (two, one)) (cs : List Char) (line : Nat)
    (acc : List Token) :
    lexFrom (c :: '=' :: cs) line acc = lexFrom cs line (acc ++ [⟨two.1, two.2, line⟩]) := by
  rw [lexFrom, show (c :: '=' :: cs).length + 1 = (cs.length + 1 + 1) + 1 from rfl,
    Lexer.loop_compound h, if_pos (show ('=' :: cs).head? = some '=' from rfl)]
  exact Lexer.loop_eq_lexFrom _ _ (le_refl _) _ _ _ (by simp)

theorem lexFrom_one {c : Char} {two one : TokenType × String}
    (h : compoundToken c = some (two, one)) {cs : List Char} (hne : cs.head? ≠ some '=')
    (line : Nat) (acc : List Token) :
    lexFrom (c :: cs) line acc = lexFrom cs line (acc ++ [⟨one.1, one.2, line⟩]) := by
  rw [lexFrom, show (c :: cs).length + 1 = (cs.length + 1) + 1 from rfl,
    Lexer.loop_compound h, if_neg hne]
  rfl

theorem lexFrom_unknown {c : Char} (h0 : c ≠ '\x00') (h1 : isspace c = false)
    (h2 : isalpha c = false) (h3 : isdigit c = false) (h4 : singleCharToken c = none)
    (h5 : compoundToken c = none) (cs : List Char) (line : Nat) (acc : List Token) :
    lexFrom (c :: cs) line acc = .error (.unknownCharacter c line) :=
  Lexer.loop_unknown h0 h1 h2 h3 h4 h5 _ _ _ _

/-! ### The scan for the first rejected character -/

theorem newlines_append (a b : List Char) : newlines (a ++ b) = newlines a + newlines b :=
  List.count_append _ _ _

theorem newlines_eq_zero {cs : List Char} (h : ∀ c ∈ cs, c ≠ '\n') : newlines cs = 0 :=
  List.count_eq_zero.2 fun hm => h _ hm rfl

/-- A run of characters that continue the token of a mode that stays is scanned
over. -/
theorem firstRejected_run {mode : ScanMode} (hm : mode.afterContinue = mode) {p : Char → Bool}
    (hp : ∀ d, p d = true → mode.continues d = true ∧ d ≠ '\x00') :
    ∀ (cs : List Char) (i : Nat),
      firstRejected mode i cs =
        firstRejected mode (i + (cs.takeWhile p).length) (cs.dropWhile p) := by
  intro cs
  induction cs with
  | nil => intro i; rfl
  | cons d ds ih =>
    intro i
    by_cases hd : p d = true
    · rw [List.takeWhile_cons, List.dropWhile_cons, if_pos hd, if_pos hd, firstRejected,
        if_neg (hp d hd).2, if_pos (hp d hd).1, hm, ih (i + 1), List.length_cons]
      congr 1
      omega
    · rw [List.takeWhile_cons, List.dropWhile_cons, if_neg hd, if_neg hd]
      rfl

/-- At a character that does not continue the token, the scan is where a token
would start. -/
theorem firstRejected_exit {mode : ScanMode} {cs : List Char}
    (h : ∀ d, cs.head? = some d → mode.continues d = false) (i : Nat) :
    firstRejected mode i cs = firstRejected .start i cs := by
  cases cs with
  | nil => rfl
  | cons d ds =>
    have hd : mode.continues d = false := h d rfl
    rw [firstRejected, firstRejected, hd]
    rfl

theorem head?_dropWhile_false (p : Char → Bool) (cs : List Char) :
    ∀ d, (cs.dropWhile p).head? = some d → p d = false := by
  intro d hd
  have h := List.head?_dropWhile_not p cs
  rw [hd] at h
  exact h

theorem isspace_enter {c : Char} (h : isspace c = true) : ScanMode.enter c = .start := by
  have h1 : isalpha c = false := by
    cases ha : isalpha c with
    | false => rfl
    | true => rw [isalpha_not_isspace ha] at h; exact absurd h (by decide)
  have h2 : isdigit c = false := by
    cases ha : isdigit c with
    | false => rfl
    | true => rw [isdigit_not_isspace ha] at h; exact absurd h (by decide)
  have h3 : ¬ (c = '=' ∨ c = '!' ∨ c = '<' ∨ c = '>') := by
    rintro (rfl | rfl | rfl | rfl) <;> exact absurd h (by decide)
  unfold ScanMode.enter
  rw [h1, h2, if_neg (by decide), if_neg (by decide), if_neg h3]

/-- A character accepted where a token would start is scanned over. -/
theorem firstRejected_accept {c : Char} (h0 : c ≠ '\x00') (hacc : acceptedAtStart c = true)
    (cs : List Char) (i : Nat) :
    firstRejected .start i (c :: cs) = firstRejected (ScanMode.enter c) (i + 1) cs := by
  rw [firstRejected, if_neg h0, hacc]
  rfl

/-- White space where a token would start is scanned over. -/
theorem firstRejected_spaces :
    ∀ (cs : List Char) (i : Nat),
      firstRejected .start i cs =
        firstRejected .start (i + (cs.takeWhile isspace).length) (cs.dropWhile isspace) := by
  intro cs
  induction cs with
  | nil => intro i; rfl
  | cons d ds ih =>
    intro i
    by_cases hd : isspace d = true
    · have hacc : acceptedAtStart d = true := by simp [acceptedAtStart, hd]
      rw [List.takeWhile_cons, List.dropWhile_cons, if_pos hd, if_pos hd,
        firstRejected_accept (isspace_ne_nul hd) hacc, isspace_enter hd, ih (i + 1),
        List.length_cons]
      congr 1
      omega
    · rw [List.takeWhile_cons, List.dropWhile_cons, if_neg hd, if_neg hd]
      rfl

theorem firstRejected_alpha {c : Char} (h : isalpha c = true) (cs : List Char) (i : Nat) :
    firstRejected .start i (c :: cs) =
      firstRejected .start (i + ((c :: cs).takeWhile isIdentifierChar).length)
        ((c :: cs).dropWhile isIdentifierChar) := by
  have hid := isalpha_isIdentifierChar h
  have hacc : acceptedAtStart c = true := by simp [acceptedAtStart, h]
  have hent : ScanMode.enter c = .identifier := by simp [ScanMode.enter, h]
  rw [List.takeWhile_cons, List.dropWhile_cons, if_pos hid, if_pos hid,
    firstRejected_accept (isIdentifierChar_ne_nul hid) hacc, hent,
    @firstRejected_run ScanMode.identifier rfl isIdentifierChar
      (fun d hd => ⟨hd, isIdentifierChar_ne_nul hd⟩) cs (i + 1),
    @firstRejected_exit ScanMode.identifier _ (head?_dropWhile_false isIdentifierChar cs),
    List.length_cons]
  congr 1
  omega

theorem firstRejected_digit {c : Char} (h : isdigit c = true) (cs : List Char) (i : Nat) :
    firstRejected .start i (c :: cs) =
      firstRejected .start (i + ((c :: cs).takeWhile isdigit).length)
        ((c :: cs).dropWhile isdigit) := by
  have hacc : acceptedAtStart c = true := by simp [acceptedAtStart, h]
  have hent : ScanMode.enter c = .number := by
    simp [ScanMode.enter, h, isdigit_not_isalpha h]
  rw [List.takeWhile_cons, List.dropWhile_cons, if_pos h, if_pos h,
    firstRejected_accept (isdigit_ne_nul h) hacc, hent,
    @firstRejected_run ScanMode.number rfl isdigit (fun d hd => ⟨hd, isdigit_ne_nul hd⟩) cs
      (i + 1),
    @firstRejected_exit ScanMode.number _ (head?_dropWhile_false isdigit cs), List.length_cons]
  congr 1
  omega

theorem isIdentifierChar_not_isspace {c : Char} (h : isIdentifierChar c = true) :
    isspace c = false := by
  simp only [isIdentifierChar, isalnum, isalpha, isdigit, isspace, Bool.and_eq_true,
    Bool.or_eq_true, Bool.or_eq_false_iff, Bool.and_eq_false_imp, decide_eq_true_eq,
    decide_eq_false_iff_not] at *
  rcases h with (h | h) | h
  · omega
  · omega
  · subst h
    decide

/-- What the lexer and the scan need to know of a character that is a token by
itself. -/
theorem singleCharToken_spec {c : Char} {type : TokenType} {text : String}
    (h : singleCharToken c = some (type, text)) :
    text.data = [c] ∧ c ≠ '\x00' ∧ isspace c = false ∧ acceptedAtStart c = true ∧
      ScanMode.enter c = .start ∧ type ≠ T_EOF ∧ type ≠ T_UNKNOWN := by
  by_cases a0 : c = '+'
  · subst a0
    have e : (type, text) = (T_OPERATOR, "+") := Option.some.inj (h.symm.trans (by decide))
    cases e
    decide
  by_cases a1 : c = '-'
  · subst a1
    have e : (type, text) = (T_OPERATOR, "-") := Option.some.inj (h.symm.trans (by decide))
    cases e
    decide
  by_cases a2 : c = '*'
  · subst a2
    have e : (type, text) = (T_OPERATOR, "*") := Option.some.inj (h.symm.trans (by decide))
    cases e
    decide
  by_cases a3 : c = '/'
  · subst a3
    have e : (type, text) = (T_OPERATOR, "/") := Option.some.inj (h.symm.trans (by decide))
    cases e
    decide
  by_cases a4 : c = '%'
  · subst a4
    have e : (type, text) = (T_OPERATOR, "%") := Option.some.inj (h.symm.trans (by decide))
    cases e
    decide
  by_cases a5 : c = ';'
  · subst a5
    have e : (type, text) = (T_SEMICOLON, ";") := Option.some.inj (h.symm.trans (by decide))
    cases e
    decide
  by_cases a6 : c = '('
  · subst a6
    have e : (type, text) = (T_LPAREN, "(") := Option.some.inj (h.symm.trans (by decide))
    cases e
    decide
  by_cases a7 : c = ')'
  · subst a7
    have e : (type, text) = (T_RPAREN, ")") := Option.some.inj (h.symm.trans (by decide))
    cases e
    decide
  by_cases a8 : c = '\x7b'
  · subst a8
    have e : (type, text) = (T_LBRACE, "\x7b") := Option.some.inj (h.symm.trans (by decide))
    cases e
    decide
  by_cases a9 : c = '\x7d'
  · subst a9
    have e : (type, text) = (T_RBRACE, "\x7d") := Option.some.inj (h.symm.trans (by decide))
    cases e
    decide
  unfold singleCharToken at h
  rw [if_neg a0, if_neg a1, if_neg a2, if_neg a3, if_neg a4, if_neg a5, if_neg a6, if_neg a7, if_neg a8, if_neg a9] at h
  cases h

/-- What the lexer and the scan need to know of a character that may be followed
by `=`. -/
theorem compoundToken_spec {c : Char} {two one : TokenType × String}
    (h : compoundToken c = some (two, one)) :
    two.2.data = [c, '='] ∧ one.2.data = [c] ∧ c ≠ '\x00' ∧ isspace c = false ∧
      acceptedAtStart c = true ∧ ScanMode.enter c = .compound ∧
      two.1 ≠ T_EOF ∧ two.1 ≠ T_UNKNOWN ∧ one.1 ≠ T_EOF ∧ one.1 ≠ T_UNKNOWN := by
  by_cases a0 : c = '='
  · subst a0
    have e : (two, one) = ((T_OPERATOR, "=="), (T_ASSIGN, "=")) := Option.some.inj (h.symm.trans (by decide))
    cases e
    decide
  by_cases a1 : c = '!'
  · subst a1
    have e : (two, one) = ((T_OPERATOR, "!="), (T_OPERATOR, "!")) := Option.some.inj (h.symm.trans (by decide))
    cases e
    decide
  by_cases a2 : c = '<'
  · subst a2
    have e : (two, one) = ((T_OPERATOR, "<="), (T_OPERATOR, "<")) := Option.some.inj (h.symm.trans (by decide))
    cases e
    decide
  by_cases a3 : c = '>'
  · subst a3
    have e : (two, one) = ((T_OPERATOR, ">="), (T_OPERATOR, ">")) := Option.some.inj (h.symm.trans (by decide))
    cases e
    decide
  unfold compoundToken at h
  rw [if_neg a0, if_neg a1, if_neg a2, if_neg a3] at h
  cases h

theorem firstRejected_single {c : Char} {type : TokenType} {text : String}
    (h : singleCharToken c = some (type, text)) (cs : List Char) (i : Nat) :
    firstRejected .start i (c :: cs) = firstRejected .start (i + 1) cs := by
  obtain ⟨_, h0, _, hacc, hent, _⟩ := singleCharToken_spec h
  rw [firstRejected_accept h0 hacc, hent]

theorem firstRejected_two {c : Char} {two one : TokenType × String}
    (h : compoundToken c = some (two, one)) (cs : List Char) (i : Nat) :
    firstRejected .start i (c :: '=' :: cs) = firstRejected .start (i + 2) cs := by
  obtain ⟨_, _, h0, _, hacc, hent, _⟩ := compoundToken_spec h
  rw [firstRejected_accept h0 hacc, hent]
  rfl

theorem firstRejected_one {c : Char} {two one : TokenType × String}
    (h : compoundToken c = some (two, one)) {cs : List Char} (hne : cs.head? ≠ some '=')
    (i : Nat) :
    firstRejected .start i (c :: cs) = firstRejected .start (i + 1) cs := by
  obtain ⟨_, _, h0, _, hacc, hent, _⟩ := compoundToken_spec h
  rw [firstRejected_accept h0 hacc, hent]
  refine firstRejected_exit (fun d hd => ?_) (i + 1)
  have hd' : d ≠ '=' := fun e => hne (e ▸ hd)
  simp [ScanMode.continues, hd']

/-- A character that is not accepted where a token would start is the first
rejected one. -/
theorem firstRejected_reject {c : Char} (h0 : c ≠ '\x00') (hacc : acceptedAtStart c = false)
    (cs : List Char) (i : Nat) : firstRejected .start i (c :: cs) = some (c, i) := by
  rw [firstRejected, if_neg h0, hacc]
  rfl

theorem acceptedAtStart_eq_false {c : Char} (h1 : isspace c = false) (h2 : isalpha c = false)
    (h3 : isdigit c = false) (h4 : singleCharToken c = none) (h5 : compoundToken c = none) :
    acceptedAtStart c = false := by
  obtain ⟨a1, a2, a3, a4, a5, a6, a7, a8, a9, a10⟩ := singleCharToken_eq_none h4
  obtain ⟨b1, b2, b3, b4⟩ := compoundToken_eq_none h5
  simp [acceptedAtStart, h1, h2, h3, a1, a2, a3, a4, a5, a6, a7, a8, a9, a10, b1, b2, b3, b4]


/-! ### One turn of the main loop, without fuel -/

/-- Every turn of the main loop is one of the four of `LexTurn`. -/
theorem lexFrom_turn (cs : List Char) (line : Nat) (acc : List Token) :
    LexTurn cs line acc := by
  cases cs with
  | nil => exact .done (Or.inl rfl) (lexFrom_nil line acc)
  | cons c cs =>
    by_cases h0 : c = '\x00'
    · subst h0
      exact .done (Or.inr rfl) (lexFrom_nul cs line acc)
    by_cases h1 : isspace c = true
    · refine .space ((c :: cs).takeWhile isspace) ((c :: cs).dropWhile isspace)
        (List.takeWhile_append_dropWhile _ _) ?_ (fun d hd => List.mem_takeWhile_imp hd)
        (lexFrom_space h1 cs line acc) (fun i => firstRejected_spaces (c :: cs) i)
      rw [List.takeWhile_cons, if_pos h1]
      exact List.cons_ne_nil _ _
    by_cases h2 : isalpha c = true
    · have hid := isalpha_isIdentifierChar h2
      refine .token ⟨keywordType ⟨(c :: cs).takeWhile isIdentifierChar⟩,
          ⟨(c :: cs).takeWhile isIdentifierChar⟩, line⟩ ((c :: cs).dropWhile isIdentifierChar)
        (List.takeWhile_append_dropWhile _ _) ?_ (fun d hd => ?_) rfl (keywordType_ne _).1
        (keywordType_ne _).2.1 (lexFrom_alpha h2 cs line acc)
        (fun i => firstRejected_alpha h2 cs i)
      · show (c :: cs).takeWhile isIdentifierChar ≠ []
        rw [List.takeWhile_cons, if_pos hid]
        exact List.cons_ne_nil _ _
      · have hd' : isIdentifierChar d = true := List.mem_takeWhile_imp hd
        exact ⟨isIdentifierChar_not_isspace hd', isIdentifierChar_ne_nul hd'⟩
    by_cases h3 : isdigit c = true
    · refine .token ⟨T_NUMBER, ⟨(c :: cs).takeWhile isdigit⟩, line⟩
        ((c :: cs).dropWhile isdigit) (List.takeWhile_append_dropWhile _ _) ?_
        (fun d hd => ?_) rfl (fun h => TokenType.noConfusion h)
        (fun h => TokenType.noConfusion h) (lexFrom_digit h3 cs line acc)
        (fun i => firstRejected_digit h3 cs i)
      · show (c :: cs).takeWhile isdigit ≠ []
        rw [List.takeWhile_cons, if_pos h3]
        exact List.cons_ne_nil _ _
      · have hd' : isdigit d = true := List.mem_takeWhile_imp hd
        exact ⟨isdigit_not_isspace hd', isdigit_ne_nul hd'⟩
    cases h4 : singleCharToken c with
    | some p =>
      obtain ⟨type, text⟩ := p
      obtain ⟨htext, hnul, hsp, _, _, hty1, hty2⟩ := singleCharToken_spec h4
      refine .token ⟨type, text, line⟩ cs ?_ ?_ (fun d hd => ?_) rfl hty1 hty2
        (lexFrom_single h4 cs line acc) (fun i => ?_)
      · show text.data ++ cs = c :: cs
        rw [htext]
        rfl
      · show text.data ≠ []
        rw [htext]
        exact List.cons_ne_nil _ _
      · have hd' : d ∈ [c] := htext ▸ hd
        rw [List.mem_singleton] at hd'
        subst hd'
        exact ⟨hsp, hnul⟩
      · show _ = firstRejected .start (i + text.data.length) cs
        rw [htext]
        exact firstRejected_single h4 cs i
    | none =>
      cases h5 : compoundToken c with
      | some p =>
        obtain ⟨two, one⟩ := p
        obtain ⟨htwo, hone, hnul, hsp, _, _, ht1, ht2, ho1, ho2⟩ := compoundToken_spec h5
        by_cases he : cs.head? = some '='
        · obtain ⟨ds, rfl⟩ : ∃ ds, cs = '=' :: ds := by
            cases cs with
            | nil => cases he
            | cons d ds =>
              cases he
              exact ⟨ds, rfl⟩
          refine .token ⟨two.1, two.2, line⟩ ds ?_ ?_ (fun d hd => ?_) rfl ht1 ht2
            (lexFrom_two h5 ds line acc) (fun i => ?_)
          · show two.2.data ++ ds = c :: '=' :: ds
            rw [htwo]
            rfl
          · show two.2.data ≠ []
            rw [htwo]
            exact List.cons_ne_nil _ _
          · have hd' : d ∈ [c, '='] := htwo ▸ hd
            rw [List.mem_cons, List.mem_singleton] at hd'
            rcases hd' with rfl | rfl
            · exact ⟨hsp, hnul⟩
            · exact ⟨by decide, by decide⟩
          · show _ = firstRejected .start (i + two.2.data.length) ds
            rw [htwo]
            exact firstRejected_two h5 ds i
        · refine .token ⟨one.1, one.2, line⟩ cs ?_ ?_ (fun d hd => ?_) rfl ho1 ho2
            (lexFrom_one h5 he line acc) (fun i => ?_)
          · show one.2.data ++ cs = c :: cs
            rw [hone]
            rfl
          · show one.2.data ≠ []
            rw [hone]
            exact List.cons_ne_nil _ _
          · have hd' : d ∈ [c] := hone ▸ hd
            rw [List.mem_singleton] at hd'
            subst hd'
            exact ⟨hsp, hnul⟩
          · show _ = firstRejected .start (i + one.2.data.length) cs
            rw [hone]
            exact firstRejected_one h5 he i
      | none =>
        have h1' : isspace c = false := by simpa using h1
        have h2' : isalpha c = false := by simpa using h2
        have h3' : isdigit c = false := by simpa using h3
        exact .unknown c cs rfl h0 (acceptedAtStart_eq_false h1' h2' h3' h4 h5)
          (lexFrom_unknown h0 h1' h2' h3' h4 h5 cs line acc)

/-! ### The lexer against the scan, and where its tokens lie -/

theorem firstRejected_done {cs : List Char} (h : cs = [] ∨ cs.head? = some '\x00')
    (mode : ScanMode) (i : Nat) : firstRejected mode i cs = none := by
  cases cs with
  | nil => rfl
  | cons c cs =>
    rcases h with h | h
    · cases h
    · cases h
      rw [firstRejected, if_pos rfl]

/-- The main loop agrees with the scan, from any place it has reached. -/
theorem lexFrom_scanAgrees (n : Nat) :
    ∀ (cs : List Char), cs.length < n → ∀ (pre : List Char) (line : Nat) (acc : List Token),
      line = 1 + newlines pre → ScanAgrees pre cs line acc := by
  induction n with
  | zero => intro cs h; omega
  | succ n ih =>
    intro cs hn pre line acc hline
    have hstep : ∀ (seg rest : List Char) (line1 : Nat) (acc1 : List Token),
        seg ++ rest = cs → seg ≠ [] → line1 = 1 + newlines (pre ++ seg) →
        lexFrom cs line acc = lexFrom rest line1 acc1 →
        (∀ i, firstRejected .start i cs = firstRejected .start (i + seg.length) rest) →
        ScanAgrees pre cs line acc := by
      intro seg rest line1 acc1 hcs hne hl1 hlex hfr
      have hlen : rest.length < n := by
        have h1 : 0 < seg.length := List.length_pos.2 hne
        have h2 : seg.length + rest.length = cs.length := by
          rw [← hcs, List.length_append]
        omega
      have h := ih rest hlen (pre ++ seg) line1 acc1 hl1
      unfold ScanAgrees at h ⊢
      rw [hlex, hfr pre.length, ← hcs, ← List.append_assoc, ← List.length_append]
      exact h
    rcases lexFrom_turn cs line acc with
      ⟨hend, hlex⟩ | ⟨seg, rest, hcs, hne, hsp, hlex, hfr⟩ |
      ⟨tok, rest, hcs, hne, hch, hl, _, _, hlex, hfr⟩ | ⟨c, rest, hcs, h0, hacc, hlex⟩
    · refine ⟨fun _ => ⟨_, hlex⟩, fun c i h => ?_⟩
      rw [firstRejected_done hend] at h
      cases h
    · exact hstep seg rest _ acc hcs hne (by rw [← List.append_nil pre] at hline
                                             rw [newlines_append]
                                             rw [List.append_nil] at hline
                                             omega) hlex hfr
    · have hnl : newlines tok.value.data = 0 :=
        newlines_eq_zero (fun c hc e => by
          subst e
          exact absurd (hch _ hc).1 (by decide))
      refine hstep tok.value.data rest line _ hcs hne ?_ hlex hfr
      rw [newlines_append, hnl]
      exact hline
    · subst hcs
      refine ⟨fun h => ?_, fun c' i h => ?_⟩
      · rw [firstRejected_reject h0 hacc] at h
        cases h
      · rw [firstRejected_reject h0 hacc] at h
        cases h
        rw [hlex, List.take_left, hline]

/-- A run of white space before the tokens belongs to the white space before
the first of them. -/
theorem Layout.prepend_space {pre seg rest : List Char} {tokens : List Token}
    (hsp : ∀ c ∈ seg, isspace c = true) (h : Layout (pre ++ seg) rest tokens) :
    Layout pre (seg ++ rest) tokens := by
  cases h with
  | @eof _ _ ws after line hrest hws hafter hline =>
    refine @Layout.eof pre (seg ++ rest) (seg ++ ws) after line
      (by rw [hrest, List.append_assoc]) (fun c hc => ?_) hafter
      (by rw [hline, List.append_assoc])
    rcases List.mem_append.1 hc with hc | hc
    · exact hsp c hc
    · exact hws c hc
  | @token _ _ ws after t ts hrest hws hne hch hty hline hrec =>
    refine @Layout.token pre (seg ++ rest) (seg ++ ws) after t ts
      (by rw [hrest]; simp only [List.append_assoc])
      (fun c hc => ?_) hne hch hty (by rw [hline, List.append_assoc]) ?_
    · rcases List.mem_append.1 hc with hc | hc
      · exact hsp c hc
      · exact hws c hc
    · rw [← List.append_assoc pre seg ws]
      exact hrec

/-- The queue the main loop returns is the queue it had and then tokens that
lie in the unread source as `Layout` says. -/
theorem lexFrom_layout (n : Nat) :
    ∀ (cs : List Char), cs.length < n → ∀ (pre : List Char) (line : Nat)
      (acc tokens : List Token), line = 1 + newlines pre → lexFrom cs line acc = .ok tokens →
      ∃ new, tokens = acc ++ new ∧ Layout pre cs new := by
  induction n with
  | zero => intro cs h; omega
  | succ n ih =>
    intro cs hn pre line acc tokens hline h
    rcases lexFrom_turn cs line acc with
      ⟨hend, hlex⟩ | ⟨seg, rest, hcs, hne, hsp, hlex, _⟩ |
      ⟨tok, rest, hcs, hne, hch, hl, hty, _, hlex, _⟩ | ⟨c, rest, hcs, h0, hacc, hlex⟩
    · rw [hlex] at h
      cases h
      exact ⟨_, rfl, @Layout.eof pre cs [] cs line rfl
        (fun c hc => absurd hc (List.not_mem_nil c)) hend
        (by rw [List.append_nil]; exact hline)⟩
    · have hlen : rest.length < n := by
        have h1 : 0 < seg.length := List.length_pos.2 hne
        have h2 : seg.length + rest.length = cs.length := by
          rw [← hcs, List.length_append]
        omega
      rw [hlex] at h
      obtain ⟨new, hnew, hlay⟩ := ih rest hlen (pre ++ seg) _ acc tokens
        (by rw [newlines_append]; omega) h
      exact ⟨new, hnew, hcs ▸ Layout.prepend_space hsp hlay⟩
    · have hlen : rest.length < n := by
        have h1 : 0 < tok.value.data.length := List.length_pos.2 hne
        have h2 : tok.value.data.length + rest.length = cs.length := by
          rw [← hcs, List.length_append]
        omega
      have hnl : newlines tok.value.data = 0 :=
        newlines_eq_zero (fun c hc e => by
          subst e
          exact absurd (hch _ hc).1 (by decide))
      rw [hlex] at h
      obtain ⟨new, hnew, hlay⟩ := ih rest hlen (pre ++ tok.value.data) line (acc ++ [tok])
        tokens (by rw [newlines_append, hnl]; exact hline) h
      refine ⟨tok :: new, by rw [hnew, List.append_assoc]; rfl, ?_⟩
      exact @Layout.token pre cs [] rest tok new (by rw [← hcs]; rfl)
        (fun c hc => absurd hc (List.not_mem_nil c)) hne hch hty
        (by rw [List.append_nil, hl]; exact hline) (by rw [List.append_nil]; exact hlay)
    · rw [hlex] at h
      cases h

/-- What the scan returns is a character of the source, at the offset returned,
that is not accepted where a token would start, with no NUL before it. -/
theorem firstRejected_spec :
    ∀ (cs : List Char) (mode : ScanMode) (j : Nat) (c : Char) (i : Nat),
      firstRejected mode j cs = some (c, i) →
      ∃ k, i = j + k ∧ cs[k]? = some c ∧ acceptedAtStart c = false ∧ c ≠ '\x00' ∧
        ∀ d ∈ cs.take k, d ≠ '\x00' := by
  intro cs
  induction cs with
  | nil =>
    intro mode j c i h
    cases h
  | cons d ds ih =>
    intro mode j c i h
    rw [firstRejected] at h
    by_cases h0 : d = '\x00'
    · rw [if_pos h0] at h
      cases h
    rw [if_neg h0] at h
    have step : ∀ mode1, firstRejected mode1 (j + 1) ds = some (c, i) →
        ∃ k, i = j + k ∧ (d :: ds)[k]? = some c ∧ acceptedAtStart c = false ∧ c ≠ '\x00' ∧
          ∀ e ∈ (d :: ds).take k, e ≠ '\x00' := by
      intro mode1 h1
      obtain ⟨k, hk, hget, hacc, hc0, hpre⟩ := ih mode1 (j + 1) c i h1
      refine ⟨k + 1, by omega, by rw [List.getElem?_cons_succ]; exact hget, hacc, hc0, ?_⟩
      intro e he
      rw [List.take_succ_cons, List.mem_cons] at he
      rcases he with rfl | he
      · exact h0
      · exact hpre e he
    by_cases h1 : mode.continues d = true
    · rw [if_pos h1] at h
      exact step _ h
    rw [if_neg h1] at h
    by_cases h2 : acceptedAtStart d = true
    · rw [if_pos h2] at h
      exact step _ h
    rw [if_neg h2] at h
    cases h
    exact ⟨0, rfl, List.getElem?_cons_zero, by simpa using h2, h0,
      fun e he => absurd he (List.not_mem_nil e)⟩

theorem isspace_scanned {c : Char} (h : isspace c = true) :
    (fun c => decide (c ≠ '\x00')) c = true := by
  simpa using isspace_ne_nul h

theorem scanned_of_end {after : List Char} (h : after = [] ∨ after.head? = some '\x00') :
    scanned after = [] := by
  cases after with
  | nil => rfl
  | cons c cs =>
    rcases h with h | h
    · cases h
    · cases h
      rfl

/-- The line of the end-of-input token is 1 plus the number of newlines in the
part of the source that the lexer scans. -/
theorem Layout.eof_line {before rest : List Char} {tokens : List Token}
    (h : Layout before rest tokens) :
    ∃ body line, tokens = body ++ [⟨T_EOF, "", line⟩] ∧
      line = 1 + newlines (before ++ scanned rest) := by
  induction h with
  | @eof before rest ws after line hrest hws hafter hline =>
    refine ⟨[], line, rfl, ?_⟩
    have e : scanned rest = ws := by
      rw [hrest]
      unfold scanned
      rw [List.takeWhile_append_of_pos (fun c hc => isspace_scanned (hws c hc))]
      have := scanned_of_end hafter
      unfold scanned at this
      rw [this, List.append_nil]
    rw [e, hline]
  | @token before rest ws after t ts hrest hws hne hch hty hline _ ih =>
    obtain ⟨body, line, hbody, hl⟩ := ih
    refine ⟨t :: body, line, by rw [hbody]; rfl, ?_⟩
    have e : scanned rest = ws ++ t.value.data ++ scanned after := by
      rw [hrest]
      unfold scanned
      rw [List.takeWhile_append_of_pos (fun c hc => ?_)]
      rcases List.mem_append.1 hc with hc | hc
      · exact isspace_scanned (hws c hc)
      · simpa using (hch c hc).2
    rw [e, hl]
    simp only [List.append_assoc]

theorem scanned_of_no_nul {source : List Char} (h : '\x00' ∉ source) :
    scanned source = source := by
  unfold scanned
  rw [List.takeWhile_eq_self_iff]
  intro c hc
  have : c ≠ '\x00' := fun e => h (e ▸ hc)
  simpa using this

/-! ### The texts of the tokens against the source -/

theorem withoutSpace_append (a b : List Char) :
    withoutSpace (a ++ b) = withoutSpace a ++ withoutSpace b :=
  List.filter_append _ _

theorem withoutSpace_of_space {ws : List Char} (h : ∀ c ∈ ws, isspace c = true) :
    withoutSpace ws = [] := by
  unfold withoutSpace
  rw [List.filter_eq_nil_iff]
  intro c hc
  simp [h c hc]

theorem withoutSpace_of_text {text : List Char} (h : ∀ c ∈ text, isspace c = false ∧ c ≠ '\x00') :
    withoutSpace text = text := by
  unfold withoutSpace
  rw [List.filter_eq_self]
  intro c hc
  simp [(h c hc).1]

/-- The texts of tokens that lie in a source as `Layout` says make up the scanned
part of that source without its white space. -/
theorem Layout.concatTexts_eq {before rest : List Char} {tokens : List Token}
    (h : Layout before rest tokens) : concatTexts tokens = withoutSpace (scanned rest) := by
  induction h with
  | @eof before rest ws after line hrest hws hafter hline =>
    have e : scanned rest = ws := by
      rw [hrest]
      unfold scanned
      rw [List.takeWhile_append_of_pos (fun c hc => isspace_scanned (hws c hc))]
      have := scanned_of_end hafter
      unfold scanned at this
      rw [this, List.append_nil]
    rw [e, withoutSpace_of_space hws]
    rfl
  | @token before rest ws after t ts hrest hws hne hch hty hline _ ih =>
    have e : scanned rest = ws ++ t.value.data ++ scanned after := by
      rw [hrest]
      unfold scanned
      rw [List.takeWhile_append_of_pos (fun c hc => ?_)]
      rcases List.mem_append.1 hc with hc | hc
      · exact isspace_scanned (hws c hc)
      · simpa using (hch c hc).2
    rw [e, withoutSpace_append, withoutSpace_append, withoutSpace_of_space hws,
      withoutSpace_of_text hch, List.nil_append, ← ih]
    rfl

/-! ### What a parse returns, and how much an iteration consumes -/

theorem Parser.stream_length (s : Parser) : s.stream.length = s.tokens.length + 1 := rfl

/-- A tree returned by `parse` has a block as its root. -/
theorem parse_ok_block {fuel : Nat} {tokens : List Token} {root : ASTNode} {s : Parser}
    (h : parse fuel tokens = .ok root s) : ∃ stmts line, root = BlockNode stmts line := by
  unfold parse Parser.program at h
  obtain ⟨stmts, s1, -, h⟩ := ParseResult.bind_eq_ok h
  simp only [ParseResult.ok.injEq] at h
  exact ⟨stmts, _, h.1.symm⟩

/-- After the operator of an iteration of a binary-operator loop and its right
operand, fewer tokens are left than before the iteration. -/
theorem Parser.iteration_consumes {k fuel : Nat} {s s1 : Parser} {right : ASTNode}
    (hk1 : 1 ≤ k) (hk4 : k ≤ 4) (hw : s.WellFormed) (hop : s.currentToken.isOperatorOfLevel k)
    (h : Parser.atLevel (k + 1) fuel s.advance = .ok right s1) :
    s1.stream.length < s.stream.length := by
  obtain ⟨-, -, -, -, -, -, -, -, -, -, -, Acm, -, At, -, Af, Au, -⟩ :=
    Parser.advances_of_ok fuel
  have hadv : s.advance.tokens.length < s.tokens.length :=
    hw.advance_length (by rw [hop.1]; decide)
  have hle : s1.tokens.length ≤ s.advance.tokens.length := by
    interval_cases k
    · exact (Acm _ _ _ h).length_le
    · exact (At _ _ _ h).length_le
    · exact (Af _ _ _ h).length_le
    · exact (Au _ _ _ h).length_le
  rw [Parser.stream_length, Parser.stream_length]
  omega

/-! ### Derived rules for the `if` statement -/

theorem Parses.parses_unique {tokens : List Token} {r r' : ParseResult ASTNode}
    (h : Parses tokens r) (h' : Parses tokens r') : r = r' := by
  obtain ⟨f, hf⟩ := h
  obtain ⟨f', hf'⟩ := h'
  rw [← hf (max f f') (le_max_left _ _), ← hf' (max f f') (le_max_right _ _)]

theorem ParsesTo.parsesTo_unique {code : String} {root root' : ASTNode}
    (h : ParsesTo code root) (h' : ParsesTo code root') : root = root' := by
  obtain ⟨tokens, s, hl, hp⟩ := h
  obtain ⟨tokens', s', hl', hp'⟩ := h'
  rw [hl] at hl'
  cases hl'
  have := hp.parses_unique hp'
  simp only [ParseResult.ok.injEq] at this
  exact this.1

/-- A statement that starts with `if` is an if statement. -/
theorem Parser.Runs.statement_if {s : Parser} {r : ParseResult ASTNode}
    (hc : s.currentToken.type = T_IF) (h : Parser.Runs Parser.ifStatement s r) :
    Parser.Runs Parser.statement s r := by
  obtain ⟨f, hf⟩ := h
  refine ⟨f + 1, fun fuel hle => ?_⟩
  obtain ⟨k, rfl⟩ := Nat.exists_eq_add_of_le hle
  have e : f + 1 + k = (f + k) + 1 := by omega
  rw [e]
  simp only [Parser.statement]
  rw [if_neg (by rw [hc]; decide), if_neg (by rw [hc]; decide), if_pos hc]
  exact hf _ (by omega)

/-- What a statement that starts with `if` ends in, the if statement ends in. -/
theorem Parser.Runs.ifStatement_of_statement {s : Parser} {r : ParseResult ASTNode}
    (hc : s.currentToken.type = T_IF) (h : Parser.Runs Parser.statement s r) :
    Parser.Runs Parser.ifStatement s r := by
  obtain ⟨f, hf⟩ := h
  refine ⟨f, fun fuel hle => ?_⟩
  have h1 := hf (fuel + 1) (by omega)
  simp only [Parser.statement] at h1
  rw [if_neg (by rw [hc]; decide), if_neg (by rw [hc]; decide), if_pos hc] at h1
  exact h1

/-- The if statement with an `else`: `if`, `(`, a condition, `)`, a statement,
`else`, a statement. -/
theorem Parser.Runs.ifStatement_else {s s3 s5 s6 : Parser}
    {condition trueBlock falseBlock : ASTNode}
    (h0 : s.currentToken.type = T_IF) (h1 : s.advance.currentToken.type = T_LPAREN)
    (h2 : Parser.Runs Parser.expression s.advance.advance (.ok condition s3))
    (h3 : s3.currentToken.type = T_RPAREN)
    (h4 : Parser.Runs Parser.statement s3.advance (.ok trueBlock s5))
    (h5 : s5.currentToken.type = T_ELSE)
    (h6 : Parser.Runs Parser.statement s5.advance (.ok falseBlock s6)) :
    Parser.Runs Parser.ifStatement s
      (.ok (IfNode condition trueBlock (some falseBlock) s.currentToken.lineNumber) s6) := by
  obtain ⟨f2, h2⟩ := h2
  obtain ⟨f4, h4⟩ := h4
  obtain ⟨f6, h6⟩ := h6
  refine ⟨max (max f2 f4) f6 + 1, fun fuel hle => ?_⟩
  obtain ⟨k, rfl⟩ := Nat.exists_eq_add_of_le hle
  have e : max (max f2 f4) f6 + 1 + k = (max (max f2 f4) f6 + k) + 1 := by omega
  rw [e]
  simp only [Parser.ifStatement, Parser.expect]
  rw [if_pos h0, ParseResult.bind_ok, if_pos h1, ParseResult.bind_ok, h2 _ (by omega),
    ParseResult.bind_ok, if_pos h3, ParseResult.bind_ok, h4 _ (by omega), ParseResult.bind_ok,
    if_pos h5, h6 _ (by omega), ParseResult.bind_ok]

/-- The if statement without an `else`: the token after the statement is not
`else`. -/
theorem Parser.Runs.ifStatement_only {s s3 s5 : Parser} {condition trueBlock : ASTNode}
    (h0 : s.currentToken.type = T_IF) (h1 : s.advance.currentToken.type = T_LPAREN)
    (h2 : Parser.Runs Parser.expression s.advance.advance (.ok condition s3))
    (h3 : s3.currentToken.type = T_RPAREN)
    (h4 : Parser.Runs Parser.statement s3.advance (.ok trueBlock s5))
    (h5 : s5.currentToken.type ≠ T_ELSE) :
    Parser.Runs Parser.ifStatement s
      (.ok (IfNode condition trueBlock none s.currentToken.lineNumber) s5) := by
  obtain ⟨f2, h2⟩ := h2
  obtain ⟨f4, h4⟩ := h4
  refine ⟨max f2 f4 + 1, fun fuel hle => ?_⟩
  obtain ⟨k, rfl⟩ := Nat.exists_eq_add_of_le hle
  have e : max f2 f4 + 1 + k = (max f2 f4 + k) + 1 := by omega
  rw [e]
  simp only [Parser.ifStatement, Parser.expect]
  rw [if_pos h0, ParseResult.bind_ok, if_pos h1, ParseResult.bind_ok, h2 _ (by omega),
    ParseResult.bind_ok, if_pos h3, ParseResult.bind_ok, h4 _ (by omega), ParseResult.bind_ok,
    if_neg h5]

/-- Whatever tree an if statement returns, its condition and its first branch
are what the parser has read for them. -/
theorem Parser.Runs.ifStatement_shape {s s3 s5 s' : Parser}
    {condition trueBlock node : ASTNode}
    (h0 : s.currentToken.type = T_IF) (h1 : s.advance.currentToken.type = T_LPAREN)
    (h2 : Parser.Runs Parser.expression s.advance.advance (.ok condition s3))
    (h3 : s3.currentToken.type = T_RPAREN)
    (h4 : Parser.Runs Parser.statement s3.advance (.ok trueBlock s5))
    (h : Parser.Runs Parser.ifStatement s (.ok node s')) :
    ∃ falseBlock, node = IfNode condition trueBlock falseBlock s.currentToken.lineNumber := by
  obtain ⟨f2, h2⟩ := h2
  obtain ⟨f4, h4⟩ := h4
  obtain ⟨f, hf⟩ := h
  have hrun := hf (max (max f2 f4) f + 1) (by omega)
  simp only [Parser.ifStatement, Parser.expect] at hrun
  rw [if_pos h0, ParseResult.bind_ok, if_pos h1, ParseResult.bind_ok, h2 _ (by omega),
    ParseResult.bind_ok, if_pos h3, ParseResult.bind_ok, h4 _ (by omega),
    ParseResult.bind_ok] at hrun
  by_cases h5 : s5.currentToken.type = T_ELSE
  · rw [if_pos h5] at hrun
    obtain ⟨fb, s6, -, hrun⟩ := ParseResult.bind_eq_ok hrun
    simp only [ParseResult.ok.injEq] at hrun
    exact ⟨some fb, hrun.1.symm⟩
  · rw [if_neg h5] at hrun
    simp only [ParseResult.ok.injEq] at hrun
    exact ⟨none, hrun.1.symm⟩

/-- A statement after which the parser stands at an `else` does not end in an `if`
without `else`: that `if` would have taken the `else`. -/
theorem Parser.statement_closed (fuel : Nat) :
    (∀ s n s', Parser.statement fuel s = .ok n s' → s'.currentToken.type = T_ELSE →
      ¬ n.EndsInOpenIf) ∧
    (∀ s n s', Parser.ifStatement fuel s = .ok n s' → s'.currentToken.type = T_ELSE →
      ¬ n.EndsInOpenIf) ∧
    (∀ s n s', Parser.whileStatement fuel s = .ok n s' → s'.currentToken.type = T_ELSE →
      ¬ n.EndsInOpenIf) := by
  induction fuel with
  | zero =>
    refine ⟨?_, ?_, ?_⟩ <;> intro s n s' h <;>
      simp [Parser.statement, Parser.ifStatement, Parser.whileStatement] at h
  | succ fuel ih =>
    obtain ⟨hst, hif, hwh⟩ := ih
    refine ⟨?_, ?_, ?_⟩
    · intro s n s' h hE
      rw [Parser.statement] at h
      split_ifs at h with c1 c2 c3 c4 c5
      · cases fuel with
        | zero => simp [Parser.assignmentStatement] at h
        | succ f =>
          rw [Parser.assignmentStatement] at h
          obtain ⟨u1, s1, h1, h⟩ := ParseResult.bind_eq_ok h
          obtain ⟨expr, s2, h2, h⟩ := ParseResult.bind_eq_ok h
          obtain ⟨u3, s3, h3, h⟩ := ParseResult.bind_eq_ok h
          simp only [ParseResult.ok.injEq] at h
          obtain ⟨rfl, -⟩ := h
          intro hopen
          cases hopen
      · cases fuel with
        | zero => simp [Parser.printStatement] at h
        | succ f =>
          rw [Parser.printStatement] at h
          obtain ⟨u1, s1, h1, h⟩ := ParseResult.bind_eq_ok h
          obtain ⟨u2, s2, h2, h⟩ := ParseResult.bind_eq_ok h
          obtain ⟨expr, s3, h3, h⟩ := ParseResult.bind_eq_ok h
          obtain ⟨u4, s4, h4, h⟩ := ParseResult.bind_eq_ok h
          obtain ⟨u5, s5, h5, h⟩ := ParseResult.bind_eq_ok h
          simp only [ParseResult.ok.injEq] at h
          obtain ⟨rfl, -⟩ := h
          intro hopen
          cases hopen
      · exact hif s n s' h hE
      · exact hwh s n s' h hE
      · cases fuel with
        | zero => simp [Parser.block] at h
        | succ f =>
          rw [Parser.block] at h
          obtain ⟨u1, s1, h1, h⟩ := ParseResult.bind_eq_ok h
          obtain ⟨stmts, s2, h2, h⟩ := ParseResult.bind_eq_ok h
          obtain ⟨u3, s3, h3, h⟩ := ParseResult.bind_eq_ok h
          simp only [ParseResult.ok.injEq] at h
          obtain ⟨rfl, -⟩ := h
          intro hopen
          cases hopen
    · intro s n s' h hE
      rw [Parser.ifStatement] at h
      obtain ⟨u1, s1, h1, h⟩ := ParseResult.bind_eq_ok h
      obtain ⟨u2, s2, h2, h⟩ := ParseResult.bind_eq_ok h
      obtain ⟨cond, s3, h3, h⟩ := ParseResult.bind_eq_ok h
      obtain ⟨u4, s4, h4, h⟩ := ParseResult.bind_eq_ok h
      obtain ⟨tb, s5, h5, h⟩ := ParseResult.bind_eq_ok h
      split_ifs at h with hc
      · obtain ⟨fb, s6, h6, h⟩ := ParseResult.bind_eq_ok h
        simp only [ParseResult.ok.injEq] at h
        obtain ⟨rfl, rfl⟩ := h
        intro hopen
        cases hopen with
        | inElse _ _ _ hfb => exact hst _ _ _ h6 hE hfb
      · simp only [ParseResult.ok.injEq] at h
        obtain ⟨rfl, rfl⟩ := h
        exact absurd hE hc
    · intro s n s' h hE
      rw [Parser.whileStatement] at h
      obtain ⟨u1, s1, h1, h⟩ := ParseResult.bind_eq_ok h
      obtain ⟨u2, s2, h2, h⟩ := ParseResult.bind_eq_ok h
      obtain ⟨cond, s3, h3, h⟩ := ParseResult.bind_eq_ok h
      obtain ⟨u4, s4, h4, h⟩ := ParseResult.bind_eq_ok h
      obtain ⟨body, s5, h5, h⟩ := ParseResult.bind_eq_ok h
      simp only [ParseResult.ok.injEq] at h
      obtain ⟨rfl, rfl⟩ := h
      intro hopen
      cases hopen with
      | inWhile _ _ hb => exact hst _ _ _ h5 hE hb

/-! ### The shape of the trees the parser builds -/

theorem ASTNode.IsStatement.append_one {acc : List ASTNode} {stmt : ASTNode}
    (hacc : ∀ x ∈ acc, x.IsStatement) (hs : stmt.IsStatement) :
    ∀ x ∈ acc ++ [stmt], x.IsStatement := by
  intro x hx
  rcases List.mem_append.1 hx with h | h
  · exact hacc x h
  · rw [List.mem_singleton.1 h]
    exact hs

/-- The statement procedures return statement nodes and the expression
procedures expression nodes. -/
theorem Parser.shape_of_ok (fuel : Nat) :
    (∀ s a s', Parser.statement fuel s = .ok a s' → a.IsStatement) ∧
    (∀ s a s', Parser.assignmentStatement fuel s = .ok a s' → a.IsStatement) ∧
    (∀ s a s', Parser.printStatement fuel s = .ok a s' → a.IsStatement) ∧
    (∀ s a s', Parser.ifStatement fuel s = .ok a s' → a.IsStatement) ∧
    (∀ s a s', Parser.whileStatement fuel s = .ok a s' → a.IsStatement) ∧
    (∀ acc s a s', (∀ x ∈ acc, x.IsStatement) → Parser.blockLoop fuel acc s = .ok a s' →
      ∀ x ∈ a, x.IsStatement) ∧
    (∀ s a s', Parser.block fuel s = .ok a s' → a.IsStatement) ∧
    (∀ s a s', Parser.expression fuel s = .ok a s' → a.IsExpression) ∧
    (∀ acc s a s', acc.IsExpression → Parser.equalityLoop fuel acc s = .ok a s' →
      a.IsExpression) ∧
    (∀ s a s', Parser.equality fuel s = .ok a s' → a.IsExpression) ∧
    (∀ acc s a s', acc.IsExpression → Parser.comparisonLoop fuel acc s = .ok a s' →
      a.IsExpression) ∧
    (∀ s a s', Parser.comparison fuel s = .ok a s' → a.IsExpression) ∧
    (∀ acc s a s', acc.IsExpression → Parser.termLoop fuel acc s = .ok a s' →
      a.IsExpression) ∧
    (∀ s a s', Parser.term fuel s = .ok a s' → a.IsExpression) ∧
    (∀ acc s a s', acc.IsExpression → Parser.factorLoop fuel acc s = .ok a s' →
      a.IsExpression) ∧
    (∀ s a s', Parser.factor fuel s = .ok a s' → a.IsExpression) ∧
    (∀ s a s', Parser.unary fuel s = .ok a s' → a.IsExpression) ∧
    (∀ s a s', Parser.primary fuel s = .ok a s' → a.IsExpression) := by
  induction fuel with
  | zero =>
    refine ⟨?_, ?_, ?_, ?_, ?_, ?_, ?_, ?_, ?_, ?_, ?_, ?_, ?_, ?_, ?_, ?_, ?_, ?_⟩ <;>
      intros <;> simp_all [Parser.statement, Parser.assignmentStatement, Parser.printStatement, Parser.ifStatement, Parser.whileStatement, Parser.blockLoop, Parser.block, Parser.expression, Parser.equalityLoop, Parser.equality, Parser.comparisonLoop, Parser.comparison, Parser.termLoop, Parser.term, Parser.factorLoop, Parser.factor, Parser.unary, Parser.primary]
  | succ fuel ih =>
    obtain ⟨hst, has, hpr, hif, hwh, hbl, hb, hex, heql, heq, hcml, hcm, htl, ht, hfl, hf,
      hu, hp⟩ := ih
    refine ⟨?_, ?_, ?_, ?_, ?_, ?_, ?_, ?_, ?_, ?_, ?_, ?_, ?_, ?_, ?_, ?_, ?_, ?_⟩
    · intro s a s' h
      rw [Parser.statement] at h
      split_ifs at h with c1 c2 c3 c4 c5
      · exact has s a s' h
      · exact hpr s a s' h
      · exact hif s a s' h
      · exact hwh s a s' h
      · exact hb s a s' h
    · intro s a s' h
      rw [Parser.assignmentStatement] at h
      obtain ⟨u1, s1, h1, h⟩ := ParseResult.bind_eq_ok h
      obtain ⟨expr, s2, h2, h⟩ := ParseResult.bind_eq_ok h
      obtain ⟨u3, s3, h3, h⟩ := ParseResult.bind_eq_ok h
      simp only [ParseResult.ok.injEq] at h
      obtain ⟨rfl, -⟩ := h
      exact .ofAssign _ _ (hex _ _ _ h2)
    · intro s a s' h
      rw [Parser.printStatement] at h
      obtain ⟨u1, s1, h1, h⟩ := ParseResult.bind_eq_ok h
      obtain ⟨u2, s2, h2, h⟩ := ParseResult.bind_eq_ok h
      obtain ⟨expr, s3, h3, h⟩ := ParseResult.bind_eq_ok h
      obtain ⟨u4, s4, h4, h⟩ := ParseResult.bind_eq_ok h
      obtain ⟨u5, s5, h5, h⟩ := ParseResult.bind_eq_ok h
      simp only [ParseResult.ok.injEq] at h
      obtain ⟨rfl, -⟩ := h
      exact .ofPrint _ (hex _ _ _ h3)
    · intro s a s' h
      rw [Parser.ifStatement] at h
      obtain ⟨u1, s1, h1, h⟩ := ParseResult.bind_eq_ok h
      obtain ⟨u2, s2, h2, h⟩ := ParseResult.bind_eq_ok h
      obtain ⟨cond, s3, h3, h⟩ := ParseResult.bind_eq_ok h
      obtain ⟨u4, s4, h4, h⟩ := ParseResult.bind_eq_ok h
      obtain ⟨tb, s5, h5, h⟩ := ParseResult.bind_eq_ok h
      split_ifs at h with hE
      · obtain ⟨fb, s6, h6, h⟩ := ParseResult.bind_eq_ok h
        simp only [ParseResult.ok.injEq] at h
        obtain ⟨rfl, -⟩ := h
        exact .ofIfElse _ (hex _ _ _ h3) (hst _ _ _ h5) (hst _ _ _ h6)
      · simp only [ParseResult.ok.injEq] at h
        obtain ⟨rfl, -⟩ := h
        exact .ofIf _ (hex _ _ _ h3) (hst _ _ _ h5)
    · intro s a s' h
      rw [Parser.whileStatement] at h
      obtain ⟨u1, s1, h1, h⟩ := ParseResult.bind_eq_ok h
      obtain ⟨u2, s2, h2, h⟩ := ParseResult.bind_eq_ok h
      obtain ⟨cond, s3, h3, h⟩ := ParseResult.bind_eq_ok h
      obtain ⟨u4, s4, h4, h⟩ := ParseResult.bind_eq_ok h
      obtain ⟨body, s5, h5, h⟩ := ParseResult.bind_eq_ok h
      simp only [ParseResult.ok.injEq] at h
      obtain ⟨rfl, -⟩ := h
      exact .ofWhile _ (hex _ _ _ h3) (hst _ _ _ h5)
    · intro acc s a s' hacc h
      rw [Parser.blockLoop] at h
      split_ifs at h with hc
      · obtain ⟨stmt, s1, h1, h⟩ := ParseResult.bind_eq_ok h
        exact hbl _ _ _ _ (ASTNode.IsStatement.append_one hacc (hst _ _ _ h1)) h
      · simp only [ParseResult.ok.injEq] at h
        obtain ⟨rfl, -⟩ := h
        exact hacc
    · intro s a s' h
      rw [Parser.block] at h
      obtain ⟨u1, s1, h1, h⟩ := ParseResult.bind_eq_ok h
      obtain ⟨stmts, s2, h2, h⟩ := ParseResult.bind_eq_ok h
      obtain ⟨u3, s3, h3, h⟩ := ParseResult.bind_eq_ok h
      simp only [ParseResult.ok.injEq] at h
      obtain ⟨rfl, -⟩ := h
      exact .ofBlock _ (hbl _ _ _ _ (fun x hx => absurd hx (List.not_mem_nil x)) h2)
    · intro s a s' h
      rw [Parser.expression] at h
      exact heq _ _ _ h
    · intro acc s a s' hacc h
      rw [Parser.equalityLoop] at h
      split_ifs at h with hc
      · obtain ⟨right, s1, h1, h⟩ := ParseResult.bind_eq_ok h
        exact heql _ _ _ _ (.ofBinOp _ _ hacc (hcm _ _ _ h1)) h
      · simp only [ParseResult.ok.injEq] at h
        obtain ⟨rfl, -⟩ := h
        exact hacc
    · intro s a s' h
      rw [Parser.equality] at h
      obtain ⟨node, s1, h1, h⟩ := ParseResult.bind_eq_ok h
      exact heql _ _ _ _ (hcm _ _ _ h1) h
    · intro acc s a s' hacc h
      rw [Parser.comparisonLoop] at h
      split_ifs at h with hc
      · obtain ⟨right, s1, h1, h⟩ := ParseResult.bind_eq_ok h
        exact hcml _ _ _ _ (.ofBinOp _ _ hacc (ht _ _ _ h1)) h
      · simp only [ParseResult.ok.injEq] at h
        obtain ⟨rfl, -⟩ := h
        exact hacc
    · intro s a s' h
      rw [Parser.comparison] at h
      obtain ⟨node, s1, h1, h⟩ := ParseResult.bind_eq_ok h
      exact hcml _ _ _ _ (ht _ _ _ h1) h
    · intro acc s a s' hacc h
      rw [Parser.termLoop] at h
      split_ifs at h with hc
      · obtain ⟨right, s1, h1, h⟩ := ParseResult.bind_eq_ok h
        exact htl _ _ _ _ (.ofBinOp _ _ hacc (hf _ _ _ h1)) h
      · simp only [ParseResult.ok.injEq] at h
        obtain ⟨rfl, -⟩ := h
        exact hacc
    · intro s a s' h
      rw [Parser.term] at h
      obtain ⟨node, s1, h1, h⟩ := ParseResult.bind_eq_ok h
      exact htl _ _ _ _ (hf _ _ _ h1) h
    · intro acc s a s' hacc h
      rw [Parser.factorLoop] at h
      split_ifs at h with hc
      · obtain ⟨right, s1, h1, h⟩ := ParseResult.bind_eq_ok h
        exact hfl _ _ _ _ (.ofBinOp _ _ hacc (hu _ _ _ h1)) h
      · simp only [ParseResult.ok.injEq] at h
        obtain ⟨rfl, -⟩ := h
        exact hacc
    · intro s a s' h
      rw [Parser.factor] at h
      obtain ⟨node, s1, h1, h⟩ := ParseResult.bind_eq_ok h
      exact hfl _ _ _ _ (hu _ _ _ h1) h
    · intro s a s' h
      rw [Parser.unary] at h
      split_ifs at h with hc
      · obtain ⟨operand, s1, h1, h⟩ := ParseResult.bind_eq_ok h
        simp only [ParseResult.ok.injEq] at h
        obtain ⟨rfl, -⟩ := h
        exact .ofBinOp _ _ (.ofNumber _ _) (hu _ _ _ h1)
      · exact hp _ _ _ h
    · intro s a s' h
      rw [Parser.primary] at h
      split_ifs at h with c1 c2 c3
      · cases hs : stoi s.currentToken.value with
        | value v =>
          rw [hs] at h
          simp only [ParseResult.ok.injEq] at h
          obtain ⟨rfl, -⟩ := h
          exact .ofNumber _ _
        | invalid_argument => rw [hs] at h; cases h
        | out_of_range => rw [hs] at h; cases h
      · simp only [ParseResult.ok.injEq] at h
        obtain ⟨rfl, -⟩ := h
        exact .ofVariable _ _
      · obtain ⟨node, s1, h1, h⟩ := ParseResult.bind_eq_ok h
        obtain ⟨u2, s2, h2, h⟩ := ParseResult.bind_eq_ok h
        simp only [ParseResult.ok.injEq] at h
        obtain ⟨rfl, -⟩ := h
        exact hex _ _ _ h1

theorem Parser.programLoop_shape (fuel : Nat) :
    ∀ acc s a s', (∀ x ∈ acc, x.IsStatement) → Parser.programLoop fuel acc s = .ok a s' →
      ∀ x ∈ a, x.IsStatement := by
  induction fuel with
  | zero => intro acc s a s' _ h; simp [Parser.programLoop] at h
  | succ fuel ih =>
    intro acc s a s' hacc h
    rw [Parser.programLoop] at h
    split_ifs at h with hc
    · obtain ⟨stmt, s1, h1, h⟩ := ParseResult.bind_eq_ok h
      exact ih _ _ _ _
        (ASTNode.IsStatement.append_one hacc ((Parser.shape_of_ok fuel).1 _ _ _ h1)) h
    · simp only [ParseResult.ok.injEq] at h
      obtain ⟨rfl, -⟩ := h
      exact hacc

/-- Every tree `parse` returns is a statement node: a block of statements. -/
theorem parse_ok_isStatement {fuel : Nat} {tokens : List Token} {root : ASTNode}
    {s : Parser} (h : parse fuel tokens = .ok root s) : root.IsStatement := by
  unfold parse Parser.program at h
  obtain ⟨stmts, s1, h1, h⟩ := ParseResult.bind_eq_ok h
  simp only [ParseResult.ok.injEq] at h
  obtain ⟨rfl, -⟩ := h
  exact .ofBlock _
    (Parser.programLoop_shape _ _ _ _ _ (fun x hx => absurd hx (List.not_mem_nil x)) h1)

/-! ### The checked parser -/

theorem Checked.checked_bind_ok {α β : Type} (a : α) (s : Parser) (k : α → Parser → Checked β) :
    (Checked.done (.ok a s)).bind k = k a s := rfl

/-- A step that runs without a violation, followed by steps that do, runs
without a violation and ends as the unchecked steps do. -/
theorem Checked.bind_done {α β : Type} {c : Checked α} {r : ParseResult α}
    {k : α → Parser → Checked β} {k' : α → Parser → ParseResult β} (h : c = .done r)
    (hk : ∀ a s1, r = .ok a s1 → k a s1 = .done (k' a s1)) :
    c.bind k = .done (r.bind k') := by
  subst h
  cases r with
  | ok a s1 => exact hk a s1 rfl
  | error e => rfl
  | timeout => rfl

/-- A call of `advance` on a well formed state whose lookahead is not the
end-of-input token passes the check. -/
theorem Checked.advance_done {s : Parser} (hw : s.WellFormed)
    (hc : s.currentToken.type ≠ T_EOF) : Checked.advance s = .done (.ok () s.advance) := by
  obtain ⟨t, rest, e⟩ := hw.tokens_ne_nil hc
  unfold Checked.advance
  rw [if_neg]
  rintro (h | h)
  · exact hc h
  · rw [e] at h
    cases h

theorem Checked.expect_done {s : Parser} {type : TokenType} (hw : s.WellFormed)
    (ht : type ≠ T_EOF) : Checked.expect s type = .done (s.expect type) := by
  unfold Checked.expect Parser.expect
  split_ifs with hc
  · exact Checked.advance_done hw (by rw [hc]; exact ht)
  · rfl

/-- On a well formed state every procedure of the checked parser runs without a
violation and ends as the procedure of the parser does. -/
theorem Checked.agrees (fuel : Nat) :
    (∀ s, s.WellFormed → Checked.statement fuel s = .done (Parser.statement fuel s)) ∧
    (∀ s, s.WellFormed → s.currentToken.type = T_IDENTIFIER →
      Checked.assignmentStatement fuel s = .done (Parser.assignmentStatement fuel s)) ∧
    (∀ s, s.WellFormed →
      Checked.printStatement fuel s = .done (Parser.printStatement fuel s)) ∧
    (∀ s, s.WellFormed → Checked.ifStatement fuel s = .done (Parser.ifStatement fuel s)) ∧
    (∀ s, s.WellFormed →
      Checked.whileStatement fuel s = .done (Parser.whileStatement fuel s)) ∧
    (∀ acc s, s.WellFormed →
      Checked.blockLoop fuel acc s = .done (Parser.blockLoop fuel acc s)) ∧
    (∀ s, s.WellFormed → Checked.block fuel s = .done (Parser.block fuel s)) ∧
    (∀ s, s.WellFormed → Checked.expression fuel s = .done (Parser.expression fuel s)) ∧
    (∀ acc s, s.WellFormed →
      Checked.equalityLoop fuel acc s = .done (Parser.equalityLoop fuel acc s)) ∧
    (∀ s, s.WellFormed → Checked.equality fuel s = .done (Parser.equality fuel s)) ∧
    (∀ acc s, s.WellFormed →
      Checked.comparisonLoop fuel acc s = .done (Parser.comparisonLoop fuel acc s)) ∧
    (∀ s, s.WellFormed → Checked.comparison fuel s = .done (Parser.comparison fuel s)) ∧
    (∀ acc s, s.WellFormed →
      Checked.termLoop fuel acc s = .done (Parser.termLoop fuel acc s)) ∧
    (∀ s, s.WellFormed → Checked.term fuel s = .done (Parser.term fuel s)) ∧
    (∀ acc s, s.WellFormed →
      Checked.factorLoop fuel acc s = .done (Parser.factorLoop fuel acc s)) ∧
    (∀ s, s.WellFormed → Checked.factor fuel s = .done (Parser.factor fuel s)) ∧
    (∀ s, s.WellFormed → Checked.unary fuel s = .done (Parser.unary fuel s)) ∧
    (∀ s, s.WellFormed → Checked.primary fuel s = .done (Parser.primary fuel s)) := by
  induction fuel with
  | zero =>
    refine ⟨?_, ?_, ?_, ?_, ?_, ?_, ?_, ?_, ?_, ?_, ?_, ?_, ?_, ?_, ?_, ?_, ?_, ?_⟩ <;>
      intros <;> rfl
  | succ fuel ih =>
    obtain ⟨hst, has, hpr, hif, hwh, hbl, hb, hex, heql, heq, hcml, hcm, htl, ht, hfl, hf,
      hu, hp⟩ := ih
    obtain ⟨Ast, -, -, -, -, Abl, -, Aex, -, -, -, Acm, -, At, -, Af, Au, -⟩ :=
      Parser.advances_of_ok fuel
    refine ⟨?_, ?_, ?_, ?_, ?_, ?_, ?_, ?_, ?_, ?_, ?_, ?_, ?_, ?_, ?_, ?_, ?_, ?_⟩
    · intro s hw
      rw [Checked.statement, Parser.statement]
      by_cases c1 : s.currentToken.type = T_IDENTIFIER
      · rw [if_pos c1, if_pos c1]
        exact has s hw c1
      rw [if_neg c1, if_neg c1]
      by_cases c2 : s.currentToken.type = T_PRINT
      · rw [if_pos c2, if_pos c2]
        exact hpr s hw
      rw [if_neg c2, if_neg c2]
      by_cases c3 : s.currentToken.type = T_IF
      · rw [if_pos c3, if_pos c3]
        exact hif s hw
      rw [if_neg c3, if_neg c3]
      by_cases c4 : s.currentToken.type = T_WHILE
      · rw [if_pos c4, if_pos c4]
        exact hwh s hw
      rw [if_neg c4, if_neg c4]
      by_cases c5 : s.currentToken.type = T_LBRACE
      · rw [if_pos c5, if_pos c5]
        exact hb s hw
      rw [if_neg c5, if_neg c5]
    · intro s hw hid
      rw [Checked.assignmentStatement, Parser.assignmentStatement,
        Checked.advance_done hw (by rw [hid]; decide), Checked.checked_bind_ok]
      have hw0 := hw.wf_advance
      refine Checked.bind_done (Checked.expect_done hw0 (by decide)) fun _ s1 h1 => ?_
      have hw1 := hw0.wf_expect h1
      refine Checked.bind_done (hex s1 hw1) fun expr s2 h2 => ?_
      have hw2 := (Aex _ _ _ h2).wellFormed hw1
      refine Checked.bind_done (Checked.expect_done hw2 (by decide)) fun _ s3 h3 => ?_
      rfl
    · intro s hw
      rw [Checked.printStatement, Parser.printStatement]
      refine Checked.bind_done (Checked.expect_done hw (by decide)) fun _ s1 h1 => ?_
      have hw1 := hw.wf_expect h1
      refine Checked.bind_done (Checked.expect_done hw1 (by decide)) fun _ s2 h2 => ?_
      have hw2 := hw1.wf_expect h2
      refine Checked.bind_done (hex s2 hw2) fun expr s3 h3 => ?_
      have hw3 := (Aex _ _ _ h3).wellFormed hw2
      refine Checked.bind_done (Checked.expect_done hw3 (by decide)) fun _ s4 h4 => ?_
      have hw4 := hw3.wf_expect h4
      refine Checked.bind_done (Checked.expect_done hw4 (by decide)) fun _ s5 h5 => ?_
      rfl
    · intro s hw
      rw [Checked.ifStatement, Parser.ifStatement]
      refine Checked.bind_done (Checked.expect_done hw (by decide)) fun _ s1 h1 => ?_
      have hw1 := hw.wf_expect h1
      refine Checked.bind_done (Checked.expect_done hw1 (by decide)) fun _ s2 h2 => ?_
      have hw2 := hw1.wf_expect h2
      refine Checked.bind_done (hex s2 hw2) fun cond s3 h3 => ?_
      have hw3 := (Aex _ _ _ h3).wellFormed hw2
      refine Checked.bind_done (Checked.expect_done hw3 (by decide)) fun _ s4 h4 => ?_
      have hw4 := hw3.wf_expect h4
      refine Checked.bind_done (hst s4 hw4) fun tb s5 h5 => ?_
      have hw5 := (Ast _ _ _ h5).1.wellFormed hw4
      by_cases hE : s5.currentToken.type = T_ELSE
      · rw [if_pos hE, if_pos hE, Checked.advance_done hw5 (by rw [hE]; decide),
          Checked.checked_bind_ok]
        refine Checked.bind_done (hst _ hw5.wf_advance) fun fb s6 h6 => ?_
        rfl
      · rw [if_neg hE, if_neg hE]
    · intro s hw
      rw [Checked.whileStatement, Parser.whileStatement]
      refine Checked.bind_done (Checked.expect_done hw (by decide)) fun _ s1 h1 => ?_
      have hw1 := hw.wf_expect h1
      refine Checked.bind_done (Checked.expect_done hw1 (by decide)) fun _ s2 h2 => ?_
      have hw2 := hw1.wf_expect h2
      refine Checked.bind_done (hex s2 hw2) fun cond s3 h3 => ?_
      have hw3 := (Aex _ _ _ h3).wellFormed hw2
      refine Checked.bind_done (Checked.expect_done hw3 (by decide)) fun _ s4 h4 => ?_
      have hw4 := hw3.wf_expect h4
      refine Checked.bind_done (hst s4 hw4) fun body s5 h5 => ?_
      rfl
    · intro acc s hw
      rw [Checked.blockLoop, Parser.blockLoop]
      by_cases hc : s.currentToken.type ≠ T_RBRACE ∧ s.currentToken.type ≠ T_EOF
      · rw [if_pos hc, if_pos hc]
        refine Checked.bind_done (hst s hw) fun stmt s1 h1 => ?_
        exact hbl _ _ ((Ast _ _ _ h1).1.wellFormed hw)
      · rw [if_neg hc, if_neg hc]
    · intro s hw
      rw [Checked.block, Parser.block]
      refine Checked.bind_done (Checked.expect_done hw (by decide)) fun _ s1 h1 => ?_
      have hw1 := hw.wf_expect h1
      refine Checked.bind_done (hbl [] s1 hw1) fun stmts s2 h2 => ?_
      have hw2 := (Abl _ _ _ _ h2).wellFormed hw1
      refine Checked.bind_done (Checked.expect_done hw2 (by decide)) fun _ s3 h3 => ?_
      rfl
    · intro s hw
      rw [Checked.expression, Parser.expression]
      exact heq s hw
    · intro acc s hw
      rw [Checked.equalityLoop, Parser.equalityLoop]
      by_cases hc : s.currentToken.type = T_OPERATOR ∧
          (s.currentToken.value = "==" ∨ s.currentToken.value = "!=")
      · rw [if_pos hc, if_pos hc, Checked.advance_done hw (by rw [hc.1]; decide),
          Checked.checked_bind_ok]
        refine Checked.bind_done (hcm _ hw.wf_advance) fun right s1 h1 => ?_
        exact heql _ _ ((Acm _ _ _ h1).wellFormed hw.wf_advance)
      · rw [if_neg hc, if_neg hc]
    · intro s hw
      rw [Checked.equality, Parser.equality]
      refine Checked.bind_done (hcm s hw) fun node s1 h1 => ?_
      exact heql _ _ ((Acm _ _ _ h1).wellFormed hw)
    · intro acc s hw
      rw [Checked.comparisonLoop, Parser.comparisonLoop]
      by_cases hc : s.currentToken.type = T_OPERATOR ∧
          (s.currentToken.value = "<" ∨ s.currentToken.value = "<=" ∨ s.currentToken.value = ">" ∨ s.currentToken.value = ">=")
      · rw [if_pos hc, if_pos hc, Checked.advance_done hw (by rw [hc.1]; decide),
          Checked.checked_bind_ok]
        refine Checked.bind_done (ht _ hw.wf_advance) fun right s1 h1 => ?_
        exact hcml _ _ ((At _ _ _ h1).wellFormed hw.wf_advance)
      · rw [if_neg hc, if_neg hc]
    · intro s hw
      rw [Checked.comparison, Parser.comparison]
      refine Checked.bind_done (ht s hw) fun node s1 h1 => ?_
      exact hcml _ _ ((At _ _ _ h1).wellFormed hw)
    · intro acc s hw
      rw [Checked.termLoop, Parser.termLoop]
      by_cases hc : s.currentToken.type = T_OPERATOR ∧
          (s.currentToken.value = "+" ∨ s.currentToken.value = "-")
      · rw [if_pos hc, if_pos hc, Checked.advance_done hw (by rw [hc.1]; decide),
          Checked.checked_bind_ok]
        refine Checked.bind_done (hf _ hw.wf_advance) fun right s1 h1 => ?_
        exact htl _ _ ((Af _ _ _ h1).wellFormed hw.wf_advance)
      · rw [if_neg hc, if_neg hc]
    · intro s hw
      rw [Checked.term, Parser.term]
      refine Checked.bind_done (hf s hw) fun node s1 h1 => ?_
      exact htl _ _ ((Af _ _ _ h1).wellFormed hw)
    · intro acc s hw
      rw [Checked.factorLoop, Parser.factorLoop]
      by_cases hc : s.currentToken.type = T_OPERATOR ∧
          (s.currentToken.value = "*" ∨ s.currentToken.value = "/" ∨ s.currentToken.value = "%")
      · rw [if_pos hc, if_pos hc, Checked.advance_done hw (by rw [hc.1]; decide),
          Checked.checked_bind_ok]
        refine Checked.bind_done (hu _ hw.wf_advance) fun right s1 h1 => ?_
        exact hfl _ _ ((Au _ _ _ h1).wellFormed hw.wf_advance)
      · rw [if_neg hc, if_neg hc]
    · intro s hw
      rw [Checked.factor, Parser.factor]
      refine Checked.bind_done (hu s hw) fun node s1 h1 => ?_
      exact hfl _ _ ((Au _ _ _ h1).wellFormed hw)
    · intro s hw
      rw [Checked.unary, Parser.unary]
      by_cases hc : s.currentToken.type = T_OPERATOR ∧
          (s.currentToken.value = "+" ∨ s.currentToken.value = "-" ∨ s.currentToken.value = "!")
      · rw [if_pos hc, if_pos hc, Checked.advance_done hw (by rw [hc.1]; decide),
          Checked.checked_bind_ok]
        refine Checked.bind_done (hu _ hw.wf_advance) fun operand s1 h1 => ?_
        rfl
      · rw [if_neg hc, if_neg hc]
        exact hp s hw
    · intro s hw
      rw [Checked.primary, Parser.primary]
      by_cases c1 : s.currentToken.type = T_NUMBER
      · rw [if_pos c1, if_pos c1, Checked.advance_done hw (by rw [c1]; decide),
          Checked.checked_bind_ok]
        cases stoi s.currentToken.value <;> rfl
      rw [if_neg c1, if_neg c1]
      by_cases c2 : s.currentToken.type = T_IDENTIFIER
      · rw [if_pos c2, if_pos c2, Checked.advance_done hw (by rw [c2]; decide),
          Checked.checked_bind_ok]
      rw [if_neg c2, if_neg c2]
      by_cases c3 : s.currentToken.type = T_LPAREN
      · rw [if_pos c3, if_pos c3, Checked.advance_done hw (by rw [c3]; decide),
          Checked.checked_bind_ok]
        refine Checked.bind_done (hex _ hw.wf_advance) fun node s1 h1 => ?_
        have hw1 := (Aex _ _ _ h1).wellFormed hw.wf_advance
        refine Checked.bind_done (Checked.expect_done hw1 (by decide)) fun _ s2 h2 => ?_
        rfl
      · rw [if_neg c3, if_neg c3]

theorem Checked.programLoop_agrees (fuel : Nat) :
    ∀ acc s, s.WellFormed →
      Checked.programLoop fuel acc s = .done (Parser.programLoop fuel acc s) := by
  induction fuel with
  | zero => intro acc s _; rfl
  | succ fuel ih =>
    intro acc s hw
    rw [Checked.programLoop, Parser.programLoop]
    by_cases hc : s.currentToken.type ≠ T_EOF
    · rw [if_pos hc, if_pos hc]
      refine Checked.bind_done ((Checked.agrees fuel).1 s hw) fun stmt s1 h1 => ?_
      exact ih _ _ (((Parser.advances_of_ok fuel).1 _ _ _ h1).1.wellFormed hw)
    · rw [if_neg hc, if_neg hc]

/-- On a queue that ends with an end-of-input token the checked parser makes no
call of `advance` at the end-of-input token or on an empty queue, and ends as the
parser does. -/
theorem Checked.parse_agrees {body : List Token} {eof : Token} (h : eof.type = T_EOF)
    (fuel : Nat) :
    Checked.parse fuel (body ++ [eof]) = .done (MiniCompiler.parse fuel (body ++ [eof])) := by
  unfold Checked.parse Checked.program MiniCompiler.parse Parser.program
  refine Checked.bind_done
    (Checked.programLoop_agrees fuel [] _ (Parser.new_wellFormed h)) fun stmts s1 h1 => ?_
  rfl

/-- A parse that returns a tree has consumed every token before the
end-of-input token, in order, and stands at that token with an empty queue. -/
theorem parse_ok_final {body : List Token} {eof : Token}
    (hbody : ∀ x ∈ body, x.type ≠ T_EOF) {fuel : Nat} {root : ASTNode} {s : Parser}
    (h : parse fuel (body ++ [eof]) = .ok root s) :
    s.currentToken = eof ∧ s.tokens = [] ∧ s.currentToken.type = T_EOF ∧
      ∃ consumed, consumed = body ∧ (Parser.new (body ++ [eof])).stream = consumed ++ s.stream := by
  unfold parse Parser.program at h
  obtain ⟨stmts, s1, h1, h2⟩ := ParseResult.bind_eq_ok h
  simp only [ParseResult.ok.injEq] at h2
  obtain ⟨-, rfl⟩ := h2
  obtain ⟨⟨c, e, g⟩, hE⟩ := Parser.programLoop_ok _ _ _ _ _ h1
  have e0 := e
  rw [Parser.new_stream (by simp)] at e
  have hc : c = body := by
    rcases List.append_eq_append_iff.1 e with ⟨a', e1, e2⟩ | ⟨c', e1, e2⟩
    · cases a' with
      | nil => simpa using e1
      | cons x a' =>
        have := congrArg List.length e2
        simp [Parser.stream] at this
    · cases c' with
      | nil => exact (by simpa using e1 : body = c).symm
      | cons x c' =>
        exfalso
        simp only [Parser.stream, List.cons_append, List.cons.injEq] at e2
        exact hbody x (by rw [e1]; simp) (e2.1 ▸ hE)
  subst hc
  have hs : s1.stream = [eof] := (List.append_cancel_left e).symm
  simp only [Parser.stream, List.cons.injEq] at hs
  exact ⟨hs.1, hs.2, hE, c, rfl, e0⟩

/-! ### The claims -/

/-- C1: operator precedence.  `precedence` orders the binary operators: `==`, `!=`
below `<`, `<=`, `>`, `>=`, below `+`, `-`, below `*`, `/`, `%`.  For all operands
`u1`, `u2`, `u3` read by `unary` and all operators `lo` weaker than `hi`, the
expression `u1 lo u2 hi u3` parses to `lo` applied to `u1` and to `hi` of `u2` and
`u3`, and `u1 hi u2 lo u3` parses to `lo` applied to `hi` of `u1` and `u2` and to
`u3`; parentheses override this: `( u1 op1 u2 ) op2 u3` parses to `op2` applied to
`op1` of `u1` and `u2` and to `u3` for any two operators.  So `a + b * c` parses
to the sum of `a` and the product of `b` and `c`; running `print(2 + 3 * 4);`
prints exactly 14 and running `print((2 + 3) * 4);` prints exactly 20. -/
theorem C1_operator_precedence :
    (precedence "==" = some 1 ∧ precedence "!=" = some 1 ∧ precedence "<" = some 2 ∧
      precedence "<=" = some 2 ∧ precedence ">" = some 2 ∧ precedence ">=" = some 2 ∧
      precedence "+" = some 3 ∧ precedence "-" = some 3 ∧ precedence "*" = some 4 ∧
      precedence "/" = some 4 ∧ precedence "%" = some 4) ∧
    (∀ (s0 s1 s2 s3 : Parser) (n1 n2 n3 : ASTNode) (lo hi : String) (l1 l2 p q : Nat),
      Parser.Runs Parser.unary s0 (.ok n1 s1) → s1.currentToken = ⟨T_OPERATOR, lo, l1⟩ →
      Parser.Runs Parser.unary s1.advance (.ok n2 s2) →
      s2.currentToken = ⟨T_OPERATOR, hi, l2⟩ →
      Parser.Runs Parser.unary s2.advance (.ok n3 s3) → s3.currentToken.type ≠ T_OPERATOR →
      precedence lo = some p → precedence hi = some q → p < q →
      Parser.Runs Parser.expression s0
        (.ok (BinOpNode n1 lo (BinOpNode n2 hi n3 l2) l1) s3)) ∧
    (∀ (s0 s1 s2 s3 : Parser) (n1 n2 n3 : ASTNode) (lo hi : String) (l1 l2 p q : Nat),
      Parser.Runs Parser.unary s0 (.ok n1 s1) → s1.currentToken = ⟨T_OPERATOR, hi, l1⟩ →
      Parser.Runs Parser.unary s1.advance (.ok n2 s2) →
      s2.currentToken = ⟨T_OPERATOR, lo, l2⟩ →
      Parser.Runs Parser.unary s2.advance (.ok n3 s3) → s3.currentToken.type ≠ T_OPERATOR →
      precedence lo = some p → precedence hi = some q → p < q →
      Parser.Runs Parser.expression s0
        (.ok (BinOpNode (BinOpNode n1 hi n2 l1) lo n3 l2) s3)) ∧
    (∀ (s0 s1 s2 s3 : Parser) (n1 n2 n3 : ASTNode) (op1 op2 : String) (l1 l2 p q : Nat),
      s0.currentToken.type = T_LPAREN →
      Parser.Runs Parser.unary s0.advance (.ok n1 s1) →
      s1.currentToken = ⟨T_OPERATOR, op1, l1⟩ →
      Parser.Runs Parser.unary s1.advance (.ok n2 s2) → s2.currentToken.type = T_RPAREN →
      s2.advance.currentToken = ⟨T_OPERATOR, op2, l2⟩ →
      Parser.Runs Parser.unary s2.advance.advance (.ok n3 s3) →
      s3.currentToken.type ≠ T_OPERATOR →
      precedence op1 = some p → precedence op2 = some q →
      Parser.Runs Parser.expression s0
        (.ok (BinOpNode (BinOpNode n1 op1 n2 l1) op2 n3 l2) s3)) ∧
    (∃ tokens, generateTokens "a + b * c".toList = .ok tokens ∧
      Parser.Runs Parser.expression (Parser.new tokens)
        (.ok (BinOpNode (VariableNode "a" 1) "+"
          (BinOpNode (VariableNode "b" 1) "*" (VariableNode "c" 1) 1) 1)
          ⟨[], ⟨T_EOF, "", 1⟩⟩)) ∧
    Runs "print(2 + 3 * 4);" (.success [14]) ∧
    Runs "print((2 + 3) * 4);" (.success [20]) :=
  ⟨by decide,
    fun _ _ _ _ _ _ _ _ _ _ _ _ _ h1 hlo h2 hhi h3 hend hp hq hpq =>
      Parser.Runs.tighter_right h1 hlo h2 hhi h3 hend hp hq hpq,
    fun _ _ _ _ _ _ _ _ _ _ _ _ _ h1 hhi h2 hlo h3 hend hp hq hpq =>
      Parser.Runs.tighter_left h1 hhi h2 hlo h3 hend hp hq hpq,
    fun _ _ _ _ _ _ _ _ _ _ _ _ _ hopen h1 hop1 h2 hclose hop2 h3 hend hp hq =>
      Parser.Runs.parenthesised hopen h1 hop1 h2 hclose hop2 h3 hend hp hq,
    ⟨_, rfl, @Parser.FuelMono.runs _ _ Parser.expression_fuelMono 20 _ _ rfl (by simp)⟩,
    @Runs.runs_of_eq 100 _ _ (by decide) (by simp), @Runs.runs_of_eq 100 _ _ (by decide) (by simp)⟩

/-- C1, at an instance: the tokens `a < b - c` followed by end-of-input; `<` is
weaker than `-`, so the difference is the right operand of the comparison. -/
theorem C1_operator_precedence_witness :
    Parser.Runs Parser.expression
      ⟨[⟨T_OPERATOR, "<", 1⟩, ⟨T_IDENTIFIER, "b", 1⟩, ⟨T_OPERATOR, "-", 2⟩,
        ⟨T_IDENTIFIER, "c", 2⟩, ⟨T_EOF, "", 2⟩], ⟨T_IDENTIFIER, "a", 1⟩⟩
      (.ok (BinOpNode (VariableNode "a" 1) "<"
        (BinOpNode (VariableNode "b" 1) "-" (VariableNode "c" 2) 2) 1)
        ⟨[], ⟨T_EOF, "", 2⟩⟩) :=
  C1_operator_precedence.2.1
    ⟨[⟨T_OPERATOR, "<", 1⟩, ⟨T_IDENTIFIER, "b", 1⟩, ⟨T_OPERATOR, "-", 2⟩,
      ⟨T_IDENTIFIER, "c", 2⟩, ⟨T_EOF, "", 2⟩], ⟨T_IDENTIFIER, "a", 1⟩⟩
    ⟨[⟨T_IDENTIFIER, "b", 1⟩, ⟨T_OPERATOR, "-", 2⟩, ⟨T_IDENTIFIER, "c", 2⟩, ⟨T_EOF, "", 2⟩],
      ⟨T_OPERATOR, "<", 1⟩⟩
    ⟨[⟨T_IDENTIFIER, "c", 2⟩, ⟨T_EOF, "", 2⟩], ⟨T_OPERATOR, "-", 2⟩⟩
    ⟨[], ⟨T_EOF, "", 2⟩⟩
    (VariableNode "a" 1) (VariableNode "b" 1) (VariableNode "c" 2) "<" "-" 1 2 2 3
    (@Parser.FuelMono.runs _ _ Parser.unary_fuelMono 2 _ _ rfl (by simp)) rfl
    (@Parser.FuelMono.runs _ _ Parser.unary_fuelMono 2 _ _ rfl (by simp)) rfl
    (@Parser.FuelMono.runs _ _ Parser.unary_fuelMono 2 _ _ rfl (by simp)) (by decide)
    (by decide) (by decide) (by decide)

/-- C2: no short-circuiting.  For every binary operation node and every operator
text, a failure of the left operand, or of the right operand after the left one
has a value, is the result of the node, whatever the other operand is; when both
have values the operator is applied to the two of them.  Running
`print(0 == 0 / 0);` fails with the division-by-zero error of line 1 and prints
nothing; `print(1 / 1 == 1);` prints 1. -/
theorem C2_no_short_circuit :
    (∀ left op right line s e s1, Interpreter.Visits left s (.error e s1) →
        Interpreter.Visits (BinOpNode left op right line) s (.error e s1)) ∧
    (∀ left op right line s l s1 e s2, Interpreter.Visits left s (.value l s1) →
        Interpreter.Visits right s1 (.error e s2) →
        Interpreter.Visits (BinOpNode left op right line) s (.error e s2)) ∧
    (∀ left op right line s l s1 r s2, Interpreter.Visits left s (.value l s1) →
        Interpreter.Visits right s1 (.value r s2) →
        Interpreter.Visits (BinOpNode left op right line) s
          (Interpreter.applyOperator l op r line s2)) ∧
    Runs "print(0 == 0 / 0);" (.runtimeError (.divisionByZero 1) []) ∧
    Runs "print(1 / 1 == 1);" (.success [1]) :=
  ⟨fun _ _ _ _ _ _ _ h => h.binOp_left, fun _ _ _ _ _ _ _ _ _ h1 h2 => h1.binOp_right h2,
    fun _ _ _ _ _ _ _ _ _ h1 h2 => h1.binOp h2,
    @Runs.runs_of_eq 100 _ _ (by decide) (by simp), @Runs.runs_of_eq 100 _ _ (by decide) (by simp)⟩

/-- C2, at an instance: the left operand `1 / 0` fails, so `1 / 0 == 1` fails with
the same error although the right operand has a value. -/
theorem C2_no_short_circuit_witness :
    Interpreter.Visits
      (BinOpNode (BinOpNode (NumberNode 1 1) "/" (NumberNode 0 1) 1) "==" (NumberNode 1 1) 1)
      ⟨[], []⟩ (.error (.divisionByZero 1) ⟨[], []⟩) :=
  C2_no_short_circuit.1 _ _ _ _ _ _ _ (@Interpreter.Visits.visits_of_eq 3 _ _ _ (by decide) (by simp))

/-- C3: for every binary operation node whose operator is `/` or `%` and whose two
operands have values l and r, `INT_MIN` with -1 apart: the visit throws if and
only if r is 0, and what it throws cites the line of the node; when r is 0 it
throws with the state the right operand left, and otherwise it has a value.  At
`INT_MIN` with -1 the source divides unguarded, C++ defines no behaviour, and
nothing is stated of the visit but that it is undefined. -/
theorem C3_division_by_zero (left right : ASTNode) (op : String) (line : Nat)
    (s s1 s2 : Interpreter) (l r : Int) (hop : op = "/" ∨ op = "%")
    (hl : Interpreter.Visits left s (.value l s1))
    (hr : Interpreter.Visits right s1 (.value r s2)) :
    (¬ (l = INT_MIN ∧ r = -1) →
      ((∃ e s', Interpreter.Visits (BinOpNode left op right line) s (.error e s')) ↔ r = 0) ∧
      (∀ e s', Interpreter.Visits (BinOpNode left op right line) s (.error e s') →
        e.line = some line)) ∧
    (r = 0 → ∃ e, Interpreter.Visits (BinOpNode left op right line) s (.error e s2) ∧
      e.line = some line) ∧
    (r ≠ 0 → ¬ (l = INT_MIN ∧ r = -1) →
      ∃ v, Interpreter.Visits (BinOpNode left op right line) s (.value v s2)) ∧
    (l = INT_MIN ∧ r = -1 →
      Interpreter.Visits (BinOpNode left op right line) s .undefined) := by
  have h := @Interpreter.Visits.binOp left right op line s s1 s2 l r hl hr
  by_cases hr0 : r = 0
  · have hres : ∃ e, Interpreter.applyOperator l op r line s2 = .error e s2 ∧
        e.line = some line := by
      rcases hop with rfl | rfl
      · exact ⟨.divisionByZero line, by simp [Interpreter.applyOperator, hr0], rfl⟩
      · exact ⟨.moduloByZero line, by simp [Interpreter.applyOperator, hr0], rfl⟩
    obtain ⟨e, he, hline⟩ := hres
    rw [he] at h
    refine ⟨fun _ => ⟨⟨fun _ => hr0, fun _ => ⟨e, s2, h⟩⟩, fun e' s' h' => ?_⟩,
      fun _ => ⟨e, h, hline⟩, fun hne => absurd hr0 hne, fun hx => ?_⟩
    · have := h.visits_unique h'
      simp only [EvalResult.error.injEq] at this
      rw [← this.1]; exact hline
    · rw [hx.2] at hr0
      exact absurd hr0 (by decide)
  · by_cases hx : l = INT_MIN ∧ r = -1
    · have hres : Interpreter.applyOperator l op r line s2 = .undefined := by
        rcases hop with rfl | rfl
        · simp only [Interpreter.applyOperator, if_neg hr0, if_pos hx]
          simp
        · simp only [Interpreter.applyOperator, if_neg hr0, if_pos hx]
          simp
      rw [hres] at h
      exact ⟨fun hne => absurd hx hne, fun h0 => absurd h0 hr0, fun _ hne => absurd hx hne,
        fun _ => h⟩
    · have hres : ∃ v, Interpreter.applyOperator l op r line s2 = .value v s2 := by
        rcases hop with rfl | rfl
        · refine ⟨wrapInt (l.tdiv r), ?_⟩
          simp only [Interpreter.applyOperator, if_neg hr0, if_neg hx]
          simp
        · refine ⟨wrapInt (l.tmod r), ?_⟩
          simp only [Interpreter.applyOperator, if_neg hr0, if_neg hx]
          simp
      obtain ⟨v, hv⟩ := hres
      rw [hv] at h
      refine ⟨fun _ => ⟨⟨fun ⟨e', s', h'⟩ => ?_, fun h0 => absurd h0 hr0⟩, fun e' s' h' => ?_⟩,
        fun h0 => absurd h0 hr0, fun _ _ => ⟨v, h⟩, fun hx' => absurd hx' hx⟩
      · exact absurd (h.visits_unique h') (by simp)
      · exact absurd (h.visits_unique h') (by simp)

/-- C3, at instances: `7 % 0` on line 3 throws the error of line 3, and `7 / 2`
has a value. -/
theorem C3_division_by_zero_witness :
    (((∃ e s', Interpreter.Visits (BinOpNode (NumberNode 7 3) "%" (NumberNode 0 3) 3) ⟨[], []⟩
      (.error e s')) ↔ (0 : Int) = 0) ∧
    (∀ e s', Interpreter.Visits (BinOpNode (NumberNode 7 3) "%" (NumberNode 0 3) 3) ⟨[], []⟩
      (.error e s') → e.line = some 3)) ∧
    (∃ e, Interpreter.Visits (BinOpNode (NumberNode 7 3) "%" (NumberNode 0 3) 3) ⟨[], []⟩
      (.error e ⟨[], []⟩) ∧ e.line = some 3) ∧
    ∃ v, Interpreter.Visits (BinOpNode (NumberNode 7 1) "/" (NumberNode 2 1) 1) ⟨[], []⟩
      (.value v ⟨[], []⟩) :=
  have h := C3_division_by_zero (NumberNode 7 3) (NumberNode 0 3) "%" 3 ⟨[], []⟩ ⟨[], []⟩ ⟨[], []⟩
    7 0 (Or.inr rfl) (@Interpreter.Visits.visits_of_eq 1 _ _ _ (by decide) (by simp))
    (@Interpreter.Visits.visits_of_eq 1 _ _ _ (by decide) (by simp))
  ⟨h.1 (by decide), h.2.1 rfl,
    (C3_division_by_zero (NumberNode 7 1) (NumberNode 2 1) "/" 1 ⟨[], []⟩ ⟨[], []⟩ ⟨[], []⟩
      7 2 (Or.inl rfl) (@Interpreter.Visits.visits_of_eq 1 _ _ _ (by decide) (by simp))
      (@Interpreter.Visits.visits_of_eq 1 _ _ _ (by decide) (by simp))).2.2.1
      (by decide) (by decide)⟩

/-- C4: reading a variable that has no entry in the environment throws the
undefined-variable error of the reference's line and yields no value; the
program `print(y);` parses to one print statement of line 1, and running it
throws the undefined-variable error citing line 1 with nothing printed. -/
theorem C4_undefined_variable :
    (∀ (s : Interpreter) (y : String) (line : Nat), s.find y = none →
      Interpreter.Visits (VariableNode y line) s (.error (.undefinedVariable y line) s)) ∧
    ParsesTo "print(y);" (BlockNode [PrintNode (VariableNode "y" 1) 1] 1) ∧
    Runs "print(y);" (.runtimeError (.undefinedVariable "y" 1) []) ∧
    (RuntimeError.undefinedVariable "y" 1).line = some 1 := by
  refine ⟨fun s y line h => ⟨1, fun fuel hle => ?_⟩, ?_,
    @Runs.runs_of_eq 100 _ _ (by decide) (by simp), rfl⟩
  · obtain ⟨k, rfl⟩ := Nat.exists_eq_add_of_le hle
    have e : 1 + k = k + 1 := by omega
    rw [e]
    simp [Interpreter.visit, Interpreter.visitVariableNode, h]
  · exact ⟨_, _, rfl, @Parses.parses_of_eq 100 _ _ rfl (by simp)⟩

/-- C4, at an instance: the variable `y` in an environment that only has `x`. -/
theorem C4_undefined_variable_witness :
    Interpreter.Visits (VariableNode "y" 2) ⟨[("x", 5)], []⟩
      (.error (.undefinedVariable "y" 2) ⟨[("x", 5)], []⟩) :=
  C4_undefined_variable.1 ⟨[("x", 5)], []⟩ "y" 2 (by decide)

/-- C5: loop correctness.  For every integer literal (a non-empty run of digits)
whose value `n` is from 0 to 2147483647, and so for the decimal text of every such
`n`, the driver run on `x = 0; while (x < n) \x7b x = x + 1; \x7d print(x);`
terminates without an exception once it has enough fuel, and its output is
exactly the one line `n`; for the bound 5 the output is exactly 5. -/
theorem C5_loop_correctness :
    (∀ ds : List Char, ds ≠ [] → (∀ c ∈ ds, isdigit c = true) →
      decimalValue ds ≤ 2147483647 →
      Runs (loopSource ⟨ds⟩) (.success [(decimalValue ds : Int)])) ∧
    (∀ n : Nat, n ≤ 2147483647 → Runs (loopSource (toString n)) (.success [(n : Int)])) ∧
    loopSource "5" = "x = 0; while (x < 5) \x7b x = x + 1; \x7d print(x);" ∧
    Runs "x = 0; while (x < 5) \x7b x = x + 1; \x7d print(x);" (.success [5]) := by
  have key : ∀ ds : List Char, ds ≠ [] → (∀ c ∈ ds, isdigit c = true) →
      decimalValue ds ≤ 2147483647 →
      Runs (loopSource ⟨ds⟩) (.success [(decimalValue ds : Int)]) := by
    intro ds hne hd hn
    have hmax : (decimalValue ds : Int) ≤ INT_MAX := by unfold INT_MAX; omega
    have hstoi : stoi ⟨ds⟩ = .value (decimalValue ds) := by
      rw [stoi_digits hne hd, if_neg (not_lt.2 hmax)]
    obtain ⟨f0, hf0⟩ := parses_loopTokens ⟨ds⟩ (decimalValue ds) hstoi
    refine ⟨max f0 (decimalValue ds + 12), fun fuel hle => ?_⟩
    have hrun : interpret fuel (loopTree (decimalValue ds)) =
        .value 0 ⟨[("x", (decimalValue ds : Int))], [(decimalValue ds : Int)]⟩ := by
      have := interpret_loopTree (decimalValue ds) hmax (fuel - (decimalValue ds + 12))
      rwa [show fuel - (decimalValue ds + 12) + decimalValue ds + 12 = fuel by omega] at this
    unfold main
    rw [generateTokens_loopSource hne hd]
    simp only []
    rw [hf0 fuel (by omega)]
    simp only []
    rw [hrun]
  refine ⟨key, fun n hn => ?_, by decide, @Runs.runs_of_eq 100 _ _ (by decide) (by simp)⟩
  obtain ⟨hne, hd, hv⟩ := toString_nat_spec n
  have := key (toString n).data hne hd (by omega)
  rwa [hv] at this

/-- C5, at an instance: the literal `007`, whose value is 7. -/
theorem C5_loop_correctness_witness :
    Runs (loopSource "007") (.success [7]) :=
  C5_loop_correctness.1 ['0', '0', '7'] (by decide) (by decide) (by decide)

/-- C6: unary desugaring.  When the lookahead is the operator token `+`, `-` or
`!` and the operand after it parses (as a unary) to `node`, the unary parses to
the binary operation of that operator with a literal 0 on the left and `node` on
the right, both new nodes on the line of the operator token.  Running
`print(-5 + 3);` prints -2, `print(!0);` prints 1 and `print(!5);` prints 0. -/
theorem C6_unary_desugaring :
    (∀ (s s' : Parser) (op : String) (line : Nat) (node : ASTNode),
      s.currentToken = ⟨T_OPERATOR, op, line⟩ → (op = "+" ∨ op = "-" ∨ op = "!") →
      Parser.Runs Parser.unary s.advance (.ok node s') →
      Parser.Runs Parser.unary s (.ok (BinOpNode (NumberNode 0 line) op node line) s')) ∧
    Runs "print(-5 + 3);" (.success [-2]) ∧
    Runs "print(!0);" (.success [1]) ∧
    Runs "print(!5);" (.success [0]) := by
  refine ⟨fun s s' op line node hc hop h => ?_, @Runs.runs_of_eq 100 _ _ (by decide) (by simp),
    @Runs.runs_of_eq 100 _ _ (by decide) (by simp), @Runs.runs_of_eq 100 _ _ (by decide) (by simp)⟩
  obtain ⟨f, hf⟩ := h
  refine ⟨f + 1, fun fuel hle => ?_⟩
  obtain ⟨k, rfl⟩ := Nat.exists_eq_add_of_le hle
  have e : f + 1 + k = (f + k) + 1 := by omega
  rw [e]
  simp only [Parser.unary]
  rw [if_pos (by rw [hc]; exact ⟨rfl, hop⟩), hf _ (by omega), hc]
  rfl

/-- C6, at an instance: the two tokens `-` `5` followed by end-of-input. -/
theorem C6_unary_desugaring_witness :
    Parser.Runs Parser.unary ⟨[⟨T_NUMBER, "5", 1⟩, ⟨T_EOF, "", 1⟩], ⟨T_OPERATOR, "-", 1⟩⟩
      (.ok (BinOpNode (NumberNode 0 1) "-" (NumberNode 5 1) 1) ⟨[], ⟨T_EOF, "", 1⟩⟩) :=
  C6_unary_desugaring.1 _ _ "-" 1 _ rfl (by decide)
    (Parser.unary_fuelMono.runs (by rfl : Parser.unary 2 _ = _) (by simp))

/-- C8: tokenizing `x = 10;` yields exactly the identifier `x`, the assign token,
the integer literal `10`, the semicolon and the end-of-input token, in this order,
each on line 1. -/
theorem C8_tokenize_assignment :
    generateTokens "x = 10;".toList =
      .ok [⟨T_IDENTIFIER, "x", 1⟩, ⟨T_ASSIGN, "=", 1⟩, ⟨T_NUMBER, "10", 1⟩,
        ⟨T_SEMICOLON, ";", 1⟩, ⟨T_EOF, "", 1⟩] := by
  decide

/-- C9, as stated, fails: a source can contain a digit sequence whose value is
above `INT_MAX` and run to its end.  In `print(1);` followed by a NUL character
and ` 99999999999` the scan ends at the NUL character, before the digits, and in
`a99999999999 = 1; print(a99999999999);` the digits are part of an identifier:
both sources are tokenized and parsed, and both runs print 1. -/
theorem C9_digit_sequence_counterexample :
    INT_MAX < (decimalValue "99999999999".toList : Int) ∧
    Runs "print(1);\x00 99999999999" (.success [1]) ∧
    ParsesTo "print(1);\x00 99999999999" (BlockNode [PrintNode (NumberNode 1 1) 1] 1) ∧
    Runs "a99999999999 = 1; print(a99999999999);" (.success [1]) ∧
    ParsesTo "a99999999999 = 1; print(a99999999999);"
      (BlockNode [AssignNode "a99999999999" (NumberNode 1 1) 1,
        PrintNode (VariableNode "a99999999999" 1) 1] 1) :=
  ⟨by decide, @Runs.runs_of_eq 100 _ _ (by decide) (by simp),
    ⟨_, _, rfl, @Parses.parses_of_eq 100 _ _ rfl (by simp)⟩,
    @Runs.runs_of_eq 100 _ _ (by decide) (by simp),
    ⟨_, _, rfl, @Parses.parses_of_eq 100 _ _ rfl (by simp)⟩⟩

/-- C9, amended to the digit sequences that the lexer reads as number tokens:
integer literals that do not fit `int` are rejected, never wrapped or
truncated.  At a number token whose text is a non-empty run of digits, `primary`
throws the `std::out_of_range` of `std::stoi` when the decimal value of the text
is above `INT_MAX`, and otherwise returns the literal with exactly that value.
For every source whose token queue holds a number token with a value above
`INT_MAX`, the driver ends in a parser exception once it has enough fuel, and the
parser returns a tree with no fuel at all; `x = 99999999999;` is such a source. -/
theorem C9_literal_overflow_rejected :
    (∀ (s : Parser) (fuel : Nat), s.currentToken.type = T_NUMBER →
      s.currentToken.value.data ≠ [] → (∀ c ∈ s.currentToken.value.data, isdigit c = true) →
      Parser.primary (fuel + 1) s =
        if INT_MAX < (decimalValue s.currentToken.value.data : Int) then
          .error .stoiOutOfRange
        else
          .ok (NumberNode (decimalValue s.currentToken.value.data) s.currentToken.lineNumber)
            s.advance) ∧
    (∀ (code : String) (tokens : List Token) (t : Token),
      generateTokens code.toList = .ok tokens → t ∈ tokens → t.type = T_NUMBER →
      INT_MAX < (decimalValue t.value.toList : Int) →
      (∃ e, Runs code (.parseError e)) ∧ ∀ fuel root s, parse fuel tokens ≠ .ok root s) ∧
    Runs "x = 99999999999;" (.parseError .stoiOutOfRange) := by
  refine ⟨fun s fuel hc hne hd => ?_, fun code tokens t hlex ht hnum hbig =>
    parse_rejects_overflow hlex ht hnum hbig, @Runs.runs_of_eq 100 _ _ (by decide) (by simp)⟩
  have hs : stoi s.currentToken.value = _ := stoi_digits hne hd
  rw [Parser.primary, if_pos hc, hs]
  split_ifs <;> rfl

/-- C9, at an instance: the source `x = 99999999999;` and its number token. -/
theorem C9_literal_overflow_rejected_witness :
    (∃ e, Runs "x = 99999999999;" (.parseError e)) ∧
    ∀ fuel root s,
      parse fuel [⟨T_IDENTIFIER, "x", 1⟩, ⟨T_ASSIGN, "=", 1⟩, ⟨T_NUMBER, "99999999999", 1⟩,
        ⟨T_SEMICOLON, ";", 1⟩, ⟨T_EOF, "", 1⟩] ≠ .ok root s :=
  C9_literal_overflow_rejected.2.1 "x = 99999999999;"
    [⟨T_IDENTIFIER, "x", 1⟩, ⟨T_ASSIGN, "=", 1⟩, ⟨T_NUMBER, "99999999999", 1⟩,
      ⟨T_SEMICOLON, ";", 1⟩, ⟨T_EOF, "", 1⟩]
    ⟨T_NUMBER, "99999999999", 1⟩ (by decide) (by decide) rfl (by decide)

/-- C10, at the failing input: the driver run on `x = 99999999999;` ends in the
`std::out_of_range` exception of `std::stoi`, whose text is `stoi` and which cites
no line. -/
theorem C10_literal_overflow_has_no_line :
    Runs "x = 99999999999;" (.parseError .stoiOutOfRange) ∧
    ParseError.stoiOutOfRange.line = none ∧ ParseError.stoiOutOfRange.what = "stoi" :=
  ⟨@Runs.runs_of_eq 100 _ _ (by decide) (by simp), rfl, rfl⟩

/-- C11, as stated, fails: values are not 64 bits wide.  Running
`x = 2147483647; print(x + 1);` prints -2147483648, the sum wrapped to the 32 bits
of `int`, and not 2147483648; and `x = 2147483648; print(x);` does not run at all,
the literal being outside the range of `int`. -/
theorem C11_sixty_four_bit_counterexample :
    Runs "x = 2147483647; print(x + 1);" (.success [-2147483648]) ∧
    ¬ Runs "x = 2147483647; print(x + 1);" (.success [2147483648]) ∧
    Runs "x = 2147483648; print(x);" (.parseError .stoiOutOfRange) :=
  ⟨@Runs.runs_of_eq 100 _ _ (by decide) (by simp),
    fun h => absurd
      (Runs.run_unique h
        (@Runs.runs_of_eq 100 "x = 2147483647; print(x + 1);" (.success [-2147483648])
          (by decide) (by simp)))
      (by decide),
    @Runs.runs_of_eq 100 _ _ (by decide) (by simp)⟩

/-- C11, amended: values are 32-bit `int`s.  For all operand values `l` and `r`
whose exact sum, difference or product lies between `INT_MIN` and `INT_MAX`,
the binary operation `+`, `-` or `*` on operands with these values yields the exact
result; an assignment whose value expression yields `v` yields `v` and stores
`v` itself under its name; running `x = 2147483646; print(x + 1);` prints
2147483647. -/
theorem C11_int_arithmetic_exact :
    (∀ (left right : ASTNode) (line : Nat) (s s1 s2 : Interpreter) (l r : Int),
      Interpreter.Visits left s (.value l s1) → Interpreter.Visits right s1 (.value r s2) →
      (INT_MIN ≤ l + r → l + r ≤ INT_MAX →
        Interpreter.Visits (BinOpNode left "+" right line) s (.value (l + r) s2)) ∧
      (INT_MIN ≤ l - r → l - r ≤ INT_MAX →
        Interpreter.Visits (BinOpNode left "-" right line) s (.value (l - r) s2)) ∧
      (INT_MIN ≤ l * r → l * r ≤ INT_MAX →
        Interpreter.Visits (BinOpNode left "*" right line) s (.value (l * r) s2))) ∧
    (∀ (name : String) (value : ASTNode) (line : Nat) (s s1 : Interpreter) (v : Int),
      Interpreter.Visits value s (.value v s1) →
      Interpreter.Visits (AssignNode name value line) s (.value v (s1.assign name v)) ∧
        (s1.assign name v).find name = some v) ∧
    Runs "x = 2147483646; print(x + 1);" (.success [2147483647]) :=
  ⟨fun left right line s s1 s2 l r hl hr =>
    ⟨fun h1 h2 => Interpreter.applyOperator_add l r line s2 h1 h2 ▸ hl.binOp hr,
      fun h1 h2 => Interpreter.applyOperator_sub l r line s2 h1 h2 ▸ hl.binOp hr,
      fun h1 h2 => Interpreter.applyOperator_mul l r line s2 h1 h2 ▸ hl.binOp hr⟩,
    fun name _ _ _ s1 v h => ⟨h.assign, lookup_assignEntry_self name v s1.vars⟩,
    @Runs.runs_of_eq 100 _ _ (by decide) (by simp)⟩

/-- C11 (amended), at an instance: `2147483646 + 1` is within the range of `int`,
so the sum of the two literals is 2147483647. -/
theorem C11_int_arithmetic_exact_witness :
    Interpreter.Visits (BinOpNode (NumberNode 2147483646 1) "+" (NumberNode 1 1) 1) ⟨[], []⟩
      (.value (2147483646 + 1) ⟨[], []⟩) :=
  (C11_int_arithmetic_exact.1 (NumberNode 2147483646 1) (NumberNode 1 1) 1 ⟨[], []⟩ ⟨[], []⟩
    ⟨[], []⟩ 2147483646 1
    (@Interpreter.Visits.visits_of_eq 1 _ _ _ rfl (by simp))
    (@Interpreter.Visits.visits_of_eq 1 _ _ _ rfl (by simp))).1 (by decide) (by decide)

/-- C12: division and remainder truncate toward zero.  For all values `l` and `r`
of `int` with `r` not 0, but for `l = INT_MIN` with `r = -1`, the binary operation
`/` on operands with these values yields the quotient `q` rounded toward zero and
`%` yields `m = l - q * r`: the magnitude of `q` is the magnitude of `l` divided by
that of `r`, rounded down, `q` is not negative when `l` and `r` have the same sign
and not positive when they have opposite signs, and `m` is smaller in magnitude
than `r` and has the sign of the dividend `l` or is 0.  Running `print(-7 / 2);`
prints -3 and `print(-7 % 2);` prints -1. -/
theorem C12_truncating_division :
    (∀ (left right : ASTNode) (line : Nat) (s s1 s2 : Interpreter) (l r : Int),
      Interpreter.Visits left s (.value l s1) → Interpreter.Visits right s1 (.value r s2) →
      INT_MIN ≤ l → l ≤ INT_MAX → INT_MIN ≤ r → r ≤ INT_MAX → r ≠ 0 →
      ¬ (l = INT_MIN ∧ r = -1) →
      ∃ q m : Int,
        Interpreter.Visits (BinOpNode left "/" right line) s (.value q s2) ∧
        Interpreter.Visits (BinOpNode left "%" right line) s (.value m s2) ∧
        q = l.tdiv r ∧ q.natAbs = l.natAbs / r.natAbs ∧
        (0 ≤ l → 0 < r → 0 ≤ q) ∧ (l ≤ 0 → r < 0 → 0 ≤ q) ∧
        (0 ≤ l → r < 0 → q ≤ 0) ∧ (l ≤ 0 → 0 < r → q ≤ 0) ∧
        m = l - q * r ∧ m.natAbs < r.natAbs ∧ (0 ≤ l → 0 ≤ m) ∧ (l ≤ 0 → m ≤ 0)) ∧
    Runs "print(-7 / 2);" (.success [-3]) ∧
    Runs "print(-7 % 2);" (.success [-1]) := by
  refine ⟨fun left right line s s1 s2 l r hl hr hl1 hl2 hr1 hr2 hr0 hne => ?_,
    @Runs.runs_of_eq 100 _ _ (by decide) (by simp),
    @Runs.runs_of_eq 100 _ _ (by decide) (by simp)⟩
  have hspec := tdiv_tmod_spec l r hr0
  refine ⟨l.tdiv r, l.tmod r,
    Interpreter.applyOperator_div l r line s2 hl1 hl2 hr0 hne ▸ hl.binOp hr,
    Interpreter.applyOperator_mod l r line s2 hr1 hr2 hr0 hne ▸ hl.binOp hr,
    rfl, Int.natAbs_tdiv l r, ?_, ?_, ?_, ?_, by have := hspec.1; omega, hspec.2.1,
    hspec.2.2.1, hspec.2.2.2⟩
  · intro h1 h2
    exact Int.tdiv_nonneg h1 (le_of_lt h2)
  · intro h1 h2
    have := @Int.tdiv_nonneg (-l) (-r) (by omega) (by omega)
    rwa [Int.neg_tdiv_neg] at this
  · intro h1 h2
    exact Int.tdiv_nonpos h1 (le_of_lt h2)
  · intro h1 h2
    have := @Int.tdiv_nonneg (-l) r (by omega) (by omega)
    rw [Int.neg_tdiv] at this
    omega

/-- C12, at an instance: the literals -7 and 2; the quotient is -3, the remainder -1. -/
theorem C12_truncating_division_witness :
    ∃ q m : Int,
      Interpreter.Visits (BinOpNode (NumberNode (-7) 1) "/" (NumberNode 2 1) 1) ⟨[], []⟩
        (.value q ⟨[], []⟩) ∧
      Interpreter.Visits (BinOpNode (NumberNode (-7) 1) "%" (NumberNode 2 1) 1) ⟨[], []⟩
        (.value m ⟨[], []⟩) ∧
      q = (-7 : Int).tdiv 2 ∧ q.natAbs = (-7 : Int).natAbs / (2 : Int).natAbs ∧
      ((0 : Int) ≤ -7 → (0 : Int) < 2 → 0 ≤ q) ∧ ((-7 : Int) ≤ 0 → (2 : Int) < 0 → 0 ≤ q) ∧
      ((0 : Int) ≤ -7 → (2 : Int) < 0 → q ≤ 0) ∧ ((-7 : Int) ≤ 0 → (0 : Int) < 2 → q ≤ 0) ∧
      m = -7 - q * 2 ∧ m.natAbs < (2 : Int).natAbs ∧ ((0 : Int) ≤ -7 → 0 ≤ m) ∧
      ((-7 : Int) ≤ 0 → m ≤ 0) :=
  C12_truncating_division.1 (NumberNode (-7) 1) (NumberNode 2 1) 1 ⟨[], []⟩ ⟨[], []⟩ ⟨[], []⟩
    (-7) 2
    (@Interpreter.Visits.visits_of_eq 1 _ _ _ rfl (by simp))
    (@Interpreter.Visits.visits_of_eq 1 _ _ _ rfl (by simp))
    (by decide) (by decide) (by decide) (by decide) (by decide) (by decide)

/-- C13, as stated, fails: a NUL character is none of the characters accepted
where a token would start, yet the lexer does not fail when it reaches one: it
takes it for the end of the source. -/
theorem C13_nul_counterexample :
    acceptedAtStart '\x00' = false ∧
    generateTokens ['\x00'] = .ok [⟨T_EOF, "", 1⟩] ∧
    generateTokens ['x', '\x00', '$'] = .ok [⟨T_IDENTIFIER, "x", 1⟩, ⟨T_EOF, "", 1⟩] := by
  decide

/-- C13, amended: the lexer fails exactly on the characters it does not accept,
short of a NUL.  For every source, the lexer raises an exception if and only if
the scan, which ends at the first NUL as it does at the end of the source, reaches
where a token would start a character that is not white space, a letter, a digit
or one of `+ - * / % = ! < > ; ( ) { }` (an underscore continues an identifier and
is not accepted elsewhere); the exception carries the first such character and the
line it is on, 1 plus the number of newlines before it; and when the scan reaches
no such character the lexer returns a queue.  The character `firstRejected` names
is the one at the offset it gives, is not accepted where a token would start, and
no NUL stands before it.  So `a_1 = $;` fails on `$`, `_a` on the underscore, and a
`#` on the second line is reported with line 2. -/
theorem C13_lex_error_exactly :
    (∀ (source : List Char),
      ((∃ e, generateTokens source = .error e) ↔
        ∃ c i, firstRejected .start 0 source = some (c, i)) ∧
      (∀ c i, firstRejected .start 0 source = some (c, i) →
        generateTokens source = .error (.unknownCharacter c (1 + newlines (source.take i))) ∧
        source[i]? = some c ∧ acceptedAtStart c = false ∧ c ≠ '\x00' ∧
        ∀ d ∈ source.take i, d ≠ '\x00') ∧
      (firstRejected .start 0 source = none → ∃ tokens, generateTokens source = .ok tokens)) ∧
    generateTokens "a_1 = $;".toList = .error (.unknownCharacter '$' 1) ∧
    generateTokens "_a".toList = .error (.unknownCharacter '_' 1) ∧
    generateTokens "x = 1;\ny = #;".toList = .error (.unknownCharacter '#' 2) := by
  refine ⟨fun source => ?_, by decide, by decide, by decide⟩
  have h : ScanAgrees [] source 1 [] :=
    lexFrom_scanAgrees (source.length + 1) source (Nat.lt_succ_self _) [] 1 [] rfl
  have hsome : ∀ c i, firstRejected .start 0 source = some (c, i) →
      generateTokens source = .error (.unknownCharacter c (1 + newlines (source.take i))) :=
    fun c i hc => h.2 c i hc
  refine ⟨⟨fun ⟨e, he⟩ => ?_, fun ⟨c, i, hc⟩ => ⟨_, hsome c i hc⟩⟩, fun c i hc => ?_, h.1⟩
  · cases hfr : firstRejected .start 0 source with
    | none =>
      obtain ⟨tokens, ht⟩ := h.1 hfr
      rw [generateTokens_eq_lexFrom, ht] at he
      cases he
    | some p => exact ⟨p.1, p.2, rfl⟩
  · obtain ⟨k, hk, hget, hacc, hc0, hpre⟩ := firstRejected_spec source .start 0 c i hc
    have hik : i = k := by omega
    subst hik
    exact ⟨hsome c i hc, hget, hacc, hc0, hpre⟩

/-- C14, as stated, fails for the end-of-input token: in a source with a NUL
followed by newlines, its line does not count the newlines after the NUL. -/
theorem C14_nul_counterexample :
    generateTokens ['x', '\x00', '\n', '\n'] =
      .ok [⟨T_IDENTIFIER, "x", 1⟩, ⟨T_EOF, "", 1⟩] ∧
    1 + newlines ['x', '\x00', '\n', '\n'] = 3 := by
  decide

/-- C14, amended: token line numbers.  For every source on which the lexer
succeeds, the tokens lie in the source in their order with only white space
between them (`Layout`), and the line of each token is 1 plus the number of
newlines before its first character; the line of the end-of-input token is 1
plus the number of newlines in the part of the source the lexer scans, which is
the source up to its first NUL, so 1 plus the total number of newlines when the
source has no NUL.  When the lexer fails, the line it reports is 1 plus the
number of newlines before the offending character. -/
theorem C14_token_lines :
    (∀ (source : List Char) (tokens : List Token), generateTokens source = .ok tokens →
      Layout [] source tokens ∧
      ∃ body line, tokens = body ++ [⟨T_EOF, "", line⟩] ∧
        line = 1 + newlines (scanned source) ∧
        ('\x00' ∉ source → line = 1 + newlines source)) ∧
    (∀ (source : List Char) (c : Char) (line : Nat),
      generateTokens source = .error (.unknownCharacter c line) →
      ∃ i, firstRejected .start 0 source = some (c, i) ∧ source[i]? = some c ∧
        line = 1 + newlines (source.take i)) := by
  refine ⟨fun source tokens h => ?_, fun source c line h => ?_⟩
  · obtain ⟨new, hnew, hlay⟩ :=
      lexFrom_layout (source.length + 1) source (Nat.lt_succ_self _) [] 1 [] tokens rfl h
    rw [List.nil_append] at hnew
    subst hnew
    obtain ⟨body, line, hbody, hline⟩ := hlay.eof_line
    rw [List.nil_append] at hline
    refine ⟨hlay, body, line, hbody, hline, fun hno => ?_⟩
    rw [hline, scanned_of_no_nul hno]
  · have hs : ScanAgrees [] source 1 [] :=
      lexFrom_scanAgrees (source.length + 1) source (Nat.lt_succ_self _) [] 1 [] rfl
    cases hfr : firstRejected .start 0 source with
    | none =>
      obtain ⟨tokens, ht⟩ := hs.1 hfr
      rw [generateTokens_eq_lexFrom, ht] at h
      cases h
    | some p =>
      obtain ⟨c', i⟩ := p
      have he := hs.2 c' i hfr
      rw [← generateTokens_eq_lexFrom, h] at he
      cases he
      obtain ⟨k, hk, hget, _⟩ := firstRejected_spec source .start 0 c i hfr
      have hik : i = k := by omega
      subst hik
      exact ⟨i, rfl, hget, rfl⟩

/-- C14 (amended), at an instance: in `a` newline `b`, the token `b` and the
end-of-input token have line 2. -/
theorem C14_token_lines_witness :
    Layout [] ['a', '\n', 'b'] [⟨T_IDENTIFIER, "a", 1⟩, ⟨T_IDENTIFIER, "b", 2⟩, ⟨T_EOF, "", 2⟩] ∧
      ∃ body line,
        ([⟨T_IDENTIFIER, "a", 1⟩, ⟨T_IDENTIFIER, "b", 2⟩, ⟨T_EOF, "", 2⟩] : List Token) =
          body ++ [⟨T_EOF, "", line⟩] ∧
        line = 1 + newlines (scanned ['a', '\n', 'b']) ∧
        ('\x00' ∉ ['a', '\n', 'b'] → line = 1 + newlines ['a', '\n', 'b']) :=
  C14_token_lines.1 ['a', '\n', 'b'] _ (by decide)

/-- C15: all binary operators are left-associative.  For every strength `k` (1 for
`==`, `!=`; 2 for `<`, `<=`, `>`, `>=`; 3 for `+`, `-`; 4 for `*`, `/`, `%`), all
operators `op1` and `op2` of strength `k` and all operands `e1`, `e2`, `e3` read by
the procedure of the operands of that strength (`Parser.atLevel (k + 1)`:
`comparison`, `term`, `factor`, `unary`), the chain `e1 op1 e2 op2 e3`, followed by
no further operator of strength `k`, is read by the procedure of strength `k` as
`op2` applied to `op1` of `e1` and `e2` and to `e3`; and by `expression` when no
operator at all follows the chain.  So `a - b - c` parses to the difference of
the difference of `a` and `b` and of `c`; running `print(10 - 3 - 2);` prints 5
and running `print(100 / 10 / 5);` prints 2. -/
theorem C15_left_associative :
    (∀ (k : Nat) (s0 s1 s2 s3 : Parser) (n1 n2 n3 : ASTNode) (op1 op2 : String)
      (l1 l2 : Nat), 1 ≤ k → k ≤ 4 →
      Parser.Runs (Parser.atLevel (k + 1)) s0 (.ok n1 s1) →
      s1.currentToken = ⟨T_OPERATOR, op1, l1⟩ →
      Parser.Runs (Parser.atLevel (k + 1)) s1.advance (.ok n2 s2) →
      s2.currentToken = ⟨T_OPERATOR, op2, l2⟩ →
      Parser.Runs (Parser.atLevel (k + 1)) s2.advance (.ok n3 s3) →
      precedence op1 = some k → precedence op2 = some k →
      (¬ s3.currentToken.isOperatorOfLevel k →
        Parser.Runs (Parser.atLevel k) s0
          (.ok (BinOpNode (BinOpNode n1 op1 n2 l1) op2 n3 l2) s3)) ∧
      (s3.currentToken.type ≠ T_OPERATOR →
        Parser.Runs Parser.expression s0
          (.ok (BinOpNode (BinOpNode n1 op1 n2 l1) op2 n3 l2) s3))) ∧
    (∃ tokens, generateTokens "a - b - c".toList = .ok tokens ∧
      Parser.Runs Parser.expression (Parser.new tokens)
        (.ok (BinOpNode (BinOpNode (VariableNode "a" 1) "-" (VariableNode "b" 1) 1) "-"
          (VariableNode "c" 1) 1)
          ⟨[], ⟨T_EOF, "", 1⟩⟩)) ∧
    Runs "print(10 - 3 - 2);" (.success [5]) ∧
    Runs "print(100 / 10 / 5);" (.success [2]) := by
  refine ⟨fun k s0 s1 s2 s3 n1 n2 n3 op1 op2 l1 l2 hk1 hk4 h1 hop1 h2 hop2 h3 hp1 hp2 => ?_,
    ⟨_, rfl, @Parser.FuelMono.runs _ _ Parser.expression_fuelMono 20 _ _ rfl (by simp)⟩,
    @Runs.runs_of_eq 100 _ _ (by decide) (by simp),
    @Runs.runs_of_eq 100 _ _ (by decide) (by simp)⟩
  have key : ¬ s3.currentToken.isOperatorOfLevel k →
      Parser.Runs (Parser.atLevel k) s0
        (.ok (BinOpNode (BinOpNode n1 op1 n2 l1) op2 n3 l2) s3) := by
    intro hnot
    have h := Parser.Runs.chain_at hk1 hk4 h1 (by rw [hop1]; exact ⟨rfl, hp1⟩) h2
      (by rw [hop2]; exact ⟨rfl, hp2⟩) h3 hnot
    rw [hop1, hop2] at h
    exact h
  refine ⟨key, fun hend => ?_⟩
  exact Parser.Runs.lift (Nat.zero_le k) (by omega)
    (fun i _ _ => Token.not_isOperatorOfLevel_of_type hend i)
    (key (Token.not_isOperatorOfLevel_of_type hend k))

/-- C15, at an instance: the tokens `a / b % c` followed by end-of-input, read by
`factor`; the quotient is grouped first. -/
theorem C15_left_associative_witness :
    Parser.Runs (Parser.atLevel 4)
      ⟨[⟨T_OPERATOR, "/", 1⟩, ⟨T_IDENTIFIER, "b", 1⟩, ⟨T_OPERATOR, "%", 2⟩,
        ⟨T_IDENTIFIER, "c", 2⟩, ⟨T_EOF, "", 2⟩], ⟨T_IDENTIFIER, "a", 1⟩⟩
      (.ok (BinOpNode (BinOpNode (VariableNode "a" 1) "/" (VariableNode "b" 1) 1) "%"
        (VariableNode "c" 2) 2)
        ⟨[], ⟨T_EOF, "", 2⟩⟩) :=
  (C15_left_associative.1 4
    ⟨[⟨T_OPERATOR, "/", 1⟩, ⟨T_IDENTIFIER, "b", 1⟩, ⟨T_OPERATOR, "%", 2⟩,
      ⟨T_IDENTIFIER, "c", 2⟩, ⟨T_EOF, "", 2⟩], ⟨T_IDENTIFIER, "a", 1⟩⟩
    ⟨[⟨T_IDENTIFIER, "b", 1⟩, ⟨T_OPERATOR, "%", 2⟩, ⟨T_IDENTIFIER, "c", 2⟩, ⟨T_EOF, "", 2⟩],
      ⟨T_OPERATOR, "/", 1⟩⟩
    ⟨[⟨T_IDENTIFIER, "c", 2⟩, ⟨T_EOF, "", 2⟩], ⟨T_OPERATOR, "%", 2⟩⟩
    ⟨[], ⟨T_EOF, "", 2⟩⟩
    (VariableNode "a" 1) (VariableNode "b" 1) (VariableNode "c" 2) "/" "%" 1 2
    (by decide) (by decide)
    (@Parser.FuelMono.runs _ _ Parser.unary_fuelMono 2 _ _ rfl (by simp)) rfl
    (@Parser.FuelMono.runs _ _ Parser.unary_fuelMono 2 _ _ rfl (by simp)) rfl
    (@Parser.FuelMono.runs _ _ Parser.unary_fuelMono 2 _ _ rfl (by simp))
    (by decide) (by decide)).1
    (Token.not_isOperatorOfLevel_of_type (by decide) 4)

/-- C16: assignment.  For every assignment node whose value is an expression node
(a number, a variable or a binary operation of such nodes, as the grammar has it)
and every state in which the value expression yields `v`, the assignment yields
`v` and leaves the state in which its name maps to `v`, created or overwritten,
every other name maps as before and the output is as before; if the value
expression throws, the assignment throws the same and the state is unchanged.
For a value node of any kind the same holds of the state that the visit of the
value node left: the name maps to `v`, every other name as in that state, and on
a failure nothing is stored. -/
theorem C16_assignment_frame :
    (∀ (name : String) (value : ASTNode) (line : Nat) (s s1 : Interpreter) (v : Int),
      value.IsExpression → Interpreter.Visits value s (.value v s1) →
      Interpreter.Visits (AssignNode name value line) s (.value v (s.assign name v)) ∧
        (s.assign name v).find name = some v ∧
        (∀ other, other ≠ name → (s.assign name v).find other = s.find other) ∧
        (s.assign name v).output = s.output) ∧
    (∀ (name : String) (value : ASTNode) (line : Nat) (s s1 : Interpreter)
      (e : RuntimeError),
      value.IsExpression → Interpreter.Visits value s (.error e s1) →
      Interpreter.Visits (AssignNode name value line) s (.error e s)) ∧
    (∀ (name : String) (value : ASTNode) (line : Nat) (s s1 : Interpreter) (v : Int),
      Interpreter.Visits value s (.value v s1) →
      Interpreter.Visits (AssignNode name value line) s (.value v (s1.assign name v)) ∧
        (s1.assign name v).find name = some v ∧
        (∀ other, other ≠ name → (s1.assign name v).find other = s1.find other) ∧
        (s1.assign name v).output = s1.output) ∧
    (∀ (name : String) (value : ASTNode) (line : Nat) (s s1 : Interpreter)
      (e : RuntimeError),
      Interpreter.Visits value s (.error e s1) →
      Interpreter.Visits (AssignNode name value line) s (.error e s1)) := by
  have general : ∀ (name : String) (value : ASTNode) (line : Nat) (s s1 : Interpreter)
      (v : Int), Interpreter.Visits value s (.value v s1) →
      Interpreter.Visits (AssignNode name value line) s (.value v (s1.assign name v)) ∧
        (s1.assign name v).find name = some v ∧
        (∀ other, other ≠ name → (s1.assign name v).find other = s1.find other) ∧
        (s1.assign name v).output = s1.output :=
    fun name _ _ _ s1 v h =>
      ⟨h.assign, lookup_assignEntry_self name v s1.vars,
        fun _ ho => lookup_assignEntry_other ho v s1.vars, rfl⟩
  refine ⟨fun name value line s s1 v hx h => ?_, fun name value line s s1 e hx h => ?_,
    general, fun _ _ _ _ _ _ h => h.assign_error⟩
  · have hs : s1 = s := (Interpreter.Visits.expression_state hx).1 v h
    subst hs
    exact general name value line s1 s1 v h
  · have hs : s1 = s := (Interpreter.Visits.expression_state hx).2 e h
    subst hs
    exact h.assign_error

/-- C16, at an instance: `x = y + 1` in a state where `y` is 2 and `x` is 7. -/
theorem C16_assignment_frame_witness :
    Interpreter.Visits
        (AssignNode "x" (BinOpNode (VariableNode "y" 1) "+" (NumberNode 1 1) 1) 1)
        ⟨[("x", 7), ("y", 2)], []⟩
        (.value 3 ((⟨[("x", 7), ("y", 2)], []⟩ : Interpreter).assign "x" 3)) ∧
      ((⟨[("x", 7), ("y", 2)], []⟩ : Interpreter).assign "x" 3).find "x" = some 3 ∧
      (∀ other, other ≠ "x" →
        ((⟨[("x", 7), ("y", 2)], []⟩ : Interpreter).assign "x" 3).find other =
          (⟨[("x", 7), ("y", 2)], []⟩ : Interpreter).find other) ∧
      ((⟨[("x", 7), ("y", 2)], []⟩ : Interpreter).assign "x" 3).output =
        (⟨[("x", 7), ("y", 2)], []⟩ : Interpreter).output :=
  C16_assignment_frame.1 "x" (BinOpNode (VariableNode "y" 1) "+" (NumberNode 1 1) 1) 1
    ⟨[("x", 7), ("y", 2)], []⟩ ⟨[("x", 7), ("y", 2)], []⟩ 3
    (.ofBinOp "+" 1 (.ofVariable "y" 1) (.ofNumber 1 1))
    (@Interpreter.Visits.visits_of_eq 3 _ _ _ (by decide) (by simp))

/-- C17: blocks open no scope.  For every block and every state, what the block
does (the final state, that is the variables and the output, or the failure and
the state at the failure) is what its statements do when they are evaluated one
after another from the same state, each in the state the one before it left.  The
state after an `if` is the state its branch left, and every turn of a `while`
starts in the state its body left.  So a variable first assigned in a block, in
an `if` branch or in a `while` body is readable after it:
`{ x = 1; } print(x);` prints 1. -/
theorem C17_blocks_open_no_scope :
    (∀ (stmts : List ASTNode) (line : Nat) (s : Interpreter) (r : EvalResult),
      Interpreter.Sequence stmts s r → Interpreter.Visits (BlockNode stmts line) s r) ∧
    (∀ (stmts : List ASTNode) (line : Nat) (s : Interpreter) (r : EvalResult),
      Interpreter.Visits (BlockNode stmts line) s r → r ≠ .timeout →
      Interpreter.Sequence stmts s r) ∧
    (∀ (condition trueBlock : ASTNode) (falseBlock : Option ASTNode) (line : Nat)
      (s s1 s2 : Interpreter) (c v : Int),
      Interpreter.Visits condition s (.value c s1) → c ≠ 0 →
      Interpreter.Visits trueBlock s1 (.value v s2) →
      Interpreter.Visits (IfNode condition trueBlock falseBlock line) s (.value 0 s2)) ∧
    (∀ (condition trueBlock node : ASTNode) (line : Nat) (s s1 s2 : Interpreter) (v : Int),
      Interpreter.Visits condition s (.value 0 s1) →
      Interpreter.Visits node s1 (.value v s2) →
      Interpreter.Visits (IfNode condition trueBlock (some node) line) s (.value 0 s2)) ∧
    (∀ (condition block : ASTNode) (line : Nat) (s s1 s2 : Interpreter) (c v : Int)
      (r : EvalResult),
      Interpreter.Visits condition s (.value c s1) → c ≠ 0 →
      Interpreter.Visits block s1 (.value v s2) →
      Interpreter.Visits (WhileNode condition block line) s2 r →
      Interpreter.Visits (WhileNode condition block line) s r) ∧
    Runs "\x7b x = 1; \x7d print(x);" (.success [1]) ∧
    Runs "if (1) x = 2; print(x);" (.success [2]) ∧
    Runs "y = 0; while (y < 1) \x7b x = 3; y = y + 1; \x7d print(x);" (.success [3]) :=
  ⟨fun _ line _ _ h => h.visits_block line, fun _ _ _ _ h hr => h.sequence_of_block hr,
    fun _ _ _ _ _ _ _ _ _ hc hne hb => hc.if_true hne hb,
    fun _ _ _ _ _ _ _ _ hc hb => hc.if_false hb,
    fun _ _ _ _ _ _ _ _ _ hc hne hb hw => hc.while_step hne hb hw,
    @Runs.runs_of_eq 100 _ _ (by decide) (by simp),
    @Runs.runs_of_eq 100 _ _ (by decide) (by simp),
    @Runs.runs_of_eq 100 _ _ (by decide) (by simp)⟩

/-- C17, at an instance: the block of `x = 1;` and `print(x);` from the empty
state does what the two statements do one after the other. -/
theorem C17_blocks_open_no_scope_witness :
    Interpreter.Visits
      (BlockNode [AssignNode "x" (NumberNode 1 1) 1, PrintNode (VariableNode "x" 1) 1] 1)
      ⟨[], []⟩ (.value 0 ⟨[("x", 1)], [1]⟩) :=
  C17_blocks_open_no_scope.1
    [AssignNode "x" (NumberNode 1 1) 1, PrintNode (VariableNode "x" 1) 1] 1 ⟨[], []⟩
    (.value 0 ⟨[("x", 1)], [1]⟩)
    (@Interpreter.Sequence.step _ _ _ ⟨[("x", 1)], []⟩ 1 _
      (@Interpreter.Visits.visits_of_eq 3 _ _ _ (by decide) (by simp))
      (@Interpreter.Sequence.step _ _ _ ⟨[("x", 1)], [1]⟩ 1 _
        (@Interpreter.Visits.visits_of_eq 3 _ _ _ (by decide) (by simp))
        (.nil _)))

/-- C18: comparison and logical results are 0 or 1.  For all operand values `l`
and `r`, the binary operations `==`, `!=`, `<`, `<=`, `>`, `>=` on operands with
these values yield 1 if the relation holds between `l` and `r` and 0 otherwise, and
`!` yields 1 if `r` is 0 and 0 otherwise, whatever `l` is. -/
theorem C18_comparison_results :
    ∀ (left right : ASTNode) (line : Nat) (s s1 s2 : Interpreter) (l r : Int),
      Interpreter.Visits left s (.value l s1) → Interpreter.Visits right s1 (.value r s2) →
      Interpreter.Visits (BinOpNode left "==" right line) s
        (.value (if l = r then 1 else 0) s2) ∧
      Interpreter.Visits (BinOpNode left "!=" right line) s
        (.value (if l ≠ r then 1 else 0) s2) ∧
      Interpreter.Visits (BinOpNode left "<" right line) s
        (.value (if l < r then 1 else 0) s2) ∧
      Interpreter.Visits (BinOpNode left "<=" right line) s
        (.value (if l ≤ r then 1 else 0) s2) ∧
      Interpreter.Visits (BinOpNode left ">" right line) s
        (.value (if l > r then 1 else 0) s2) ∧
      Interpreter.Visits (BinOpNode left ">=" right line) s
        (.value (if l ≥ r then 1 else 0) s2) ∧
      Interpreter.Visits (BinOpNode left "!" right line) s
        (.value (if r = 0 then 1 else 0) s2) := by
  intro left right line s s1 s2 l r hl hr
  have h : ∀ op, Interpreter.Visits (BinOpNode left op right line) s
      (Interpreter.applyOperator l op r line s2) := fun op => hl.binOp hr
  have e1 := h "=="
  have e2 := h "!="
  have e3 := h "<"
  have e4 := h "<="
  have e5 := h ">"
  have e6 := h ">="
  have e7 := h "!"
  simp only [Interpreter.applyOperator, boolToInt, decide_eq_true_eq] at e1 e2 e3 e4 e5 e6 e7
  exact ⟨e1, e2, e3, e4, e5, e6, e7⟩

/-- C18, at an instance: `3 < 5` yields 1 and `!` applied to 3 and 0 yields 1. -/
theorem C18_comparison_results_witness :
    Interpreter.Visits (BinOpNode (NumberNode 3 1) "<" (NumberNode 5 1) 1) ⟨[], []⟩
      (.value (if (3 : Int) < 5 then 1 else 0) ⟨[], []⟩) ∧
    Interpreter.Visits (BinOpNode (NumberNode 3 1) "!" (NumberNode 0 1) 1) ⟨[], []⟩
      (.value (if (0 : Int) = 0 then 1 else 0) ⟨[], []⟩) :=
  ⟨(C18_comparison_results (NumberNode 3 1) (NumberNode 5 1) 1 ⟨[], []⟩ ⟨[], []⟩ ⟨[], []⟩ 3 5
    (@Interpreter.Visits.visits_of_eq 1 _ _ _ rfl (by simp))
    (@Interpreter.Visits.visits_of_eq 1 _ _ _ rfl (by simp))).2.2.1,
   (C18_comparison_results (NumberNode 3 1) (NumberNode 0 1) 1 ⟨[], []⟩ ⟨[], []⟩ ⟨[], []⟩ 3 0
    (@Interpreter.Visits.visits_of_eq 1 _ _ _ rfl (by simp))
    (@Interpreter.Visits.visits_of_eq 1 _ _ _ rfl (by simp))).2.2.2.2.2.2⟩

/-- C19: two-character operators are lexed greedily with one character of peek.
Wherever the main loop of the lexer stands (any unread rest `cs`, any line, any
queue), `=` immediately followed by `=` enqueues one operator token `==`, `!`
followed by `=` one operator token `!=`, `<` or `>` followed by `=` one operator
token `<=` or `>=`, and the loop goes on after the two characters; when the next
character is not `=` (or there is none), `=` enqueues one assign token and `!`,
`<`, `>` the one-character operator token, and the loop goes on at the next
character, which is not consumed.  So `a<=b` lexes to identifier `a`, operator
`<=`, identifier `b`, end-of-input, and `= =` to two assign tokens and
end-of-input. -/
theorem C19_two_character_operators :
    (∀ (cs : List Char) (line : Nat) (acc : List Token),
      lexFrom ('=' :: '=' :: cs) line acc =
        lexFrom cs line (acc ++ [⟨T_OPERATOR, "==", line⟩]) ∧
      lexFrom ('!' :: '=' :: cs) line acc =
        lexFrom cs line (acc ++ [⟨T_OPERATOR, "!=", line⟩]) ∧
      lexFrom ('<' :: '=' :: cs) line acc =
        lexFrom cs line (acc ++ [⟨T_OPERATOR, "<=", line⟩]) ∧
      lexFrom ('>' :: '=' :: cs) line acc =
        lexFrom cs line (acc ++ [⟨T_OPERATOR, ">=", line⟩])) ∧
    (∀ (cs : List Char) (line : Nat) (acc : List Token), cs.head? ≠ some '=' →
      lexFrom ('=' :: cs) line acc = lexFrom cs line (acc ++ [⟨T_ASSIGN, "=", line⟩]) ∧
      lexFrom ('!' :: cs) line acc = lexFrom cs line (acc ++ [⟨T_OPERATOR, "!", line⟩]) ∧
      lexFrom ('<' :: cs) line acc = lexFrom cs line (acc ++ [⟨T_OPERATOR, "<", line⟩]) ∧
      lexFrom ('>' :: cs) line acc = lexFrom cs line (acc ++ [⟨T_OPERATOR, ">", line⟩])) ∧
    generateTokens "a<=b".toList =
      .ok [⟨T_IDENTIFIER, "a", 1⟩, ⟨T_OPERATOR, "<=", 1⟩, ⟨T_IDENTIFIER, "b", 1⟩,
        ⟨T_EOF, "", 1⟩] ∧
    generateTokens "= =".toList =
      .ok [⟨T_ASSIGN, "=", 1⟩, ⟨T_ASSIGN, "=", 1⟩, ⟨T_EOF, "", 1⟩] :=
  ⟨fun cs line acc =>
    ⟨lexFrom_two (show compoundToken '=' = some ((T_OPERATOR, "=="), (T_ASSIGN, "=")) from rfl)
        cs line acc,
      lexFrom_two
        (show compoundToken '!' = some ((T_OPERATOR, "!="), (T_OPERATOR, "!")) from rfl)
        cs line acc,
      lexFrom_two
        (show compoundToken '<' = some ((T_OPERATOR, "<="), (T_OPERATOR, "<")) from rfl)
        cs line acc,
      lexFrom_two
        (show compoundToken '>' = some ((T_OPERATOR, ">="), (T_OPERATOR, ">")) from rfl)
        cs line acc⟩,
    fun cs line acc hne =>
    ⟨lexFrom_one (show compoundToken '=' = some ((T_OPERATOR, "=="), (T_ASSIGN, "=")) from rfl)
        hne line acc,
      lexFrom_one
        (show compoundToken '!' = some ((T_OPERATOR, "!="), (T_OPERATOR, "!")) from rfl)
        hne line acc,
      lexFrom_one
        (show compoundToken '<' = some ((T_OPERATOR, "<="), (T_OPERATOR, "<")) from rfl)
        hne line acc,
      lexFrom_one
        (show compoundToken '>' = some ((T_OPERATOR, ">="), (T_OPERATOR, ">")) from rfl)
        hne line acc⟩,
    by decide, by decide⟩

/-- C19, at an instance: `<` followed by a blank and `=`; the blank is not
consumed with the `<`, which makes the one-character operator. -/
theorem C19_two_character_operators_witness :
    lexFrom ['<', ' ', '='] 1 [] = lexFrom [' ', '='] 1 ([] ++ [⟨T_OPERATOR, "<", 1⟩]) :=
  (C19_two_character_operators.2.1 [' ', '='] 1 [] (by decide)).2.2.1

/-- C20: for every source on which the lexer succeeds, the token queue is not
empty, its last token is an end-of-input token with empty text, no token before
the last has kind end-of-input, and no token has kind unknown. -/
theorem C20_token_sequence_shape :
    ∀ (source : List Char) (tokens : List Token), generateTokens source = .ok tokens →
      tokens ≠ [] ∧
      ∃ body line, tokens = body ++ [⟨T_EOF, "", line⟩] ∧
        tokens.getLast? = some ⟨T_EOF, "", line⟩ ∧
        (∀ t ∈ body, t.type ≠ T_EOF) ∧ ∀ t ∈ tokens, t.type ≠ T_UNKNOWN := by
  intro source tokens h
  obtain ⟨body, line, rfl, hbody⟩ := generateTokens_lexed h
  refine ⟨by simp, body, line, rfl, by simp, fun t ht => (hbody t ht).1, fun t ht => ?_⟩
  rw [List.mem_append, List.mem_singleton] at ht
  rcases ht with ht | rfl
  · exact (hbody t ht).2.1
  · exact fun h => TokenType.noConfusion h

/-- C20, at an instance: the queue of `x = 10;`. -/
theorem C20_token_sequence_shape_witness :
    [⟨T_IDENTIFIER, "x", 1⟩, ⟨T_ASSIGN, "=", 1⟩, ⟨T_NUMBER, "10", 1⟩, ⟨T_SEMICOLON, ";", 1⟩,
        (⟨T_EOF, "", 1⟩ : Token)] ≠ [] ∧
      ∃ body line,
        ([⟨T_IDENTIFIER, "x", 1⟩, ⟨T_ASSIGN, "=", 1⟩, ⟨T_NUMBER, "10", 1⟩,
          ⟨T_SEMICOLON, ";", 1⟩, ⟨T_EOF, "", 1⟩] : List Token) =
          body ++ [⟨T_EOF, "", line⟩] ∧
        ([⟨T_IDENTIFIER, "x", 1⟩, ⟨T_ASSIGN, "=", 1⟩, ⟨T_NUMBER, "10", 1⟩,
          ⟨T_SEMICOLON, ";", 1⟩, ⟨T_EOF, "", 1⟩] : List Token).getLast? =
          some ⟨T_EOF, "", line⟩ ∧
        (∀ t ∈ body, t.type ≠ T_EOF) ∧
        ∀ t ∈ ([⟨T_IDENTIFIER, "x", 1⟩, ⟨T_ASSIGN, "=", 1⟩, ⟨T_NUMBER, "10", 1⟩,
          ⟨T_SEMICOLON, ";", 1⟩, ⟨T_EOF, "", 1⟩] : List Token), t.type ≠ T_UNKNOWN :=
  C20_token_sequence_shape "x = 10;".toList _ (by decide)

/-- C21: lexer text round trip.  For every source that holds no NUL character
and on which the lexer succeeds, the texts of the tokens of the queue, one after
the other in their order (the end-of-input token has the empty text), are the
source with every white space character removed: no character of the source is
dropped, duplicated or altered.  Whether the source holds a NUL or not, the
texts are the part of the source before its first NUL without its white space. -/
theorem C21_text_round_trip :
    (∀ (source : List Char) (tokens : List Token), '\x00' ∉ source →
      generateTokens source = .ok tokens → concatTexts tokens = withoutSpace source) ∧
    (∀ (source : List Char) (tokens : List Token), generateTokens source = .ok tokens →
      concatTexts tokens = withoutSpace (scanned source)) := by
  have general : ∀ (source : List Char) (tokens : List Token),
      generateTokens source = .ok tokens →
      concatTexts tokens = withoutSpace (scanned source) := by
    intro source tokens h
    obtain ⟨new, hnew, hlay⟩ :=
      lexFrom_layout (source.length + 1) source (Nat.lt_succ_self _) [] 1 [] tokens rfl h
    rw [List.nil_append] at hnew
    subst hnew
    exact hlay.concatTexts_eq
  refine ⟨fun source tokens hno h => ?_, general⟩
  rw [general source tokens h, scanned_of_no_nul hno]

/-- C21, at an instance: the texts of the tokens of `x = 10 ;` with a newline in
it are `x=10;`. -/
theorem C21_text_round_trip_witness :
    concatTexts [⟨T_IDENTIFIER, "x", 1⟩, ⟨T_ASSIGN, "=", 1⟩, ⟨T_NUMBER, "10", 2⟩,
        ⟨T_SEMICOLON, ";", 2⟩, ⟨T_EOF, "", 2⟩] =
      withoutSpace "x =\n10 ;".toList :=
  C21_text_round_trip.1 "x =\n10 ;".toList _ (by decide) (by decide)

/-- C22: expressions are pure.  Every tree `parse` returns is a statement node,
and in a statement node the value of an assignment, the argument of a print and
the condition of an `if` or a `while` are expression nodes (numbers, variables and
binary operations of such), while the branches of an `if`, the body of a `while`
and the members of a block are statement nodes again: so this holds of every
assignment, print, `if` and `while` of the tree.  The visit of an expression
node, whether it yields a value or throws, leaves the state of the interpreter,
that is the variables and the output, as it was. -/
theorem C22_expressions_are_pure :
    (∀ (fuel : Nat) (tokens : List Token) (root : ASTNode) (s : Parser),
      parse fuel tokens = .ok root s → root.IsStatement) ∧
    (∀ (name : String) (value : ASTNode) (line : Nat),
      (AssignNode name value line).IsStatement → value.IsExpression) ∧
    (∀ (expression : ASTNode) (line : Nat),
      (PrintNode expression line).IsStatement → expression.IsExpression) ∧
    (∀ (condition trueBlock : ASTNode) (falseBlock : Option ASTNode) (line : Nat),
      (IfNode condition trueBlock falseBlock line).IsStatement →
      condition.IsExpression ∧ trueBlock.IsStatement ∧
        ∀ node, falseBlock = some node → node.IsStatement) ∧
    (∀ (condition block : ASTNode) (line : Nat),
      (WhileNode condition block line).IsStatement →
      condition.IsExpression ∧ block.IsStatement) ∧
    (∀ (statements : List ASTNode) (line : Nat),
      (BlockNode statements line).IsStatement → ∀ stmt ∈ statements, stmt.IsStatement) ∧
    (∀ (node : ASTNode), node.IsExpression → ∀ (fuel : Nat) (s : Interpreter),
      (∀ v s1, Interpreter.visit fuel node s = .value v s1 → s1 = s) ∧
      (∀ e s1, Interpreter.visit fuel node s = .error e s1 → s1 = s)) := by
  refine ⟨fun _ _ _ _ h => parse_ok_isStatement h, ?_, ?_, ?_, ?_, ?_,
    fun node h => Interpreter.visit_expression h⟩
  · intro name value line h
    cases h with
    | ofAssign _ _ hv => exact hv
  · intro expression line h
    cases h with
    | ofPrint _ he => exact he
  · intro condition trueBlock falseBlock line h
    cases h with
    | ofIf _ hc ht => exact ⟨hc, ht, fun node hn => by cases hn⟩
    | ofIfElse _ hc ht hf => exact ⟨hc, ht, fun node hn => by cases hn; exact hf⟩
  · intro condition block line h
    cases h with
    | ofWhile _ hc hb => exact ⟨hc, hb⟩
  · intro statements line h
    cases h with
    | ofBlock _ hs => exact hs

/-- C22, at an instance: the tree of the queue of `print(x + 1);`. -/
theorem C22_expressions_are_pure_witness :
    (BlockNode [PrintNode (BinOpNode (VariableNode "x" 1) "+" (NumberNode 1 1) 1) 1]
      1).IsStatement :=
  C22_expressions_are_pure.1 20
    [⟨T_PRINT, "print", 1⟩, ⟨T_LPAREN, "(", 1⟩, ⟨T_IDENTIFIER, "x", 1⟩, ⟨T_OPERATOR, "+", 1⟩,
      ⟨T_NUMBER, "1", 1⟩, ⟨T_RPAREN, ")", 1⟩, ⟨T_SEMICOLON, ";", 1⟩, ⟨T_EOF, "", 1⟩]
    _ ⟨[], ⟨T_EOF, "", 1⟩⟩ rfl

/-- C23: parser termination.  For every token queue whose last token is an
end-of-input token, `parse` terminates: it does not run out of fuel once the fuel
exceeds 14 units for each token, and it returns a tree whose root is a block or
raises an exception.  Every call of `statement` on a queue that ends with an
end-of-input token returns with fewer tokens left than it started with, or does
not return a tree; an iteration of the loops of `program` and `block` is one
such call; and in an iteration of the loop of a binary-operator level, after the
operator and the right operand fewer tokens are left than before it. -/
theorem C23_parser_terminates :
    (∀ (body : List Token) (eof : Token), eof.type = T_EOF →
      (∀ fuel, 14 * (body.length + 1) < fuel → parse fuel (body ++ [eof]) ≠ .timeout) ∧
      ((∃ stmts line s, Parses (body ++ [eof]) (.ok (BlockNode stmts line) s)) ∨
        ∃ e, Parses (body ++ [eof]) (.error e))) ∧
    (∀ (fuel : Nat) (s s' : Parser) (node : ASTNode), s.WellFormed →
      Parser.statement fuel s = .ok node s' → s'.stream.length < s.stream.length) ∧
    (∀ (k fuel : Nat) (s s1 : Parser) (right : ASTNode), 1 ≤ k → k ≤ 4 → s.WellFormed →
      s.currentToken.isOperatorOfLevel k →
      Parser.atLevel (k + 1) fuel s.advance = .ok right s1 →
      s1.stream.length < s.stream.length) := by
  refine ⟨fun body eof heof => ⟨fun fuel hf => parse_ne_timeout heof hf, ?_⟩,
    fun fuel s s' node hw h => ?_,
    fun k fuel s s1 right hk1 hk4 hw hop h => Parser.iteration_consumes hk1 hk4 hw hop h⟩
  · have hne := @parse_ne_timeout body eof heof (14 * (body.length + 1) + 1) (by omega)
    cases hp : parse (14 * (body.length + 1) + 1) (body ++ [eof]) with
    | timeout => exact absurd hp hne
    | error e => exact Or.inr ⟨e, Parses.parses_of_eq hp (by simp)⟩
    | ok root s =>
      obtain ⟨stmts, line, rfl⟩ := parse_ok_block hp
      exact Or.inl ⟨stmts, line, s, Parses.parses_of_eq hp (by simp)⟩
  · have := ((Parser.advances_of_ok fuel).1 s node s' h).2 hw
    rw [Parser.stream_length, Parser.stream_length]
    omega

/-- C23, at an instance: the queue of `x = 1;`, four tokens and end-of-input, is
parsed with 71 units of fuel. -/
theorem C23_parser_terminates_witness :
    parse 71 ([⟨T_IDENTIFIER, "x", 1⟩, ⟨T_ASSIGN, "=", 1⟩, ⟨T_NUMBER, "1", 1⟩,
      ⟨T_SEMICOLON, ";", 1⟩] ++ [⟨T_EOF, "", 1⟩]) ≠ .timeout :=
  (C23_parser_terminates.1 [⟨T_IDENTIFIER, "x", 1⟩, ⟨T_ASSIGN, "=", 1⟩, ⟨T_NUMBER, "1", 1⟩,
    ⟨T_SEMICOLON, ";", 1⟩] ⟨T_EOF, "", 1⟩ rfl).1 71 (by decide)

/-- C24, as stated for all statements, fails when the first statement is itself
an `if` without `else`: `if (3) x = 1;` is a statement, the if statement of `3`
and `x = 1` without an `else` branch, yet in
`if (1) if (2) if (3) x = 1; else x = 2;` the `else` goes to the `if` of `3`, the
nearest one, and not to the `if` of `2`. -/
theorem C24_open_if_counterexample :
    ParsesTo "if (3) x = 1;"
      (BlockNode [IfNode (NumberNode 3 1) (AssignNode "x" (NumberNode 1 1) 1) none 1] 1) ∧
    ParsesTo "if (1) if (2) if (3) x = 1; else x = 2;"
      (BlockNode [IfNode (NumberNode 1 1)
        (IfNode (NumberNode 2 1)
          (IfNode (NumberNode 3 1) (AssignNode "x" (NumberNode 1 1) 1)
            (some (AssignNode "x" (NumberNode 2 1) 1)) 1)
          none 1)
        none 1] 1) ∧
    ¬ ParsesTo "if (1) if (2) if (3) x = 1; else x = 2;"
      (BlockNode [IfNode (NumberNode 1 1)
        (IfNode (NumberNode 2 1)
          (IfNode (NumberNode 3 1) (AssignNode "x" (NumberNode 1 1) 1) none 1)
          (some (AssignNode "x" (NumberNode 2 1) 1)) 1)
        none 1] 1) := by
  have h : ParsesTo "if (1) if (2) if (3) x = 1; else x = 2;"
      (BlockNode [IfNode (NumberNode 1 1)
        (IfNode (NumberNode 2 1)
          (IfNode (NumberNode 3 1) (AssignNode "x" (NumberNode 1 1) 1)
            (some (AssignNode "x" (NumberNode 2 1) 1)) 1)
          none 1)
        none 1] 1) :=
    ⟨_, _, rfl, @Parses.parses_of_eq 100 _ _ rfl (by simp)⟩
  refine ⟨⟨_, _, rfl, @Parses.parses_of_eq 100 _ _ rfl (by simp)⟩, h, fun h' => ?_⟩
  have e := h.parsesTo_unique h'
  simp at e

/-- C24, amended: dangling else.  An `else` goes to the nearest `if` that has
none yet.  For all expressions `a`, `b` and statements `s1`, `s2` such that the
parser, reading a statement where `s1` starts, returns `s1` and stands at the
`else` (so `s1` does not end in an `if` without `else`), the statement
`if (a) if (b) s1 else s2` has the tree of `b`, `s1` and `s2` as the first branch
of the `if` of `a`: it is read as If(a, If(b, s1, s2), none) when no `else`
follows it, and never as a tree whose first branch is If(b, s1, none), in
particular never as If(a, If(b, s1, none), s2). -/
theorem C24_dangling_else :
    (∀ (s0 s1 s2 s3 s4 : Parser) (a b n1 n2 : ASTNode),
      s0.currentToken.type = T_IF → s0.advance.currentToken.type = T_LPAREN →
      Parser.Runs Parser.expression s0.advance.advance (.ok a s1) →
      s1.currentToken.type = T_RPAREN →
      s1.advance.currentToken.type = T_IF →
      s1.advance.advance.currentToken.type = T_LPAREN →
      Parser.Runs Parser.expression s1.advance.advance.advance (.ok b s2) →
      s2.currentToken.type = T_RPAREN →
      Parser.Runs Parser.statement s2.advance (.ok n1 s3) →
      s3.currentToken.type = T_ELSE →
      Parser.Runs Parser.statement s3.advance (.ok n2 s4) →
      (s4.currentToken.type ≠ T_ELSE →
        Parser.Runs Parser.statement s0
          (.ok (IfNode a (IfNode b n1 (some n2) s1.advance.currentToken.lineNumber) none
            s0.currentToken.lineNumber) s4)) ∧
      (∀ (node : ASTNode) (s' : Parser), Parser.Runs Parser.statement s0 (.ok node s') →
        ∃ falseBlock, node =
          IfNode a (IfNode b n1 (some n2) s1.advance.currentToken.lineNumber) falseBlock
            s0.currentToken.lineNumber) ∧
      (∀ (l1 l2 : Nat) (s' : Parser),
        ¬ Parser.Runs Parser.statement s0
          (.ok (IfNode a (IfNode b n1 none l2) (some n2) l1) s')) ∧
      ¬ n1.EndsInOpenIf) ∧
    ParsesTo "if (a) if (b) x = 1; else x = 2;"
      (BlockNode [IfNode (VariableNode "a" 1)
        (IfNode (VariableNode "b" 1) (AssignNode "x" (NumberNode 1 1) 1)
          (some (AssignNode "x" (NumberNode 2 1) 1)) 1)
        none 1] 1) := by
  refine ⟨fun s0 s1 s2 s3 s4 a b n1 n2 h0 h1 ha h2 h3 h4 hb h5 hn1 h6 hn2 => ?_,
    ⟨_, _, rfl, @Parses.parses_of_eq 100 _ _ rfl (by simp)⟩⟩
  have hinner : Parser.Runs Parser.statement s1.advance
      (.ok (IfNode b n1 (some n2) s1.advance.currentToken.lineNumber) s4) :=
    Parser.Runs.statement_if h3 (Parser.Runs.ifStatement_else h3 h4 hb h5 hn1 h6 hn2)
  have hshape : ∀ (node : ASTNode) (s' : Parser),
      Parser.Runs Parser.statement s0 (.ok node s') →
      ∃ falseBlock, node =
        IfNode a (IfNode b n1 (some n2) s1.advance.currentToken.lineNumber) falseBlock
          s0.currentToken.lineNumber :=
    fun node s' h =>
      Parser.Runs.ifStatement_shape h0 h1 ha h2 hinner
        (Parser.Runs.ifStatement_of_statement h0 h)
  refine ⟨fun hend => Parser.Runs.statement_if h0
      (Parser.Runs.ifStatement_only h0 h1 ha h2 hinner hend), hshape, fun l1 l2 s' h => ?_, ?_⟩
  · obtain ⟨fb, e⟩ := hshape _ _ h
    simp at e
  · obtain ⟨f, hf⟩ := hn1
    exact (Parser.statement_closed f).1 _ _ _ (hf f (le_refl f)) h6

/-- C24 (amended), at an instance: the tokens of `if (a) if (b) x = 1; else x = 2;`. -/
theorem C24_dangling_else_witness :
    Parser.Runs Parser.statement
      ⟨[⟨T_LPAREN, "(", 1⟩, ⟨T_IDENTIFIER, "a", 1⟩, ⟨T_RPAREN, ")", 1⟩, ⟨T_IF, "if", 2⟩,
        ⟨T_LPAREN, "(", 2⟩, ⟨T_IDENTIFIER, "b", 2⟩, ⟨T_RPAREN, ")", 2⟩,
        ⟨T_IDENTIFIER, "x", 2⟩, ⟨T_ASSIGN, "=", 2⟩, ⟨T_NUMBER, "1", 2⟩, ⟨T_SEMICOLON, ";", 2⟩,
        ⟨T_ELSE, "else", 3⟩, ⟨T_IDENTIFIER, "x", 3⟩, ⟨T_ASSIGN, "=", 3⟩, ⟨T_NUMBER, "2", 3⟩,
        ⟨T_SEMICOLON, ";", 3⟩, ⟨T_EOF, "", 3⟩], ⟨T_IF, "if", 1⟩⟩
      (.ok (IfNode (VariableNode "a" 1)
        (IfNode (VariableNode "b" 2) (AssignNode "x" (NumberNode 1 2) 2)
          (some (AssignNode "x" (NumberNode 2 3) 3)) 2)
        none 1) ⟨[], ⟨T_EOF, "", 3⟩⟩) :=
  (C24_dangling_else.1
    ⟨[⟨T_LPAREN, "(", 1⟩, ⟨T_IDENTIFIER, "a", 1⟩, ⟨T_RPAREN, ")", 1⟩, ⟨T_IF, "if", 2⟩,
      ⟨T_LPAREN, "(", 2⟩, ⟨T_IDENTIFIER, "b", 2⟩, ⟨T_RPAREN, ")", 2⟩,
      ⟨T_IDENTIFIER, "x", 2⟩, ⟨T_ASSIGN, "=", 2⟩, ⟨T_NUMBER, "1", 2⟩, ⟨T_SEMICOLON, ";", 2⟩,
      ⟨T_ELSE, "else", 3⟩, ⟨T_IDENTIFIER, "x", 3⟩, ⟨T_ASSIGN, "=", 3⟩, ⟨T_NUMBER, "2", 3⟩,
      ⟨T_SEMICOLON, ";", 3⟩, ⟨T_EOF, "", 3⟩], ⟨T_IF, "if", 1⟩⟩
    ⟨[⟨T_IF, "if", 2⟩,
      ⟨T_LPAREN, "(", 2⟩, ⟨T_IDENTIFIER, "b", 2⟩, ⟨T_RPAREN, ")", 2⟩,
      ⟨T_IDENTIFIER, "x", 2⟩, ⟨T_ASSIGN, "=", 2⟩, ⟨T_NUMBER, "1", 2⟩, ⟨T_SEMICOLON, ";", 2⟩,
      ⟨T_ELSE, "else", 3⟩, ⟨T_IDENTIFIER, "x", 3⟩, ⟨T_ASSIGN, "=", 3⟩, ⟨T_NUMBER, "2", 3⟩,
      ⟨T_SEMICOLON, ";", 3⟩, ⟨T_EOF, "", 3⟩], ⟨T_RPAREN, ")", 1⟩⟩
    ⟨[⟨T_IDENTIFIER, "x", 2⟩, ⟨T_ASSIGN, "=", 2⟩, ⟨T_NUMBER, "1", 2⟩, ⟨T_SEMICOLON, ";", 2⟩,
      ⟨T_ELSE, "else", 3⟩, ⟨T_IDENTIFIER, "x", 3⟩, ⟨T_ASSIGN, "=", 3⟩, ⟨T_NUMBER, "2", 3⟩,
      ⟨T_SEMICOLON, ";", 3⟩, ⟨T_EOF, "", 3⟩], ⟨T_RPAREN, ")", 2⟩⟩
    ⟨[⟨T_IDENTIFIER, "x", 3⟩, ⟨T_ASSIGN, "=", 3⟩, ⟨T_NUMBER, "2", 3⟩,
      ⟨T_SEMICOLON, ";", 3⟩, ⟨T_EOF, "", 3⟩], ⟨T_ELSE, "else", 3⟩⟩
    ⟨[], ⟨T_EOF, "", 3⟩⟩
    (VariableNode "a" 1) (VariableNode "b" 2) (AssignNode "x" (NumberNode 1 2) 2)
    (AssignNode "x" (NumberNode 2 3) 3)
    rfl rfl (@Parser.FuelMono.runs _ _ Parser.expression_fuelMono 20 _ _ rfl (by simp)) rfl
    rfl rfl (@Parser.FuelMono.runs _ _ Parser.expression_fuelMono 20 _ _ rfl (by simp)) rfl
    (@Parser.FuelMono.runs _ _ Parser.statement_fuelMono 20 _ _ rfl (by simp)) rfl
    (@Parser.FuelMono.runs _ _ Parser.statement_fuelMono 20 _ _ rfl (by simp))).1
    (by decide)

/-- C25: the parser never reads past end-of-input.  `Checked.parse` is the parser
with every call of `advance` after the constructor checked: a call while the
lookahead is the end-of-input token, or while the queue is empty, is a
violation.  For every queue the lexer returns, and for every queue that ends with
an end-of-input token, the checked parser runs without a violation and ends as
the parser does, with any fuel.  When `parse` returns a tree for a queue of the
lexer, the lookahead is the end-of-input token, the last token of the queue, and
the queue is empty: the tokens before it have been consumed one by one in their
order.  The check is not idle: on the queue of the single token `{`, which has no
end-of-input token, the first `advance` is a violation. -/
theorem C25_never_past_end :
    (∀ (source : List Char) (tokens : List Token), generateTokens source = .ok tokens →
      (∀ fuel, Checked.parse fuel tokens = .done (parse fuel tokens)) ∧
      (∀ (fuel : Nat) (root : ASTNode) (s : Parser), parse fuel tokens = .ok root s →
        s.currentToken.type = T_EOF ∧ s.tokens = [] ∧
        ∃ body, tokens = body ++ [s.currentToken] ∧
          (Parser.new tokens).stream = body ++ s.stream ∧ ∀ t ∈ body, t.type ≠ T_EOF)) ∧
    (∀ (body : List Token) (eof : Token), eof.type = T_EOF → ∀ fuel,
      Checked.parse fuel (body ++ [eof]) = .done (parse fuel (body ++ [eof]))) ∧
    Checked.parse 10 [⟨T_LBRACE, "\x7b", 1⟩] = .violation := by
  refine ⟨fun source tokens h => ?_, fun body eof heof fuel => Checked.parse_agrees heof fuel,
    rfl⟩
  obtain ⟨body, line, rfl, hbody⟩ := generateTokens_lexed h
  refine ⟨fun fuel => Checked.parse_agrees rfl fuel, fun fuel root s hp => ?_⟩
  have hne : ∀ x ∈ body, x.type ≠ T_EOF := fun x hx => (hbody x hx).1
  obtain ⟨hcur, htok, hE, c, rfl, hstream⟩ := parse_ok_final hne hp
  exact ⟨hE, htok, c, by rw [hcur], hstream, hne⟩

/-- C25, at an instance: on the queue of `x = 1;` the checked parser ends as the
parser does. -/
theorem C25_never_past_end_witness :
    Checked.parse 20 [⟨T_IDENTIFIER, "x", 1⟩, ⟨T_ASSIGN, "=", 1⟩, ⟨T_NUMBER, "1", 1⟩,
        ⟨T_SEMICOLON, ";", 1⟩, ⟨T_EOF, "", 1⟩] =
      .done (parse 20 [⟨T_IDENTIFIER, "x", 1⟩, ⟨T_ASSIGN, "=", 1⟩, ⟨T_NUMBER, "1", 1⟩,
        ⟨T_SEMICOLON, ";", 1⟩, ⟨T_EOF, "", 1⟩]) :=
  (C25_never_past_end.1 "x = 1;".toList _ (by decide)).1 20

end MiniCompiler
